import Mathlib

/-!
# radio-box: DNS router core (dns/router.go), outbound groups, EDNS0 client subnet, JSONC

A shallow embedding of the result-collection loops of the exchange and lookup
racers, of the rule matcher `matchDNS`, of the rule-driven loops of
`Router.Exchange` and `Router.Lookup`, and of the start gate of the hedged
racer's fallback tasks; of the load-balance group, the fallback group and the
health checker (protocol/group); of `SetClientSubnet` and
`ExtractClientSubnet` (dns/extension_edns0_subnet.go); and of the two wrappers
of common/jsonc/jsonc.go, with the parser and the standardizer as parameters.

Conventions.
* A Go `error` is `Option DNSError` (`none` is `nil`); a `*mDNS.Msg` is `Option Msg`.
* A `select` over `ctx.Done()` and the results channel is driven by an explicit
  list of `Event`s: the outcomes of the successive `select` statements, in the
  order in which the loop observes them. When the list runs dry the loop is
  blocked in `select` and the model returns `none`.
* `E.Errors` of the exceptions library is not part of the repository; every
  function that calls it takes it as the parameter `Errors`.
-/

namespace RadioBox

/-! ## Data model -/

/-- Response code `mDNS.RcodeSuccess` (NoError). -/
def RcodeSuccess : Nat := 0

/-- Response code `mDNS.RcodeFormatError`. -/
def RcodeFormatError : Nat := 1

/-- Response code `mDNS.RcodeRefused`. -/
def RcodeRefused : Nat := 5

/-- Query type `mDNS.TypeA`. -/
def TypeA : Nat := 1

/-- Query type `mDNS.TypeAAAA`. -/
def TypeAAAA : Nat := 28

/-- Query type `mDNS.TypeHTTPS`. -/
def TypeHTTPS : Nat := 65

/-- An address (`netip.Addr`), kept symbolic. -/
abbrev Addr := String

/-- A client subnet (`netip.Prefix`), kept symbolic; an invalid (zero) value is `none`. -/
abbrev Subnet := String

/-- The domain strategies (`C.DomainStrategy`); `asIS` is the zero value. -/
inductive DomainStrategy where
  | asIS
  | preferIPv4
  | preferIPv6
  | ipv4Only
  | ipv6Only
deriving DecidableEq, Repr

/-- One entry of the question section. -/
structure Question where
  name : String
  qtype : Nat
deriving DecidableEq, Repr

/-- A resource record of the answer section, as far as the router inspects it. -/
inductive RR where
  | A (name : String) (ttl : Nat) (addr : Addr)
  | AAAA (name : String) (ttl : Nat) (addr : Addr)
  | other (name : String) (rrtype : Nat)
deriving DecidableEq, Repr

/-- The fields of `mDNS.Msg` the router reads or writes. -/
structure Msg where
  id : Nat
  response : Bool
  rcode : Nat
  question : List Question
  answer : List RR
deriving DecidableEq, Repr

/-- A DNS transport: its tag, whether `Type() == C.DNSTypeFakeIP`, and the
legacy defaults when it is an `adapter.LegacyDNSTransport`. -/
structure DNSTransport where
  tag : String
  isFakeIP : Bool
  legacy : Option (DomainStrategy × Option Subnet)
deriving DecidableEq, Repr

/-- The two package-level rejection errors. -/
inductive Sentinel where
  | ErrResponseRejected
  | ErrResponseRejectedCached
deriving DecidableEq, Repr

/-- The value of `ctx.Err()` once a context is done. -/
inductive ContextErr where
  | Canceled
  | DeadlineExceeded
deriving DecidableEq, Repr

/-- The methods of a reject action. -/
inductive RejectMethod where
  | default
  | drop
deriving DecidableEq, Repr

/-- Go error values as the router produces and inspects them. -/
inductive DNSError where
  | sentinel (s : Sentinel)
  | context (e : ContextErr)
  | ErrDrop
  | RcodeError (rcode : Nat)
  | RejectedError (method : RejectMethod)
  | new (message : String)
  | cause (inner : DNSError) (message : String)
  | multi (members : List DNSError)
deriving Repr

mutual
/-- The test `errors.Is(err, target)` for a rejection sentinel `target`: identity,
or a match anywhere below a wrapping error. Whether the cached sentinel itself
wraps the plain one is not visible in the router; every caller tests the cached
sentinel first, so the answer never changes control flow. -/
def errorsIs : DNSError → Sentinel → Bool
  | .sentinel s, target => s == target
  | .cause inner _, target => errorsIs inner target
  | .multi members, target => errorsIsAny members target
  | _, _ => false
/-- The test `errors.Is` over the members of a multi-error. -/
def errorsIsAny : List DNSError → Sentinel → Bool
  | [], _ => false
  | e :: es, target => errorsIs e target || errorsIsAny es target
end

/-- One outcome of the collection loop's `select`. -/
inductive Event (ρ : Type) where
  | ctxDone (err : ContextErr)
  | result (r : ρ)
deriving Repr

/-- Apply a function to the payload of a result event. -/
def Event.map {ρ σ : Type} (f : ρ → σ) : Event ρ → Event σ
  | .ctxDone e => .ctxDone e
  | .result r => .result (f r)

/-! ## Exchange racer -/

/-- The `queryResult` of the exchange racers. -/
structure QueryResult where
  response : Option Msg
  err : Option DNSError
  transport : DNSTransport
deriving Repr

/-- The triple `(*mDNS.Msg, adapter.DNSTransport, error)` returned by the exchange racers. -/
structure ExchangeReturn where
  response : Option Msg
  transport : Option DNSTransport
  err : Option DNSError
deriving Repr

/-- The local variables of the exchange collection loop. -/
structure ExchangeRaceState where
  fallbackResponse : Option Msg
  fallbackTransport : Option DNSTransport
  hasFallback : Bool
  errorsList : List DNSError
  allRejected : Bool
  allRejectedOnly : Bool
deriving Repr

/-- The initial values of the loop variables. -/
def ExchangeRaceState.init : ExchangeRaceState :=
  { fallbackResponse := none, fallbackTransport := none, hasFallback := false,
    errorsList := [], allRejected := true, allRejectedOnly := true }

/-- The code after the collection loop (router.go 956-965 and 735-744). -/
def exchangeFinish (Errors : List DNSError → Option DNSError) (st : ExchangeRaceState) :
    ExchangeReturn :=
  if st.hasFallback then
    { response := st.fallbackResponse, transport := st.fallbackTransport, err := none }
  else if st.allRejectedOnly then
    { response := none, transport := none, err := some (.sentinel .ErrResponseRejectedCached) }
  else if st.allRejected then
    { response := none, transport := none, err := some (.sentinel .ErrResponseRejected) }
  else
    { response := none, transport := none, err := Errors st.errorsList }

/-- The collection loop `for i := 0; i < total; i++ { select ... }` shared, line
for line, by `exchangeRacer` (922-955) and `exchangeHedgedRacer` (701-734). The
first argument is the number of iterations still to run. -/
def exchangeCollect (Errors : List DNSError → Option DNSError) :
    Nat → List (Event QueryResult) → ExchangeRaceState → Option ExchangeReturn
  | 0, _, st => some (exchangeFinish Errors st)
  | _ + 1, [], _ => none
  | _ + 1, .ctxDone e :: _, st =>
    if st.hasFallback then
      some { response := st.fallbackResponse, transport := st.fallbackTransport, err := none }
    else
      some { response := none, transport := none, err := some (.context e) }
  | n + 1, .result r :: rest, st =>
    match r.err with
    | none =>
      match r.response with
      | some response =>
        let st1 :=
          if !st.hasFallback then
            { st with fallbackResponse := some response, fallbackTransport := some r.transport,
                      hasFallback := true }
          else st
        if response.rcode == RcodeSuccess then
          some { response := some response, transport := some r.transport, err := none }
        else
          exchangeCollect Errors n rest st1
      | none => exchangeCollect Errors n rest st
    | some e =>
      let st1 := { st with errorsList := st.errorsList ++ [e] }
      let st2 :=
        if errorsIs e .ErrResponseRejectedCached then st1
        else if errorsIs e .ErrResponseRejected then { st1 with allRejectedOnly := false }
        else { st1 with allRejected := false, allRejectedOnly := false }
      exchangeCollect Errors n rest st2

/-- The function `Router.exchangeRacer`: one task per transport, then the collection
loop over `len(transports)` results. -/
def exchangeRacer (Errors : List DNSError → Option DNSError) (transports : List DNSTransport)
    (events : List (Event QueryResult)) : Option ExchangeReturn :=
  exchangeCollect Errors transports.length events ExchangeRaceState.init

/-- The function `Router.exchangeHedgedRacer`: the plain racer when there is no
upstream timeout or no fallback transport, otherwise the collection loop over
`len(primaryTransports) + len(fallbackTransports)` results. -/
def exchangeHedgedRacer (Errors : List DNSError → Option DNSError)
    (primaryTransports fallbackTransports : List DNSTransport) (upstreamTimeout : Int)
    (events : List (Event QueryResult)) : Option ExchangeReturn :=
  if upstreamTimeout ≤ 0 ∨ fallbackTransports.length = 0 then
    exchangeRacer Errors primaryTransports events
  else
    exchangeCollect Errors (primaryTransports.length + fallbackTransports.length) events
      ExchangeRaceState.init

/-! ## Lookup racer -/

/-- The `queryResult` of the lookup racers. -/
structure LookupResult where
  addrs : List Addr
  err : Option DNSError
deriving Repr

/-- What a lookup task sends on the results channel for the pair returned by
`r.client.Lookup`: a success without addresses becomes an "empty result" error
(router.go 794-796, 836-838, 996-998). -/
def lookupTaskResult (raw : LookupResult) : LookupResult :=
  if raw.err.isNone && raw.addrs.length == 0 then
    { addrs := raw.addrs, err := some (.new "empty result") }
  else raw

/-- The local variables of the lookup collection loop. -/
structure LookupRaceState where
  fallbackAddrs : List Addr
  fallbackErr : Option DNSError
  hasFallback : Bool
  errorsList : List DNSError
deriving Repr

/-- The initial values of the loop variables. -/
def LookupRaceState.init : LookupRaceState :=
  { fallbackAddrs := [], fallbackErr := none, hasFallback := false, errorsList := [] }

/-- The collection loop shared by `lookupRacer` (1011-1034) and
`lookupHedgedRacer` (852-875), together with the code after it. -/
def lookupCollect (Errors : List DNSError → Option DNSError) :
    Nat → List (Event LookupResult) → LookupRaceState → Option (List Addr × Option DNSError)
  | 0, _, st =>
    if st.hasFallback then some (st.fallbackAddrs, st.fallbackErr)
    else some ([], Errors st.errorsList)
  | _ + 1, [], _ => none
  | _ + 1, .ctxDone e :: _, st =>
    if st.hasFallback then some (st.fallbackAddrs, st.fallbackErr)
    else some ([], some (.context e))
  | n + 1, .result r :: rest, st =>
    let st1 :=
      if !st.hasFallback then
        { st with fallbackAddrs := r.addrs, fallbackErr := r.err, hasFallback := true }
      else st
    match r.err with
    | none => some (r.addrs, none)
    | some e => lookupCollect Errors n rest { st1 with errorsList := st1.errorsList ++ [e] }

/-- The function `Router.lookupRacer`. The events carry what `r.client.Lookup`
returned in each task; the task's own coercion is applied before collection. -/
def lookupRacer (Errors : List DNSError → Option DNSError) (transports : List DNSTransport)
    (events : List (Event LookupResult)) : Option (List Addr × Option DNSError) :=
  lookupCollect Errors transports.length (events.map (Event.map lookupTaskResult))
    LookupRaceState.init

/-- The function `Router.lookupHedgedRacer`. -/
def lookupHedgedRacer (Errors : List DNSError → Option DNSError)
    (primaryTransports fallbackTransports : List DNSTransport) (upstreamTimeout : Int)
    (events : List (Event LookupResult)) : Option (List Addr × Option DNSError) :=
  if upstreamTimeout ≤ 0 ∨ fallbackTransports.length = 0 then
    lookupRacer Errors primaryTransports events
  else
    lookupCollect Errors (primaryTransports.length + fallbackTransports.length)
      (events.map (Event.map lookupTaskResult)) LookupRaceState.init

/-! ## Rules and `matchDNS` -/

/-- The query options `adapter.DNSQueryOptions`. -/
structure DNSQueryOptions where
  transport : Option DNSTransport
  strategy : DomainStrategy
  disableCache : Bool
  rewriteTTL : Option Nat
  clientSubnet : Option Subnet
deriving DecidableEq, Repr

/-- The action `R.RuleActionDNSRoute`. -/
structure RuleActionDNSRoute where
  servers : List String
  fallbackServers : List String
  strategy : DomainStrategy
  disableCache : Bool
  rewriteTTL : Option Nat
  clientSubnet : Option Subnet
  upstreamTimeout : Int
  fallbackTimeout : Int
  fallbackGrace : Int
deriving DecidableEq, Repr

/-- The action `R.RuleActionDNSRouteOptions`. -/
structure RuleActionDNSRouteOptions where
  strategy : DomainStrategy
  disableCache : Bool
  rewriteTTL : Option Nat
  clientSubnet : Option Subnet
deriving DecidableEq, Repr

/-- The four kinds of DNS rule action. -/
inductive RuleAction where
  | route (action : RuleActionDNSRoute)
  | routeOptions (action : RuleActionDNSRouteOptions)
  | reject (method : RejectMethod)
  | predefined (rcode : Nat) (answer : List RR)
deriving DecidableEq, Repr

/-- A DNS rule as `matchDNS` sees it for the query being routed: the value of
`WithAddressLimit()`, the value of `Match(metadata)`, of `String()` and of `Action()`. -/
structure DNSRule where
  withAddressLimit : Bool
  matched : Bool
  description : String
  action : RuleAction
deriving DecidableEq, Repr

/-- The fields of `Router` that routing reads. `transport` is the lookup
`r.transport.Transport(tag)` and `defaultTransport` is `r.transport.Default()`;
`sharedCache` says that `r.client` is a `*Client` whose `independentCache` is false. -/
structure Router where
  rules : List DNSRule
  transport : String → Option DNSTransport
  defaultTransport : Option DNSTransport
  defaultDomainStrategy : DomainStrategy
  upstreamTimeout : Int
  fallbackTimeout : Int
  fallbackGrace : Int
  sharedCache : Bool

/-- The loop variables of a server-resolution loop of `matchDNS`. -/
structure ResolveState where
  serverSet : List String
  transports : List DNSTransport
  hasFakeIP : Bool
deriving Repr

/-- The loops `for _, serverTag := range action.Servers` (161-182) and
`range action.FallbackServers` (188-209) of `matchDNS`. -/
def resolveServers (r : Router) (allowFakeIP : Bool) :
    List String → ResolveState → ResolveState
  | [], st => st
  | serverTag :: rest, st =>
    if serverTag == "" then resolveServers r allowFakeIP rest st
    else if st.serverSet.contains serverTag then resolveServers r allowFakeIP rest st
    else
      let st1 := { st with serverSet := serverTag :: st.serverSet }
      match r.transport serverTag with
      | none => resolveServers r allowFakeIP rest st1
      | some transport =>
        if transport.isFakeIP then
          if !allowFakeIP then
            resolveServers r allowFakeIP rest { st1 with hasFakeIP := true }
          else
            resolveServers r allowFakeIP rest
              { st1 with hasFakeIP := true, transports := st1.transports ++ [transport] }
        else
          resolveServers r allowFakeIP rest
            { st1 with transports := st1.transports ++ [transport] }

/-- The legacy fill-in for one transport: an unset strategy and an invalid client
subnet are taken from a legacy transport. -/
def legacyFillOne (transport : DNSTransport) (options : DNSQueryOptions) : DNSQueryOptions :=
  match transport.legacy with
  | some (legacyStrategy, legacyClientSubnet) =>
    let options1 :=
      if options.strategy == DomainStrategy.asIS then
        { options with strategy := legacyStrategy }
      else options
    if options1.clientSubnet.isNone then
      { options1 with clientSubnet := legacyClientSubnet }
    else options1
  | none => options

/-- The block `if len(transports) == 1 { ... legacy ... }`. -/
def legacyFill (transports : List DNSTransport) (options : DNSQueryOptions) : DNSQueryOptions :=
  match transports with
  | [transport] => legacyFillOne transport options
  | _ => options

/-- The block `if options.Strategy == C.DomainStrategyAsIS { ... = r.defaultDomainStrategy }`. -/
def defaultStrategy (r : Router) (options : DNSQueryOptions) : DNSQueryOptions :=
  if options.strategy == DomainStrategy.asIS then
    { options with strategy := r.defaultDomainStrategy }
  else options

/-- What `matchDNS` returns, together with the value it leaves in `*options` and
the rule indices it wrote in its `match[...]` log lines. -/
structure MatchResult where
  transports : List DNSTransport
  fallbackTransports : List DNSTransport
  upstreamTimeout : Int
  fallbackTimeout : Int
  fallbackGrace : Int
  rule : Option DNSRule
  ruleIndex : Int
  options : DNSQueryOptions
  displayed : List Int
deriving Repr

/-- The option updates shared by the route and route-options actions (210-221, 249-260);
`forceDisable` is `hasFakeIP || action.DisableCache`, respectively `action.DisableCache`. -/
def mergeOptions (strategy : DomainStrategy) (forceDisable : Bool) (rewriteTTL : Option Nat)
    (clientSubnet : Option Subnet) (options : DNSQueryOptions) : DNSQueryOptions :=
  let o1 := if strategy != DomainStrategy.asIS then { options with strategy := strategy }
            else options
  let o2 := if forceDisable then { o1 with disableCache := true } else o1
  let o3 := if rewriteTTL.isSome then { o2 with rewriteTTL := rewriteTTL } else o2
  if clientSubnet.isSome then { o3 with clientSubnet := clientSubnet } else o3

/-- The rule loop of `matchDNS` (136-267) from the rule at `currentRuleIndex`, whose
remaining rules are the list argument, and the default-transport return after it. -/
def matchRules (r : Router) (allowFakeIP isAddressQuery : Bool) :
    List DNSRule → Nat → DNSQueryOptions → List Int → MatchResult
  | [], _, options, displayed =>
    match r.defaultTransport with
    | none =>
      { transports := [], fallbackTransports := [], upstreamTimeout := r.upstreamTimeout,
        fallbackTimeout := r.fallbackTimeout, fallbackGrace := r.fallbackGrace,
        rule := none, ruleIndex := -1, options := options, displayed := displayed }
    | some defaultTransport =>
      { transports := [defaultTransport], fallbackTransports := [],
        upstreamTimeout := r.upstreamTimeout, fallbackTimeout := r.fallbackTimeout,
        fallbackGrace := r.fallbackGrace, rule := none, ruleIndex := -1,
        options := options, displayed := displayed }
  | currentRule :: rest, currentRuleIndex, options, displayed =>
    if currentRule.withAddressLimit && !isAddressQuery then
      matchRules r allowFakeIP isAddressQuery rest (currentRuleIndex + 1) options displayed
    else if currentRule.matched then
      let displayRuleIndex : Int :=
        if (currentRuleIndex : Int) != -1 then
          (currentRuleIndex : Int) + ((currentRuleIndex : Int) + 1)
        else (currentRuleIndex : Int)
      let displayed1 := displayed ++ [displayRuleIndex]
      match currentRule.action with
      | .route action =>
        if action.servers.length == 0 then
          matchRules r allowFakeIP isAddressQuery rest (currentRuleIndex + 1) options displayed1
        else
          let primary := resolveServers r allowFakeIP action.servers
            { serverSet := [], transports := [], hasFakeIP := false }
          if primary.transports.length == 0 then
            matchRules r allowFakeIP isAddressQuery rest (currentRuleIndex + 1) options
              displayed1
          else
            let fallback := resolveServers r allowFakeIP action.fallbackServers
              { serverSet := [], transports := [], hasFakeIP := primary.hasFakeIP }
            let options1 := mergeOptions action.strategy
              (fallback.hasFakeIP || action.disableCache) action.rewriteTTL
              action.clientSubnet options
            let options2 := legacyFill primary.transports options1
            let upstreamTimeout :=
              if action.upstreamTimeout == 0 then r.upstreamTimeout else action.upstreamTimeout
            let fallbackTimeout0 :=
              if action.fallbackTimeout == 0 then r.fallbackTimeout else action.fallbackTimeout
            let fallbackTimeout :=
              if fallbackTimeout0 == 0 then upstreamTimeout else fallbackTimeout0
            let fallbackGrace :=
              if action.fallbackGrace == 0 then r.fallbackGrace else action.fallbackGrace
            { transports := primary.transports, fallbackTransports := fallback.transports,
              upstreamTimeout := upstreamTimeout, fallbackTimeout := fallbackTimeout,
              fallbackGrace := fallbackGrace, rule := some currentRule,
              ruleIndex := currentRuleIndex, options := options2, displayed := displayed1 }
      | .routeOptions action =>
        matchRules r allowFakeIP isAddressQuery rest (currentRuleIndex + 1)
          (mergeOptions action.strategy action.disableCache action.rewriteTTL
            action.clientSubnet options) displayed1
      | .reject _ =>
        { transports := [], fallbackTransports := [], upstreamTimeout := r.upstreamTimeout,
          fallbackTimeout := r.fallbackTimeout, fallbackGrace := r.fallbackGrace,
          rule := some currentRule, ruleIndex := currentRuleIndex, options := options,
          displayed := displayed1 }
      | .predefined _ _ =>
        { transports := [], fallbackTransports := [], upstreamTimeout := r.upstreamTimeout,
          fallbackTimeout := r.fallbackTimeout, fallbackGrace := r.fallbackGrace,
          rule := some currentRule, ruleIndex := currentRuleIndex, options := options,
          displayed := displayed1 }
    else
      matchRules r allowFakeIP isAddressQuery rest (currentRuleIndex + 1) options displayed

/-- The first rule index `matchDNS` looks at (132-135): 0 for `ruleIndex == -1`,
`ruleIndex + 1` otherwise. Callers pass -1 or an index returned earlier. -/
def firstRuleIndex (ruleIndex : Int) : Nat :=
  if ruleIndex != -1 then (ruleIndex + 1).toNat else 0

/-- The function `Router.matchDNS`. -/
def Router.matchDNS (r : Router) (allowFakeIP : Bool) (ruleIndex : Int) (isAddressQuery : Bool)
    (options : DNSQueryOptions) : MatchResult :=
  matchRules r allowFakeIP isAddressQuery (r.rules.drop (firstRuleIndex ruleIndex))
    (firstRuleIndex ruleIndex) options []

/-! ## `Router.Exchange` and `Router.Lookup` -/

/-- How a modelled call ends: it returns, it waits forever in a race whose
schedule ran dry, or the iteration bound of the model was reached. -/
inductive Run (α : Type) where
  | ret (a : α)
  | blocked
  | outOfFuel
deriving Repr

/-- The calls a routing entry point makes, with their arguments. -/
inductive Effect where
  | matchDNS (allowFakeIP : Bool) (afterIndex : Int) (isAddressQuery : Bool)
      (options : DNSQueryOptions)
  | client (transport : DNSTransport) (options : DNSQueryOptions)
  | racer (transports : List DNSTransport) (options : DNSQueryOptions)
  | hedgedRacer (primaryTransports fallbackTransports : List DNSTransport)
      (primaryOptions fallbackOptions : DNSQueryOptions)
deriving DecidableEq, Repr

/-- How one pass through the body of a rule-driven `for` loop ends: `continue`
with the new rule index and loop variables, `break` or `return` with a result,
or never. Each carries the calls made during the pass. -/
inductive Iteration (σ α : Type) where
  | again (ruleIndex : Int) (carry : σ) (effects : List Effect)
  | stop (result : α) (effects : List Effect)
  | blocked
deriving Repr

/-- The function `isAddressQuery`. -/
def isAddressQuery (message : Msg) : Bool :=
  message.question.any (fun question =>
    question.qtype == TypeA || question.qtype == TypeAAAA || question.qtype == TypeHTTPS)

/-- Modelled from the spec: `RuleActionPredefined.Response`, which is not among the
sources; "construct a response from the predefined RRs". -/
def predefinedResponse (rcode : Nat) (answer : List RR) (message : Msg) : Msg :=
  { id := message.id, response := true, rcode := rcode, question := message.question,
    answer := answer }

/-- The options handed to the primary tasks (365-397 of `Exchange`, 536-568 of `Lookup`). -/
def primaryOptionsOf (r : Router) (m : MatchResult) : DNSQueryOptions :=
  let o := defaultStrategy r (legacyFill m.transports m.options)
  if r.sharedCache && decide (m.transports.length > 1) then { o with disableCache := true }
  else o

/-- The options handed to the fallback tasks (366-401 of `Exchange`, 537-572 of `Lookup`). -/
def fallbackOptionsOf (r : Router) (m : MatchResult) : DNSQueryOptions :=
  let o := defaultStrategy r (legacyFill m.fallbackTransports m.options)
  if r.sharedCache && (decide (m.upstreamTimeout > 0) &&
      decide (m.fallbackTransports.length > 0)) then
    { o with disableCache := true }
  else o

/-- The flag `rejected` of `Exchange` (412-425). -/
def exchangeRejected (err : Option DNSError) : Bool :=
  match err with
  | some e =>
    if errorsIs e .ErrResponseRejectedCached then true
    else if errorsIs e .ErrResponseRejected then true
    else false
  | none => false

/-- The code of `Exchange` after its rule loop (432-447), without the writes to the
reverse-mapping cache. -/
def exchangeTail (response : Option Msg) (err : Option DNSError) :
    Option Msg × Option DNSError :=
  match err with
  | some e => (none, some e)
  | none => (response, none)

/-- The value of `withAddressLimit := rule != nil && rule.WithAddressLimit()`. -/
def withAddressLimitOf (m : MatchResult) : Bool :=
  match m.rule with
  | some rule => rule.withAddressLimit
  | none => false

/-- The test `upstreamTimeout > 0 && len(fallbackTransports) > 0` that selects the
hedged racer. -/
def isHedged (m : MatchResult) : Bool :=
  decide (m.upstreamTimeout > 0) && decide (m.fallbackTransports.length > 0)

/-- The racer call of a pass, as an effect. -/
def dispatchEffect (r : Router) (m : MatchResult) : Effect :=
  if isHedged m then
    Effect.hedgedRacer m.transports m.fallbackTransports (primaryOptionsOf r m)
      (fallbackOptionsOf r m)
  else Effect.racer m.transports (primaryOptionsOf r m)

/-- The returns of `Exchange` on a reject or predefined rule (344-363); `none` when
the pass goes on to the racers. -/
def exchangeEarlyReturn (m : MatchResult) (message : Msg) :
    Option (Option Msg × Option DNSError) :=
  match m.rule with
  | some rule =>
    match rule.action with
    | .reject .default =>
      some (some { id := message.id, response := true, rcode := RcodeRefused,
                   question := message.question.take 1, answer := [] }, none)
    | .reject .drop => some (none, some DNSError.ErrDrop)
    | .predefined rcode answer => some (some (predefinedResponse rcode answer message), none)
    | _ => none
  | none => none

/-- The racer dispatch of `Exchange` (403-411). `race i` is the schedule of the race
run for the rule matched at index `i` (-1 when no rule matched). The two calls of
`exchangeRacer`, with and without a timeout context, differ only in the context
and share one branch. -/
def exchangeDispatch (Errors : List DNSError → Option DNSError)
    (race : Int → List (Event QueryResult)) (m : MatchResult) : Option ExchangeReturn :=
  if isHedged m then
    exchangeHedgedRacer Errors m.transports m.fallbackTransports m.upstreamTimeout
      (race m.ruleIndex)
  else exchangeRacer Errors m.transports (race m.ruleIndex)

/-- One pass through the body of the rule loop of `Exchange` (335-429). -/
def Router.exchangeIteration (r : Router) (Errors : List DNSError → Option DNSError)
    (race : Int → List (Event QueryResult)) (message : Msg) (options : DNSQueryOptions)
    (ruleIndex : Int) : Iteration Unit (Option Msg × Option DNSError) :=
  let dnsOptions := options
  let m := r.matchDNS true ruleIndex (isAddressQuery message) dnsOptions
  let called := [Effect.matchDNS true ruleIndex (isAddressQuery message) dnsOptions]
  match exchangeEarlyReturn m message with
  | some out => .stop out called
  | none =>
    match exchangeDispatch Errors race m with
    | none => .blocked
    | some ret =>
      if withAddressLimitOf m && exchangeRejected ret.err then
        .again m.ruleIndex () (called ++ [dispatchEffect r m])
      else .stop (exchangeTail ret.response ret.err) (called ++ [dispatchEffect r m])

/-- What `Exchange` returns, with the calls it made. -/
structure ExchangeOutcome where
  response : Option Msg
  err : Option DNSError
  trace : List Effect
deriving Repr

/-- The rule loop `for { ... }` of `Exchange`, bounded by `fuel` passes. -/
def Router.exchangeLoop (r : Router) (Errors : List DNSError → Option DNSError)
    (race : Int → List (Event QueryResult)) (message : Msg) (options : DNSQueryOptions) :
    Nat → Int → List Effect → Run ExchangeOutcome
  | 0, _, _ => .outOfFuel
  | fuel + 1, ruleIndex, trace =>
    match r.exchangeIteration Errors race message options ruleIndex with
    | .again next _ effects =>
      Router.exchangeLoop r Errors race message options fuel next (trace ++ effects)
    | .stop out effects => .ret { response := out.1, err := out.2, trace := trace ++ effects }
    | .blocked => .blocked

/-- The function `Router.Exchange`. `direct` is what `r.client.Exchange` returns on a
pinned transport. The rule loop gets one pass more than there are rules. -/
def Router.Exchange (r : Router) (Errors : List DNSError → Option DNSError)
    (direct : DNSTransport → DNSQueryOptions → Option Msg × Option DNSError)
    (race : Int → List (Event QueryResult)) (message : Msg) (options : DNSQueryOptions) :
    Run ExchangeOutcome :=
  if message.question.length != 1 then
    .ret { response := some { id := message.id, response := true, rcode := RcodeFormatError,
                              question := message.question, answer := [] },
           err := none, trace := [] }
  else
    match options.transport with
    | some selectedTransport =>
      let options1 := defaultStrategy r (legacyFillOne selectedTransport options)
      let out := direct selectedTransport options1
      .ret { response := (exchangeTail out.1 out.2).1, err := (exchangeTail out.1 out.2).2,
             trace := [Effect.client selectedTransport options1] }
    | none => r.exchangeLoop Errors race message options (r.rules.length + 1) (-1) []

/-- The closure `printResult` of `Lookup` (455-471), as the new value of `err`. -/
def printResult (domain : String) (responseAddrs : List Addr) (err : Option DNSError) :
    Option DNSError :=
  let err1 :=
    if err.isNone && responseAddrs.length == 0 then some (DNSError.new "empty result") else err
  match err1 with
  | some e => some (.cause e ("lookup " ++ domain))
  | none => none

/-- The addresses of the A and AAAA records of a predefined answer (523-530). -/
def predefinedAddrs : List RR → List Addr
  | [] => []
  | .A _ _ addr :: rest => addr :: predefinedAddrs rest
  | .AAAA _ _ addr :: rest => addr :: predefinedAddrs rest
  | .other _ _ :: rest => predefinedAddrs rest

/-- The returns of `Lookup` on a reject or predefined rule (515-534), the final
`printResult` of the predefined path included; `none` when the pass goes on to
the racers. The pair holds the variables `responseAddrs` and `err` on entry. -/
def lookupEarlyReturn (m : MatchResult) (domain : String) (carry : List Addr × Option DNSError) :
    Option (List Addr × Option DNSError) :=
  match m.rule with
  | some rule =>
    match rule.action with
    | .reject method => some ([], some (DNSError.RejectedError method))
    | .predefined rcode answer =>
      if rcode != RcodeSuccess then
        some (carry.1, printResult domain carry.1 (some (DNSError.RcodeError rcode)))
      else
        some (carry.1 ++ predefinedAddrs answer,
              printResult domain (carry.1 ++ predefinedAddrs answer) carry.2)
    | _ => none
  | none => none

/-- The racer dispatch of `Lookup` (574-582). -/
def lookupDispatch (Errors : List DNSError → Option DNSError)
    (race : Int → List (Event LookupResult)) (m : MatchResult) :
    Option (List Addr × Option DNSError) :=
  if isHedged m then
    lookupHedgedRacer Errors m.transports m.fallbackTransports m.upstreamTimeout
      (race m.ruleIndex)
  else lookupRacer Errors m.transports (race m.ruleIndex)

/-- One pass through the body of the rule loop of `Lookup` (506-586). The carry holds
the variables `responseAddrs` and `err`, which live across passes. A `stop`
result is what `Lookup` returns, the final `printResult` included. -/
def Router.lookupIteration (r : Router) (Errors : List DNSError → Option DNSError)
    (race : Int → List (Event LookupResult)) (domain : String) (options : DNSQueryOptions)
    (ruleIndex : Int) (carry : List Addr × Option DNSError) :
    Iteration (List Addr × Option DNSError) (List Addr × Option DNSError) :=
  let dnsOptions := options
  let m := r.matchDNS false ruleIndex true dnsOptions
  let called := [Effect.matchDNS false ruleIndex true dnsOptions]
  match lookupEarlyReturn m domain carry with
  | some out => .stop out called
  | none =>
    match lookupDispatch Errors race m with
    | none => .blocked
    | some (responseAddrs, err) =>
      if !withAddressLimitOf m || err.isNone then
        .stop (responseAddrs, printResult domain responseAddrs err)
          (called ++ [dispatchEffect r m])
      else
        .again m.ruleIndex (responseAddrs, printResult domain responseAddrs err)
          (called ++ [dispatchEffect r m])

/-- What `Lookup` returns, with the calls it made. -/
structure LookupOutcome where
  addrs : List Addr
  err : Option DNSError
  trace : List Effect
deriving Repr

/-- The rule loop `for { ... }` of `Lookup`, bounded by `fuel` passes. -/
def Router.lookupLoop (r : Router) (Errors : List DNSError → Option DNSError)
    (race : Int → List (Event LookupResult)) (domain : String) (options : DNSQueryOptions) :
    Nat → Int → List Addr × Option DNSError → List Effect → Run LookupOutcome
  | 0, _, _, _ => .outOfFuel
  | fuel + 1, ruleIndex, carry, trace =>
    match r.lookupIteration Errors race domain options ruleIndex carry with
    | .again next carry1 effects =>
      Router.lookupLoop r Errors race domain options fuel next carry1 (trace ++ effects)
    | .stop out effects => .ret { addrs := out.1, err := out.2, trace := trace ++ effects }
    | .blocked => .blocked

/-- The function `Router.Lookup`. `direct` is what `r.client.Lookup` returns on a
pinned transport. The rule loop gets one pass more than there are rules. -/
def Router.Lookup (r : Router) (Errors : List DNSError → Option DNSError)
    (direct : DNSTransport → DNSQueryOptions → LookupResult)
    (race : Int → List (Event LookupResult)) (domain : String) (options : DNSQueryOptions) :
    Run LookupOutcome :=
  match options.transport with
  | some transport =>
    let options1 := defaultStrategy r (legacyFillOne transport options)
    let out := direct transport options1
    .ret { addrs := out.addrs, err := printResult domain out.addrs out.err,
           trace := [Effect.client transport options1] }
  | none => r.lookupLoop Errors race domain options (r.rules.length + 1) (-1) ([], none) []

/-! ## Reading a schedule of results -/

/-- A result that ends the exchange race at once: no error, a response, rcode NoError. -/
def isNoErrorSuccess (r : QueryResult) : Bool :=
  r.err.isNone &&
    (match r.response with
     | some response => response.rcode == RcodeSuccess
     | none => false)

/-- A result with no error and a response (of any rcode). -/
def isNonErrorResponse (r : QueryResult) : Bool :=
  r.err.isNone && r.response.isSome

/-- The errors reported by a list of results, in arrival order. -/
def reportedErrors (rs : List QueryResult) : List DNSError :=
  rs.filterMap (fun r => r.err)

/-- What one iteration of the exchange collection loop does to the loop variables
when the received result does not end the race. -/
def exchangeAbsorb (st : ExchangeRaceState) (r : QueryResult) : ExchangeRaceState :=
  match r.err with
  | none =>
    match r.response with
    | some response =>
      if !st.hasFallback then
        { st with fallbackResponse := some response, fallbackTransport := some r.transport,
                  hasFallback := true }
      else st
    | none => st
  | some e =>
    let st1 := { st with errorsList := st.errorsList ++ [e] }
    if errorsIs e .ErrResponseRejectedCached then st1
    else if errorsIs e .ErrResponseRejected then { st1 with allRejectedOnly := false }
    else { st1 with allRejected := false, allRejectedOnly := false }

/-- What the lookup collection loop does to its variables on a failed result. -/
def lookupAbsorb (st : LookupRaceState) (r : LookupResult) : LookupRaceState :=
  match r.err with
  | none => st
  | some e =>
    if !st.hasFallback then
      { fallbackAddrs := r.addrs, fallbackErr := r.err, hasFallback := true,
        errorsList := st.errorsList ++ [e] }
    else { st with errorsList := st.errorsList ++ [e] }

/-- The test of the racer's first branch: `errors.Is(err, ErrResponseRejectedCached)`. -/
def isCachedReject (e : DNSError) : Bool :=
  errorsIs e .ErrResponseRejectedCached

/-- An error that passes one of the racer's two `errors.Is` tests. -/
def isRejectClass (e : DNSError) : Bool :=
  errorsIs e .ErrResponseRejectedCached || errorsIs e .ErrResponseRejected

/-- A stand-in for `E.Errors` in concrete runs: no error for an empty list, the
error itself for a single one, a multi-error otherwise. -/
def sampleErrors : List DNSError → Option DNSError
  | [] => none
  | [e] => some e
  | es => some (.multi es)

/-- A first transport for concrete runs. -/
def transportA : DNSTransport := { tag := "a", isFakeIP := false, legacy := none }

/-- A second transport for concrete runs. -/
def transportB : DNSTransport := { tag := "b", isFakeIP := false, legacy := none }

/-- A NoError response for concrete runs. -/
def answerOK : Msg :=
  { id := 7, response := true, rcode := RcodeSuccess, question := [], answer := [] }

/-- A response with rcode 3 (NXDOMAIN) for concrete runs. -/
def answerNX : Msg :=
  { id := 7, response := true, rcode := 3, question := [], answer := [] }

/-- Query options with nothing set, for concrete runs. -/
def plainOptions : DNSQueryOptions :=
  { transport := none, strategy := DomainStrategy.asIS, disableCache := false,
    rewriteTTL := none, clientSubnet := none }

/-- A matching route rule with an address limit that routes to the transport tagged "a". -/
def limitedRoute : DNSRule :=
  { withAddressLimit := true, matched := true, description := "ip_cidr",
    action := .route
      { servers := ["a"], fallbackServers := [], strategy := DomainStrategy.asIS,
        disableCache := false, rewriteTTL := none, clientSubnet := none,
        upstreamTimeout := 0, fallbackTimeout := 0, fallbackGrace := 0 } }

/-- A router with the single rule `limitedRoute`, the transports "a" and "b", and "b"
as default transport. -/
def sampleRouter : Router :=
  { rules := [limitedRoute],
    transport := fun tag =>
      if tag == "a" then some transportA else if tag == "b" then some transportB else none,
    defaultTransport := some transportB,
    defaultDomainStrategy := DomainStrategy.asIS,
    upstreamTimeout := 0, fallbackTimeout := 0, fallbackGrace := 0, sharedCache := true }

/-- A query for the A record of example.org. -/
def sampleQuery : Msg :=
  { id := 7, response := false, rcode := 0, question := [{ name := "example.org.", qtype := TypeA }],
    answer := [] }

/-- Lookup schedules: the race for rule 0 ends in a timeout of "a", the race for the
default transport brings one address. -/
def timeoutThenAnswer : Int → List (Event LookupResult)
  | 0 => [Event.result { addrs := [], err := some (.new "timeout") }]
  | _ => [Event.result { addrs := ["192.0.2.1"], err := none }]

/-- Exchange schedules: the race for rule 0 ends in a timeout of "a", the race for the
default transport brings a NoError answer. -/
def timeoutThenAnswerMsg : Int → List (Event QueryResult)
  | 0 => [Event.result { response := none, err := some (.new "timeout"), transport := transportA }]
  | _ => [Event.result { response := some answerOK, err := none, transport := transportB }]

/-- Exchange schedules: the race for rule 0 ends in a rejection by "a", the race for
the default transport brings a NoError answer. -/
def rejectThenAnswerMsg : Int → List (Event QueryResult)
  | 0 => [Event.result { response := none, err := some (.sentinel .ErrResponseRejected),
                         transport := transportA }]
  | _ => [Event.result { response := some answerOK, err := none, transport := transportB }]

/-- A pinned-transport answer for concrete runs. -/
def directAnswer : DNSTransport → DNSQueryOptions → Option Msg × Option DNSError :=
  fun _ _ => (some answerOK, none)

/-- A pinned-transport lookup answer for concrete runs. -/
def directAddrs : DNSTransport → DNSQueryOptions → LookupResult :=
  fun _ _ => { addrs := ["192.0.2.1"], err := none }

/-- A query that carries two questions. -/
def twoQuestions : Msg :=
  { id := 9, response := false, rcode := 0,
    question := [{ name := "a.", qtype := TypeA }, { name := "b.", qtype := TypeAAAA }],
    answer := [] }

/-! ## Start gate of the fallback tasks of the hedged racers -/

/-- Where a fallback task of `exchangeHedgedRacer` (652-690) or `lookupHedgedRacer`
(803-843) stands: in its first `select`; past it through `<-fallbackStart` and
before the test `queryCtx.Err() != nil`; past that test and before the call of
`r.client.Exchange` or `r.client.Lookup`; in or after that call; or returned
without calling. -/
inductive FallbackPc where
  | awaiting
  | checking
  | preparing
  | querying
  | returned
deriving DecidableEq, Repr

/-- The shared state the start gate depends on: whether the `upstreamTimeout` timer has
fired, whether `queryCtx` is cancelled, whether `fallbackStart` is closed, and
where each fallback task stands. `doneBeforeTimer` records that `queryCtx` was
cancelled at a moment when the timer had not fired. -/
structure GateState where
  timerFired : Bool
  queryDone : Bool
  doneBeforeTimer : Bool
  fallbackStart : Bool
  tasks : List FallbackPc
deriving DecidableEq, Repr

/-- The atomic steps of the goroutines around the gate: the timer fires; `queryCtx`
is cancelled (parent done, or `queryCancel()` on a win or on return); the
starter goroutine (618-626) leaves its `select` and closes `fallbackStart`;
fallback task `i` leaves its `select` by either case, runs its test of
`queryCtx.Err()`, or makes its client call. -/
inductive GateAction where
  | timerFires
  | cancel
  | starterCloses
  | selectStart (i : Nat)
  | selectDone (i : Nat)
  | check (i : Nat)
  | query (i : Nat)
deriving DecidableEq, Repr

/-- The state right after the goroutines are spawned, with `n` fallback tasks. -/
def gateInit (n : Nat) : GateState :=
  { timerFired := false, queryDone := false, doneBeforeTimer := false,
    fallbackStart := false, tasks := List.replicate n FallbackPc.awaiting }

/-- One step; `none` when the step is not enabled in the state. -/
def gateStep (s : GateState) : GateAction → Option GateState
  | .timerFires => some { s with timerFired := true }
  | .cancel =>
    some { s with queryDone := true,
                  doneBeforeTimer := s.doneBeforeTimer || !s.timerFired }
  | .starterCloses =>
    if !s.fallbackStart && (s.timerFired || s.queryDone) then
      some { s with fallbackStart := true }
    else none
  | .selectStart i =>
    if s.fallbackStart && decide (s.tasks.get? i = some FallbackPc.awaiting) then
      some { s with tasks := s.tasks.set i FallbackPc.checking }
    else none
  | .selectDone i =>
    if s.queryDone && decide (s.tasks.get? i = some FallbackPc.awaiting) then
      some { s with tasks := s.tasks.set i FallbackPc.returned }
    else none
  | .check i =>
    if decide (s.tasks.get? i = some FallbackPc.checking) then
      if s.queryDone then some { s with tasks := s.tasks.set i FallbackPc.returned }
      else some { s with tasks := s.tasks.set i FallbackPc.preparing }
    else none
  | .query i =>
    if decide (s.tasks.get? i = some FallbackPc.preparing) then
      some { s with tasks := s.tasks.set i FallbackPc.querying }
    else none

/-- A sequence of steps; `none` when one of them is not enabled. -/
def gateRun (s : GateState) : List GateAction → Option GateState
  | [] => some s
  | a :: rest =>
    match gateStep s a with
    | some s1 => gateRun s1 rest
    | none => none

/-- A task that has passed the gate: it is about to call the client or has called it. -/
def FallbackPc.started (pc : FallbackPc) : Bool :=
  pc == FallbackPc.preparing || pc == FallbackPc.querying

/-- The invariant of the gate. -/
def GateInv (s : GateState) : Prop :=
  (s.fallbackStart = true → s.timerFired = true ∨ s.queryDone = true) ∧
  (∀ pc ∈ s.tasks, pc = FallbackPc.checking → s.fallbackStart = true) ∧
  (∀ pc ∈ s.tasks, pc.started = true → s.timerFired = true) ∧
  (s.doneBeforeTimer = true →
    s.queryDone = true ∧ ∀ pc ∈ s.tasks, pc.started = false)

/-- The steps of a run in which the timer fires and the single fallback task passes
the gate while the query context is live. -/
def gateOpens : List GateAction :=
  [.timerFires, .starterCloses, .selectStart 0, .check 0]

/-- The state after `gateOpens` and a cancellation of the query context: the task
stands between its test and its client call, and the context is cancelled. -/
def cancelledAfterCheck : GateState :=
  { timerFired := true, queryDone := true, doneBeforeTimer := false, fallbackStart := true,
    tasks := [FallbackPc.preparing] }

/-- The state after `gateOpens` and the client call of the task. -/
def queriedAfterTimer : GateState :=
  { timerFired := true, queryDone := false, doneBeforeTimer := false, fallbackStart := true,
    tasks := [FallbackPc.querying] }

/-! ## The resolved server list, in the words of the specification -/

/-- The tags of a list without repetition, each at the place of its first occurrence. -/
def firstOccurrences : List String → List String
  | [] => []
  | tag :: rest => tag :: (firstOccurrences rest).filter (fun other => other != tag)

/-- The transport list of a route action as the specification words it: of the
servers, in order, the first occurrence of each non-empty tag that resolves in
the transport manager and, when fake-IP is not allowed, is not a fake-IP transport. -/
def resolvedBySpec (r : Router) (allowFakeIP : Bool) (servers : List String) :
    List DNSTransport :=
  ((firstOccurrences servers).filter (fun tag => tag != "")).filterMap (fun tag =>
    match r.transport tag with
    | some transport => if allowFakeIP || !transport.isFakeIP then some transport else none
    | none => none)

/-- The tags of a server list that a resolution loop still has to handle when it has
`seen` in its set: first occurrences, non-empty, not seen. -/
def pendingTags (seen : List String) (servers : List String) : List String :=
  (firstOccurrences servers).filter (fun tag => tag != "" && !seen.contains tag)

/-- What one tag contributes to a resolved list. -/
def resolveTag (r : Router) (allowFakeIP : Bool) (tag : String) : Option DNSTransport :=
  match r.transport tag with
  | some transport => if allowFakeIP || !transport.isFakeIP then some transport else none
  | none => none

/-- The rule index that `matchDNS` writes in the log line of a rule matched at
position `currentRuleIndex` (143-146). -/
def displayRuleIndexOf (currentRuleIndex : Nat) : Int :=
  if (currentRuleIndex : Int) != -1 then
    (currentRuleIndex : Int) + ((currentRuleIndex : Int) + 1)
  else (currentRuleIndex : Int)

/-- A fake-IP transport for concrete runs. -/
def transportFake : DNSTransport := { tag := "fake", isFakeIP := true, legacy := none }

/-- A matching route rule whose servers are an empty tag, an unknown tag and a fake-IP
transport, and which asks for a strategy and to disable the cache. -/
def unresolvedRoute : DNSRule :=
  { withAddressLimit := false, matched := true, description := "domain",
    action := .route
      { servers := ["", "missing", "fake"], fallbackServers := [],
        strategy := DomainStrategy.ipv4Only, disableCache := true, rewriteTTL := some 60,
        clientSubnet := none, upstreamTimeout := 0, fallbackTimeout := 0,
        fallbackGrace := 0 } }

/-- A matching route rule that names "a" twice, an unknown tag, "b" and the fake-IP
transport, with "b" and "b" again as fallback servers. -/
def repeatedRoute : DNSRule :=
  { withAddressLimit := false, matched := true, description := "domain",
    action := .route
      { servers := ["a", "missing", "a", "b", "fake"], fallbackServers := ["b", "", "b"],
        strategy := DomainStrategy.asIS, disableCache := false, rewriteTTL := none,
        clientSubnet := none, upstreamTimeout := 0, fallbackTimeout := 0,
        fallbackGrace := 0 } }

/-- A rule that does not match the query. -/
def unmatchedRule : DNSRule :=
  { withAddressLimit := false, matched := false, description := "other",
    action := .reject RejectMethod.default }

/-- A matching reject rule. -/
def rejectRule : DNSRule :=
  { withAddressLimit := false, matched := true, description := "blocked",
    action := .reject RejectMethod.default }

/-- A matching route-options rule whose `DisableCache` is false. -/
def keepCacheOptions : DNSRule :=
  { withAddressLimit := false, matched := true, description := "options",
    action := .routeOptions
      { strategy := DomainStrategy.asIS, disableCache := false, rewriteTTL := none,
        clientSubnet := none } }

/-- The transport manager of the concrete runs: "a", "b" and "fake". -/
def sampleManager : String → Option DNSTransport := fun tag =>
  if tag == "a" then some transportA
  else if tag == "b" then some transportB
  else if tag == "fake" then some transportFake
  else none

/-- A router over `sampleManager` with the given rules and "b" as default transport. -/
def routerOf (rules : List DNSRule) : Router :=
  { rules := rules, transport := sampleManager, defaultTransport := some transportB,
    defaultDomainStrategy := DomainStrategy.asIS,
    upstreamTimeout := 0, fallbackTimeout := 0, fallbackGrace := 0, sharedCache := true }

/-- Query options with the cache disabled by the caller. -/
def noCacheOptions : DNSQueryOptions :=
  { transport := none, strategy := DomainStrategy.asIS, disableCache := true,
    rewriteTTL := none, clientSubnet := none }

/-! ## Outbound groups: hashing and keys (protocol/group/load_balance.go) -/

/-- The UTF-8 bytes of one character. -/
def utf8Bytes (c : Char) : List Nat :=
  let v := c.toNat
  if v < 0x80 then [v]
  else if v < 0x800 then [0xC0 + v / 64, 0x80 + v % 64]
  else if v < 0x10000 then [0xE0 + v / 4096, 0x80 + (v / 64) % 64, 0x80 + v % 64]
  else [0xF0 + v / 262144, 0x80 + (v / 4096) % 64, 0x80 + (v / 64) % 64, 0x80 + v % 64]

/-- The bytes `s[0], ..., s[len(s)-1]` of a Go string holding the text `s`. -/
def goBytes (s : String) : List Nat :=
  s.data.flatMap utf8Bytes

/-- The constant `offset64` of `fnv1a64`. -/
def offset64 : Nat := 14695981039346656037

/-- The constant `prime64` of `fnv1a64`. -/
def prime64 : Nat := 1099511628211

/-- The loop of `fnv1a64` (409-414) over the bytes of its argument, in `uint64`
arithmetic: `hash ^= uint64(s[i]); hash *= prime64`. -/
def fnv1a64Bytes (bytes : List Nat) : Nat :=
  bytes.foldl (fun hash b => ((hash ^^^ b) * prime64) % 2 ^ 64) offset64

/-- The function `fnv1a64`. -/
def fnv1a64 (s : String) : Nat :=
  fnv1a64Bytes (goBytes s)

/-- An outbound as the groups see it: an identity (interface values are compared by
identity), `Tag()`, `Network()`, and the value of `RealTag(detour)`. -/
structure Outbound where
  id : Nat
  tag : String
  network : List String
  realTag : String
deriving DecidableEq, Repr

/-- The score of a candidate in `rendezvousPick`. -/
def rendezvousScore (key : String) (detour : Outbound) : Nat :=
  fnv1a64 (key ++ "|" ++ detour.tag)

/-- The function `rendezvousPick`: the loop variables are `selected` and `bestScore`. -/
def rendezvousPick (key : String) (candidates : List Outbound) : Option Outbound :=
  (candidates.foldl
    (fun (acc : Option Outbound × Nat) detour =>
      let score := fnv1a64 (key ++ "|" ++ detour.tag)
      if acc.1.isNone || decide (score > acc.2) then (some detour, score) else acc)
    (none, 0)).1

/-- A destination (`M.Socksaddr`) as `destinationKey` reads it: `AddrString()`,
`IsFqdn()`, `Fqdn` and `Port`. -/
structure Socksaddr where
  addrString : String
  isFqdn : Bool
  fqdn : String
  port : Nat
deriving DecidableEq, Repr

/-- The function `destinationKey`. `effectiveTLDPlusOne` stands for
`publicsuffix.EffectiveTLDPlusOne`, `none` being its error. -/
def destinationKey (effectiveTLDPlusOne : String → Option String) (destination : Socksaddr) :
    String :=
  let host :=
    if destination.isFqdn then
      match effectiveTLDPlusOne destination.fqdn with
      | some base => base
      | none => destination.fqdn
    else destination.addrString
  host ++ ":" ++ toString destination.port

/-- The function `stickyKey`. `source` is the address string of the inbound source,
`none` when there is no inbound context or its source is not valid. -/
def stickyKey (effectiveTLDPlusOne : String → Option String) (source : Option String)
    (network : String) (destination : Socksaddr) : String :=
  let sourceKey :=
    match source with
    | some addr => addr
    | none => ""
  network ++ "|" ++ sourceKey ++ "|" ++ destinationKey effectiveTLDPlusOne destination

/-! ## Outbound groups: the load-balance group -/

/-- A URL-test history entry. -/
structure URLTestHistory where
  time : Nat
  delay : Nat
deriving DecidableEq, Repr

/-- A Go map with string keys, as an association list with at most one pair per key. -/
abbrev GoMap (α : Type) := List (String × α)

/-- The read `m[key]`. -/
def GoMap.load {α : Type} (m : GoMap α) (key : String) : Option α :=
  List.lookup key m

/-- The statement `delete(m, key)`. -/
def GoMap.delete {α : Type} (m : GoMap α) (key : String) : GoMap α :=
  m.filter (fun pair => pair.1 != key)

/-- The write `m[key] = value`. -/
def GoMap.store {α : Type} (m : GoMap α) (key : String) (value : α) : GoMap α :=
  (key, value) :: GoMap.delete m key

/-- Modelled from the spec: the URL-test history store, which is not among the
sources; a map from real tag to history with load, store and delete. -/
abbrev HistoryStorage := GoMap URLTestHistory

/-- The type `stickyEntry`. Times are in nanoseconds. -/
structure StickyEntry where
  tag : String
  expire : Nat
deriving DecidableEq, Repr

/-- The strategy `option.LoadBalanceStrategyRoundRobin`. -/
def LoadBalanceStrategyRoundRobin : String := "round-robin"

/-- The strategy `option.LoadBalanceStrategyConsistentHashing`. -/
def LoadBalanceStrategyConsistentHashing : String := "consistent-hashing"

/-- The strategy `option.LoadBalanceStrategyStickySessions`. -/
def LoadBalanceStrategyStickySessions : String := "sticky-sessions"

/-- The duration `10 * time.Minute`, in nanoseconds. -/
def tenMinutes : Nat := 600000000000

/-- The mutable and immutable parts of a `LoadBalanceGroup`; `history` is
`g.checker.history`. The field `outboundMap` is derived from `outbounds`. -/
structure LoadBalanceGroup where
  outbounds : List Outbound
  strategy : String
  rrCounter : Nat
  stickyCache : GoMap StickyEntry
  lastSelected : Option Outbound
  history : HistoryStorage
deriving DecidableEq, Repr

/-- The map built by `NewLoadBalanceGroup` (165-167): each outbound is stored under
its tag, a later one replacing an earlier one of the same tag. -/
def LoadBalanceGroup.outboundMap (g : LoadBalanceGroup) (tag : String) : Option Outbound :=
  g.outbounds.reverse.find? (fun detour => detour.tag == tag)

/-- What a dial needs from outside the group: `publicsuffix.EffectiveTLDPlusOne`, the
error of `detour.DialContext` per network and of `detour.ListenPacket` (`none` is
success), the clock reading of `loadSticky` in each pass of the loop, and the
clock reading of `storeSticky`. -/
structure DialEnv where
  effectiveTLDPlusOne : String → Option String
  dial : String → Outbound → Option String
  listen : Outbound → Option String
  loadNow : Nat → Nat
  storeNow : Nat

/-- The method `candidates`. -/
def LoadBalanceGroup.candidates (g : LoadBalanceGroup) (network : String) : List Outbound :=
  let networkCandidates := g.outbounds.filter (fun detour => detour.network.contains network)
  let available :=
    networkCandidates.filter (fun detour => (GoMap.load g.history detour.realTag).isSome)
  if available.length > 0 then available else networkCandidates

/-- The method `selectRoundRobin`, with the new state of the group: `rrCounter.Add(1)`
wraps at 2^64, as does the subtraction. `none` stands for the index panic. -/
def LoadBalanceGroup.selectRoundRobin (g : LoadBalanceGroup) (candidates : List Outbound) :
    LoadBalanceGroup × Option Outbound :=
  let added := (g.rrCounter + 1) % 2 ^ 64
  let index := ((added + 2 ^ 64 - 1) % 2 ^ 64) % candidates.length
  ({ g with rrCounter := added }, candidates.get? index)

/-- The method `selectConsistentHashing`. -/
def LoadBalanceGroup.selectConsistentHashing (env : DialEnv) (destination : Socksaddr)
    (candidates : List Outbound) : Option Outbound :=
  rendezvousPick (destinationKey env.effectiveTLDPlusOne destination) candidates

/-- The method `selectSticky`. -/
def LoadBalanceGroup.selectSticky (env : DialEnv) (source : Option String) (network : String)
    (destination : Socksaddr) (candidates : List Outbound) : Option Outbound :=
  rendezvousPick (stickyKey env.effectiveTLDPlusOne source network destination) candidates

/-- The method `loadSticky`, with the new state of the group; `now` is its clock reading. -/
def LoadBalanceGroup.loadSticky (g : LoadBalanceGroup) (env : DialEnv) (now : Nat)
    (source : Option String) (network : String) (destination : Socksaddr)
    (candidates : List Outbound) : LoadBalanceGroup × Option Outbound :=
  let key := stickyKey env.effectiveTLDPlusOne source network destination
  match GoMap.load g.stickyCache key with
  | none => (g, none)
  | some entry =>
    if now > entry.expire then
      ({ g with stickyCache := GoMap.delete g.stickyCache key }, none)
    else
      match g.outboundMap entry.tag with
      | none => ({ g with stickyCache := GoMap.delete g.stickyCache key }, none)
      | some detour => if candidates.contains detour then (g, some detour) else (g, none)

/-- The method `storeSticky`. -/
def LoadBalanceGroup.storeSticky (g : LoadBalanceGroup) (env : DialEnv)
    (source : Option String) (network : String) (destination : Socksaddr)
    (detour : Outbound) : LoadBalanceGroup :=
  let key := stickyKey env.effectiveTLDPlusOne source network destination
  let entry : StickyEntry := { tag := detour.tag, expire := env.storeNow + tenMinutes }
  { g with stickyCache := GoMap.store g.stickyCache key entry }

/-- The method `deleteSticky`. -/
def LoadBalanceGroup.deleteSticky (g : LoadBalanceGroup) (env : DialEnv)
    (source : Option String) (network : String) (destination : Socksaddr) :
    LoadBalanceGroup :=
  let key := stickyKey env.effectiveTLDPlusOne source network destination
  { g with stickyCache := GoMap.delete g.stickyCache key }

/-- The method `selectOutbound`, with the new state of the group; `pass` counts the
passes of the calling loop and picks the clock reading. -/
def LoadBalanceGroup.selectOutbound (g : LoadBalanceGroup) (env : DialEnv) (pass : Nat)
    (source : Option String) (network : String) (destination : Socksaddr)
    (candidates : List Outbound) : LoadBalanceGroup × Option Outbound × Option String :=
  if g.strategy == LoadBalanceStrategyRoundRobin then
    ((g.selectRoundRobin candidates).1, (g.selectRoundRobin candidates).2, none)
  else if g.strategy == LoadBalanceStrategyConsistentHashing then
    (g, LoadBalanceGroup.selectConsistentHashing env destination candidates, none)
  else if g.strategy == LoadBalanceStrategyStickySessions then
    match g.loadSticky env (env.loadNow pass) source network destination candidates with
    | (g1, some cached) => (g1, some cached, none)
    | (g1, none) =>
      (g1, LoadBalanceGroup.selectSticky env source network destination candidates, none)
  else (g, none, some ("unknown load-balance strategy: " ++ g.strategy))

/-- How a modelled group call ends: it returns, it panics (a nil outbound is
dialled), or the iteration bound of the model was reached. -/
inductive Outcome (α : Type) where
  | ret (a : α)
  | panic
  | outOfFuel
deriving Repr

/-- What `DialContext` or `ListenPacket` leaves behind and returns: the group, the
outbound whose connection is returned, the error, the outbounds dialled in
order, and the number of forced check rounds started. -/
structure DialOutcome where
  group : LoadBalanceGroup
  conn : Option Outbound
  err : Option String
  dialed : List Outbound
  checks : Nat
deriving DecidableEq, Repr

/-- The loop variables of `DialContext` and `ListenPacket`, with the record of the
dials and check rounds so far and the number of the pass. -/
structure DialLoop where
  excluded : List Outbound
  lastErr : Option String
  triggeredCheck : Bool
  dialed : List Outbound
  checks : Nat
  pass : Nat
deriving DecidableEq, Repr

/-- The loop `for { ... }` of `DialContext` (202-234) and `ListenPacket` (241-273),
bounded by `fuel` passes; `attempt` is the dial or listen of an outbound. -/
def LoadBalanceGroup.dialLoop (env : DialEnv) (attempt : Outbound → Option String)
    (source : Option String) (network : String) (destination : Socksaddr) :
    Nat → LoadBalanceGroup → DialLoop → Outcome DialOutcome
  | 0, _, _ => .outOfFuel
  | fuel + 1, g, st =>
    let candidates := (g.candidates network).filter (fun it => !st.excluded.contains it)
    if candidates.length == 0 then
      let lastErr :=
        match st.lastErr with
        | some e => some e
        | none => some "missing supported outbound"
      .ret { group := g, conn := none, err := lastErr, dialed := st.dialed,
             checks := st.checks }
    else
      match g.selectOutbound env st.pass source network destination candidates with
      | (g1, _, some err) =>
        .ret { group := g1, conn := none, err := some err, dialed := st.dialed,
               checks := st.checks }
      | (_, none, none) => .panic
      | (g1, some detour, none) =>
        match attempt detour with
        | none =>
          let g2 := { g1 with lastSelected := some detour }
          let g3 :=
            if g2.strategy == LoadBalanceStrategyStickySessions then
              g2.storeSticky env source network destination detour
            else g2
          .ret { group := g3, conn := some detour, err := none,
                 dialed := st.dialed ++ [detour], checks := st.checks }
        | some err =>
          let g2 := { g1 with history := GoMap.delete g1.history detour.realTag }
          let g3 :=
            if g2.strategy == LoadBalanceStrategyStickySessions then
              g2.deleteSticky env source network destination
            else g2
          LoadBalanceGroup.dialLoop env attempt source network destination fuel g3
            { excluded := detour :: st.excluded, lastErr := some err, triggeredCheck := true,
              dialed := st.dialed ++ [detour],
              checks := if !st.triggeredCheck then st.checks + 1 else st.checks,
              pass := st.pass + 1 }

/-- The loop variables on entry. -/
def DialLoop.init : DialLoop :=
  { excluded := [], lastErr := none, triggeredCheck := false, dialed := [], checks := 0,
    pass := 0 }

/-- The method `LoadBalanceGroup.DialContext`. The loop gets one pass more than the
group has outbounds. -/
def LoadBalanceGroup.DialContext (g : LoadBalanceGroup) (env : DialEnv)
    (source : Option String) (network : String) (destination : Socksaddr) :
    Outcome DialOutcome :=
  LoadBalanceGroup.dialLoop env (env.dial network) source network destination
    (g.outbounds.length + 1) g DialLoop.init

/-- The method `LoadBalanceGroup.ListenPacket`. -/
def LoadBalanceGroup.ListenPacket (g : LoadBalanceGroup) (env : DialEnv)
    (source : Option String) (destination : Socksaddr) : Outcome DialOutcome :=
  LoadBalanceGroup.dialLoop env env.listen source "udp" destination
    (g.outbounds.length + 1) g DialLoop.init

/-- A group as `NewLoadBalanceGroup` builds it, with the given history store. -/
def newLoadBalanceGroup (outbounds : List Outbound) (strategy : String)
    (history : HistoryStorage) : LoadBalanceGroup :=
  { outbounds := outbounds, strategy := strategy, rrCounter := 0, stickyCache := [],
    lastSelected := none, history := history }

/-- The outbound "a" of the concrete runs, for tcp. -/
def outA : Outbound := { id := 1, tag := "a", network := ["tcp"], realTag := "a" }

/-- The outbound "b" of the concrete runs, for tcp. -/
def outB : Outbound := { id := 2, tag := "b", network := ["tcp"], realTag := "b" }

/-- The outbound "c" of the concrete runs, for tcp. -/
def outC : Outbound := { id := 3, tag := "c", network := ["tcp"], realTag := "c" }

/-- A second outbound with the tag "a": another object than `outA`. -/
def outA2 : Outbound := { id := 4, tag := "a", network := ["tcp"], realTag := "a" }

/-- An environment in which every dial and listen succeeds, the public-suffix lookup
fails, and the clock reads `now` throughout. -/
def envOk (now : Nat) : DialEnv :=
  { effectiveTLDPlusOne := fun _ => none, dial := fun _ _ => none, listen := fun _ => none,
    loadNow := fun _ => now, storeNow := now }

/-- The destination example.com:80. -/
def exampleCom : Socksaddr :=
  { addrString := "example.com", isFqdn := true, fqdn := "example.com", port := 80 }

/-- A history entry for concrete runs. -/
def someHistory : URLTestHistory := { time := 0, delay := 10 }

/-- The candidate `d` is the first of `candidates` among those of the highest score. -/
def IsFirstBest (key : String) (candidates : List Outbound) (d : Outbound) : Prop :=
  ∃ front back, candidates = front ++ d :: back ∧
    (∀ x ∈ front, rendezvousScore key x < rendezvousScore key d) ∧
    (∀ x ∈ back, rendezvousScore key x ≤ rendezvousScore key d)

/-- The tag made of `n` letters a. -/
def tagOfLength (n : Nat) : String := String.mk (List.replicate n 'a')

/-- An outbound for tcp with the given identity and tag. -/
def outboundOf (id : Nat) (tag : String) : Outbound :=
  { id := id, tag := tag, network := ["tcp"], realTag := tag }

/-- The sticky cache of `g` holds, under `key`, an entry that names the tag of `o`
and does not expire before `deadline`. -/
def StickyFresh (g : LoadBalanceGroup) (key : String) (o : Outbound) (deadline : Nat) : Prop :=
  ∃ entry, GoMap.load g.stickyCache key = some entry ∧ entry.tag = o.tag ∧
    deadline ≤ entry.expire

/-- A sticky-sessions group of a and b in which only b has a history entry and the
cache names a for the key of 10.0.0.1 and example.com:80 until time 100. -/
def staleSticky : LoadBalanceGroup :=
  { outbounds := [outA, outB], strategy := LoadBalanceStrategyStickySessions, rrCounter := 0,
    stickyCache := [("tcp|10.0.0.1|example.com:80", { tag := "a", expire := 100 })],
    lastSelected := none, history := [("b", someHistory)] }

/-- One call in a run of `DialContext` calls on a group: the environment of the call,
the content of the shared history store that the call finds, and the arguments
(the inbound source is read from the context). -/
structure DialCall where
  env : DialEnv
  history : HistoryStorage
  source : Option String
  network : String
  destination : Socksaddr

/-- The group `g` with the shared history store holding `history`. -/
def LoadBalanceGroup.withHistory (g : LoadBalanceGroup) (history : HistoryStorage) :
    LoadBalanceGroup :=
  { g with history := history }

/-- The call `call` of `DialContext` on the group `g`. -/
def LoadBalanceGroup.dialCall (g : LoadBalanceGroup) (call : DialCall) : Outcome DialOutcome :=
  (g.withHistory call.history).DialContext call.env call.source call.network call.destination

/-- The group as call number `k` of the run `calls` finds it, the calls 0, 1, ...,
k - 1 having been made one after the other on `g`. -/
def LoadBalanceGroup.beforeCall (g : LoadBalanceGroup) (calls : Nat → DialCall) :
    Nat → Outcome LoadBalanceGroup
  | 0 => .ret g
  | k + 1 =>
    match LoadBalanceGroup.beforeCall g calls k with
    | .ret gk =>
      match gk.dialCall (calls k) with
      | .ret out => .ret out.group
      | .panic => .panic
      | .outOfFuel => .outOfFuel
    | .panic => .panic
    | .outOfFuel => .outOfFuel

/-- Call number `k` (k = 0, 1, 2, ...) of the run `calls` on `g`. -/
def LoadBalanceGroup.kthCall (g : LoadBalanceGroup) (calls : Nat → DialCall) (k : Nat) :
    Outcome DialOutcome :=
  match LoadBalanceGroup.beforeCall g calls k with
  | .ret gk => gk.dialCall (calls k)
  | .panic => .panic
  | .outOfFuel => .outOfFuel

/-- A run of tcp calls for example.com:80 from 10.0.0.1 in which every dial succeeds
and the history store is empty. -/
def plainCalls : Nat → DialCall :=
  fun _ => { env := envOk 0, history := [], source := some "10.0.0.1", network := "tcp",
             destination := exampleCom }

/-- The round-robin group of a, b and c, fresh, with an empty history store. -/
def threeRoundRobin : LoadBalanceGroup :=
  newLoadBalanceGroup [outA, outB, outC] LoadBalanceStrategyRoundRobin []

/-- The round-robin group of a and b, fresh, with an empty history store. -/
def twoRoundRobin : LoadBalanceGroup :=
  newLoadBalanceGroup [outA, outB] LoadBalanceStrategyRoundRobin []

/-- The sticky key of a call. -/
def DialCall.stickyKey (call : DialCall) : String :=
  RadioBox.stickyKey call.env.effectiveTLDPlusOne call.source call.network call.destination

/-- The sticky-sessions group of a and b, fresh, with an empty history store. -/
def twoSticky : LoadBalanceGroup :=
  newLoadBalanceGroup [outA, outB] LoadBalanceStrategyStickySessions []

/-! ## Outbound groups: consistent hashing, the fallback group and the health checker -/

/-- The consistent-hashing group of a and b, fresh, with an empty history store. -/
def twoHashing : LoadBalanceGroup :=
  newLoadBalanceGroup [outA, outB] LoadBalanceStrategyConsistentHashing []

/-- A public-suffix lookup that knows the suffix co.uk: the hosts a.example.co.uk and
b.example.co.uk have the base example.co.uk; for any other name it fails. -/
def sampleSuffixes (fqdn : String) : Option String :=
  if fqdn == "a.example.co.uk" || fqdn == "b.example.co.uk" then some "example.co.uk"
  else none

/-- An environment in which every dial and listen succeeds, with `sampleSuffixes` as
the public-suffix lookup. -/
def envSuffix : DialEnv :=
  { effectiveTLDPlusOne := sampleSuffixes, dial := fun _ _ => none, listen := fun _ => none,
    loadNow := fun _ => 0, storeNow := 0 }

/-- The destination a.example.co.uk:80. -/
def hostA : Socksaddr :=
  { addrString := "a.example.co.uk", isFqdn := true, fqdn := "a.example.co.uk", port := 80 }

/-- The destination b.example.co.uk:80. -/
def hostB : Socksaddr :=
  { addrString := "b.example.co.uk", isFqdn := true, fqdn := "b.example.co.uk", port := 80 }

/-- The strategy is one of the three that `NewLoadBalance` accepts. -/
def ValidStrategy (strategy : String) : Prop :=
  strategy = LoadBalanceStrategyRoundRobin ∨ strategy = LoadBalanceStrategyConsistentHashing ∨
    strategy = LoadBalanceStrategyStickySessions

/-- The error contract of a group dial, in the words of the specification, for a call
that returned the connection of `conn` (if any) and the error `err` (if any)
after dialling `dialed` in this order, `attempt` being the error of each dial and
`candidates` the outbounds the group would still consider at the return: an
error is returned only when no attempted dial succeeded; it is then the error of
the last attempted dial, or "missing supported outbound" when nothing was
dialled; no candidate is left untried; and a dial that succeeds makes the call
return that connection with a nil error. -/
def DialErrorContract (attempt : Outbound → Option String) (candidates : List Outbound)
    (conn : Option Outbound) (err : Option String) (dialed : List Outbound) : Prop :=
  (err ≠ none → conn = none ∧ ∀ d ∈ dialed, attempt d ≠ none) ∧
  (err ≠ none → ∀ last, dialed.getLast? = some last → attempt last = err) ∧
  (err ≠ none → dialed = [] → err = some "missing supported outbound") ∧
  (err ≠ none → ∀ c ∈ candidates, c ∈ dialed) ∧
  (∀ d ∈ dialed, attempt d = none → conn = some d ∧ err = none) ∧
  (err = none → ∃ d, conn = some d ∧ dialed.getLast? = some d ∧ attempt d = none)

/-- The network name `N.NetworkTCP`. -/
def NetworkTCP : String := "tcp"

/-- The network name `N.NetworkUDP`. -/
def NetworkUDP : String := "udp"

/-- The mutable and immutable parts of a `FallbackGroup`: `history` is
`g.checker.history`, and `interrupts` counts the calls of
`g.interruptGroup.Interrupt`. -/
structure FallbackGroup where
  outbounds : List Outbound
  selectedOutboundTCP : Option Outbound
  selectedOutboundUDP : Option Outbound
  history : HistoryStorage
  interrupts : Nat
deriving DecidableEq, Repr

/-- What a fallback dial needs from outside the group: `N.NetworkName` of the network
library, and the error of `detour.DialContext` per network and of
`detour.ListenPacket` (`none` is success). -/
structure FallbackEnv where
  networkName : String → String
  dial : String → Outbound → Option String
  listen : Outbound → Option String

/-- A group as `NewFallbackGroup` builds it, with the given history store. -/
def newFallbackGroup (outbounds : List Outbound) (history : HistoryStorage) : FallbackGroup :=
  { outbounds := outbounds, selectedOutboundTCP := none, selectedOutboundUDP := none,
    history := history, interrupts := 0 }

/-- The method `FallbackGroup.Now`. -/
def FallbackGroup.Now (g : FallbackGroup) : String :=
  match g.selectedOutboundTCP with
  | some outboundTCP => outboundTCP.tag
  | none =>
    match g.selectedOutboundUDP with
    | some outboundUDP => outboundUDP.tag
    | none =>
      match g.outbounds with
      | first :: _ => first.tag
      | [] => ""

/-- The method `FallbackGroup.Select`: the outbound and the flag it returns. -/
def FallbackGroup.Select (g : FallbackGroup) (network : String) : Option Outbound × Bool :=
  match g.outbounds.find? (fun detour =>
      detour.network.contains network && (GoMap.load g.history detour.realTag).isSome) with
  | some detour => (some detour, true)
  | none =>
    match g.outbounds.find? (fun detour => detour.network.contains network) with
    | some detour => (some detour, false)
    | none => (none, false)

/-- The method `storeSelected`. -/
def FallbackGroup.storeSelected (g : FallbackGroup) (networkName : String → String)
    (network : String) (outbound : Outbound) : FallbackGroup :=
  if networkName network == NetworkTCP then
    let previous := g.selectedOutboundTCP
    let g1 := { g with selectedOutboundTCP := some outbound }
    if previous.isSome && previous != some outbound then
      { g1 with interrupts := g1.interrupts + 1 }
    else g1
  else if networkName network == NetworkUDP then
    let previous := g.selectedOutboundUDP
    let g1 := { g with selectedOutboundUDP := some outbound }
    if previous.isSome && previous != some outbound then
      { g1 with interrupts := g1.interrupts + 1 }
    else g1
  else g

/-- The list `tryList` of `FallbackGroup.DialContext` (191-210) and `ListenPacket`:
the candidates with a history entry, then the others. -/
def FallbackGroup.tryList (g : FallbackGroup) (network : String) : List Outbound :=
  let candidates := g.outbounds.filter (fun detour => detour.network.contains network)
  let preferred :=
    candidates.filter (fun detour => (GoMap.load g.history detour.realTag).isSome)
  let others :=
    candidates.filter (fun detour => !(GoMap.load g.history detour.realTag).isSome)
  preferred ++ others

/-- What `FallbackGroup.DialContext` or `ListenPacket` leaves behind and returns: the
group, the outbound whose connection is returned, the error, the outbounds
dialled in order, and the number of `go g.checker.CheckOutbounds(true)`
statements executed. -/
structure FallbackOutcome where
  group : FallbackGroup
  conn : Option Outbound
  err : Option String
  dialed : List Outbound
  checks : Nat
deriving DecidableEq, Repr

/-- The loop over `tryList` (212-223, 248-259): the loop variable `lastErr`, with the
record of the dials and of the forced checks so far. -/
def FallbackGroup.tryLoop (networkName : String → String)
    (attempt : Outbound → Option String) (network : String) :
    List Outbound → FallbackGroup → Option String → List Outbound → Nat → FallbackOutcome
  | [], g, lastErr, dialed, checks =>
    { group := g, conn := none, err := lastErr, dialed := dialed, checks := checks }
  | detour :: rest, g, _, dialed, checks =>
    match attempt detour with
    | none =>
      { group := g.storeSelected networkName network detour, conn := some detour,
        err := none, dialed := dialed ++ [detour], checks := checks }
    | some err =>
      FallbackGroup.tryLoop networkName attempt network rest
        { g with history := GoMap.delete g.history detour.realTag } (some err)
        (dialed ++ [detour]) (checks + 1)

/-- The common body of `FallbackGroup.DialContext` and `ListenPacket`. -/
def FallbackGroup.dialWith (g : FallbackGroup) (networkName : String → String)
    (attempt : Outbound → Option String) (network : String) : FallbackOutcome :=
  let candidates := g.outbounds.filter (fun detour => detour.network.contains network)
  if candidates.length == 0 then
    { group := g, conn := none, err := some "missing supported outbound", dialed := [],
      checks := 0 }
  else
    FallbackGroup.tryLoop networkName attempt network (g.tryList network) g none [] 0

/-- The method `FallbackGroup.DialContext`; the destination is handed on to the dials,
for which `env.dial` stands. -/
def FallbackGroup.DialContext (g : FallbackGroup) (env : FallbackEnv) (network : String) :
    FallbackOutcome :=
  g.dialWith env.networkName (env.dial network) network

/-- The method `FallbackGroup.ListenPacket`. -/
def FallbackGroup.ListenPacket (g : FallbackGroup) (env : FallbackEnv) : FallbackOutcome :=
  g.dialWith env.networkName env.listen NetworkUDP

/-- One half of `performUpdateCheck` (279-287, 288-296): the new content of the slot
that held `previous`, and whether `updated` is set. -/
def FallbackGroup.updateSlot (selected : Option Outbound × Bool) (previous : Option Outbound) :
    Option Outbound × Bool :=
  match selected with
  | (some outbound, found) =>
    if previous.isNone || (found && some outbound != previous) then
      (some outbound, previous.isSome && some outbound != previous)
    else (previous, false)
  | (none, _) => (previous, false)

/-- The method `performUpdateCheck`. -/
def FallbackGroup.performUpdateCheck (g : FallbackGroup) : FallbackGroup :=
  let tcp := FallbackGroup.updateSlot (g.Select NetworkTCP) g.selectedOutboundTCP
  let g1 := { g with selectedOutboundTCP := tcp.1 }
  let udp := FallbackGroup.updateSlot (g1.Select NetworkUDP) g1.selectedOutboundUDP
  let g2 := { g1 with selectedOutboundUDP := udp.1 }
  if tcp.2 || udp.2 then { g2 with interrupts := g2.interrupts + 1 } else g2

/-- The call `g.checker.history.StoreURLTestHistory(tag, entry)` on the store of a
fallback group. -/
def FallbackGroup.StoreURLTestHistory (g : FallbackGroup) (tag : String)
    (entry : URLTestHistory) : FallbackGroup :=
  { g with history := GoMap.store g.history tag entry }

/-- The outbound "primary" of the fallback test, for tcp. -/
def outPrimary : Outbound :=
  { id := 11, tag := "primary", network := ["tcp"], realTag := "primary" }

/-- The outbound "backup" of the fallback test, for tcp. -/
def outBackup : Outbound :=
  { id := 12, tag := "backup", network := ["tcp"], realTag := "backup" }

/-- A network-name function that maps every name to itself. -/
def plainNetworkName (network : String) : String := network

/-- An environment in which the dial of "primary" fails and every other dial and
listen succeeds. -/
def envPrimaryDown : FallbackEnv :=
  { networkName := plainNetworkName,
    dial := fun _ detour => if detour.tag == "primary" then some "dial failed" else none,
    listen := fun _ => none }

/-- An environment in which every dial and listen fails. -/
def envAllDown : FallbackEnv :=
  { networkName := plainNetworkName, dial := fun _ _ => some "dial failed",
    listen := fun _ => some "listen failed" }

/-- The fallback group of the test: primary and backup, both with a history entry. -/
def testFallback : FallbackGroup :=
  newFallbackGroup [outPrimary, outBackup]
    [("primary", { time := 0, delay := 10 }), ("backup", { time := 0, delay := 20 })]

/-- The group after the statements `g.checker.history.DeleteURLTestHistory(RealTag(detour))`
for the outbounds of `failed`, in order. -/
def FallbackGroup.deleteHistory (g : FallbackGroup) (failed : List Outbound) : FallbackGroup :=
  let history :=
    failed.foldl (fun history detour => GoMap.delete history detour.realTag) g.history
  { g with history := history }

/-- The outbound `d` is dialled by a call that dials `dialed`, and its dial fails. -/
def FailedIn (attempt : Outbound → Option String) (dialed : List Outbound) (d : Outbound) :
    Prop :=
  d ∈ dialed ∧ attempt d ≠ none

/-- The rest of the error contract, on the members `supporting` that support the
network: "missing supported outbound" is returned, nothing having been dialled,
exactly when no member supports the network. -/
def MissingContract (supporting : List Outbound) (err : Option String)
    (dialed : List Outbound) : Prop :=
  supporting = [] ↔ (dialed = [] ∧ err = some "missing supported outbound")

/-- The members of a list of outbounds that support the network. -/
def supporting (outbounds : List Outbound) (network : String) : List Outbound :=
  outbounds.filter (fun detour => detour.network.contains network)

/-- An environment of the load-balance group in which every dial and listen fails. -/
def envDown : DialEnv :=
  { effectiveTLDPlusOne := fun _ => none, dial := fun _ _ => some "dial failed",
    listen := fun _ => some "listen failed", loadNow := fun _ => 0, storeNow := 0 }

/-- The fallback group of the test after the failover: the TCP slot holds backup and
the history entry of primary is gone. -/
def failedOver : FallbackGroup :=
  { outbounds := [outPrimary, outBackup], selectedOutboundTCP := some outBackup,
    selectedOutboundUDP := none, history := [("backup", { time := 0, delay := 20 })],
    interrupts := 0 }

/-- The group after the failover and with the history entry of backup gone as well:
no member has a history entry. -/
def allUnknown : FallbackGroup :=
  { outbounds := [outPrimary, outBackup], selectedOutboundTCP := some outBackup,
    selectedOutboundUDP := none, history := [], interrupts := 0 }

/-- What `performUpdateCheck` does to the slot of a network, in words: the slot takes
the outbound that `Select` returns when the slot is empty or when `Select` has
found a member with a history entry; otherwise it keeps its content. -/
def slotAfterUpdate (selected : Option Outbound × Bool) (previous : Option Outbound) :
    Option Outbound :=
  match selected.1 with
  | none => previous
  | some outbound => if previous = none ∨ selected.2 = true then some outbound else previous

/-- The slot that held `previous` is given another outbound by `performUpdateCheck`: it
held an outbound, and `Select` has found a member with a history entry that is
another one. -/
def slotReplaced (selected : Option Outbound × Bool) (previous : Option Outbound) : Prop :=
  ∃ outbound old, selected = (some outbound, true) ∧ previous = some old ∧ old ≠ outbound

/-! ## The health checker -/

/-- Modelled from the spec: the constant `C.DefaultURLTestInterval`, 3 minutes, in
nanoseconds; the constants package is not among the sources. -/
def DefaultURLTestInterval : Int := 180000000000

/-- Modelled from the spec: the constant `C.DefaultURLTestIdleTimeout`, 30 minutes, in
nanoseconds. -/
def DefaultURLTestIdleTimeout : Int := 1800000000000

/-- The fields of `healthChecker` that `newHealthChecker` sets from its arguments and
that `urlTest` reads, with the flag `checking`. Durations are in nanoseconds. -/
structure HealthChecker where
  outbounds : List Outbound
  interval : Int
  idleTimeout : Int
  timeout : Int
  history : HistoryStorage
  checking : Bool
deriving DecidableEq, Repr

/-- The function `newHealthChecker`. `tcpTimeout` stands for the constant
`C.TCPTimeout`, and `history` for the store that it finds in the context or
creates. -/
def newHealthChecker (tcpTimeout : Int) (outbounds : List Outbound) (history : HistoryStorage)
    (interval idleTimeout timeout : Int) : Except String HealthChecker :=
  let interval := if interval == 0 then DefaultURLTestInterval else interval
  let idleTimeout := if idleTimeout == 0 then DefaultURLTestIdleTimeout else idleTimeout
  let timeout := if timeout == 0 then tcpTimeout else timeout
  if interval > idleTimeout then
    .error "interval must be less or equal than idle_timeout"
  else
    .ok { outbounds := outbounds, interval := interval, idleTimeout := idleTimeout,
          timeout := timeout, history := history, checking := false }

/-- The effective value of a duration parameter, in words: the default when the
parameter is zero, the parameter otherwise. -/
def effectiveDuration (value default : Int) : Int :=
  if value = 0 then default else value

/-- The library function `time.Since(t)` at the clock reading `now`: the difference
in nanoseconds, saturated to the range of `time.Duration` (an int64). -/
def timeSince (now t : Nat) : Int :=
  let d : Int := (now : Int) - (t : Int)
  if d > 2 ^ 63 - 1 then 2 ^ 63 - 1 else if d < -(2 ^ 63) then -(2 ^ 63) else d

/-- The loop variables of `urlTest` that the scan of the members writes: the keys of
the map `checked`, and the real tags handed to `b.Go`, in order. -/
structure ProbeScan where
  checked : List String
  probed : List String
deriving DecidableEq, Repr

/-- The test `history != nil && time.Since(history.Time) < h.interval` of `urlTest`
(163-164) for the real tag `realTag` at the clock reading `now`. -/
def HealthChecker.recent (h : HealthChecker) (now : Nat) (realTag : String) : Bool :=
  match GoMap.load h.history realTag with
  | some history => decide (timeSince now history.time < h.interval)
  | none => false

/-- The loop of `urlTest` (157-191) over the members from position `index` on: which
probes it starts. `manager` stands for `h.outbound.Outbound`, and `now index` is
the clock reading of `time.Since` when the member at `index` is examined. The
probes run concurrently and touch only the history entry of their own real tag,
which the loop does not read again. -/
def HealthChecker.scan (h : HealthChecker) (manager : String → Option Outbound)
    (now : Nat → Nat) (force : Bool) : List Outbound → Nat → ProbeScan → ProbeScan
  | [], _, st => st
  | detour :: rest, index, st =>
    let realTag := detour.realTag
    if realTag == "" || st.checked.contains realTag then
      HealthChecker.scan h manager now force rest (index + 1) st
    else
      if !force && h.recent (now index) realTag then
        HealthChecker.scan h manager now force rest (index + 1) st
      else
        let st1 : ProbeScan := { st with checked := realTag :: st.checked }
        match manager realTag with
        | none => HealthChecker.scan h manager now force rest (index + 1) st1
        | some _ =>
          HealthChecker.scan h manager now force rest (index + 1)
            { st1 with probed := st1.probed ++ [realTag] }

/-- The method `urlTest`, as far as the start of probes goes: the real tags for which
a probe is started, in order; none when a round is already running. -/
def HealthChecker.urlTest (h : HealthChecker) (manager : String → Option Outbound)
    (now : Nat → Nat) (force : Bool) : List String :=
  if h.checking then []
  else (h.scan manager now force h.outbounds 0 { checked := [], probed := [] }).probed

/-- The real tag `tag` is due for a probe at the clock reading `now`, in words: it has
no history entry, or its entry is not more recent than `now` minus the interval. -/
def dueAt (h : HealthChecker) (now : Nat) (tag : String) : Prop :=
  GoMap.load h.history tag = none ∨
    ∃ entry, GoMap.load h.history tag = some entry ∧ (entry.time : Int) ≤ (now : Int) - h.interval

/-- An outbound manager that knows the outbounds a and b by their tags. -/
def managerAB (tag : String) : Option Outbound :=
  if tag == "a" then some outA else if tag == "b" then some outB else none

/-- A checker of the members a, a again (as another object of the same real tag), b
and c, with an interval of 100 ns, in whose history a was tested at time 950 and
b at time 100. -/
def sampleChecker : HealthChecker :=
  { outbounds := [outA, outA2, outB, outC], interval := 100, idleTimeout := 1000, timeout := 10,
    history := [("a", { time := 950, delay := 1 }), ("b", { time := 100, delay := 1 })],
    checking := false }

/-! ## EDNS0 client subnet (dns/extension_edns0_subnet.go) -/

/-- The record type `dns.TypeOPT`. -/
def TypeOPT : Nat := 41

/-- The option code `dns.EDNS0SUBNET`. -/
def EDNS0SUBNET : Nat := 8

/-- An address (`netip.Addr`) by its bytes: the zero address, an IPv4 address (4
bytes), or an IPv6 address (16 bytes) with its zone. -/
inductive IPAddr where
  | zero
  | v4 (bytes : List Nat)
  | v6 (bytes : List Nat) (zone : String)
deriving DecidableEq, Repr

/-- A `netip.Prefix`: the address and the field `bitsPlusOne`, which is zero in an
invalid value. -/
structure CIDR where
  ip : IPAddr
  bitsPlusOne : Nat
deriving DecidableEq, Repr

/-- The zero value `netip.Prefix{}`. -/
def CIDR.zeroValue : CIDR := { ip := .zero, bitsPlusOne := 0 }

/-- The library method `netip.Addr.Is4`. -/
def IPAddr.Is4 : IPAddr → Bool
  | .v4 _ => true
  | _ => false

/-- The library method `netip.Addr.BitLen`. -/
def IPAddr.BitLen : IPAddr → Nat
  | .zero => 0
  | .v4 _ => 32
  | .v6 _ _ => 128

/-- The library method `netip.Addr.AsSlice`. -/
def IPAddr.AsSlice : IPAddr → List Nat
  | .zero => []
  | .v4 bytes => bytes
  | .v6 bytes _ => bytes

/-- The library method `netip.Addr.WithZone("")`, which `PrefixFrom` applies. -/
def IPAddr.withoutZone : IPAddr → IPAddr
  | .v6 bytes _ => .v6 bytes ""
  | ip => ip

/-- The library function `netip.AddrFrom4`. -/
def AddrFrom4 (b : List Nat) : IPAddr := .v4 b

/-- The library function `netip.AddrFrom16`. -/
def AddrFrom16 (b : List Nat) : IPAddr := .v6 b ""

/-- The library function `netip.PrefixFrom`. -/
def PrefixFrom (ip : IPAddr) (bits : Int) : CIDR :=
  { ip := ip.withoutZone,
    bitsPlusOne :=
      if ip != IPAddr.zero && decide (0 ≤ bits) && decide (bits ≤ (ip.BitLen : Int)) then
        bits.toNat + 1
      else 0 }

/-- The library method `netip.Prefix.Addr`. -/
def CIDR.Addr (p : CIDR) : IPAddr := p.ip

/-- The library method `netip.Prefix.Bits`: -1 for an invalid value. -/
def CIDR.Bits (p : CIDR) : Int := (p.bitsPlusOne : Int) - 1

/-- The bytes of an address with all but the high `bits` bits cleared. -/
def maskBytes : Nat → List Nat → List Nat
  | _, [] => []
  | bits, b :: rest =>
    (if bits ≥ 8 then b else b / 2 ^ (8 - bits) * 2 ^ (8 - bits)) :: maskBytes (bits - 8) rest

/-- The library method `netip.Prefix.Masked`: the zero value for an invalid prefix. -/
def CIDR.Masked (p : CIDR) : CIDR :=
  if p.Bits < 0 then CIDR.zeroValue
  else
    match p.ip with
    | .zero => CIDR.zeroValue
    | .v4 bytes =>
      if p.Bits > 32 then CIDR.zeroValue
      else PrefixFrom (.v4 (maskBytes p.Bits.toNat bytes)) p.Bits
    | .v6 bytes zone =>
      if p.Bits > 128 then CIDR.zeroValue
      else PrefixFrom (.v6 (maskBytes p.Bits.toNat bytes) zone) p.Bits

/-- The statements `var b [n]byte; copy(b[:], src)`. -/
def copyBytes (n : Nat) (src : List Nat) : List Nat :=
  src.take n ++ List.replicate (n - src.length) 0

/-- An EDNS0 option: a `*dns.EDNS0_SUBNET` with its fields, or an option of another
type with its code. -/
inductive EDNS0 where
  | subnet (code family sourceNetmask sourceScope : Nat) (address : List Nat)
  | other (code : Nat)
deriving DecidableEq, Repr

/-- A `*dns.OPT` record: `Hdr.Name`, `Hdr.Rrtype` and `Option`. -/
structure OPT where
  name : String
  rrtype : Nat
  option : List EDNS0
deriving DecidableEq, Repr

/-- A record of the Extra section: a `*dns.OPT`, or a record of another Go type, whose
header type is not `TypeOPT`. -/
inductive ExtraRR where
  | opt (record : OPT)
  | other (name : String)
deriving DecidableEq, Repr

/-- A `dns.Msg` with its Extra section; `base` holds the other sections. -/
structure ExtraMsg where
  base : Msg
  extra : List ExtraRR
deriving DecidableEq, Repr

/-- The library method `dns.Msg.Copy`: a message of the same content. -/
def ExtraMsg.Copy (message : ExtraMsg) : ExtraMsg := message

/-- The type assertion `option.(*dns.EDNS0_SUBNET)`. -/
def EDNS0.isSubnet : EDNS0 → Bool
  | .subnet _ _ _ _ _ => true
  | .other _ => false

/-- The inner loop of `findExists` (22-28): the position of the first subnet option,
`none` when the loop ends without `break`. -/
def firstSubnet : List EDNS0 → Option Nat
  | [] => none
  | option :: rest =>
    if option.isSubnet then some 0
    else
      match firstSubnet rest with
      | some position => some (position + 1)
      | none => none

/-- The loop `findExists` (18-30) from the record at `index` on. The result is what
`optRecord` and `subnetOption` point to after the loop, as positions in
`message.Extra` and in the options of that record; `optRecord` is assigned by
the type assertion at every record, `nil` where the record is no `*dns.OPT`. -/
def findExists : List ExtraRR → Nat → Option Nat → Option Nat × Option Nat
  | [], _, optRecord => (optRecord, none)
  | .opt record :: rest, index, _ =>
    match firstSubnet record.option with
    | some position => (some index, some position)
    | none => findExists rest (index + 1) (some index)
  | .other _ :: rest, index, _ => findExists rest (index + 1) none

/-- The element at `position` of a list replaced by its image under `f`. -/
def modifyAt {α : Type} (f : α → α) : Nat → List α → List α
  | _, [] => []
  | 0, x :: rest => f x :: rest
  | position + 1, x :: rest => x :: modifyAt f position rest

/-- The assignments to `Family`, `SourceNetmask` and `Address` (49-55). -/
def EDNS0.assign (clientSubnet : CIDR) : EDNS0 → EDNS0
  | .subnet code _ _ sourceScope _ =>
    .subnet code (if clientSubnet.Addr.Is4 then 1 else 2) (clientSubnet.Bits % 256).toNat
      sourceScope clientSubnet.Addr.AsSlice
  | option => option

/-- Lines 44-55 on the record that `optRecord` points to: a new subnet option is
appended when `subnetOption` is `nil`, and the fields of the subnet option are
assigned. -/
def OPT.write (optRecord : OPT) (subnetOption : Option Nat) (clientSubnet : CIDR) : OPT :=
  match subnetOption with
  | some position =>
    { optRecord with option := modifyAt (EDNS0.assign clientSubnet) position optRecord.option }
  | none =>
    let added := optRecord.option ++ [EDNS0.subnet EDNS0SUBNET 0 0 0 []]
    { optRecord with
      option := modifyAt (EDNS0.assign clientSubnet) optRecord.option.length added }

/-- Lines 44-56 on a message whose record at `index` is the one `optRecord` points to. -/
def ExtraMsg.write (message : ExtraMsg) (index : Nat) (subnetOption : Option Nat)
    (clientSubnet : CIDR) : ExtraMsg :=
  let extra :=
    modifyAt
      (fun record =>
        match record with
        | .opt optRecord => .opt (optRecord.write subnetOption clientSubnet)
        | .other name => .other name)
      index message.extra
  { message with extra := extra }

/-- The function `setClientSubnet`, as a function from the content of the message to
the content of the message it returns. With `clone`, the call on
`message.Copy()` finds the same records and takes the branch without `clone`. -/
def setClientSubnet (message : ExtraMsg) (clientSubnet : CIDR) (clone : Bool) : ExtraMsg :=
  match findExists message.extra 0 none with
  | (none, _) =>
    let optRecord : OPT := { name := ".", rrtype := TypeOPT, option := [] }
    let extended : ExtraMsg := { message with extra := message.extra ++ [.opt optRecord] }
    extended.write message.extra.length none clientSubnet
  | (some index, subnetOption) =>
    if clone then message.Copy.write index subnetOption clientSubnet
    else message.write index subnetOption clientSubnet

/-- The function `SetClientSubnet`. -/
def SetClientSubnet (message : ExtraMsg) (clientSubnet : CIDR) : ExtraMsg :=
  setClientSubnet message clientSubnet true

/-- The library method `dns.Msg.IsEdns0`: the last record of the Extra section whose
header type is `TypeOPT`. -/
def IsEdns0 : List ExtraRR → Option OPT
  | [] => none
  | record :: rest =>
    match IsEdns0 rest with
    | some found => some found
    | none =>
      match record with
      | .opt optRecord => if optRecord.rrtype == TypeOPT then some optRecord else none
      | .other _ => none

/-- The loop of `ExtractClientSubnet` (64-88) over the options. -/
def extractSubnet : List EDNS0 → CIDR × Bool
  | [] => (CIDR.zeroValue, false)
  | .other _ :: rest => extractSubnet rest
  | .subnet _ family sourceNetmask _ address :: _ =>
    let bits : Int := sourceNetmask
    if family == 1 then
      if bits > 32 then (CIDR.zeroValue, false)
      else ((PrefixFrom (AddrFrom4 (copyBytes 4 address)) bits).Masked, true)
    else if family == 2 then
      if bits > 128 then (CIDR.zeroValue, false)
      else ((PrefixFrom (AddrFrom16 (copyBytes 16 address)) bits).Masked, true)
    else (CIDR.zeroValue, false)

/-- The function `ExtractClientSubnet`. -/
def ExtractClientSubnet (message : ExtraMsg) : CIDR × Bool :=
  match IsEdns0 message.extra with
  | none => (CIDR.zeroValue, false)
  | some edns0Opt => extractSubnet edns0Opt.option

/-- A valid prefix as the library builds one: an IPv4 address of 4 bytes with at most
32 bits, or an IPv6 address of 16 bytes without zone with at most 128 bits. -/
def CIDR.IsValidSubnet (p : CIDR) : Prop :=
  (∃ bytes, p.ip = .v4 bytes ∧ bytes.length = 4 ∧ 1 ≤ p.bitsPlusOne ∧ p.bitsPlusOne ≤ 33) ∨
  (∃ bytes, p.ip = .v6 bytes "" ∧ bytes.length = 16 ∧ 1 ≤ p.bitsPlusOne ∧ p.bitsPlusOne ≤ 129)

/-- The record is a `*dns.OPT`. -/
def ExtraRR.isOPT : ExtraRR → Bool
  | .opt _ => true
  | .other _ => false

/-- The message carries at most one OPT record, and that record has the header type
`TypeOPT`. -/
def AtMostOneOPT (message : ExtraMsg) : Prop :=
  (message.extra.filter ExtraRR.isOPT).length ≤ 1 ∧
  ∀ record, ExtraRR.opt record ∈ message.extra → record.rrtype = TypeOPT

/-- The prefix 192.168.1.77/24. -/
def sampleSubnet : CIDR := { ip := .v4 [192, 168, 1, 77], bitsPlusOne := 25 }

/-- An empty message. -/
def emptyMsg : Msg := { id := 0, response := false, rcode := 0, question := [], answer := [] }

/-- A message whose Extra section holds a record of another type and then an OPT record
with a cookie option and a subnet option for 10.0.0.0/8. -/
def sampleExtraMsg : ExtraMsg :=
  { base := emptyMsg,
    extra := [.other "tsig",
      .opt { name := ".", rrtype := 41,
             option := [.other 10, .subnet 8 1 8 0 [10, 0, 0, 0]] }] }

/-! ## The rule loops: calls and frames -/

/-- The number of `matchDNS` calls among the calls of a routing entry point. -/
def matchCalls : List Effect → Nat
  | [] => 0
  | .matchDNS _ _ _ _ :: rest => matchCalls rest + 1
  | _ :: rest => matchCalls rest

/-- The router with another list of rules and everything else as it is. -/
def Router.withRules (r : Router) (rules : List DNSRule) : Router :=
  { r with rules := rules }

/-- A router over `sampleManager` with the given rules and no default transport. -/
def routerNoDefault (rules : List DNSRule) : Router :=
  { rules := rules, transport := sampleManager, defaultTransport := none,
    defaultDomainStrategy := DomainStrategy.asIS,
    upstreamTimeout := 0, fallbackTimeout := 0, fallbackGrace := 0, sharedCache := true }

/-- Schedules without any result. -/
def noResults {ρ : Type} : Int → List (Event ρ) := fun _ => []

/-- A matching route-options rule that asks for IPv4 only, no cache, a TTL of 60 and a
client subnet. -/
def strictOptions : DNSRule :=
  { withAddressLimit := false, matched := true, description := "options",
    action := .routeOptions
      { strategy := DomainStrategy.ipv4Only, disableCache := true, rewriteTTL := some 60,
        clientSubnet := some "10.0.0.0/8" } }

/-- Exchange schedules: the race for the rule at index 1 ends in a rejection, every
other race brings a NoError answer of "b". -/
def rejectAtOne : Int → List (Event QueryResult)
  | 1 => [Event.result { response := none, err := some (.sentinel .ErrResponseRejected),
                         transport := transportA }]
  | _ => [Event.result { response := some answerOK, err := none, transport := transportB }]

/-! ## EDNS0 client subnet: what `setClientSubnet` leaves in the message -/

/-- The option at `position` of the OPT record at `index` of an Extra section. -/
def optionAt (extra : List ExtraRR) (index position : Nat) : Option EDNS0 :=
  match extra.get? index with
  | some (.opt record) => record.option.get? position
  | _ => none

/-- The option that `subnetOption` points to when `setClientSubnet` returns, read in the
returned message: the option that the loop `findExists` found, or else the one
appended (44-48) to the record that `optRecord` points to, which is the record
the loop ended on or the record appended (31-41). -/
def writtenSubnetOption (message : ExtraMsg) (clientSubnet : CIDR) (clone : Bool) :
    Option EDNS0 :=
  let returned := (setClientSubnet message clientSubnet clone).extra
  match findExists message.extra 0 none with
  | (none, _) => optionAt returned message.extra.length 0
  | (some index, some position) => optionAt returned index position
  | (some index, none) =>
    match message.extra.get? index with
    | some (.opt record) => optionAt returned index record.option.length
    | _ => none

/-- A message whose Extra section holds an OPT record without options and then a record
of another type. -/
def optThenOther : ExtraMsg :=
  { base := emptyMsg,
    extra := [.opt { name := ".", rrtype := 41, option := [] }, .other "tsig"] }

/-- The number of subnet options of each OPT record of an Extra section, in order. -/
def subnetCounts : List ExtraRR → List Nat
  | [] => []
  | .opt record :: rest => (record.option.filter EDNS0.isSubnet).length :: subnetCounts rest
  | .other _ :: rest => subnetCounts rest

/-! ## JSONC (common/jsonc/jsonc.go) -/

/-- A call of one of the two library functions, with the bytes passed to it. -/
inductive JsoncCall where
  | unmarshal (content : List Nat)
  | standardize (content : List Nat)
deriving DecidableEq, Repr

/-- What a function of the package returns, with the library calls it made, in order. -/
structure JsoncReturn (α ε : Type) where
  value : α
  err : Option ε
  calls : List JsoncCall

/-- The function `jsonc.UnmarshalExtended`. `unmarshal` stands for the library function
`json.UnmarshalExtended[T]` and `standardize` for `hujson.Standardize`, each with
the error it returns, `none` being nil; `zero` is the zero value of `T`. -/
def UnmarshalExtended {α ε : Type} (unmarshal : List Nat → α × Option ε)
    (standardize : List Nat → List Nat × Option ε) (zero : α) (b : List Nat) :
    JsoncReturn α ε :=
  match unmarshal b with
  | (v, none) => { value := v, err := none, calls := [.unmarshal b] }
  | (_, some err) =>
    match standardize b with
    | (_, some _) =>
      { value := zero, err := some err, calls := [.unmarshal b, .standardize b] }
    | (b2, none) =>
      { value := (unmarshal b2).1, err := (unmarshal b2).2,
        calls := [.unmarshal b, .standardize b, .unmarshal b2] }

/-- The function `jsonc.UnmarshalExtendedContext`. `unmarshalContext` stands for the
library function `json.UnmarshalExtendedContext[T]`. -/
def UnmarshalExtendedContext {κ α ε : Type} (unmarshalContext : κ → List Nat → α × Option ε)
    (standardize : List Nat → List Nat × Option ε) (zero : α) (ctx : κ) (b : List Nat) :
    JsoncReturn α ε :=
  match unmarshalContext ctx b with
  | (v, none) => { value := v, err := none, calls := [.unmarshal b] }
  | (_, some err) =>
    match standardize b with
    | (_, some _) =>
      { value := zero, err := some err, calls := [.unmarshal b, .standardize b] }
    | (b2, none) =>
      { value := (unmarshalContext ctx b2).1, err := (unmarshalContext ctx b2).2,
        calls := [.unmarshal b, .standardize b, .unmarshal b2] }

/-- A stand-in for the parser in concrete runs: the bytes of `7` parse to 7, anything
else is an error. -/
def toyUnmarshal (b : List Nat) : Nat × Option String :=
  if b = [55] then (7, none) else (0, some "invalid character")

/-- A stand-in for the standardizer in concrete runs: it drops a trailing comma, and
fails on input that starts with `!`. -/
def toyStandardize (b : List Nat) : List Nat × Option String :=
  if b.head? = some 33 then ([], some "hujson: invalid character")
  else (b.filter (fun c => c != 44), none)

/-! ## Further inputs for concrete runs -/

/-- A matching route rule with an address limit that routes to the transports "a" and
"b". -/
def limitedRouteAB : DNSRule :=
  { withAddressLimit := true, matched := true, description := "ip_cidr",
    action := .route
      { servers := ["a", "b"], fallbackServers := [], strategy := DomainStrategy.asIS,
        disableCache := false, rewriteTTL := none, clientSubnet := none,
        upstreamTimeout := 0, fallbackTimeout := 0, fallbackGrace := 0 } }

/-- Exchange schedules: in the race for rule 0 the answer of "a" is rejected and "b"
times out, the race for the default transport brings a NoError answer. -/
def rejectAndTimeoutMsg : Int → List (Event QueryResult)
  | 0 => [Event.result { response := none, err := some (.sentinel .ErrResponseRejected),
                         transport := transportA },
          Event.result { response := none, err := some (.new "timeout"),
                         transport := transportB }]
  | _ => [Event.result { response := some answerOK, err := none, transport := transportB }]

/-- The sticky-sessions group of two members that are both tagged "a", fresh, with an
empty history store. -/
def stickyDup : LoadBalanceGroup :=
  newLoadBalanceGroup [outA, outA2] LoadBalanceStrategyStickySessions []

/-- A message with two OPT records: the first holds a subnet option for 192.168.1.0/24,
the second holds no option. -/
def twoOptMsg : ExtraMsg :=
  { base := emptyMsg,
    extra := [.opt { name := ".", rrtype := 41, option := [.subnet 8 1 24 0 [192, 168, 1, 0]] },
      .opt { name := ".", rrtype := 41, option := [] }] }

/-! ## Lemmas on the exchange collection loop -/

theorem exchangeCollect_step (Errors : List DNSError → Option DNSError) (n : Nat)
    (r : QueryResult) (rest : List (Event QueryResult)) (st : ExchangeRaceState)
    (hr : isNoErrorSuccess r = false) :
    exchangeCollect Errors (n + 1) (Event.result r :: rest) st
      = exchangeCollect Errors n rest (exchangeAbsorb st r) := by
  rw [exchangeCollect]
  unfold exchangeAbsorb
  cases hre : r.err with
  | some e => simp only []
  | none =>
    cases hresp : r.response with
    | none => rfl
    | some m =>
      have hm : (m.rcode == RcodeSuccess) = false := by
        simpa [isNoErrorSuccess, hre, hresp] using hr
      simp [hm]

theorem exchangeCollect_results (Errors : List DNSError → Option DNSError)
    (rs : List QueryResult) :
    ∀ (n : Nat) (rest : List (Event QueryResult)) (st : ExchangeRaceState),
      (∀ r ∈ rs, isNoErrorSuccess r = false) →
      exchangeCollect Errors (rs.length + n) (rs.map Event.result ++ rest) st
        = exchangeCollect Errors n rest (rs.foldl exchangeAbsorb st) := by
  induction rs with
  | nil => intro n rest st _; simp
  | cons r rs ih =>
    intro n rest st h
    have hr : isNoErrorSuccess r = false := h r (List.mem_cons_self _ _)
    have hrs : ∀ x ∈ rs, isNoErrorSuccess x = false :=
      fun x hx => h x (List.mem_cons_of_mem _ hx)
    have hlen : (r :: rs).length + n = (rs.length + n) + 1 := by
      simp [List.length_cons]; omega
    rw [hlen]
    simp only [List.map_cons, List.cons_append, List.foldl_cons]
    rw [exchangeCollect_step Errors _ r _ st hr]
    exact ih n rest (exchangeAbsorb st r) hrs

theorem exchangeAbsorb_fold_errorsList (rs : List QueryResult) :
    ∀ st : ExchangeRaceState,
      (rs.foldl exchangeAbsorb st).errorsList = st.errorsList ++ reportedErrors rs := by
  induction rs with
  | nil => intro st; simp [reportedErrors]
  | cons r rs ih =>
    intro st
    simp only [List.foldl_cons]
    rw [ih]
    unfold exchangeAbsorb reportedErrors
    cases hre : r.err with
    | none =>
      cases hresp : r.response with
      | none => simp [List.filterMap_cons, hre]
      | some m =>
        by_cases hf : st.hasFallback = true <;> simp [List.filterMap_cons, hre, hf]
    | some e =>
      by_cases h1 : errorsIs e .ErrResponseRejectedCached = true
      · simp [List.filterMap_cons, hre, h1]
      · by_cases h2 : errorsIs e .ErrResponseRejected = true <;>
          simp [List.filterMap_cons, hre, h1, h2]

theorem exchangeAbsorb_fold_allRejectedOnly (rs : List QueryResult) :
    ∀ st : ExchangeRaceState,
      (rs.foldl exchangeAbsorb st).allRejectedOnly
        = (st.allRejectedOnly && (reportedErrors rs).all isCachedReject) := by
  induction rs with
  | nil => intro st; simp [reportedErrors]
  | cons r rs ih =>
    intro st
    simp only [List.foldl_cons]
    rw [ih]
    unfold exchangeAbsorb reportedErrors isCachedReject
    cases hre : r.err with
    | none =>
      cases hresp : r.response with
      | none => simp [List.filterMap_cons, hre]
      | some m =>
        by_cases hf : st.hasFallback = true <;> simp [List.filterMap_cons, hre, hf]
    | some e =>
      by_cases h1 : errorsIs e .ErrResponseRejectedCached = true
      · simp [List.filterMap_cons, hre, h1]
      · by_cases h2 : errorsIs e .ErrResponseRejected = true <;>
          simp [List.filterMap_cons, hre, h1, h2]

theorem exchangeAbsorb_fold_allRejected (rs : List QueryResult) :
    ∀ st : ExchangeRaceState,
      (rs.foldl exchangeAbsorb st).allRejected
        = (st.allRejected && (reportedErrors rs).all isRejectClass) := by
  induction rs with
  | nil => intro st; simp [reportedErrors]
  | cons r rs ih =>
    intro st
    simp only [List.foldl_cons]
    rw [ih]
    unfold exchangeAbsorb reportedErrors isRejectClass
    cases hre : r.err with
    | none =>
      cases hresp : r.response with
      | none => simp [List.filterMap_cons, hre]
      | some m =>
        by_cases hf : st.hasFallback = true <;> simp [List.filterMap_cons, hre, hf]
    | some e =>
      by_cases h1 : errorsIs e .ErrResponseRejectedCached = true
      · simp [List.filterMap_cons, hre, h1]
      · by_cases h2 : errorsIs e .ErrResponseRejected = true <;>
          simp [List.filterMap_cons, hre, h1, h2]

theorem exchangeAbsorb_fold_kept (rs : List QueryResult) :
    ∀ st : ExchangeRaceState, st.hasFallback = true →
      (rs.foldl exchangeAbsorb st).hasFallback = true ∧
      (rs.foldl exchangeAbsorb st).fallbackResponse = st.fallbackResponse ∧
      (rs.foldl exchangeAbsorb st).fallbackTransport = st.fallbackTransport := by
  induction rs with
  | nil => intro st h; simp [h]
  | cons r rs ih =>
    intro st h
    simp only [List.foldl_cons]
    have hstep : (exchangeAbsorb st r).hasFallback = true ∧
        (exchangeAbsorb st r).fallbackResponse = st.fallbackResponse ∧
        (exchangeAbsorb st r).fallbackTransport = st.fallbackTransport := by
      unfold exchangeAbsorb
      cases hre : r.err with
      | none =>
        cases hresp : r.response with
        | none => simp [h]
        | some m => simp [h]
      | some e =>
        by_cases h1 : errorsIs e .ErrResponseRejectedCached = true
        · simp [h1, h]
        · by_cases h2 : errorsIs e .ErrResponseRejected = true <;> simp [h1, h2, h]
    obtain ⟨a, b, c⟩ := ih (exchangeAbsorb st r) hstep.1
    exact ⟨a, b.trans hstep.2.1, c.trans hstep.2.2⟩

theorem exchangeAbsorb_fold_none (rs : List QueryResult) :
    ∀ st : ExchangeRaceState, st.hasFallback = false →
      rs.find? isNonErrorResponse = none →
      (rs.foldl exchangeAbsorb st).hasFallback = false := by
  induction rs with
  | nil => intro st h _; simp [h]
  | cons r rs ih =>
    intro st h hfind
    simp only [List.foldl_cons]
    rw [List.find?_cons] at hfind
    cases hr : isNonErrorResponse r with
    | true => simp [hr] at hfind
    | false =>
      simp only [hr] at hfind
      apply ih _ _ hfind
      unfold exchangeAbsorb
      cases hre : r.err with
      | none =>
        cases hresp : r.response with
        | none => simp [h]
        | some m => simp [isNonErrorResponse, hre, hresp] at hr
      | some e =>
        by_cases h1 : errorsIs e .ErrResponseRejectedCached = true
        · simp [h1, h]
        · by_cases h2 : errorsIs e .ErrResponseRejected = true <;> simp [h1, h2, h]

theorem exchangeAbsorb_fold_first (rs : List QueryResult) :
    ∀ (st : ExchangeRaceState) (w : QueryResult), st.hasFallback = false →
      rs.find? isNonErrorResponse = some w →
      (rs.foldl exchangeAbsorb st).hasFallback = true ∧
      (rs.foldl exchangeAbsorb st).fallbackResponse = w.response ∧
      (rs.foldl exchangeAbsorb st).fallbackTransport = some w.transport := by
  induction rs with
  | nil => intro st w _ hfind; simp at hfind
  | cons r rs ih =>
    intro st w h hfind
    simp only [List.foldl_cons]
    rw [List.find?_cons] at hfind
    cases hr : isNonErrorResponse r with
    | true =>
      simp only [hr, Option.some.injEq] at hfind
      subst hfind
      have hstep : (exchangeAbsorb st r).hasFallback = true ∧
          (exchangeAbsorb st r).fallbackResponse = r.response ∧
          (exchangeAbsorb st r).fallbackTransport = some r.transport := by
        unfold exchangeAbsorb
        cases hre : r.err with
        | none =>
          cases hresp : r.response with
          | none => simp [isNonErrorResponse, hre, hresp] at hr
          | some m => simp [h]
        | some e => simp [isNonErrorResponse, hre] at hr
      obtain ⟨a, b, c⟩ := exchangeAbsorb_fold_kept rs (exchangeAbsorb st r) hstep.1
      exact ⟨a, b.trans hstep.2.1, c.trans hstep.2.2⟩
    | false =>
      simp only [hr] at hfind
      apply ih _ _ _ hfind
      unfold exchangeAbsorb
      cases hre : r.err with
      | none =>
        cases hresp : r.response with
        | none => simp [h]
        | some m => simp [isNonErrorResponse, hre, hresp] at hr
      | some e =>
        by_cases h1 : errorsIs e .ErrResponseRejectedCached = true
        · simp [h1, h]
        · by_cases h2 : errorsIs e .ErrResponseRejected = true <;> simp [h1, h2, h]

theorem find_none_of_all_errors (rs : List QueryResult) (herr : ∀ r ∈ rs, r.err ≠ none) :
    rs.find? isNonErrorResponse = none := by
  rw [List.find?_eq_none]
  intro r hr
  have := herr r hr
  cases hre : r.err with
  | none => exact absurd hre this
  | some e => simp [isNonErrorResponse, hre]

theorem noSuccess_of_all_errors (rs : List QueryResult) (herr : ∀ r ∈ rs, r.err ≠ none) :
    ∀ r ∈ rs, isNoErrorSuccess r = false := by
  intro r hr
  have := herr r hr
  cases hre : r.err with
  | none => exact absurd hre this
  | some e => simp [isNoErrorSuccess, hre]

/-- The collection loop on a schedule of failures only. -/
theorem exchangeCollect_all_errors (Errors : List DNSError → Option DNSError)
    (rs : List QueryResult) (later : List (Event QueryResult))
    (herr : ∀ r ∈ rs, r.err ≠ none) :
    exchangeCollect Errors rs.length (rs.map Event.result ++ later) ExchangeRaceState.init
      = some { response := none, transport := none,
               err := if (reportedErrors rs).all isCachedReject then
                        some (.sentinel .ErrResponseRejectedCached)
                      else if (reportedErrors rs).all isRejectClass then
                        some (.sentinel .ErrResponseRejected)
                      else Errors (reportedErrors rs) } := by
  have h0 := exchangeCollect_results Errors rs 0 later ExchangeRaceState.init
    (noSuccess_of_all_errors rs herr)
  rw [Nat.add_zero] at h0
  rw [h0]
  have hf : (rs.foldl exchangeAbsorb ExchangeRaceState.init).hasFallback = false :=
    exchangeAbsorb_fold_none rs ExchangeRaceState.init rfl (find_none_of_all_errors rs herr)
  have ho : (rs.foldl exchangeAbsorb ExchangeRaceState.init).allRejectedOnly
      = (reportedErrors rs).all isCachedReject := by
    rw [exchangeAbsorb_fold_allRejectedOnly]; rfl
  have ha : (rs.foldl exchangeAbsorb ExchangeRaceState.init).allRejected
      = (reportedErrors rs).all isRejectClass := by
    rw [exchangeAbsorb_fold_allRejected]; rfl
  have he : (rs.foldl exchangeAbsorb ExchangeRaceState.init).errorsList
      = reportedErrors rs := by
    rw [exchangeAbsorb_fold_errorsList]; rfl
  have hfin : exchangeCollect Errors 0 later (rs.foldl exchangeAbsorb ExchangeRaceState.init)
      = some (exchangeFinish Errors (rs.foldl exchangeAbsorb ExchangeRaceState.init)) := by
    cases later <;> rfl
  rw [hfin]
  unfold exchangeFinish
  rw [hf, ho, ha, he]
  by_cases h1 : (reportedErrors rs).all isCachedReject = true
  · simp [h1]
  · by_cases h2 : (reportedErrors rs).all isRejectClass = true
    · simp only [h1, h2]; simp
    · simp only [h1, h2]; simp

theorem exchangeCollect_success (Errors : List DNSError → Option DNSError) (n : Nat)
    (w : QueryResult) (rest : List (Event QueryResult)) (st : ExchangeRaceState)
    (hw : isNoErrorSuccess w = true) :
    exchangeCollect Errors (n + 1) (Event.result w :: rest) st
      = some { response := w.response, transport := some w.transport, err := none } := by
  rw [exchangeCollect]
  cases hre : w.err with
  | some e => simp [isNoErrorSuccess, hre] at hw
  | none =>
    cases hresp : w.response with
    | none => simp [isNoErrorSuccess, hre, hresp] at hw
    | some m =>
      have hm : (m.rcode == RcodeSuccess) = true := by
        simpa [isNoErrorSuccess, hre, hresp] using hw
      simp [hm]

theorem exchangeCollect_ctxDone (Errors : List DNSError → Option DNSError) (n : Nat)
    (e : ContextErr) (rest : List (Event QueryResult)) (st : ExchangeRaceState) :
    exchangeCollect Errors (n + 1) (Event.ctxDone e :: rest) st
      = if st.hasFallback then
          some { response := st.fallbackResponse, transport := st.fallbackTransport,
                 err := none }
        else some { response := none, transport := none, err := some (.context e) } := by
  rw [exchangeCollect]

theorem find_first_of_split {α : Type} (f : α → Bool) (pre : List α) (w : α) (post : List α)
    (hpre : ∀ x ∈ pre, f x = false) (hw : f w = true) :
    (pre ++ w :: post).find? f = some w := by
  induction pre with
  | nil => simp [List.find?_cons, hw]
  | cons x xs ih =>
    have hx := hpre x (List.mem_cons_self _ _)
    simp only [List.cons_append, List.find?_cons, hx]
    exact ih (fun y hy => hpre y (List.mem_cons_of_mem _ hy))

theorem find_none_of_all_false {α : Type} (f : α → Bool) (xs : List α)
    (h : ∀ x ∈ xs, f x = false) : xs.find? f = none := by
  rw [List.find?_eq_none]
  intro x hx
  simp [h x hx]

/-- Whatever the exchange collection loop returns without error comes from the
variables it retained or from a single received result. -/
theorem exchangeCollect_provenance (Errors : List DNSError → Option DNSError)
    (P : Option Msg → Option DNSTransport → Prop) (events : List (Event QueryResult)) :
    ∀ (n : Nat) (st : ExchangeRaceState) (ret : ExchangeReturn),
      (st.hasFallback = true → P st.fallbackResponse st.fallbackTransport) →
      (∀ r m, Event.result r ∈ events → r.err = none → r.response = some m →
        P (some m) (some r.transport)) →
      exchangeCollect Errors n events st = some ret →
      (ret.response = none ∧ ret.transport = none) ∨
      (ret.err = none ∧ P ret.response ret.transport) := by
  induction events with
  | nil =>
    intro n st ret hst _ hrun
    cases n with
    | zero =>
      simp only [exchangeCollect, exchangeFinish, Option.some.injEq] at hrun
      by_cases hf : st.hasFallback = true
      · rw [if_pos hf] at hrun
        subst hrun
        exact Or.inr ⟨rfl, hst hf⟩
      · rw [if_neg hf] at hrun
        left
        split at hrun
        · subst hrun; exact ⟨rfl, rfl⟩
        · split at hrun <;> (subst hrun; exact ⟨rfl, rfl⟩)
    | succ n => simp [exchangeCollect] at hrun
  | cons ev events ih =>
    intro n st ret hst hev hrun
    cases n with
    | zero =>
      simp only [exchangeCollect, exchangeFinish, Option.some.injEq] at hrun
      by_cases hf : st.hasFallback = true
      · rw [if_pos hf] at hrun
        subst hrun
        exact Or.inr ⟨rfl, hst hf⟩
      · rw [if_neg hf] at hrun
        left
        split at hrun
        · subst hrun; exact ⟨rfl, rfl⟩
        · split at hrun <;> (subst hrun; exact ⟨rfl, rfl⟩)
    | succ n =>
      cases ev with
      | ctxDone e =>
        rw [exchangeCollect_ctxDone] at hrun
        by_cases hf : st.hasFallback = true
        · rw [if_pos hf, Option.some.injEq] at hrun
          subst hrun
          exact Or.inr ⟨rfl, hst hf⟩
        · rw [if_neg hf, Option.some.injEq] at hrun
          subst hrun
          exact Or.inl ⟨rfl, rfl⟩
      | result r =>
        have hev2 : ∀ r2 m, Event.result r2 ∈ events → r2.err = none → r2.response = some m →
            P (some m) (some r2.transport) :=
          fun r2 m h2 => hev r2 m (List.mem_cons_of_mem _ h2)
        cases hs : isNoErrorSuccess r with
        | true =>
          rw [exchangeCollect_success Errors n r events st hs, Option.some.injEq] at hrun
          subst hrun
          right
          refine ⟨rfl, ?_⟩
          cases hre : r.err with
          | some e => simp [isNoErrorSuccess, hre] at hs
          | none =>
            cases hresp : r.response with
            | none => simp [isNoErrorSuccess, hre, hresp] at hs
            | some m => exact hev r m (List.mem_cons_self _ _) hre hresp
        | false =>
          rw [exchangeCollect_step Errors n r events st hs] at hrun
          refine ih n (exchangeAbsorb st r) ret ?_ hev2 hrun
          intro hf
          unfold exchangeAbsorb at hf ⊢
          cases hre : r.err with
          | none =>
            cases hresp : r.response with
            | none =>
              simp only [hre, hresp] at hf ⊢
              exact hst hf
            | some m =>
              simp only [hre, hresp] at hf ⊢
              by_cases hf0 : st.hasFallback = true
              · simp only [hf0, Bool.not_true, Bool.false_eq_true, if_false] at hf ⊢
                exact hst hf0
              · have hf1 : st.hasFallback = false := by simpa using hf0
                simp only [hf1, Bool.not_false, if_true]
                exact hev r m (List.mem_cons_self _ _) hre hresp
          | some e =>
            simp only [hre] at hf ⊢
            by_cases h1 : errorsIs e .ErrResponseRejectedCached = true
            · simp only [h1, if_true] at hf ⊢
              exact hst hf
            · by_cases h2 : errorsIs e .ErrResponseRejected = true
              · simp only [h1, h2, if_true, if_false] at hf ⊢
                exact hst hf
              · simp only [h1, h2, if_false] at hf ⊢
                exact hst hf

/-! ## Claims on the exchange racer -/

/-- C1: in a run of `exchangeRacer`, or of the collection loop of
`exchangeHedgedRacer`, over N >= 1 tasks where the parent context stays live and
every task reports an error, the racer returns `ErrResponseRejectedCached` when
every error is the cached rejection, `ErrResponseRejected` when every error is a
rejection and one of them is not the cached one, and `Errors` of all the reported
errors, in arrival order, when some error is not a rejection. -/
theorem exchangeRacer_all_errors_verdict (Errors : List DNSError → Option DNSError)
    (transports primary fallback : List DNSTransport) (upstreamTimeout : Int)
    (rs : List QueryResult) (later : List (Event QueryResult))
    (hN : 1 ≤ rs.length)
    (hplain : transports.length = rs.length)
    (hT : 0 < upstreamTimeout) (hfb : fallback ≠ [])
    (hhedged : primary.length + fallback.length = rs.length)
    (herr : ∀ r ∈ rs, r.err ≠ none) :
    (reportedErrors rs).length = rs.length ∧ reportedErrors rs ≠ [] ∧
    ∀ out : Option ExchangeReturn,
      (out = exchangeRacer Errors transports (rs.map Event.result ++ later) ∨
       out = exchangeHedgedRacer Errors primary fallback upstreamTimeout
               (rs.map Event.result ++ later)) →
      ((∀ e ∈ reportedErrors rs, isCachedReject e = true) →
        out = some { response := none, transport := none,
                     err := some (.sentinel .ErrResponseRejectedCached) }) ∧
      ((∀ e ∈ reportedErrors rs, isRejectClass e = true) →
        (∃ e ∈ reportedErrors rs, isCachedReject e = false) →
        out = some { response := none, transport := none,
                     err := some (.sentinel .ErrResponseRejected) }) ∧
      ((∃ e ∈ reportedErrors rs, isRejectClass e = false) →
        out = some { response := none, transport := none,
                     err := Errors (reportedErrors rs) }) := by
  have hcount : (reportedErrors rs).length = rs.length := by
    clear hN hplain hhedged
    revert herr
    induction rs with
    | nil => intro _; rfl
    | cons r rs ih =>
      intro herr
      have hr := herr r (List.mem_cons_self _ _)
      cases hre : r.err with
      | none => exact absurd hre hr
      | some e =>
        have := ih (fun x hx => herr x (List.mem_cons_of_mem _ hx))
        simp only [reportedErrors] at this ⊢
        simp [List.filterMap_cons, hre, this]
  refine ⟨hcount, ?_, ?_⟩
  · intro hnil
    rw [hnil] at hcount
    simp only [List.length_nil] at hcount
    omega
  have hcore := exchangeCollect_all_errors Errors rs later herr
  have hout : ∀ out : Option ExchangeReturn,
      (out = exchangeRacer Errors transports (rs.map Event.result ++ later) ∨
       out = exchangeHedgedRacer Errors primary fallback upstreamTimeout
               (rs.map Event.result ++ later)) →
      out = exchangeCollect Errors rs.length (rs.map Event.result ++ later)
              ExchangeRaceState.init := by
    intro out h
    rcases h with h | h
    · rw [h, exchangeRacer, hplain]
    · have hne : ¬ (upstreamTimeout ≤ 0 ∨ fallback.length = 0) := by
        intro hc
        rcases hc with hc | hc
        · omega
        · exact hfb (List.length_eq_zero.mp hc)
      rw [h, exchangeHedgedRacer, if_neg hne, hhedged]
  intro out h
  rw [hout out h, hcore]
  refine ⟨?_, ?_, ?_⟩
  · intro hall
    have : (reportedErrors rs).all isCachedReject = true := List.all_eq_true.mpr hall
    rw [if_pos this]
  · intro hall hex
    have h1 : ¬ ((reportedErrors rs).all isCachedReject = true) := by
      intro hc
      obtain ⟨e, he, hne⟩ := hex
      have := List.all_eq_true.mp hc e he
      rw [hne] at this
      exact Bool.false_ne_true this
    have h2 : (reportedErrors rs).all isRejectClass = true := List.all_eq_true.mpr hall
    rw [if_neg h1, if_pos h2]
  · intro hex
    obtain ⟨e, he, hne⟩ := hex
    have h2 : ¬ ((reportedErrors rs).all isRejectClass = true) := by
      intro hc
      have := List.all_eq_true.mp hc e he
      rw [hne] at this
      exact Bool.false_ne_true this
    have h1 : ¬ ((reportedErrors rs).all isCachedReject = true) := by
      intro hc
      have := List.all_eq_true.mp hc e he
      have hr : isRejectClass e = true := by
        simp only [isRejectClass, Bool.or_eq_true]
        exact Or.inl this
      rw [hne] at hr
      exact Bool.false_ne_true hr
    rw [if_neg h1, if_neg h2]

/-- C1 at two transports: one reports the plain rejection, the other the cached
one, and the racer returns `ErrResponseRejected`. -/
theorem exchangeRacer_all_errors_verdict_witness :
    exchangeRacer sampleErrors [transportA, transportB]
        ([{ response := none, err := some (.sentinel .ErrResponseRejected),
            transport := transportA },
          { response := none, err := some (.sentinel .ErrResponseRejectedCached),
            transport := transportB }].map Event.result ++ [])
      = some { response := none, transport := none,
               err := some (.sentinel .ErrResponseRejected) } :=
  ((exchangeRacer_all_errors_verdict sampleErrors [transportA, transportB] [transportA]
      [transportB] 200
      [{ response := none, err := some (.sentinel .ErrResponseRejected),
         transport := transportA },
       { response := none, err := some (.sentinel .ErrResponseRejectedCached),
         transport := transportB }] []
      (by decide) rfl (by decide) (by simp) rfl
      (by intro r hr; simp at hr; rcases hr with rfl | rfl <;> simp)).2.2 _ (Or.inl rfl)).2.1
    (by intro e he
        simp [reportedErrors] at he
        rcases he with rfl | rfl <;> rfl)
    ⟨.sentinel .ErrResponseRejected, by simp [reportedErrors], rfl⟩

theorem hedged_is_collect (Errors : List DNSError → Option DNSError)
    (primary fallback : List DNSTransport) (upstreamTimeout : Int)
    (events : List (Event QueryResult)) (hT : 0 < upstreamTimeout) (hfb : fallback ≠ []) :
    exchangeHedgedRacer Errors primary fallback upstreamTimeout events
      = exchangeCollect Errors (primary.length + fallback.length) events
          ExchangeRaceState.init := by
  have hne : ¬ (upstreamTimeout ≤ 0 ∨ fallback.length = 0) := by
    intro hc
    rcases hc with hc | hc
    · omega
    · exact hfb (List.length_eq_zero.mp hc)
  rw [exchangeHedgedRacer, if_neg hne]

/-- The collection loop when a NoError success arrives after `pre`. -/
theorem exchangeCollect_first_success (Errors : List DNSError → Option DNSError) (total : Nat)
    (pre : List QueryResult) (w : QueryResult) (later : List (Event QueryResult))
    (hpre : ∀ r ∈ pre, isNoErrorSuccess r = false) (hw : isNoErrorSuccess w = true)
    (hlen : pre.length < total) :
    exchangeCollect Errors total (pre.map Event.result ++ Event.result w :: later)
        ExchangeRaceState.init
      = some { response := w.response, transport := some w.transport, err := none } := by
  obtain ⟨k, hk⟩ : ∃ k, total = pre.length + (k + 1) := ⟨total - pre.length - 1, by omega⟩
  rw [hk, exchangeCollect_results Errors pre (k + 1) _ _ hpre,
    exchangeCollect_success Errors k w later _ hw]

/-- C2: if a result with nil error and a NoError response is received while the
parent context is live, after results `pre` none of which is such a success, the
exchange racer (plain or hedged) returns exactly that result's response and
transport with a nil error; and in every run the returned response and transport
are either both nil or both taken from one and the same received result. -/
theorem exchangeRacer_first_success_wins (Errors : List DNSError → Option DNSError)
    (transports primary fallback : List DNSTransport) (upstreamTimeout : Int)
    (pre : List QueryResult) (w : QueryResult) (later : List (Event QueryResult))
    (hpre : ∀ r ∈ pre, isNoErrorSuccess r = false) (hw : isNoErrorSuccess w = true)
    (hplain : pre.length < transports.length)
    (hT : 0 < upstreamTimeout) (hfb : fallback ≠ [])
    (hhedged : pre.length < primary.length + fallback.length) :
    exchangeRacer Errors transports (pre.map Event.result ++ Event.result w :: later)
      = some { response := w.response, transport := some w.transport, err := none } ∧
    exchangeHedgedRacer Errors primary fallback upstreamTimeout
        (pre.map Event.result ++ Event.result w :: later)
      = some { response := w.response, transport := some w.transport, err := none } ∧
    ∀ (events : List (Event QueryResult)) (ret : ExchangeReturn),
      (exchangeRacer Errors transports events = some ret ∨
       exchangeHedgedRacer Errors primary fallback upstreamTimeout events = some ret) →
      (ret.response = none ∧ ret.transport = none) ∨
      (∃ r, Event.result r ∈ events ∧ r.err = none ∧ r.response ≠ none ∧
        ret = { response := r.response, transport := some r.transport, err := none }) := by
  refine ⟨?_, ?_, ?_⟩
  · exact exchangeCollect_first_success Errors _ pre w later hpre hw hplain
  · rw [hedged_is_collect Errors primary fallback upstreamTimeout _ hT hfb]
    exact exchangeCollect_first_success Errors _ pre w later hpre hw hhedged
  · intro events ret hrun
    have hcollect : ∃ n, exchangeCollect Errors n events ExchangeRaceState.init = some ret := by
      rcases hrun with h | h
      · exact ⟨_, h⟩
      · rw [hedged_is_collect Errors primary fallback upstreamTimeout _ hT hfb] at h
        exact ⟨_, h⟩
    obtain ⟨n, hn⟩ := hcollect
    have := exchangeCollect_provenance Errors
      (fun resp tr => ∃ r, Event.result r ∈ events ∧ r.err = none ∧ r.response ≠ none ∧
        resp = r.response ∧ tr = some r.transport)
      events n ExchangeRaceState.init ret
      (by intro h; simp [ExchangeRaceState.init] at h)
      (by intro r m hmem hre hresp
          exact ⟨r, hmem, hre, by simp [hresp], hresp.symm, rfl⟩)
      hn
    rcases this with h | ⟨herr, r, hmem, hre, hne, hresp, htr⟩
    · exact Or.inl h
    · right
      refine ⟨r, hmem, hre, hne, ?_⟩
      cases ret with
      | mk a b c =>
        simp only at herr hresp htr
        simp [herr, hresp, htr]

/-- C2 at two transports: a generic failure arrives first, then a NoError answer
from the second transport, which is returned with its own transport. -/
theorem exchangeRacer_first_success_wins_witness :
    exchangeRacer sampleErrors [transportA, transportB]
        ([{ response := none, err := some (.new "timeout"), transport := transportA }].map
            Event.result ++
          Event.result { response := some answerOK, err := none, transport := transportB } :: [])
      = some { response := some answerOK, transport := some transportB, err := none } :=
  (exchangeRacer_first_success_wins sampleErrors [transportA, transportB] [transportA]
    [transportB] 200
    [{ response := none, err := some (.new "timeout"), transport := transportA }]
    { response := some answerOK, err := none, transport := transportB } []
    (by intro r hr; simp at hr; subst hr; rfl) rfl (by decide) (by decide) (by simp)
    (by decide)).1

/-- C3: if all N tasks report while the parent context is live, no result is a
NoError success, and `w` is the first result in arrival order that carries no
error and a response, the exchange racer (plain or hedged) returns the response
of `w` with the transport of `w` and a nil error, whatever errors the other
tasks reported. -/
theorem exchangeRacer_first_other_rcode_kept (Errors : List DNSError → Option DNSError)
    (transports primary fallback : List DNSTransport) (upstreamTimeout : Int)
    (pre : List QueryResult) (w : QueryResult) (post : List QueryResult)
    (later : List (Event QueryResult))
    (hnone : ∀ r ∈ pre ++ w :: post, isNoErrorSuccess r = false)
    (hpre : ∀ r ∈ pre, isNonErrorResponse r = false) (hw : isNonErrorResponse w = true)
    (hplain : transports.length = (pre ++ w :: post).length)
    (hT : 0 < upstreamTimeout) (hfb : fallback ≠ [])
    (hhedged : primary.length + fallback.length = (pre ++ w :: post).length) :
    exchangeRacer Errors transports ((pre ++ w :: post).map Event.result ++ later)
      = some { response := w.response, transport := some w.transport, err := none } ∧
    exchangeHedgedRacer Errors primary fallback upstreamTimeout
        ((pre ++ w :: post).map Event.result ++ later)
      = some { response := w.response, transport := some w.transport, err := none } := by
  have hcore : exchangeCollect Errors (pre ++ w :: post).length
      ((pre ++ w :: post).map Event.result ++ later) ExchangeRaceState.init
      = some { response := w.response, transport := some w.transport, err := none } := by
    have h0 := exchangeCollect_results Errors (pre ++ w :: post) 0 later
      ExchangeRaceState.init hnone
    rw [Nat.add_zero] at h0
    rw [h0]
    obtain ⟨hf, hr, ht⟩ := exchangeAbsorb_fold_first (pre ++ w :: post)
      ExchangeRaceState.init w rfl (find_first_of_split _ pre w post hpre hw)
    have hfin : exchangeCollect Errors 0 later
        ((pre ++ w :: post).foldl exchangeAbsorb ExchangeRaceState.init)
        = some (exchangeFinish Errors
            ((pre ++ w :: post).foldl exchangeAbsorb ExchangeRaceState.init)) := by
      cases later <;> rfl
    rw [hfin]
    unfold exchangeFinish
    rw [hf, hr, ht]
    rfl
  refine ⟨?_, ?_⟩
  · rw [exchangeRacer, hplain]; exact hcore
  · rw [hedged_is_collect Errors primary fallback upstreamTimeout _ hT hfb, hhedged]
    exact hcore

/-- C3 at two transports: a plain rejection, then an NXDOMAIN answer; the answer
is returned with the transport that produced it. -/
theorem exchangeRacer_first_other_rcode_kept_witness :
    exchangeRacer sampleErrors [transportA, transportB]
        ((([{ response := none, err := some (.sentinel .ErrResponseRejected),
              transport := transportA }] : List QueryResult) ++
           ({ response := some answerNX, err := none, transport := transportB } :
              QueryResult) :: []).map
            Event.result ++ [])
      = some { response := some answerNX, transport := some transportB, err := none } :=
  (exchangeRacer_first_other_rcode_kept sampleErrors [transportA, transportB] [transportA]
    [transportB] 200
    [{ response := none, err := some (.sentinel .ErrResponseRejected),
       transport := transportA }]
    { response := some answerNX, err := none, transport := transportB } [] []
    (by intro r hr; simp at hr; rcases hr with rfl | rfl <;> rfl)
    (by intro r hr; simp at hr; subst hr; rfl) rfl rfl (by decide) (by simp) rfl).1

/-- C4: when the exchange racer (plain or hedged) observes the parent context
done after the results `pre`, fewer than N and none of them a NoError success,
it returns the first received non-error response with its transport and a nil
error if there is one, and otherwise `ctx.Err()`; the returned error is thus nil
or the context error, never a rejection and never `Errors` of the collected
errors. -/
theorem exchangeRacer_parent_cancelled (Errors : List DNSError → Option DNSError)
    (transports primary fallback : List DNSTransport) (upstreamTimeout : Int)
    (pre : List QueryResult) (e : ContextErr) (later : List (Event QueryResult))
    (hpre : ∀ r ∈ pre, isNoErrorSuccess r = false)
    (hplain : pre.length < transports.length)
    (hT : 0 < upstreamTimeout) (hfb : fallback ≠ [])
    (hhedged : pre.length < primary.length + fallback.length) :
    ∀ out : Option ExchangeReturn,
      (out = exchangeRacer Errors transports (pre.map Event.result ++ Event.ctxDone e :: later) ∨
       out = exchangeHedgedRacer Errors primary fallback upstreamTimeout
               (pre.map Event.result ++ Event.ctxDone e :: later)) →
      (∀ w, pre.find? isNonErrorResponse = some w →
        out = some { response := w.response, transport := some w.transport, err := none }) ∧
      (pre.find? isNonErrorResponse = none →
        out = some { response := none, transport := none, err := some (.context e) }) ∧
      (∃ ret, out = some ret ∧ (ret.err = none ∨ ret.err = some (.context e)) ∧
        ∀ x, ret.err = some x → isRejectClass x = false) := by
  have hcore : ∀ total, pre.length < total →
      exchangeCollect Errors total (pre.map Event.result ++ Event.ctxDone e :: later)
        ExchangeRaceState.init
      = if (pre.foldl exchangeAbsorb ExchangeRaceState.init).hasFallback then
          some { response := (pre.foldl exchangeAbsorb ExchangeRaceState.init).fallbackResponse,
                 transport := (pre.foldl exchangeAbsorb ExchangeRaceState.init).fallbackTransport,
                 err := none }
        else some { response := none, transport := none, err := some (.context e) } := by
    intro total hlt
    obtain ⟨k, hk⟩ : ∃ k, total = pre.length + (k + 1) := ⟨total - pre.length - 1, by omega⟩
    rw [hk, exchangeCollect_results Errors pre (k + 1) _ _ hpre, exchangeCollect_ctxDone]
  intro out hout
  have hout2 : out = if (pre.foldl exchangeAbsorb ExchangeRaceState.init).hasFallback then
          some { response := (pre.foldl exchangeAbsorb ExchangeRaceState.init).fallbackResponse,
                 transport := (pre.foldl exchangeAbsorb ExchangeRaceState.init).fallbackTransport,
                 err := none }
        else some { response := none, transport := none, err := some (.context e) } := by
    rcases hout with h | h
    · rw [h, exchangeRacer]; exact hcore _ hplain
    · rw [h, hedged_is_collect Errors primary fallback upstreamTimeout _ hT hfb]
      exact hcore _ hhedged
  refine ⟨?_, ?_, ?_⟩
  · intro w hfind
    obtain ⟨hf, hr, ht⟩ := exchangeAbsorb_fold_first pre ExchangeRaceState.init w rfl hfind
    rw [hout2, hf, hr, ht]
    rfl
  · intro hfind
    have hf := exchangeAbsorb_fold_none pre ExchangeRaceState.init rfl hfind
    rw [hout2, hf]
    rfl
  · by_cases hf : (pre.foldl exchangeAbsorb ExchangeRaceState.init).hasFallback = true
    · rw [if_pos hf] at hout2
      exact ⟨_, hout2, Or.inl rfl, by intro x hx; simp at hx⟩
    · rw [if_neg hf] at hout2
      refine ⟨_, hout2, Or.inr rfl, ?_⟩
      intro x hx
      simp only [Option.some.injEq] at hx
      subst hx
      rfl

/-- C4 at two transports: a cached rejection and then cancellation of the parent
context; the racer returns the context error, not the rejection. -/
theorem exchangeRacer_parent_cancelled_witness :
    exchangeRacer sampleErrors [transportA, transportB]
        ([{ response := none, err := some (.sentinel .ErrResponseRejectedCached),
            transport := transportA }].map Event.result ++
          Event.ctxDone ContextErr.Canceled :: [])
      = some { response := none, transport := none,
               err := some (.context ContextErr.Canceled) } :=
  ((exchangeRacer_parent_cancelled sampleErrors [transportA, transportB] [transportA]
    [transportB] 200
    [{ response := none, err := some (.sentinel .ErrResponseRejectedCached),
       transport := transportA }] ContextErr.Canceled []
    (by intro r hr; simp at hr; subst hr; rfl) (by decide) (by decide) (by simp)
    (by decide)) _ (Or.inl rfl)).2.1 rfl

/-! ## Lemmas on `matchDNS` and the rule loops -/

/-- The index returned by the rule loop of `matchDNS`: -1 with no rule, or the
position of the returned rule, at or after the first position examined. -/
theorem matchRules_index (r : Router) (allowFakeIP isAddressQuery : Bool)
    (rules : List DNSRule) :
    ∀ (i : Nat) (options : DNSQueryOptions) (displayed : List Int),
      ((matchRules r allowFakeIP isAddressQuery rules i options displayed).rule = none ∧
       (matchRules r allowFakeIP isAddressQuery rules i options displayed).ruleIndex = -1) ∨
      (∃ k : Nat,
        (matchRules r allowFakeIP isAddressQuery rules i options displayed).ruleIndex = (k : Int) ∧
        i ≤ k ∧ k < i + rules.length ∧
        (matchRules r allowFakeIP isAddressQuery rules i options displayed).rule
          = rules.get? (k - i) ∧
        (matchRules r allowFakeIP isAddressQuery rules i options displayed).rule ≠ none) := by
  induction rules with
  | nil =>
    intro i options displayed
    left
    unfold matchRules
    cases r.defaultTransport <;> exact ⟨rfl, rfl⟩
  | cons rule rest ih =>
    intro i options displayed
    have hnext : ∀ (o : DNSQueryOptions) (d : List Int),
        ((matchRules r allowFakeIP isAddressQuery rest (i + 1) o d).rule = none ∧
         (matchRules r allowFakeIP isAddressQuery rest (i + 1) o d).ruleIndex = -1) ∨
        (∃ k : Nat,
          (matchRules r allowFakeIP isAddressQuery rest (i + 1) o d).ruleIndex = (k : Int) ∧
          i ≤ k ∧ k < i + (rule :: rest).length ∧
          (matchRules r allowFakeIP isAddressQuery rest (i + 1) o d).rule
            = (rule :: rest).get? (k - i) ∧
          (matchRules r allowFakeIP isAddressQuery rest (i + 1) o d).rule ≠ none) := by
      intro o d
      rcases ih (i + 1) o d with h | ⟨k, hk, hle, hlt, hget, hne⟩
      · exact Or.inl h
      · right
        refine ⟨k, hk, by omega, by simp only [List.length_cons]; omega, ?_, hne⟩
        rw [hget]
        have : k - i = (k - (i + 1)) + 1 := by omega
        rw [this, List.get?_cons_succ]
    have hhere : ∀ m : MatchResult, m.rule = some rule → m.ruleIndex = (i : Int) →
        (m.rule = none ∧ m.ruleIndex = -1) ∨
        (∃ k : Nat, m.ruleIndex = (k : Int) ∧ i ≤ k ∧ k < i + (rule :: rest).length ∧
          m.rule = (rule :: rest).get? (k - i) ∧ m.rule ≠ none) := by
      intro m h1 h2
      right
      refine ⟨i, h2, le_refl _, by simp only [List.length_cons]; omega, ?_, ?_⟩
      · rw [h1]; simp
      · rw [h1]; simp
    unfold matchRules
    split
    · exact hnext _ _
    · split
      · simp only []
        split
        · split
          · exact hnext _ _
          · split
            · exact hnext _ _
            · exact hhere _ rfl rfl
        · exact hnext _ _
        · exact hhere _ rfl rfl
        · exact hhere _ rfl rfl
      · exact hnext _ _

/-- The index returned by `matchDNS`: -1 with no rule, or the position in `r.rules`
of the returned rule, which lies after `ruleIndex`. -/
theorem matchDNS_index (r : Router) (allowFakeIP isAddressQuery : Bool) (ruleIndex : Int)
    (options : DNSQueryOptions) :
    ((r.matchDNS allowFakeIP ruleIndex isAddressQuery options).rule = none ∧
     (r.matchDNS allowFakeIP ruleIndex isAddressQuery options).ruleIndex = -1) ∨
    (∃ k : Nat,
      (r.matchDNS allowFakeIP ruleIndex isAddressQuery options).ruleIndex = (k : Int) ∧
      firstRuleIndex ruleIndex ≤ k ∧ k < r.rules.length ∧
      (r.matchDNS allowFakeIP ruleIndex isAddressQuery options).rule = r.rules.get? k ∧
      (r.matchDNS allowFakeIP ruleIndex isAddressQuery options).rule ≠ none) := by
  unfold Router.matchDNS
  rcases matchRules_index r allowFakeIP isAddressQuery
      (r.rules.drop (firstRuleIndex ruleIndex)) (firstRuleIndex ruleIndex) options []
    with h | ⟨k, hk, hle, hlt, hget, hne⟩
  · exact Or.inl h
  · right
    rw [List.length_drop] at hlt
    refine ⟨k, hk, hle, by omega, ?_, hne⟩
    rw [hget, List.get?_eq_getElem?, List.get?_eq_getElem?, List.getElem?_drop]
    congr 1
    omega

theorem withAddressLimitOf_rule (m : MatchResult) (h : withAddressLimitOf m = true) :
    m.rule ≠ none := by
  intro hc
  simp [withAddressLimitOf, hc] at h

/-- What a `continue` of the rule loop of `Exchange` presupposes. -/
theorem exchangeIteration_again (r : Router) (Errors : List DNSError → Option DNSError)
    (race : Int → List (Event QueryResult)) (message : Msg) (options : DNSQueryOptions)
    (ruleIndex next : Int) (c : Unit) (effects : List Effect)
    (h : r.exchangeIteration Errors race message options ruleIndex = .again next c effects) :
    next = (r.matchDNS true ruleIndex (isAddressQuery message) options).ruleIndex ∧
    exchangeEarlyReturn (r.matchDNS true ruleIndex (isAddressQuery message) options) message
      = none ∧
    withAddressLimitOf (r.matchDNS true ruleIndex (isAddressQuery message) options) = true ∧
    ∃ ret, exchangeDispatch Errors race
        (r.matchDNS true ruleIndex (isAddressQuery message) options) = some ret ∧
      exchangeRejected ret.err = true := by
  unfold Router.exchangeIteration at h
  simp only [] at h
  split at h
  · simp at h
  · rename_i hearly
    split at h
    · simp at h
    · rename_i ret hret
      split at h
      · rename_i hcond
        simp only [Iteration.again.injEq] at h
        simp only [Bool.and_eq_true] at hcond
        exact ⟨h.1.symm, hearly, hcond.1, ret, hret, hcond.2⟩
      · simp at h

/-- The rule loop of `Exchange` does not exhaust its bound. -/
theorem exchangeLoop_fuel (r : Router) (Errors : List DNSError → Option DNSError)
    (race : Int → List (Event QueryResult)) (message : Msg) (options : DNSQueryOptions) :
    ∀ (fuel : Nat) (ruleIndex : Int) (trace : List Effect),
      1 ≤ fuel → r.rules.length + 1 ≤ fuel + firstRuleIndex ruleIndex →
      r.exchangeLoop Errors race message options fuel ruleIndex trace ≠ .outOfFuel := by
  intro fuel
  induction fuel with
  | zero => intro _ _ h; omega
  | succ fuel ih =>
    intro ruleIndex trace _ hbound
    unfold Router.exchangeLoop
    split
    · rename_i next c effects hit
      obtain ⟨hnext, _, hlimit, _⟩ :=
        exchangeIteration_again r Errors race message options ruleIndex next c effects hit
      rcases matchDNS_index r true (isAddressQuery message) ruleIndex options
        with ⟨hnone, _⟩ | ⟨k, hk, hle, hlt, _, _⟩
      · exact absurd hnone (withAddressLimitOf_rule _ hlimit)
      · have hfirst : firstRuleIndex next = k + 1 := by
          rw [hnext, hk]
          unfold firstRuleIndex
          have : ((k : Int) != -1) = true := by
            simp only [bne_iff_ne, ne_eq]
            omega
          rw [if_pos this]
          omega
        apply ih
        · omega
        · rw [hfirst]; omega
    · simp
    · simp

/-! ## Lemmas on the lookup collection loop -/

theorem lookupCollect_step (Errors : List DNSError → Option DNSError) (n : Nat)
    (x : LookupResult) (rest : List (Event LookupResult)) (st : LookupRaceState)
    (hx : x.err ≠ none) :
    lookupCollect Errors (n + 1) (Event.result x :: rest) st
      = lookupCollect Errors n rest (lookupAbsorb st x) := by
  rw [lookupCollect]
  unfold lookupAbsorb
  cases hxe : x.err with
  | none => exact absurd hxe hx
  | some e =>
    by_cases hf : st.hasFallback = true
    · simp [hf]
    · have hf0 : st.hasFallback = false := by simpa using hf
      simp [hf0, hxe]

theorem lookupCollect_win (Errors : List DNSError → Option DNSError) (n : Nat)
    (x : LookupResult) (rest : List (Event LookupResult)) (st : LookupRaceState)
    (hx : x.err = none) :
    lookupCollect Errors (n + 1) (Event.result x :: rest) st = some (x.addrs, none) := by
  rw [lookupCollect]
  simp [hx]

theorem lookupCollect_results (Errors : List DNSError → Option DNSError)
    (xs : List LookupResult) :
    ∀ (n : Nat) (rest : List (Event LookupResult)) (st : LookupRaceState),
      (∀ x ∈ xs, x.err ≠ none) →
      lookupCollect Errors (xs.length + n) (xs.map Event.result ++ rest) st
        = lookupCollect Errors n rest (xs.foldl lookupAbsorb st) := by
  induction xs with
  | nil => intro n rest st _; simp
  | cons x xs ih =>
    intro n rest st h
    have hlen : (x :: xs).length + n = (xs.length + n) + 1 := by
      simp [List.length_cons]; omega
    rw [hlen]
    simp only [List.map_cons, List.cons_append, List.foldl_cons]
    rw [lookupCollect_step Errors _ x _ st (h x (List.mem_cons_self _ _))]
    exact ih n rest _ (fun y hy => h y (List.mem_cons_of_mem _ hy))

theorem lookupAbsorb_fold_kept (xs : List LookupResult) :
    ∀ st : LookupRaceState, st.hasFallback = true →
      (xs.foldl lookupAbsorb st).hasFallback = true ∧
      (xs.foldl lookupAbsorb st).fallbackAddrs = st.fallbackAddrs ∧
      (xs.foldl lookupAbsorb st).fallbackErr = st.fallbackErr := by
  induction xs with
  | nil => intro st h; simp [h]
  | cons x xs ih =>
    intro st h
    simp only [List.foldl_cons]
    have hstep : (lookupAbsorb st x).hasFallback = true ∧
        (lookupAbsorb st x).fallbackAddrs = st.fallbackAddrs ∧
        (lookupAbsorb st x).fallbackErr = st.fallbackErr := by
      unfold lookupAbsorb
      cases x.err with
      | none => simp [h]
      | some e => simp [h]
    obtain ⟨a, b, c⟩ := ih (lookupAbsorb st x) hstep.1
    exact ⟨a, b.trans hstep.2.1, c.trans hstep.2.2⟩

theorem lookupAbsorb_fold_first (x : LookupResult) (xs : List LookupResult)
    (st : LookupRaceState) (hst : st.hasFallback = false) (hx : x.err ≠ none) :
    ((x :: xs).foldl lookupAbsorb st).hasFallback = true ∧
    ((x :: xs).foldl lookupAbsorb st).fallbackAddrs = x.addrs ∧
    ((x :: xs).foldl lookupAbsorb st).fallbackErr = x.err := by
  simp only [List.foldl_cons]
  have hstep : (lookupAbsorb st x).hasFallback = true ∧
      (lookupAbsorb st x).fallbackAddrs = x.addrs ∧
      (lookupAbsorb st x).fallbackErr = x.err := by
    unfold lookupAbsorb
    cases hxe : x.err with
    | none => exact absurd hxe hx
    | some e => simp [hst]
  obtain ⟨a, b, c⟩ := lookupAbsorb_fold_kept xs (lookupAbsorb st x) hstep.1
  exact ⟨a, b.trans hstep.2.1, c.trans hstep.2.2⟩

theorem map_result_task (xs : List LookupResult) (later : List (Event LookupResult)) :
    (xs.map Event.result ++ later).map (Event.map lookupTaskResult)
      = (xs.map lookupTaskResult).map Event.result
          ++ later.map (Event.map lookupTaskResult) := by
  simp [List.map_append, List.map_map, Function.comp_def, Event.map]

theorem lookupHedged_is_collect (Errors : List DNSError → Option DNSError)
    (primary fallback : List DNSTransport) (upstreamTimeout : Int)
    (events : List (Event LookupResult)) (hT : 0 < upstreamTimeout) (hfb : fallback ≠ []) :
    lookupHedgedRacer Errors primary fallback upstreamTimeout events
      = lookupCollect Errors (primary.length + fallback.length)
          (events.map (Event.map lookupTaskResult)) LookupRaceState.init := by
  have hne : ¬ (upstreamTimeout ≤ 0 ∨ fallback.length = 0) := by
    intro hc
    rcases hc with hc | hc
    · omega
    · exact hfb (List.length_eq_zero.mp hc)
  rw [lookupHedgedRacer, if_neg hne]

/-- The lookup collection loop on a schedule of failures only: the first one is returned. -/
theorem lookupCollect_all_fail (Errors : List DNSError → Option DNSError)
    (first : LookupResult) (others : List LookupResult) (later : List (Event LookupResult))
    (hfail : ∀ x ∈ first :: others, (lookupTaskResult x).err ≠ none) :
    lookupCollect Errors (first :: others).length
        (((first :: others).map Event.result ++ later).map (Event.map lookupTaskResult))
        LookupRaceState.init
      = some ((lookupTaskResult first).addrs, (lookupTaskResult first).err) := by
  rw [map_result_task]
  have hfail2 : ∀ y ∈ (first :: others).map lookupTaskResult, y.err ≠ none := by
    intro y hy
    obtain ⟨x, hx, rfl⟩ := List.mem_map.mp hy
    exact hfail x hx
  have h0 := lookupCollect_results Errors ((first :: others).map lookupTaskResult) 0
    (later.map (Event.map lookupTaskResult)) LookupRaceState.init hfail2
  rw [Nat.add_zero, List.length_map] at h0
  rw [h0]
  obtain ⟨hf, ha, he⟩ := lookupAbsorb_fold_first (lookupTaskResult first)
    (others.map lookupTaskResult) LookupRaceState.init rfl
    (hfail first (List.mem_cons_self _ _))
  rw [List.map_cons]
  cases hl : later.map (Event.map lookupTaskResult) <;>
    simp only [lookupCollect, hf, ha, he, if_true]

/-- The lookup collection loop when an error-free result arrives after failures. -/
theorem lookupCollect_first_win (Errors : List DNSError → Option DNSError) (total : Nat)
    (pre : List LookupResult) (w : LookupResult) (later : List (Event LookupResult))
    (hpre : ∀ x ∈ pre, (lookupTaskResult x).err ≠ none)
    (hw : (lookupTaskResult w).err = none) (hlen : pre.length < total) :
    lookupCollect Errors total
        ((pre.map Event.result ++ Event.result w :: later).map (Event.map lookupTaskResult))
        LookupRaceState.init
      = some ((lookupTaskResult w).addrs, none) := by
  rw [map_result_task]
  have hpre2 : ∀ y ∈ pre.map lookupTaskResult, y.err ≠ none := by
    intro y hy
    obtain ⟨x, hx, rfl⟩ := List.mem_map.mp hy
    exact hpre x hx
  obtain ⟨k, hk⟩ : ∃ k, total = (pre.map lookupTaskResult).length + (k + 1) :=
    ⟨total - pre.length - 1, by rw [List.length_map]; omega⟩
  rw [hk, lookupCollect_results Errors _ (k + 1) _ _ hpre2]
  simp only [List.map_cons, Event.map]
  exact lookupCollect_win Errors k _ _ _ hw

theorem lookupTaskResult_err_none (x : LookupResult) :
    (lookupTaskResult x).err = none ↔ x.err = none ∧ x.addrs ≠ [] := by
  unfold lookupTaskResult
  cases hxe : x.err with
  | some e => simp [hxe]
  | none =>
    cases hxa : x.addrs with
    | nil => simp [hxe, hxa]
    | cons a as => simp [hxe, hxa]

theorem lookupTaskResult_addrs (x : LookupResult) : (lookupTaskResult x).addrs = x.addrs := by
  unfold lookupTaskResult
  split <;> rfl

/-- A nil error returned by the lookup collection loop comes with the addresses of a
received error-free result, or with the retained first result, or from `Errors`. -/
theorem lookupCollect_nil_error (Errors : List DNSError → Option DNSError)
    (events : List (Event LookupResult)) :
    ∀ (n : Nat) (st : LookupRaceState) (addrs : List Addr),
      (st.hasFallback = true → st.fallbackErr ≠ none) →
      (st.hasFallback = false → 0 < n) →
      lookupCollect Errors n events st = some (addrs, none) →
      ∃ x, Event.result x ∈ events ∧ x.err = none ∧ x.addrs = addrs := by
  induction events with
  | nil =>
    intro n st addrs hst hn hrun
    cases n with
    | zero =>
      by_cases hf : st.hasFallback = true
      · simp only [lookupCollect, hf, if_true, Option.some.injEq, Prod.mk.injEq] at hrun
        exact absurd hrun.2 (hst hf)
      · have hf0 : st.hasFallback = false := by simpa using hf
        exact absurd (hn hf0) (by omega)
    | succ n => simp [lookupCollect] at hrun
  | cons ev events ih =>
    intro n st addrs hst hn hrun
    cases n with
    | zero =>
      by_cases hf : st.hasFallback = true
      · simp only [lookupCollect, hf, if_true, Option.some.injEq, Prod.mk.injEq] at hrun
        exact absurd hrun.2 (hst hf)
      · have hf0 : st.hasFallback = false := by simpa using hf
        exact absurd (hn hf0) (by omega)
    | succ n =>
      cases ev with
      | ctxDone e =>
        by_cases hf : st.hasFallback = true
        · simp only [lookupCollect, hf, if_true, Option.some.injEq, Prod.mk.injEq] at hrun
          exact absurd hrun.2 (hst hf)
        · have hf0 : st.hasFallback = false := by simpa using hf
          simp [lookupCollect, hf0] at hrun
      | result x =>
        cases hxe : x.err with
        | none =>
          rw [lookupCollect_win Errors n x events st hxe] at hrun
          simp only [Option.some.injEq, Prod.mk.injEq, and_true] at hrun
          exact ⟨x, List.mem_cons_self _ _, hxe, hrun⟩
        | some e =>
          have hx2 : x.err ≠ none := by rw [hxe]; simp
          rw [lookupCollect_step Errors n x events st hx2] at hrun
          have hkeep : (lookupAbsorb st x).hasFallback = true ∧
              (lookupAbsorb st x).fallbackErr ≠ none := by
            unfold lookupAbsorb
            by_cases hf : st.hasFallback = true
            · simp only [hxe, hf, Bool.not_true, Bool.false_eq_true, if_false]
              exact ⟨trivial, hst hf⟩
            · have hf0 : st.hasFallback = false := by simpa using hf
              simp [hxe, hf0]
          obtain ⟨y, hy, hye, hya⟩ := ih n (lookupAbsorb st x) addrs (fun _ => hkeep.2)
            (fun h => by rw [hkeep.1] at h; exact absurd h (by simp)) hrun
          exact ⟨y, List.mem_cons_of_mem _ hy, hye, hya⟩

/-! ## Lemmas on the rule loop of `Lookup` -/

theorem printResult_none (domain : String) (responseAddrs : List Addr)
    (err : Option DNSError) (h : printResult domain responseAddrs err = none) :
    err = none ∧ responseAddrs ≠ [] := by
  unfold printResult at h
  cases herr : err with
  | some e => simp [herr] at h
  | none =>
    cases ha : responseAddrs with
    | nil => simp [herr, ha] at h
    | cons a as => simp

theorem printResult_of_error (domain : String) (responseAddrs : List Addr) (e : DNSError) :
    printResult domain responseAddrs (some e) = some (.cause e ("lookup " ++ domain)) := by
  simp [printResult]

theorem printResult_of_addrs (domain : String) (a : Addr) (as : List Addr) :
    printResult domain (a :: as) none = none := by
  simp [printResult]

/-- Every result on which a pass of the rule loop of `Lookup` stops has an error or
an address. -/
theorem lookupIteration_stop_nonempty (r : Router) (Errors : List DNSError → Option DNSError)
    (race : Int → List (Event LookupResult)) (domain : String) (options : DNSQueryOptions)
    (ruleIndex : Int) (carry : List Addr × Option DNSError)
    (out : List Addr × Option DNSError) (effects : List Effect)
    (h : r.lookupIteration Errors race domain options ruleIndex carry = .stop out effects)
    (herr : out.2 = none) : out.1 ≠ [] := by
  unfold Router.lookupIteration at h
  simp only [] at h
  split at h
  · rename_i early hearly
    simp only [Iteration.stop.injEq] at h
    obtain ⟨h1, _⟩ := h
    subst h1
    unfold lookupEarlyReturn at hearly
    split at hearly
    · split at hearly
      · simp only [Option.some.injEq] at hearly
        subst hearly
        simp at herr
      · split at hearly
        · simp only [Option.some.injEq] at hearly
          subst hearly
          simp [printResult] at herr
        · simp only [Option.some.injEq] at hearly
          subst hearly
          exact (printResult_none _ _ _ herr).2
      · simp at hearly
    · simp at hearly
  · split at h
    · simp at h
    · rename_i responseAddrs err hrace
      split at h
      · simp only [Iteration.stop.injEq] at h
        obtain ⟨h1, _⟩ := h
        subst h1
        exact (printResult_none _ _ _ herr).2
      · simp at h

/-- What a `continue` of the rule loop of `Lookup` presupposes. -/
theorem lookupIteration_again (r : Router) (Errors : List DNSError → Option DNSError)
    (race : Int → List (Event LookupResult)) (domain : String) (options : DNSQueryOptions)
    (ruleIndex next : Int) (carry carry1 : List Addr × Option DNSError)
    (effects : List Effect)
    (h : r.lookupIteration Errors race domain options ruleIndex carry
          = .again next carry1 effects) :
    next = (r.matchDNS false ruleIndex true options).ruleIndex ∧
    lookupEarlyReturn (r.matchDNS false ruleIndex true options) domain carry = none ∧
    withAddressLimitOf (r.matchDNS false ruleIndex true options) = true ∧
    ∃ responseAddrs e, lookupDispatch Errors race (r.matchDNS false ruleIndex true options)
        = some (responseAddrs, some e) := by
  unfold Router.lookupIteration at h
  simp only [] at h
  split at h
  · simp at h
  · rename_i hearly
    split at h
    · simp at h
    · rename_i responseAddrs err hrace
      split at h
      · simp at h
      · rename_i hcond
        simp only [Iteration.again.injEq] at h
        simp only [Bool.or_eq_true, Bool.not_eq_true', not_or, Bool.not_eq_false] at hcond
        cases herr : err with
        | none => simp [herr] at hcond
        | some e =>
          rw [herr] at hrace
          exact ⟨h.1.symm, hearly, hcond.1, responseAddrs, e, hrace⟩

/-- The rule loop of `Lookup` does not exhaust its bound. -/
theorem lookupLoop_fuel (r : Router) (Errors : List DNSError → Option DNSError)
    (race : Int → List (Event LookupResult)) (domain : String) (options : DNSQueryOptions) :
    ∀ (fuel : Nat) (ruleIndex : Int) (carry : List Addr × Option DNSError)
      (trace : List Effect),
      1 ≤ fuel → r.rules.length + 1 ≤ fuel + firstRuleIndex ruleIndex →
      r.lookupLoop Errors race domain options fuel ruleIndex carry trace ≠ .outOfFuel := by
  intro fuel
  induction fuel with
  | zero => intro _ _ _ h; omega
  | succ fuel ih =>
    intro ruleIndex carry trace _ hbound
    unfold Router.lookupLoop
    split
    · rename_i next carry1 effects hit
      obtain ⟨hnext, _, hlimit, _⟩ :=
        lookupIteration_again r Errors race domain options ruleIndex next carry carry1
          effects hit
      rcases matchDNS_index r false true ruleIndex options
        with ⟨hnone, _⟩ | ⟨k, hk, hle, hlt, _, _⟩
      · exact absurd hnone (withAddressLimitOf_rule _ hlimit)
      · have hfirst : firstRuleIndex next = k + 1 := by
          rw [hnext, hk]
          unfold firstRuleIndex
          have : ((k : Int) != -1) = true := by
            simp only [bne_iff_ne, ne_eq]
            omega
          rw [if_pos this]
          omega
        apply ih
        · omega
        · rw [hfirst]; omega
    · simp
    · simp

/-- Whatever the rule loop of `Lookup` returns has an error or an address. -/
theorem lookupLoop_nonempty (r : Router) (Errors : List DNSError → Option DNSError)
    (race : Int → List (Event LookupResult)) (domain : String) (options : DNSQueryOptions) :
    ∀ (fuel : Nat) (ruleIndex : Int) (carry : List Addr × Option DNSError)
      (trace : List Effect) (out : LookupOutcome),
      r.lookupLoop Errors race domain options fuel ruleIndex carry trace = .ret out →
      out.err = none → out.addrs ≠ [] := by
  intro fuel
  induction fuel with
  | zero => intro _ _ _ _ h; simp [Router.lookupLoop] at h
  | succ fuel ih =>
    intro ruleIndex carry trace out h herr
    unfold Router.lookupLoop at h
    split at h
    · exact ih _ _ _ _ h herr
    · rename_i res effects hit
      simp only [Run.ret.injEq] at h
      subst h
      exact lookupIteration_stop_nonempty r Errors race domain options ruleIndex carry res
        effects hit herr
    · simp at h

/-! ## Claims on the lookup racer and on `Lookup` -/

theorem mem_map_task (events : List (Event LookupResult)) (y : LookupResult)
    (h : Event.result y ∈ events.map (Event.map lookupTaskResult)) :
    ∃ x, Event.result x ∈ events ∧ y = lookupTaskResult x := by
  obtain ⟨ev, hev, heq⟩ := List.mem_map.mp h
  cases ev with
  | ctxDone e => simp [Event.map] at heq
  | result x =>
    simp only [Event.map, Event.result.injEq] at heq
    exact ⟨x, hev, heq.symm⟩

/-- C6: `Lookup` never reports success without addresses: whenever it returns a nil
error, on the pinned, predefined, plain and hedged paths alike, the address
list is non-empty (and the rule loop always ends within its bound). In the
lookup racers a task result with nil error and no address is sent as an
"empty result" error; the first received result that is error-free and
non-empty wins, whatever failed or empty results came before it; and every
nil-error return of a race is such a received result. -/
theorem Lookup_success_has_addresses (Errors : List DNSError → Option DNSError)
    (transports primary fallback : List DNSTransport) (upstreamTimeout : Int)
    (pre : List LookupResult) (w : LookupResult) (later : List (Event LookupResult))
    (hpre : ∀ x ∈ pre, x.err ≠ none ∨ x.addrs = [])
    (hw : w.err = none) (hwa : w.addrs ≠ [])
    (hplain : pre.length < transports.length)
    (hT : 0 < upstreamTimeout) (hfb : fallback ≠ [])
    (hhedged : pre.length < primary.length + fallback.length) :
    (∀ (r : Router) (direct : DNSTransport → DNSQueryOptions → LookupResult)
       (race : Int → List (Event LookupResult)) (domain : String)
       (options : DNSQueryOptions),
       r.Lookup Errors direct race domain options ≠ .outOfFuel ∧
       ∀ out, r.Lookup Errors direct race domain options = .ret out →
         out.err = none → out.addrs ≠ []) ∧
    (∀ x : LookupResult, x.err = none → x.addrs = [] →
       lookupTaskResult x = { addrs := [], err := some (.new "empty result") }) ∧
    lookupRacer Errors transports (pre.map Event.result ++ Event.result w :: later)
      = some (w.addrs, none) ∧
    lookupHedgedRacer Errors primary fallback upstreamTimeout
        (pre.map Event.result ++ Event.result w :: later)
      = some (w.addrs, none) ∧
    (∀ (events : List (Event LookupResult)) (addrs : List Addr),
       (lookupRacer Errors transports events = some (addrs, none) ∨
        lookupHedgedRacer Errors primary fallback upstreamTimeout events
          = some (addrs, none)) →
       ∃ x, Event.result x ∈ events ∧ x.err = none ∧ x.addrs = addrs ∧ addrs ≠ []) := by
  have hpre2 : ∀ x ∈ pre, (lookupTaskResult x).err ≠ none := by
    intro x hx hc
    have := (lookupTaskResult_err_none x).mp hc
    rcases hpre x hx with h | h
    · exact h this.1
    · exact this.2 h
  have hw2 : (lookupTaskResult w).err = none := (lookupTaskResult_err_none w).mpr ⟨hw, hwa⟩
  refine ⟨?_, ?_, ?_, ?_, ?_⟩
  · intro r direct race domain options
    refine ⟨?_, ?_⟩
    · unfold Router.Lookup
      split
      · simp
      · exact lookupLoop_fuel r Errors race domain options _ _ _ _ (by omega)
          (by simp [firstRuleIndex])
    · intro out hrun herr
      unfold Router.Lookup at hrun
      split at hrun
      · simp only [Run.ret.injEq] at hrun
        subst hrun
        exact (printResult_none _ _ _ herr).2
      · exact lookupLoop_nonempty r Errors race domain options _ _ _ _ out hrun herr
  · intro x hxe hxa
    unfold lookupTaskResult
    simp [hxe, hxa]
  · have := lookupCollect_first_win Errors transports.length pre w later hpre2 hw2 hplain
    rw [lookupTaskResult_addrs] at this
    exact this
  · rw [lookupHedged_is_collect Errors primary fallback upstreamTimeout _ hT hfb]
    have := lookupCollect_first_win Errors (primary.length + fallback.length) pre w later
      hpre2 hw2 hhedged
    rw [lookupTaskResult_addrs] at this
    exact this
  · intro events addrs hrun
    have hcollect : ∃ n, 0 < n ∧
        lookupCollect Errors n (events.map (Event.map lookupTaskResult))
          LookupRaceState.init = some (addrs, none) := by
      rcases hrun with h | h
      · exact ⟨transports.length, by omega, h⟩
      · rw [lookupHedged_is_collect Errors primary fallback upstreamTimeout _ hT hfb] at h
        exact ⟨_, by omega, h⟩
    obtain ⟨n, hn, hc⟩ := hcollect
    obtain ⟨y, hy, hye, hya⟩ := lookupCollect_nil_error Errors _ n LookupRaceState.init addrs
      (by intro h; simp [LookupRaceState.init] at h) (fun _ => hn) hc
    obtain ⟨x, hx, rfl⟩ := mem_map_task events y hy
    have hx2 := (lookupTaskResult_err_none x).mp hye
    rw [lookupTaskResult_addrs] at hya
    exact ⟨x, hx, hx2.1, hya, by rw [← hya]; exact hx2.2⟩

/-- C6 at two transports: an error-free result without addresses arrives first and
does not win; the answer with one address does. -/
theorem Lookup_success_has_addresses_witness :
    lookupRacer sampleErrors [transportA, transportB]
        (([{ addrs := [], err := none }] : List LookupResult).map Event.result ++
          Event.result { addrs := ["192.0.2.1"], err := none } :: [])
      = some (["192.0.2.1"], none) :=
  (Lookup_success_has_addresses sampleErrors [transportA, transportB] [transportA]
    [transportB] 200 [{ addrs := [], err := none }] { addrs := ["192.0.2.1"], err := none } []
    (by intro x hx; simp at hx; subst hx; exact Or.inr rfl) rfl (by simp) (by decide)
    (by decide) (by simp) (by decide)).2.2.1

/-- C7: in `lookupRacer` and `lookupHedgedRacer`, if all tasks (at least one) report
while the parent context is live and none of them succeeds, the racer returns
what the first task to report sent: its addresses and its error, which is not
nil; later errors and `Errors` play no part. -/
theorem lookupRacer_all_fail_returns_first (Errors : List DNSError → Option DNSError)
    (transports primary fallback : List DNSTransport) (upstreamTimeout : Int)
    (first : LookupResult) (others : List LookupResult) (later : List (Event LookupResult))
    (hfail : ∀ x ∈ first :: others, (lookupTaskResult x).err ≠ none)
    (hplain : transports.length = (first :: others).length)
    (hT : 0 < upstreamTimeout) (hfb : fallback ≠ [])
    (hhedged : primary.length + fallback.length = (first :: others).length) :
    lookupRacer Errors transports ((first :: others).map Event.result ++ later)
      = some ((lookupTaskResult first).addrs, (lookupTaskResult first).err) ∧
    lookupHedgedRacer Errors primary fallback upstreamTimeout
        ((first :: others).map Event.result ++ later)
      = some ((lookupTaskResult first).addrs, (lookupTaskResult first).err) ∧
    (lookupTaskResult first).err ≠ none := by
  refine ⟨?_, ?_, hfail first (List.mem_cons_self _ _)⟩
  · rw [lookupRacer, hplain]
    exact lookupCollect_all_fail Errors first others later hfail
  · rw [lookupHedged_is_collect Errors primary fallback upstreamTimeout _ hT hfb, hhedged]
    exact lookupCollect_all_fail Errors first others later hfail

/-- C7 at two transports: a timeout arrives first, a refusal second; the racer
returns the timeout. -/
theorem lookupRacer_all_fail_returns_first_witness :
    lookupRacer sampleErrors [transportA, transportB]
        ((({ addrs := [], err := some (.new "timeout") } : LookupResult) ::
            [{ addrs := [], err := some (.new "refused") }]).map Event.result ++ [])
      = some ([], some (.new "timeout")) :=
  (lookupRacer_all_fail_returns_first sampleErrors [transportA, transportB] [transportA]
    [transportB] 200 { addrs := [], err := some (.new "timeout") }
    [{ addrs := [], err := some (.new "refused") }] []
    (by intro x hx; simp at hx; rcases hx with rfl | rfl <;> simp [lookupTaskResult])
    rfl (by decide) (by simp) rfl).1

/-! ## Claims on `Exchange` and on the rule loops -/

/-- C8: for every message whose question section does not hold exactly one
question, `Exchange` returns a nil error and the response with rcode FormatError,
the Response flag, the Id and the question section of the request, having made
no call at all: no `matchDNS`, no racer, no client exchange. -/
theorem Exchange_bad_question_count (r : Router) (Errors : List DNSError → Option DNSError)
    (direct : DNSTransport → DNSQueryOptions → Option Msg × Option DNSError)
    (race : Int → List (Event QueryResult)) (message : Msg) (options : DNSQueryOptions)
    (h : message.question.length ≠ 1) :
    r.Exchange Errors direct race message options
      = .ret { response := some { id := message.id, response := true,
                                  rcode := RcodeFormatError, question := message.question,
                                  answer := [] },
               err := none, trace := [] } := by
  unfold Router.Exchange
  have : (message.question.length != 1) = true := by simpa using h
  rw [if_pos this]

/-- C8 on a query with two questions. -/
theorem Exchange_bad_question_count_witness :
    sampleRouter.Exchange sampleErrors directAnswer rejectThenAnswerMsg twoQuestions
        plainOptions
      = .ret { response := some { id := twoQuestions.id, response := true,
                                  rcode := RcodeFormatError,
                                  question := twoQuestions.question, answer := [] },
               err := none, trace := [] } :=
  Exchange_bad_question_count sampleRouter sampleErrors directAnswer rejectThenAnswerMsg
    twoQuestions plainOptions (by decide)

theorem exchangeRejected_iff (err : Option DNSError) :
    exchangeRejected err = true ↔
      ∃ e, err = some e ∧
        (errorsIs e .ErrResponseRejectedCached = true ∨ errorsIs e .ErrResponseRejected = true) := by
  unfold exchangeRejected
  cases err with
  | none => simp
  | some e =>
    by_cases h1 : errorsIs e .ErrResponseRejectedCached = true
    · simp [h1]
    · by_cases h2 : errorsIs e .ErrResponseRejected = true <;> simp [h1, h2]

theorem errorsIsAny_iff (members : List DNSError) (target : Sentinel) :
    errorsIsAny members target = true ↔ ∃ e ∈ members, errorsIs e target = true := by
  induction members with
  | nil => simp [errorsIsAny]
  | cons a rest ih =>
    rw [errorsIsAny, Bool.or_eq_true, ih]
    constructor
    · rintro (h | ⟨e, he, h⟩)
      · exact ⟨a, List.mem_cons_self _ _, h⟩
      · exact ⟨e, List.mem_cons_of_mem _ he, h⟩
    · rintro ⟨e, he, h⟩
      rcases List.mem_cons.mp he with rfl | he
      · exact Or.inl h
      · exact Or.inr ⟨e, he, h⟩

/-- C9 fails where the racer's error is an aggregate: on a router whose address-limit
rule routes to "a" and "b", with the answer of "a" rejected and "b" timing out,
the racer returns the aggregate of the two errors, which is neither
`ErrResponseRejected` nor `ErrResponseRejectedCached`; `errors.Is` finds the
rejection among its members, so the pass is followed by another one and
`Exchange` returns the answer of the default transport instead of the
aggregate. -/
theorem Exchange_retries_on_aggregate :
    withAddressLimitOf ((routerOf [limitedRouteAB]).matchDNS true (-1) true plainOptions)
      = true ∧
    exchangeDispatch sampleErrors rejectAndTimeoutMsg
        ((routerOf [limitedRouteAB]).matchDNS true (-1) true plainOptions)
      = some { response := none, transport := none,
               err := some (.multi [.sentinel .ErrResponseRejected, .new "timeout"]) } ∧
    DNSError.multi [.sentinel .ErrResponseRejected, .new "timeout"]
      ≠ .sentinel .ErrResponseRejected ∧
    DNSError.multi [.sentinel .ErrResponseRejected, .new "timeout"]
      ≠ .sentinel .ErrResponseRejectedCached ∧
    (routerOf [limitedRouteAB]).exchangeIteration sampleErrors rejectAndTimeoutMsg sampleQuery
        plainOptions (-1)
      = .again 0 ()
          [Effect.matchDNS true (-1) true plainOptions,
           Effect.racer [transportA, transportB] noCacheOptions] ∧
    (routerOf [limitedRouteAB]).Exchange sampleErrors directAnswer rejectAndTimeoutMsg
        sampleQuery plainOptions
      = .ret { response := some answerOK, err := none,
               trace := [Effect.matchDNS true (-1) true plainOptions,
                         Effect.racer [transportA, transportB] noCacheOptions,
                         Effect.matchDNS true 0 true plainOptions,
                         Effect.racer [transportB] plainOptions] } :=
  ⟨rfl, rfl, (fun h => by cases h), (fun h => by cases h), rfl, rfl⟩

/-- C9 as amended: in the rule loop of `Exchange`, with `m` the result of the pass's
`matchDNS` call, the pass is followed by another pass exactly when it reached the
racers, the matched rule has an address limit, and the racer returned an error
for which `errors.Is` finds `ErrResponseRejectedCached` or `ErrResponseRejected`:
one of the two errors itself, an error that wraps such an error as its cause, or
an aggregate with such a member; the next pass then starts after the matched rule.
In every other case in which the racer returns, the loop ends with this pass and
returns the racer's result; a reject or predefined rule ends it with that
rule's result; and the loop always ends within its bound. -/
theorem Exchange_retries_iff_rejected (r : Router) (Errors : List DNSError → Option DNSError)
    (race : Int → List (Event QueryResult)) (message : Msg) (options : DNSQueryOptions)
    (ruleIndex : Int) (m : MatchResult)
    (hm : m = r.matchDNS true ruleIndex (isAddressQuery message) options) :
    ((∃ next c effects,
        r.exchangeIteration Errors race message options ruleIndex = .again next c effects) ↔
      (exchangeEarlyReturn m message = none ∧ withAddressLimitOf m = true ∧
        ∃ ret e, exchangeDispatch Errors race m = some ret ∧ ret.err = some e ∧
          (errorsIs e .ErrResponseRejectedCached = true ∨
           errorsIs e .ErrResponseRejected = true))) ∧
    (∀ next c effects,
        r.exchangeIteration Errors race message options ruleIndex = .again next c effects →
        next = m.ruleIndex ∧
        ∀ fuel trace,
          r.exchangeLoop Errors race message options (fuel + 1) ruleIndex trace
            = r.exchangeLoop Errors race message options fuel next (trace ++ effects)) ∧
    (∀ ret, exchangeEarlyReturn m message = none →
        exchangeDispatch Errors race m = some ret →
        ¬ (withAddressLimitOf m = true ∧
            ∃ e, ret.err = some e ∧
              (errorsIs e .ErrResponseRejectedCached = true ∨
               errorsIs e .ErrResponseRejected = true)) →
        ∀ fuel trace,
          r.exchangeLoop Errors race message options (fuel + 1) ruleIndex trace
            = .ret { response := (exchangeTail ret.response ret.err).1,
                     err := (exchangeTail ret.response ret.err).2,
                     trace := trace ++
                       [Effect.matchDNS true ruleIndex (isAddressQuery message) options,
                        dispatchEffect r m] }) ∧
    (∀ out, exchangeEarlyReturn m message = some out →
        ∀ fuel trace,
          r.exchangeLoop Errors race message options (fuel + 1) ruleIndex trace
            = .ret { response := out.1, err := out.2,
                     trace := trace ++
                       [Effect.matchDNS true ruleIndex (isAddressQuery message) options] }) ∧
    (∀ direct : DNSTransport → DNSQueryOptions → Option Msg × Option DNSError,
        r.Exchange Errors direct race message options ≠ .outOfFuel) ∧
    (∀ s, errorsIs (.sentinel s) s = true) ∧
    (∀ inner text target, errorsIs (.cause inner text) target = errorsIs inner target) ∧
    (∀ members target, errorsIs (.multi members) target = true ↔
      ∃ e ∈ members, errorsIs e target = true) := by
  subst hm
  refine ⟨⟨?_, ?_⟩, ?_, ?_, ?_, ?_, ?_, ?_, ?_⟩
  · rintro ⟨next, c, effects, h⟩
    obtain ⟨_, hearly, hlimit, ret, hret, hrej⟩ :=
      exchangeIteration_again r Errors race message options ruleIndex next c effects h
    obtain ⟨e, he, hcls⟩ := (exchangeRejected_iff ret.err).mp hrej
    exact ⟨hearly, hlimit, ret, e, hret, he, hcls⟩
  · rintro ⟨hearly, hlimit, ret, e, hret, he, hcls⟩
    have hrej : exchangeRejected ret.err = true :=
      (exchangeRejected_iff ret.err).mpr ⟨e, he, hcls⟩
    have hit : r.exchangeIteration Errors race message options ruleIndex
        = .again (r.matchDNS true ruleIndex (isAddressQuery message) options).ruleIndex ()
            ([Effect.matchDNS true ruleIndex (isAddressQuery message) options] ++
              [dispatchEffect r (r.matchDNS true ruleIndex (isAddressQuery message) options)]) := by
      unfold Router.exchangeIteration
      simp only [hearly, hret, hlimit, hrej, Bool.and_self, if_true]
    exact ⟨_, _, _, hit⟩
  · intro next c effects h
    obtain ⟨hnext, _⟩ :=
      exchangeIteration_again r Errors race message options ruleIndex next c effects h
    refine ⟨hnext, ?_⟩
    intro fuel trace
    rw [Router.exchangeLoop, h]
  · intro ret hearly hret hnot fuel trace
    have hcond : (withAddressLimitOf
        (r.matchDNS true ruleIndex (isAddressQuery message) options)
          && exchangeRejected ret.err) = false := by
      cases hl : withAddressLimitOf (r.matchDNS true ruleIndex (isAddressQuery message) options)
      · simp
      · cases hr : exchangeRejected ret.err
        · simp
        · exact absurd ⟨hl, (exchangeRejected_iff ret.err).mp hr⟩ hnot
    have hit : r.exchangeIteration Errors race message options ruleIndex
        = .stop (exchangeTail ret.response ret.err)
            ([Effect.matchDNS true ruleIndex (isAddressQuery message) options] ++
              [dispatchEffect r (r.matchDNS true ruleIndex (isAddressQuery message) options)]) := by
      unfold Router.exchangeIteration
      simp only [hearly, hret, hcond]
      simp
    rw [Router.exchangeLoop, hit]
    simp
  · intro out hearly fuel trace
    have hit : r.exchangeIteration Errors race message options ruleIndex
        = .stop out [Effect.matchDNS true ruleIndex (isAddressQuery message) options] := by
      unfold Router.exchangeIteration
      simp only [hearly]
    rw [Router.exchangeLoop, hit]
  · intro direct
    unfold Router.Exchange
    split
    · simp
    · split
      · simp
      · exact exchangeLoop_fuel r Errors race message options _ _ _ (by omega)
          (by simp [firstRuleIndex])
  · intro s
    rw [errorsIs]
    exact beq_self_eq_true s
  · intro inner text target
    rw [errorsIs]
  · intro members target
    rw [errorsIs]
    exact errorsIsAny_iff members target

/-- C9 as amended, on the sample router: the address-limit rule's race ends in a
rejection, so the first pass is followed by a second one. -/
theorem Exchange_retries_iff_rejected_witness :
    ∃ next c effects,
      sampleRouter.exchangeIteration sampleErrors rejectThenAnswerMsg sampleQuery plainOptions
        (-1) = .again next c effects :=
  (Exchange_retries_iff_rejected sampleRouter sampleErrors rejectThenAnswerMsg sampleQuery
    plainOptions (-1) _ rfl).1.mpr
    ⟨rfl, rfl, { response := none, transport := none,
                 err := some (.sentinel .ErrResponseRejected) },
      .sentinel .ErrResponseRejected, rfl, rfl, Or.inr rfl⟩

/-- C10 fails for `Lookup`: on the sample router the race of the address-limit rule
ends in a timeout, which is not a rejection, and yet the pass is followed by
another one: `Lookup` goes on to the default transport and returns its address
with a nil error instead of the timeout. -/
theorem Lookup_retries_on_timeout :
    withAddressLimitOf (sampleRouter.matchDNS false (-1) true plainOptions) = true ∧
    lookupDispatch sampleErrors timeoutThenAnswer
        (sampleRouter.matchDNS false (-1) true plainOptions)
      = some ([], some (.new "timeout")) ∧
    isRejectClass (.new "timeout") = false ∧
    sampleRouter.lookupIteration sampleErrors timeoutThenAnswer "example.org" plainOptions
        (-1) ([], none)
      = .again 0 ([], some (.cause (.new "timeout") "lookup example.org"))
          [Effect.matchDNS false (-1) true plainOptions,
           Effect.racer [transportA] plainOptions] ∧
    sampleRouter.Lookup sampleErrors directAddrs timeoutThenAnswer "example.org" plainOptions
      = .ret { addrs := ["192.0.2.1"], err := none,
               trace := [Effect.matchDNS false (-1) true plainOptions,
                         Effect.racer [transportA] plainOptions,
                         Effect.matchDNS false 0 true plainOptions,
                         Effect.racer [transportB] plainOptions] } :=
  ⟨rfl, rfl, rfl, rfl, rfl⟩

/-- C10 as amended: in the rule loop of `Lookup`, with `m` the result of the pass's
`matchDNS` call, the pass is followed by another pass exactly when it reached
the racers (the matched rule is no reject and no predefined rule), the matched
rule has an address limit, and the racer returned a non-nil error, of whatever
kind; the next pass then starts after the matched rule. When the racer returns
and the rule has no address limit or the error is nil, the loop ends with this
pass and `Lookup` returns the racer's addresses with `printResult` applied to
its error, whatever the earlier passes left: an error comes back under the cause
"lookup <domain>", no error and no address come back as the error "empty
result" under that cause, and no error with an address comes back as a nil
error. The loop always ends within its bound. -/
theorem Lookup_retries_iff_error (r : Router) (Errors : List DNSError → Option DNSError)
    (race : Int → List (Event LookupResult)) (domain : String) (options : DNSQueryOptions)
    (ruleIndex : Int) (carry : List Addr × Option DNSError) (m : MatchResult)
    (hm : m = r.matchDNS false ruleIndex true options) :
    ((∃ next carry1 effects,
        r.lookupIteration Errors race domain options ruleIndex carry
          = .again next carry1 effects) ↔
      (lookupEarlyReturn m domain carry = none ∧ withAddressLimitOf m = true ∧
        ∃ responseAddrs e, lookupDispatch Errors race m = some (responseAddrs, some e))) ∧
    (∀ next carry1 effects,
        r.lookupIteration Errors race domain options ruleIndex carry
          = .again next carry1 effects →
        next = m.ruleIndex ∧
        ∀ fuel trace,
          r.lookupLoop Errors race domain options (fuel + 1) ruleIndex carry trace
            = r.lookupLoop Errors race domain options fuel next carry1 (trace ++ effects)) ∧
    (∀ responseAddrs err, lookupEarlyReturn m domain carry = none →
        lookupDispatch Errors race m = some (responseAddrs, err) →
        (withAddressLimitOf m = false ∨ err = none) →
        ∀ fuel trace,
          r.lookupLoop Errors race domain options (fuel + 1) ruleIndex carry trace
            = .ret { addrs := responseAddrs, err := printResult domain responseAddrs err,
                     trace := trace ++
                       [Effect.matchDNS false ruleIndex true options, dispatchEffect r m] }) ∧
    (lookupEarlyReturn m domain carry = none ↔
      ∀ rule, m.rule = some rule →
        (∀ method, rule.action ≠ .reject method) ∧
        (∀ rcode answer, rule.action ≠ .predefined rcode answer)) ∧
    (∀ responseAddrs e,
        printResult domain responseAddrs (some e) = some (.cause e ("lookup " ++ domain))) ∧
    (printResult domain [] none
        = some (.cause (.new "empty result") ("lookup " ++ domain))) ∧
    (∀ a rest, printResult domain (a :: rest) none = none) ∧
    (∀ direct : DNSTransport → DNSQueryOptions → LookupResult,
        r.Lookup Errors direct race domain options ≠ .outOfFuel) := by
  subst hm
  refine ⟨⟨?_, ?_⟩, ?_, ?_, ?_, ?_, rfl, fun _ _ => rfl, ?_⟩
  · rintro ⟨next, carry1, effects, h⟩
    obtain ⟨_, hearly, hlimit, responseAddrs, e, hrace⟩ :=
      lookupIteration_again r Errors race domain options ruleIndex next carry carry1 effects h
    exact ⟨hearly, hlimit, responseAddrs, e, hrace⟩
  · rintro ⟨hearly, hlimit, responseAddrs, e, hrace⟩
    have hit : r.lookupIteration Errors race domain options ruleIndex carry
        = .again (r.matchDNS false ruleIndex true options).ruleIndex
            (responseAddrs, printResult domain responseAddrs (some e))
            ([Effect.matchDNS false ruleIndex true options] ++
              [dispatchEffect r (r.matchDNS false ruleIndex true options)]) := by
      unfold Router.lookupIteration
      simp only [hearly, hrace, hlimit]
      simp
    exact ⟨_, _, _, hit⟩
  · intro next carry1 effects h
    obtain ⟨hnext, _⟩ :=
      lookupIteration_again r Errors race domain options ruleIndex next carry carry1 effects h
    refine ⟨hnext, ?_⟩
    intro fuel trace
    rw [Router.lookupLoop, h]
  · intro responseAddrs err hearly hrace hor fuel trace
    have hcond : (!withAddressLimitOf (r.matchDNS false ruleIndex true options)
        || err.isNone) = true := by
      rcases hor with h | h
      · simp [h]
      · simp [h]
    have hit : r.lookupIteration Errors race domain options ruleIndex carry
        = .stop (responseAddrs, printResult domain responseAddrs err)
            ([Effect.matchDNS false ruleIndex true options] ++
              [dispatchEffect r (r.matchDNS false ruleIndex true options)]) := by
      unfold Router.lookupIteration
      simp only [hearly, hrace, hcond]
      simp
    rw [Router.lookupLoop, hit]
    simp
  · unfold lookupEarlyReturn
    cases hrule : (r.matchDNS false ruleIndex true options).rule with
    | none =>
      simp only []
      exact ⟨fun _ rule h => (by cases h), fun _ => trivial⟩
    | some rule =>
      simp only []
      cases haction : rule.action with
      | route action =>
        simp only []
        refine ⟨fun _ other h => ?_, fun _ => trivial⟩
        simp only [Option.some.injEq] at h
        subst h
        rw [haction]
        exact ⟨fun method hc => (by cases hc), fun rcode answer hc => (by cases hc)⟩
      | routeOptions action =>
        simp only []
        refine ⟨fun _ other h => ?_, fun _ => trivial⟩
        simp only [Option.some.injEq] at h
        subst h
        rw [haction]
        exact ⟨fun method hc => (by cases hc), fun rcode answer hc => (by cases hc)⟩
      | reject method =>
        simp only []
        refine ⟨fun h => (by cases h), fun h => ?_⟩
        exact absurd haction ((h rule rfl).1 method)
      | predefined rcode answer =>
        simp only []
        refine ⟨fun h => ?_, fun h => ?_⟩
        · split at h <;> cases h
        · exact absurd haction ((h rule rfl).2 rcode answer)
  · intro responseAddrs e
    rfl
  · intro direct
    unfold Router.Lookup
    split
    · simp
    · exact lookupLoop_fuel r Errors race domain options _ _ _ _ (by omega)
        (by simp [firstRuleIndex])

/-- C10 as amended, on the sample router: the timeout of the address-limit rule's race
sends the loop into a second pass. -/
theorem Lookup_retries_iff_error_witness :
    ∃ next carry1 effects,
      sampleRouter.lookupIteration sampleErrors timeoutThenAnswer "example.org" plainOptions
        (-1) ([], none) = .again next carry1 effects :=
  (Lookup_retries_iff_error sampleRouter sampleErrors timeoutThenAnswer "example.org"
    plainOptions (-1) ([], none) _ rfl).1.mpr
    ⟨rfl, rfl, [], .new "timeout", rfl⟩

/-! ## The start gate of the fallback tasks -/

theorem gateInit_inv (n : Nat) : GateInv (gateInit n) := by
  refine ⟨?_, ?_, ?_, ?_⟩
  · intro h; simp [gateInit] at h
  · intro pc hpc hc
    have := List.eq_of_mem_replicate hpc
    rw [this] at hc
    exact absurd hc (by decide)
  · intro pc hpc hs
    have := List.eq_of_mem_replicate hpc
    rw [this] at hs
    exact absurd hs (by decide)
  · intro h; simp [gateInit] at h

theorem gateStep_inv (s s1 : GateState) (a : GateAction) (hinv : GateInv s)
    (hstep : gateStep s a = some s1) : GateInv s1 := by
  obtain ⟨h1, h2, h3, h4⟩ := hinv
  cases a with
  | timerFires =>
    simp only [gateStep, Option.some.injEq] at hstep
    subst hstep
    exact ⟨fun _ => Or.inl rfl, h2, fun _ _ _ => rfl, h4⟩
  | cancel =>
    simp only [gateStep, Option.some.injEq] at hstep
    subst hstep
    refine ⟨fun _ => Or.inr rfl, h2, h3, ?_⟩
    intro hd
    refine ⟨rfl, ?_⟩
    intro pc hpc
    simp only [Bool.or_eq_true, Bool.not_eq_true'] at hd
    rcases hd with hd | hd
    · exact (h4 hd).2 pc hpc
    · cases hst : pc.started with
      | false => rfl
      | true =>
        have := h3 pc hpc hst
        rw [hd] at this
        exact absurd this (by decide)
  | starterCloses =>
    simp only [gateStep] at hstep
    split at hstep
    · rename_i hc
      simp only [Option.some.injEq] at hstep
      subst hstep
      simp only [Bool.and_eq_true, Bool.not_eq_true', Bool.or_eq_true] at hc
      exact ⟨fun _ => hc.2, fun _ _ _ => rfl, h3, h4⟩
    · simp at hstep
  | selectStart i =>
    simp only [gateStep] at hstep
    split at hstep
    · rename_i hc
      simp only [Option.some.injEq] at hstep
      subst hstep
      simp only [Bool.and_eq_true, decide_eq_true_eq] at hc
      refine ⟨h1, fun _ _ _ => hc.1, ?_, ?_⟩
      · intro pc hpc hs
        rcases List.mem_or_eq_of_mem_set hpc with h | h
        · exact h3 pc h hs
        · rw [h] at hs; exact absurd hs (by decide)
      · intro hd
        refine ⟨(h4 hd).1, ?_⟩
        intro pc hpc
        rcases List.mem_or_eq_of_mem_set hpc with h | h
        · exact (h4 hd).2 pc h
        · rw [h]; rfl
    · simp at hstep
  | selectDone i =>
    simp only [gateStep] at hstep
    split at hstep
    · simp only [Option.some.injEq] at hstep
      subst hstep
      refine ⟨h1, ?_, ?_, ?_⟩
      · intro pc hpc hc
        rcases List.mem_or_eq_of_mem_set hpc with h | h
        · exact h2 pc h hc
        · rw [h] at hc; exact absurd hc (by decide)
      · intro pc hpc hs
        rcases List.mem_or_eq_of_mem_set hpc with h | h
        · exact h3 pc h hs
        · rw [h] at hs; exact absurd hs (by decide)
      · intro hd
        refine ⟨(h4 hd).1, ?_⟩
        intro pc hpc
        rcases List.mem_or_eq_of_mem_set hpc with h | h
        · exact (h4 hd).2 pc h
        · rw [h]; rfl
    · simp at hstep
  | check i =>
    simp only [gateStep] at hstep
    split at hstep
    · rename_i hc
      simp only [decide_eq_true_eq] at hc
      have hmem : FallbackPc.checking ∈ s.tasks := List.get?_mem hc
      split at hstep
      · simp only [Option.some.injEq] at hstep
        subst hstep
        refine ⟨h1, ?_, ?_, ?_⟩
        · intro pc hpc hcc
          rcases List.mem_or_eq_of_mem_set hpc with h | h
          · exact h2 pc h hcc
          · rw [h] at hcc; exact absurd hcc (by decide)
        · intro pc hpc hs
          rcases List.mem_or_eq_of_mem_set hpc with h | h
          · exact h3 pc h hs
          · rw [h] at hs; exact absurd hs (by decide)
        · intro hd
          refine ⟨(h4 hd).1, ?_⟩
          intro pc hpc
          rcases List.mem_or_eq_of_mem_set hpc with h | h
          · exact (h4 hd).2 pc h
          · rw [h]; rfl
      · rename_i hq
        simp only [Option.some.injEq] at hstep
        subst hstep
        have hfired : s.timerFired = true := by
          rcases h1 (h2 _ hmem rfl) with h | h
          · exact h
          · exact absurd h hq
        refine ⟨h1, ?_, fun _ _ _ => hfired, ?_⟩
        · intro pc hpc hcc
          rcases List.mem_or_eq_of_mem_set hpc with h | h
          · exact h2 pc h hcc
          · rw [h] at hcc; exact absurd hcc (by decide)
        · intro hd
          exact absurd (h4 hd).1 hq
    · simp at hstep
  | query i =>
    simp only [gateStep] at hstep
    split at hstep
    · rename_i hc
      simp only [decide_eq_true_eq] at hc
      have hmem : FallbackPc.preparing ∈ s.tasks := List.get?_mem hc
      simp only [Option.some.injEq] at hstep
      subst hstep
      have hfired : s.timerFired = true := h3 _ hmem rfl
      refine ⟨h1, ?_, fun _ _ _ => hfired, ?_⟩
      · intro pc hpc hcc
        rcases List.mem_or_eq_of_mem_set hpc with h | h
        · exact h2 pc h hcc
        · rw [h] at hcc; exact absurd hcc (by decide)
      · intro hd
        have := (h4 hd).2 _ hmem
        exact absurd this (by decide)
    · simp at hstep

theorem gateRun_inv (actions : List GateAction) :
    ∀ s s1 : GateState, GateInv s → gateRun s actions = some s1 → GateInv s1 := by
  induction actions with
  | nil =>
    intro s s1 hinv hrun
    simp only [gateRun, Option.some.injEq] at hrun
    subst hrun
    exact hinv
  | cons a rest ih =>
    intro s s1 hinv hrun
    simp only [gateRun] at hrun
    split at hrun
    · rename_i s2 hstep
      exact ih s2 s1 (gateStep_inv s s2 a hinv hstep) hrun
    · simp at hrun

theorem gateStep_done_mono (s s1 : GateState) (a : GateAction)
    (hstep : gateStep s a = some s1) (hd : s.doneBeforeTimer = true) :
    s1.doneBeforeTimer = true := by
  cases a <;> simp only [gateStep] at hstep
  · simp only [Option.some.injEq] at hstep; subst hstep; exact hd
  · simp only [Option.some.injEq] at hstep; subst hstep; simp [hd]
  all_goals
    split at hstep
    · first
      | (simp only [Option.some.injEq] at hstep; subst hstep; exact hd)
      | (split at hstep <;>
          (simp only [Option.some.injEq] at hstep; subst hstep; exact hd))
    · simp at hstep

theorem gateRun_done_mono (actions : List GateAction) :
    ∀ s s1 : GateState, gateRun s actions = some s1 → s.doneBeforeTimer = true →
      s1.doneBeforeTimer = true := by
  induction actions with
  | nil =>
    intro s s1 hrun hd
    simp only [gateRun, Option.some.injEq] at hrun
    subst hrun
    exact hd
  | cons a rest ih =>
    intro s s1 hrun hd
    simp only [gateRun] at hrun
    split at hrun
    · rename_i s2 hstep
      exact ih s2 s1 hrun (gateStep_done_mono s s2 a hstep hd)
    · simp at hrun

/-- C5 fails in one part: after the timer has fired and a fallback task has passed
its test of the query context, the context is cancelled, and the task still
makes its client call: a fallback transport is queried once the query context
is cancelled. -/
theorem fallback_queried_after_cancel :
    gateRun (gateInit 1) (gateOpens ++ [GateAction.cancel]) = some cancelledAfterCheck ∧
    cancelledAfterCheck.queryDone = true ∧
    gateStep cancelledAfterCheck (GateAction.query 0)
      = some { cancelledAfterCheck with tasks := [FallbackPc.querying] } := by
  decide

/-- C5 as amended: in every state `s` reached by the goroutines of a hedged run with
`n` fallback tasks, a fallback task that has passed the gate, and so every
client call of a fallback task, comes after the timer has fired; a task that
runs its test of the query context once the context is cancelled returns
without calling; and if the query context is cancelled while the timer has not
fired (a primary won, or the parent was cancelled, before the timeout), then in
no later state has any fallback task passed the gate, so none ever calls. -/
theorem fallback_gate (n : Nat) (actions : List GateAction) (s : GateState)
    (hrun : gateRun (gateInit n) actions = some s) :
    (∀ pc ∈ s.tasks, pc.started = true → s.timerFired = true) ∧
    (∀ i s1, gateStep s (GateAction.query i) = some s1 → s.timerFired = true) ∧
    (∀ i s1, s.queryDone = true → gateStep s (GateAction.check i) = some s1 →
      s1.tasks = s.tasks.set i FallbackPc.returned) ∧
    (∀ s1 more s2, s.timerFired = false → gateStep s GateAction.cancel = some s1 →
      gateRun s1 more = some s2 →
      (∀ pc ∈ s2.tasks, pc.started = false) ∧
      ∀ i, gateStep s2 (GateAction.query i) = none) := by
  have hinv : GateInv s := gateRun_inv actions (gateInit n) s (gateInit_inv n) hrun
  refine ⟨hinv.2.2.1, ?_, ?_, ?_⟩
  · intro i s1 hstep
    simp only [gateStep] at hstep
    split at hstep
    · rename_i hc
      simp only [decide_eq_true_eq] at hc
      exact hinv.2.2.1 _ (List.get?_mem hc) rfl
    · simp at hstep
  · intro i s1 hq hstep
    simp only [gateStep, hq, if_true] at hstep
    split at hstep
    · simp only [Option.some.injEq] at hstep
      subst hstep
      rfl
    · simp at hstep
  · intro s1 more s2 hnot hstep hmore
    have hinv1 : GateInv s1 := gateStep_inv s s1 _ hinv hstep
    have hd1 : s1.doneBeforeTimer = true := by
      simp only [gateStep, Option.some.injEq] at hstep
      subst hstep
      simp [hnot]
    have hinv2 : GateInv s2 := gateRun_inv more s1 s2 hinv1 hmore
    have hd2 : s2.doneBeforeTimer = true := gateRun_done_mono more s1 s2 hmore hd1
    have hnone := (hinv2.2.2.2 hd2).2
    refine ⟨hnone, ?_⟩
    intro i
    simp only [gateStep]
    split
    · rename_i hc
      simp only [decide_eq_true_eq] at hc
      have := hnone _ (List.get?_mem hc)
      exact absurd this (by decide)
    · rfl

/-- C5 as amended, on a run with one fallback task that calls its client after the
timer has fired. -/
theorem fallback_gate_witness :
    gateRun (gateInit 1) (gateOpens ++ [GateAction.query 0]) = some queriedAfterTimer ∧
    queriedAfterTimer.timerFired = true :=
  ⟨by decide,
   (fallback_gate 1 (gateOpens ++ [GateAction.query 0]) queriedAfterTimer (by decide)).1
     FallbackPc.querying (by simp [queriedAfterTimer]) rfl⟩

/-! ## Lemmas on the server-resolution loops of `matchDNS` -/

theorem pendingTags_skip (seen : List String) (tag : String) (rest : List String)
    (h : (tag != "" && !seen.contains tag) = false) :
    pendingTags seen (tag :: rest) = pendingTags seen rest := by
  unfold pendingTags
  simp only [firstOccurrences, List.filter_cons, h, Bool.false_eq_true, if_false,
    List.filter_filter]
  apply List.filter_congr
  intro x _
  by_cases hx : x = tag
  · subst hx
    show ((x != "" && !seen.contains x) && (x != x)) = (x != "" && !seen.contains x)
    rw [h]; rfl
  · have hne : (x != tag) = true := bne_iff_ne.mpr hx
    show ((x != "" && !seen.contains x) && (x != tag)) = (x != "" && !seen.contains x)
    rw [hne, Bool.and_true]

theorem pendingTags_take (seen : List String) (tag : String) (rest : List String)
    (h : (tag != "" && !seen.contains tag) = true) :
    pendingTags seen (tag :: rest) = tag :: pendingTags (tag :: seen) rest := by
  unfold pendingTags
  simp only [firstOccurrences, List.filter_cons, h, if_true, List.filter_filter]
  congr 1
  apply List.filter_congr
  intro x _
  show ((x != "" && !seen.contains x) && (x != tag))
    = (x != "" && !(tag :: seen).contains x)
  rw [List.contains_cons]
  by_cases hx : x = tag
  · subst hx
    have h1 : (x != x) = false := by simp
    have h2 : (x == x) = true := by simp
    rw [h1, h2]
    simp
  · have h1 : (x != tag) = true := bne_iff_ne.mpr hx
    have h2 : (x == tag) = false := beq_eq_false_iff_ne.mpr hx
    rw [h1, h2, Bool.and_true, Bool.false_or]

theorem pending_false_of_empty (seen : List String) :
    (("" : String) != "" && !seen.contains "") = false := by
  have : (("" : String) != "") = false := by decide
  rw [this]; rfl

/-- The transports a resolution loop appends: those of the pending tags, in order. -/
theorem resolveServers_transports (r : Router) (allowFakeIP : Bool) (servers : List String) :
    ∀ st : ResolveState,
      (resolveServers r allowFakeIP servers st).transports
        = st.transports ++
            (pendingTags st.serverSet servers).filterMap (resolveTag r allowFakeIP) := by
  induction servers with
  | nil => intro st; simp [resolveServers, pendingTags, firstOccurrences]
  | cons tag rest ih =>
    intro st
    unfold resolveServers
    by_cases h1 : (tag == "") = true
    · have htag : tag = "" := eq_of_beq h1
      have hp : (tag != "" && !st.serverSet.contains tag) = false := by
        rw [htag]; exact pending_false_of_empty _
      rw [if_pos h1, ih, pendingTags_skip _ _ _ hp]
    · rw [if_neg h1]
      by_cases h2 : st.serverSet.contains tag = true
      · have hp : (tag != "" && !st.serverSet.contains tag) = false := by
          rw [h2]; simp
        rw [if_pos h2, ih, pendingTags_skip _ _ _ hp]
      · rw [if_neg h2]
        have hp : (tag != "" && !st.serverSet.contains tag) = true := by
          have h1' : (tag != "") = true := by
            rw [bne, Bool.not_eq_true'] 
            exact Bool.eq_false_iff.mpr h1
          have h2' : st.serverSet.contains tag = false := Bool.eq_false_iff.mpr h2
          rw [h1', h2']; rfl
        rw [pendingTags_take _ _ _ hp]
        simp only [List.filterMap_cons, resolveTag]
        cases ht : r.transport tag with
        | none => simp only [ih]
        | some transport =>
          simp only []
          by_cases hf : transport.isFakeIP = true
          · by_cases ha : allowFakeIP = true
            · subst ha
              simp only [hf, if_true, Bool.not_true, Bool.true_or, ih, Bool.false_eq_true,
                if_false, List.append_assoc, List.singleton_append]
            · have ha' : allowFakeIP = false := Bool.eq_false_iff.mpr ha
              subst ha'
              simp only [hf, if_true, Bool.not_false, Bool.not_true, Bool.or_self,
                Bool.false_eq_true, if_false, ih]
          · have hf' : transport.isFakeIP = false := Bool.eq_false_iff.mpr hf
            simp only [hf', Bool.false_eq_true, if_false, Bool.not_false, Bool.or_true,
              if_true, ih, List.append_assoc, List.singleton_append]

theorem resolveServers_spec (r : Router) (allowFakeIP : Bool) (servers : List String)
    (hasFakeIP : Bool) :
    (resolveServers r allowFakeIP servers
        { serverSet := [], transports := [], hasFakeIP := hasFakeIP }).transports
      = resolvedBySpec r allowFakeIP servers := by
  rw [resolveServers_transports]
  simp only [List.nil_append, pendingTags, resolvedBySpec, resolveTag]
  congr 1
  apply List.filter_congr
  intro x _
  simp

/-- A route rule returned by the rule loop of `matchDNS` comes with the transports
resolved from its servers, at least one, and those resolved from its fallback servers. -/
theorem matchRules_route (r : Router) (allowFakeIP isAddressQuery : Bool)
    (rules : List DNSRule) :
    ∀ (i : Nat) (options : DNSQueryOptions) (displayed : List Int) (rule : DNSRule)
      (action : RuleActionDNSRoute),
      (matchRules r allowFakeIP isAddressQuery rules i options displayed).rule = some rule →
      rule.action = .route action →
      (matchRules r allowFakeIP isAddressQuery rules i options displayed).transports
        = resolvedBySpec r allowFakeIP action.servers ∧
      (matchRules r allowFakeIP isAddressQuery rules i options displayed).transports ≠ [] ∧
      (matchRules r allowFakeIP isAddressQuery rules i options displayed).fallbackTransports
        = resolvedBySpec r allowFakeIP action.fallbackServers := by
  induction rules with
  | nil =>
    intro i options displayed rule action hrule _
    unfold matchRules at hrule
    cases hd : r.defaultTransport <;> simp [hd] at hrule
  | cons current rest ih =>
    intro i options displayed rule action hrule haction
    unfold matchRules at hrule ⊢
    split
    · rename_i hskip
      rw [if_pos hskip] at hrule
      exact ih _ _ _ rule action hrule haction
    · rename_i hskip
      rw [if_neg hskip] at hrule
      split
      · rename_i hmatch
        rw [if_pos hmatch] at hrule
        simp only [] at hrule ⊢
        split
        · rename_i action0 hact
          simp only [hact] at hrule
          split
          · rename_i h0
            rw [if_pos h0] at hrule
            exact ih _ _ _ rule action hrule haction
          · rename_i h0
            rw [if_neg h0] at hrule
            split
            · rename_i h1
              rw [if_pos h1] at hrule
              exact ih _ _ _ rule action hrule haction
            · rename_i h1
              rw [if_neg h1] at hrule
              simp only [Option.some.injEq] at hrule
              subst hrule
              rw [hact] at haction
              simp only [RuleAction.route.injEq] at haction
              subst haction
              refine ⟨resolveServers_spec r allowFakeIP _ false, ?_, resolveServers_spec _ _ _ _⟩
              intro hnil
              apply h1
              have hnil2 : (resolveServers r allowFakeIP _
                  { serverSet := [], transports := [], hasFakeIP := false }).transports = [] :=
                hnil
              rw [hnil2]
              rfl
        · rename_i action0 hact
          simp only [hact] at hrule
          exact ih _ _ _ rule action hrule haction
        · rename_i method hact
          simp only [hact, Option.some.injEq] at hrule
          subst hrule
          rw [hact] at haction
          simp at haction
        · rename_i rcode answer hact
          simp only [hact, Option.some.injEq] at hrule
          subst hrule
          rw [hact] at haction
          simp at haction
      · rename_i hmatch
        rw [if_neg hmatch] at hrule
        exact ih _ _ _ rule action hrule haction

theorem firstOccurrences_mem (servers : List String) :
    ∀ tag, tag ∈ firstOccurrences servers ↔ tag ∈ servers := by
  induction servers with
  | nil => intro tag; simp [firstOccurrences]
  | cons head rest ih =>
    intro tag
    simp only [firstOccurrences, List.mem_cons, List.mem_filter, ih, bne_iff_ne, ne_eq]
    constructor
    · rintro (h | ⟨h, _⟩)
      · exact Or.inl h
      · exact Or.inr h
    · rintro (h | h)
      · exact Or.inl h
      · by_cases hEq : tag = head
        · exact Or.inl hEq
        · exact Or.inr ⟨h, hEq⟩

theorem firstOccurrences_nodup (servers : List String) : (firstOccurrences servers).Nodup := by
  induction servers with
  | nil => simp [firstOccurrences]
  | cons head rest ih =>
    simp only [firstOccurrences, List.nodup_cons, List.mem_filter, bne_iff_ne, ne_eq,
      not_true_eq_false, and_false, not_false_eq_true, true_and]
    exact ih.filter _

theorem filterMap_tags_sublist (f : String → Option DNSTransport)
    (hf : ∀ tag t, f tag = some t → t.tag = tag) (tags : List String) :
    ((tags.filterMap f).map (fun t => t.tag)).Sublist tags := by
  induction tags with
  | nil => simp
  | cons tag rest ih =>
    simp only [List.filterMap_cons]
    cases h : f tag with
    | none => exact ih.cons _
    | some t =>
      simp only [List.map_cons]
      rw [hf tag t h]
      exact ih.cons₂ _

theorem resolvedBySpec_mem (r : Router) (allowFakeIP : Bool) (servers : List String)
    (t : DNSTransport) :
    t ∈ resolvedBySpec r allowFakeIP servers ↔
      ∃ tag ∈ servers, tag ≠ "" ∧ r.transport tag = some t ∧
        (allowFakeIP = true ∨ t.isFakeIP = false) := by
  unfold resolvedBySpec
  simp only [List.mem_filterMap, List.mem_filter, firstOccurrences_mem, bne_iff_ne, ne_eq]
  constructor
  · rintro ⟨tag, ⟨hmem, hne⟩, hres⟩
    refine ⟨tag, hmem, hne, ?_⟩
    cases ht : r.transport tag with
    | none => simp [ht] at hres
    | some t0 =>
      simp only [ht] at hres
      split at hres
      · rename_i hc
        simp only [Option.some.injEq] at hres
        subst hres
        refine ⟨rfl, ?_⟩
        simpa using hc
      · simp at hres
  · rintro ⟨tag, hmem, hne, ht, hallow⟩
    refine ⟨tag, ⟨hmem, hne⟩, ?_⟩
    simp only [ht]
    have hc : (allowFakeIP || !t.isFakeIP) = true := by
      rcases hallow with h | h
      · simp [h]
      · simp [h]
    rw [if_pos hc]

theorem resolvedBySpec_nodup (r : Router) (allowFakeIP : Bool) (servers : List String)
    (hmanager : ∀ tag t, r.transport tag = some t → t.tag = tag) :
    ((resolvedBySpec r allowFakeIP servers).map (fun t => t.tag)).Nodup := by
  unfold resolvedBySpec
  have hsub := filterMap_tags_sublist
    (fun tag =>
      match r.transport tag with
      | some transport => if allowFakeIP || !transport.isFakeIP then some transport else none
      | none => none)
    (by
      intro tag t h
      cases ht : r.transport tag with
      | none => simp [ht] at h
      | some t0 =>
        simp only [ht] at h
        split at h
        · simp only [Option.some.injEq] at h
          subst h
          exact hmanager tag t0 ht
        · simp at h)
    ((firstOccurrences servers).filter (fun tag => tag != ""))
  exact hsub.nodup ((firstOccurrences_nodup servers).filter _)

theorem mergeOptions_disableCache (strategy : DomainStrategy) (forceDisable : Bool)
    (rewriteTTL : Option Nat) (clientSubnet : Option Subnet) (options : DNSQueryOptions) :
    (mergeOptions strategy forceDisable rewriteTTL clientSubnet options).disableCache
      = (options.disableCache || forceDisable) := by
  unfold mergeOptions
  cases forceDisable <;> cases hs : (strategy != DomainStrategy.asIS) <;>
    cases rewriteTTL <;> cases clientSubnet <;> simp

theorem legacyFill_disableCache (transports : List DNSTransport) (options : DNSQueryOptions) :
    (legacyFill transports options).disableCache = options.disableCache := by
  unfold legacyFill
  split
  · unfold legacyFillOne
    split
    · simp only []
      split <;> split <;> rfl
    · rfl
  · rfl

/-- The rule loop of `matchDNS` never turns a disabled cache back on. -/
theorem matchRules_disableCache (r : Router) (allowFakeIP isAddressQuery : Bool)
    (rules : List DNSRule) :
    ∀ (i : Nat) (options : DNSQueryOptions) (displayed : List Int),
      options.disableCache = true →
      (matchRules r allowFakeIP isAddressQuery rules i options displayed).options.disableCache
        = true := by
  induction rules with
  | nil =>
    intro i options displayed h
    unfold matchRules
    cases r.defaultTransport <;> exact h
  | cons current rest ih =>
    intro i options displayed h
    unfold matchRules
    split
    · exact ih _ _ _ h
    · split
      · simp only []
        split
        · split
          · exact ih _ _ _ h
          · split
            · exact ih _ _ _ h
            · simp only [legacyFill_disableCache, mergeOptions_disableCache, h, Bool.true_or]
        · apply ih
          simp only [mergeOptions_disableCache, h, Bool.true_or]
        · exact h
        · exact h
      · exact ih _ _ _ h

/-! ## Claims on `matchDNS` -/

/-- C11: a matching route rule whose resolved primary list is empty does not end
`matchDNS`: the rule loop goes on with the next rule and with `*options` as it
found them (only the log line of the rule is written); and whenever `matchDNS`
returns a route rule, the primary list it returns is not empty. -/
theorem matchDNS_skips_unresolved_route (r : Router) (allowFakeIP isAddressQuery : Bool)
    (rule : DNSRule) (rest : List DNSRule) (i : Nat) (options : DNSQueryOptions)
    (displayed : List Int) (action : RuleActionDNSRoute)
    (hlimit : (rule.withAddressLimit && !isAddressQuery) = false)
    (hmatch : rule.matched = true) (haction : rule.action = .route action)
    (hempty : resolvedBySpec r allowFakeIP action.servers = []) :
    matchRules r allowFakeIP isAddressQuery (rule :: rest) i options displayed
      = matchRules r allowFakeIP isAddressQuery rest (i + 1) options
          (displayed ++ [displayRuleIndexOf i]) ∧
    ∀ (ruleIndex : Int) (given : DNSQueryOptions) (returned : DNSRule)
      (routed : RuleActionDNSRoute),
      (r.matchDNS allowFakeIP ruleIndex isAddressQuery given).rule = some returned →
      returned.action = .route routed →
      (r.matchDNS allowFakeIP ruleIndex isAddressQuery given).transports ≠ [] := by
  refine ⟨?_, ?_⟩
  · have hprimary : (resolveServers r allowFakeIP action.servers
        { serverSet := [], transports := [], hasFakeIP := false }).transports = [] := by
      rw [resolveServers_spec]; exact hempty
    rw [matchRules]
    have hl : ¬ ((rule.withAddressLimit && !isAddressQuery) = true) := by
      rw [hlimit]; exact Bool.false_ne_true
    rw [if_neg hl, if_pos hmatch]
    simp only [haction, displayRuleIndexOf]
    split
    · rfl
    · rw [hprimary]
      rfl
  · intro ruleIndex given returned routed hrule hroute
    exact (matchRules_route r allowFakeIP isAddressQuery _ _ _ _ returned routed hrule
      hroute).2.1

/-- C11 on a route rule whose servers are an empty tag, an unknown tag and a fake-IP
transport, with fake-IP not allowed. -/
theorem matchDNS_skips_unresolved_route_witness :
    matchRules (routerOf []) false true (unresolvedRoute :: [rejectRule]) 0 plainOptions []
      = matchRules (routerOf []) false true [rejectRule] (0 + 1) plainOptions
          ([] ++ [displayRuleIndexOf 0]) :=
  (matchDNS_skips_unresolved_route (routerOf []) false true unresolvedRoute [rejectRule] 0
    plainOptions []
    { servers := ["", "missing", "fake"], fallbackServers := [],
      strategy := DomainStrategy.ipv4Only, disableCache := true, rewriteTTL := some 60,
      clientSubnet := none, upstreamTimeout := 0, fallbackTimeout := 0, fallbackGrace := 0 }
    rfl rfl rfl (by decide)).1

/-- C12: for a route rule returned by `matchDNS`, the primary list is the list the
specification describes (of `action.Servers`, in order, the first occurrence of
each non-empty tag that resolves and, when fake-IP is not allowed, is not
fake-IP) and the fallback list is the same of `action.FallbackServers`; a
transport is in such a list exactly when one of the servers names it so, unknown
tags contributing nothing; with a manager that answers a tag with the transport
of that tag, no list has two entries of one tag; and with fake-IP not allowed no
list holds a fake-IP transport. -/
theorem matchDNS_route_lists (r : Router) (allowFakeIP isAddressQuery : Bool) (ruleIndex : Int)
    (options : DNSQueryOptions) (rule : DNSRule) (action : RuleActionDNSRoute)
    (hrule : (r.matchDNS allowFakeIP ruleIndex isAddressQuery options).rule = some rule)
    (haction : rule.action = .route action)
    (hmanager : ∀ tag t, r.transport tag = some t → t.tag = tag) :
    (r.matchDNS allowFakeIP ruleIndex isAddressQuery options).transports
      = resolvedBySpec r allowFakeIP action.servers ∧
    (r.matchDNS allowFakeIP ruleIndex isAddressQuery options).fallbackTransports
      = resolvedBySpec r allowFakeIP action.fallbackServers ∧
    (∀ (servers : List String) (t : DNSTransport),
      t ∈ resolvedBySpec r allowFakeIP servers ↔
        ∃ tag ∈ servers, tag ≠ "" ∧ r.transport tag = some t ∧
          (allowFakeIP = true ∨ t.isFakeIP = false)) ∧
    ((r.matchDNS allowFakeIP ruleIndex isAddressQuery options).transports.map
      (fun t => t.tag)).Nodup ∧
    ((r.matchDNS allowFakeIP ruleIndex isAddressQuery options).fallbackTransports.map
      (fun t => t.tag)).Nodup ∧
    (allowFakeIP = false →
      ∀ t ∈ (r.matchDNS allowFakeIP ruleIndex isAddressQuery options).transports ++
          (r.matchDNS allowFakeIP ruleIndex isAddressQuery options).fallbackTransports,
        t.isFakeIP = false) := by
  obtain ⟨h1, _, h2⟩ :=
    matchRules_route r allowFakeIP isAddressQuery _ _ _ _ rule action hrule haction
  have h1' : (r.matchDNS allowFakeIP ruleIndex isAddressQuery options).transports
      = resolvedBySpec r allowFakeIP action.servers := h1
  have h2' : (r.matchDNS allowFakeIP ruleIndex isAddressQuery options).fallbackTransports
      = resolvedBySpec r allowFakeIP action.fallbackServers := h2
  refine ⟨h1', h2', resolvedBySpec_mem r allowFakeIP, ?_, ?_, ?_⟩
  · rw [h1']; exact resolvedBySpec_nodup r allowFakeIP _ hmanager
  · rw [h2']; exact resolvedBySpec_nodup r allowFakeIP _ hmanager
  · intro hallow t ht
    rw [h1', h2', List.mem_append] at ht
    rcases ht with ht | ht
    · obtain ⟨_, _, _, _, h⟩ := (resolvedBySpec_mem r allowFakeIP _ t).mp ht
      rcases h with h | h
      · rw [hallow] at h; exact absurd h Bool.false_ne_true
      · exact h
    · obtain ⟨_, _, _, _, h⟩ := (resolvedBySpec_mem r allowFakeIP _ t).mp ht
      rcases h with h | h
      · rw [hallow] at h; exact absurd h Bool.false_ne_true
      · exact h

/-- C12 on a route rule with servers a, missing, a, b, fake and fallback servers b,
empty, b, with fake-IP not allowed: the lists are a, b and b. -/
theorem matchDNS_route_lists_witness :
    ((routerOf [repeatedRoute]).matchDNS false (-1) true plainOptions).transports
      = [transportA, transportB] ∧
    ((routerOf [repeatedRoute]).matchDNS false (-1) true plainOptions).fallbackTransports
      = [transportB] :=
  ⟨(matchDNS_route_lists (routerOf [repeatedRoute]) false true (-1) plainOptions repeatedRoute
      { servers := ["a", "missing", "a", "b", "fake"], fallbackServers := ["b", "", "b"],
        strategy := DomainStrategy.asIS, disableCache := false, rewriteTTL := none,
        clientSubnet := none, upstreamTimeout := 0, fallbackTimeout := 0, fallbackGrace := 0 }
      (by decide) rfl
      (by
        intro tag t h
        simp only [routerOf, sampleManager] at h
        split at h
        · rename_i hc
          simp only [Option.some.injEq] at h
          subst h
          exact (eq_of_beq hc).symm
        · split at h
          · rename_i hc
            simp only [Option.some.injEq] at h
            subst h
            exact (eq_of_beq hc).symm
          · split at h
            · rename_i hc
              simp only [Option.some.injEq] at h
              subst h
              exact (eq_of_beq hc).symm
            · simp at h)).1.trans (by decide),
   by decide⟩

/-- C13: `matchDNS` only widens `options.DisableCache`: when it is true on entry it is
true on return, whatever rules are passed; a route or route-options merge leaves
it true if it was true and otherwise sets it exactly when it is forced, so a
`DisableCache` field that is false resets nothing; and the legacy fill-in does
not touch it. -/
theorem matchDNS_disableCache_widens (r : Router) (allowFakeIP isAddressQuery : Bool)
    (ruleIndex : Int) (options : DNSQueryOptions) (h : options.disableCache = true) :
    (r.matchDNS allowFakeIP ruleIndex isAddressQuery options).options.disableCache = true ∧
    (∀ (strategy : DomainStrategy) (forceDisable : Bool) (rewriteTTL : Option Nat)
       (clientSubnet : Option Subnet) (o : DNSQueryOptions),
       (mergeOptions strategy forceDisable rewriteTTL clientSubnet o).disableCache
         = (o.disableCache || forceDisable)) ∧
    (∀ (transports : List DNSTransport) (o : DNSQueryOptions),
       (legacyFill transports o).disableCache = o.disableCache) :=
  ⟨matchRules_disableCache r allowFakeIP isAddressQuery _ _ _ _ h,
   mergeOptions_disableCache, legacyFill_disableCache⟩

/-- C13 on a route-options rule and a route rule whose `DisableCache` fields are false,
entered with the cache disabled. -/
theorem matchDNS_disableCache_widens_witness :
    ((routerOf [keepCacheOptions, repeatedRoute]).matchDNS true (-1) true
        noCacheOptions).options.disableCache = true :=
  (matchDNS_disableCache_widens (routerOf [keepCacheOptions, repeatedRoute]) true true (-1)
    noCacheOptions rfl).1

/-- C14 fails on the code: the rule index written in the log line of a rule matched at
position i is i + (i + 1), not i + 1; for the rule at position 1 the log says 3. -/
theorem matchDNS_display_index_doubled :
    ((routerOf [unmatchedRule, rejectRule]).matchDNS false (-1) true plainOptions).ruleIndex
      = 1 ∧
    ((routerOf [unmatchedRule, rejectRule]).matchDNS false (-1) true plainOptions).displayed
      = [3] ∧
    displayRuleIndexOf 1 = 3 ∧
    ∀ i : Nat, displayRuleIndexOf i = 2 * (i : Int) + 1 := by
  refine ⟨by decide, by decide, by decide, ?_⟩
  intro i
  unfold displayRuleIndexOf
  have : ((i : Int) != -1) = true := by
    simp only [bne_iff_ne, ne_eq]
    omega
  rw [if_pos this]
  omega

/-! ## Claims on hashing and on the rendezvous picker -/

theorem fnv1a64Bytes_snoc (s : List Nat) (b : Nat) :
    fnv1a64Bytes (s ++ [b]) = ((fnv1a64Bytes s ^^^ b) * prime64) % 2 ^ 64 := by
  unfold fnv1a64Bytes
  rw [List.foldl_append]
  rfl

theorem fnv1a64Bytes_lt (s : List Nat) : fnv1a64Bytes s < 2 ^ 64 := by
  induction s using List.reverseRecOn with
  | nil => decide
  | append_singleton s b _ =>
    rw [fnv1a64Bytes_snoc]
    exact Nat.mod_lt _ (by decide)

/-- C17: `fnv1a64` is the FNV-1a 64-bit hash: on the empty string it is
0xCBF29CE484222325, and over the bytes of a string it satisfies, for every byte
string `s` and byte `b`, hash(s ++ [b]) = ((hash(s) XOR b) * 0x100000001B3) mod
2^64, so that every value is below 2^64. -/
theorem fnv1a64_is_fnv1a :
    fnv1a64 "" = 0xCBF29CE484222325 ∧
    fnv1a64Bytes [] = 0xCBF29CE484222325 ∧
    (∀ (s : List Nat) (b : Nat),
      fnv1a64Bytes (s ++ [b]) = ((fnv1a64Bytes s ^^^ b) * 0x100000001B3) % 2 ^ 64) ∧
    (∀ s : List Nat, fnv1a64Bytes s < 2 ^ 64) ∧
    (∀ s : String, fnv1a64 s = fnv1a64Bytes (goBytes s)) := by
  refine ⟨by decide, by decide, ?_, fnv1a64Bytes_lt, fun _ => rfl⟩
  intro s b
  rw [fnv1a64Bytes_snoc]
  rfl

theorem rendezvous_fold (key : String) (c : Outbound) (l : List Outbound) :
    ∃ d, l.foldl
        (fun (acc : Option Outbound × Nat) detour =>
          let score := fnv1a64 (key ++ "|" ++ detour.tag)
          if acc.1.isNone || decide (score > acc.2) then (some detour, score) else acc)
        (some c, rendezvousScore key c) = (some d, rendezvousScore key d) ∧
      IsFirstBest key (c :: l) d := by
  induction l using List.reverseRecOn with
  | nil =>
    exact ⟨c, rfl, [], [], rfl, by simp, by simp⟩
  | append_singleton l x ih =>
    obtain ⟨d, hfold, front, back, hsplit, hfront, hback⟩ := ih
    rw [List.foldl_append, hfold]
    simp only [List.foldl_cons, List.foldl_nil, Option.isNone_some, Bool.false_or]
    by_cases hx : rendezvousScore key x > rendezvousScore key d
    · have hx' : fnv1a64 (key ++ "|" ++ x.tag) > rendezvousScore key d := hx
      refine ⟨x, ?_, c :: l, [], by simp, ?_, by simp⟩
      · simp only [hx', decide_True, if_true]
        rfl
      · intro y hy
        rw [hsplit] at hy
        rcases List.mem_append.mp hy with h | h
        · exact lt_trans (hfront y h) hx
        · rcases List.mem_cons.mp h with h | h
          · rw [h]; exact hx
          · exact lt_of_le_of_lt (hback y h) hx
    · have hx' : ¬ (fnv1a64 (key ++ "|" ++ x.tag) > rendezvousScore key d) := hx
      refine ⟨d, ?_, front, back ++ [x], ?_, hfront, ?_⟩
      · simp only [hx', decide_False, Bool.false_eq_true, if_false]
      · rw [← List.cons_append, hsplit]
        simp
      · intro y hy
        rcases List.mem_append.mp hy with h | h
        · exact hback y h
        · simp only [List.mem_singleton] at h
          rw [h]
          exact Nat.le_of_not_lt hx

theorem rendezvousPick_cons (key : String) (c : Outbound) (l : List Outbound) :
    ∃ d, rendezvousPick key (c :: l) = some d ∧ IsFirstBest key (c :: l) d := by
  obtain ⟨d, hfold, hbest⟩ := rendezvous_fold key c l
  refine ⟨d, ?_, hbest⟩
  unfold rendezvousPick
  simp only [List.foldl_cons, Option.isNone_none, Bool.true_or, if_true]
  have : (some c, fnv1a64 (key ++ "|" ++ c.tag)) = (some c, rendezvousScore key c) := rfl
  rw [this, hfold]

theorem IsFirstBest_max (key : String) (candidates : List Outbound) (d : Outbound)
    (h : IsFirstBest key candidates d) :
    d ∈ candidates ∧ ∀ x ∈ candidates, rendezvousScore key x ≤ rendezvousScore key d := by
  obtain ⟨front, back, hsplit, hfront, hback⟩ := h
  refine ⟨by rw [hsplit]; simp, ?_⟩
  intro x hx
  rw [hsplit] at hx
  rcases List.mem_append.mp hx with h | h
  · exact Nat.le_of_lt (hfront x h)
  · rcases List.mem_cons.mp h with h | h
    · rw [h]
    · exact hback x h

/-- C16: for every key and every non-empty candidate list, `rendezvousPick` returns a
candidate whose score `fnv1a64(key + "|" + tag)` is the highest of the list, and
of the candidates with that score the one that comes first; and it returns nil
exactly for the empty list. -/
theorem rendezvousPick_first_best (key : String) (candidates : List Outbound)
    (h : candidates ≠ []) :
    (∃ c, rendezvousPick key candidates = some c ∧ c ∈ candidates ∧
      (∀ x ∈ candidates,
        fnv1a64 (key ++ "|" ++ x.tag) ≤ fnv1a64 (key ++ "|" ++ c.tag)) ∧
      ∃ front back, candidates = front ++ c :: back ∧
        ∀ x ∈ front, fnv1a64 (key ++ "|" ++ x.tag) < fnv1a64 (key ++ "|" ++ c.tag)) ∧
    (∀ l : List Outbound, rendezvousPick key l = none ↔ l = []) := by
  refine ⟨?_, ?_⟩
  · cases candidates with
    | nil => exact absurd rfl h
    | cons c l =>
      obtain ⟨d, hpick, hbest⟩ := rendezvousPick_cons key c l
      obtain ⟨hmem, hmax⟩ := IsFirstBest_max key _ d hbest
      obtain ⟨front, back, hsplit, hfront, _⟩ := hbest
      exact ⟨d, hpick, hmem, hmax, front, back, hsplit, hfront⟩
  · intro l
    cases l with
    | nil => simp [rendezvousPick]
    | cons c l =>
      obtain ⟨d, hpick, _⟩ := rendezvousPick_cons key c l
      simp [hpick]

/-- C16 on the candidates a, b for the key example.com:80: the pick is b. -/
theorem rendezvousPick_first_best_witness :
    ∃ c, rendezvousPick "example.com:80" [outA, outB] = some c ∧ c ∈ [outA, outB] ∧
      (∀ x ∈ [outA, outB],
        fnv1a64 ("example.com:80" ++ "|" ++ x.tag)
          ≤ fnv1a64 ("example.com:80" ++ "|" ++ c.tag)) ∧
      ∃ front back, [outA, outB] = front ++ c :: back ∧
        ∀ x ∈ front,
          fnv1a64 ("example.com:80" ++ "|" ++ x.tag)
            < fnv1a64 ("example.com:80" ++ "|" ++ c.tag) :=
  (rendezvousPick_first_best "example.com:80" [outA, outB] (by decide)).1

theorem rendezvousPick_tie (key : String) (a b : Outbound)
    (h : rendezvousScore key a = rendezvousScore key b) :
    rendezvousPick key [a, b] = some a := by
  obtain ⟨d, hpick, front, back, hsplit, hfront, _⟩ := rendezvousPick_cons key a [b]
  rw [hpick]
  cases front with
  | nil =>
    simp only [List.nil_append, List.cons.injEq] at hsplit
    rw [hsplit.1]
  | cons f front =>
    simp only [List.cons_append, List.cons.injEq] at hsplit
    obtain ⟨hf, hrest⟩ := hsplit
    have hd : d = b := by
      cases front with
      | nil =>
        simp only [List.nil_append, List.cons.injEq] at hrest
        exact hrest.1.symm
      | cons f2 front =>
        simp only [List.cons_append, List.cons.injEq] at hrest
        have := hrest.2
        simp at this
    have := hfront f (List.mem_cons_self _ _)
    rw [← hf, hd, h] at this
    exact absurd this (lt_irrefl _)

theorem tagOfLength_injective (m n : Nat) (h : tagOfLength m = tagOfLength n) : m = n := by
  unfold tagOfLength at h
  have := congrArg (fun s => s.data.length) h
  simpa using this

theorem fnv_collision :
    ∃ m n : Nat, m ≠ n ∧
      rendezvousScore "k" (outboundOf 1 (tagOfLength m))
        = rendezvousScore "k" (outboundOf 2 (tagOfLength n)) := by
  obtain ⟨m, n, hne, heq⟩ := Finite.exists_ne_map_eq_of_infinite
    (fun n : Nat =>
      (⟨fnv1a64 ("k" ++ "|" ++ tagOfLength n), fnv1a64Bytes_lt _⟩ : Fin (2 ^ 64)))
  refine ⟨m, n, hne, ?_⟩
  have := congrArg Fin.val heq
  exact this

/-- C15 fails: two distinct outbounds of one tag are picked according to their order;
and the claim fails as well on lists whose members have pairwise distinct tags,
since `fnv1a64` has values below 2^64 only and so gives two different tags the
same score under the key "k". -/
theorem rendezvousPick_order_matters :
    (List.Perm [outA, outA2] [outA2, outA] ∧
      rendezvousPick "k" [outA, outA2] = some outA ∧
      rendezvousPick "k" [outA2, outA] = some outA2 ∧ outA ≠ outA2) ∧
    ¬ (∀ (key : String) (l1 l2 : List Outbound),
        (∀ x ∈ l1, ∀ y ∈ l1, x.tag = y.tag → x = y) → l1.Perm l2 →
        rendezvousPick key l1 = rendezvousPick key l2) := by
  refine ⟨⟨List.Perm.swap _ _ _, by decide, by decide, by decide⟩, ?_⟩
  intro hall
  obtain ⟨m, n, hne, hscore⟩ := fnv_collision
  have htag : tagOfLength m ≠ tagOfLength n := fun h => hne (tagOfLength_injective m n h)
  have h := hall "k" [outboundOf 1 (tagOfLength m), outboundOf 2 (tagOfLength n)]
    [outboundOf 2 (tagOfLength n), outboundOf 1 (tagOfLength m)]
    (by
      intro x hx y hy hxy
      simp only [List.mem_cons, List.mem_singleton, List.not_mem_nil, or_false] at hx hy
      rcases hx with rfl | rfl <;> rcases hy with rfl | rfl
      · rfl
      · exact absurd hxy htag
      · exact absurd hxy.symm htag
      · rfl)
    (List.Perm.swap _ _ _)
  rw [rendezvousPick_tie "k" _ _ hscore, rendezvousPick_tie "k" _ _ hscore.symm] at h
  simp only [Option.some.injEq] at h
  have := congrArg Outbound.id h
  simp [outboundOf] at this

/-- C15 as amended: for every key and every two candidate lists that are permutations
of one another, the outbounds `rendezvousPick` returns have the same score; and
it returns the same outbound for both whenever no two distinct candidates have
the same score. -/
theorem rendezvousPick_perm (key : String) (l1 l2 : List Outbound) (hperm : l1.Perm l2) :
    (rendezvousPick key l1).map (rendezvousScore key)
      = (rendezvousPick key l2).map (rendezvousScore key) ∧
    ((∀ x ∈ l1, ∀ y ∈ l1, rendezvousScore key x = rendezvousScore key y → x = y) →
      rendezvousPick key l1 = rendezvousPick key l2) := by
  cases l1 with
  | nil =>
    have : l2 = [] := List.Perm.eq_nil hperm.symm
    subst this
    exact ⟨rfl, fun _ => rfl⟩
  | cons c l =>
    cases l2 with
    | nil => exact absurd (List.Perm.eq_nil hperm) (by simp)
    | cons c2 l2 =>
      obtain ⟨d1, hp1, hb1⟩ := rendezvousPick_cons key c l
      obtain ⟨d2, hp2, hb2⟩ := rendezvousPick_cons key c2 l2
      obtain ⟨hm1, hmax1⟩ := IsFirstBest_max key _ d1 hb1
      obtain ⟨hm2, hmax2⟩ := IsFirstBest_max key _ d2 hb2
      have hscore : rendezvousScore key d1 = rendezvousScore key d2 :=
        Nat.le_antisymm (hmax2 d1 (hperm.subset hm1)) (hmax1 d2 (hperm.symm.subset hm2))
      refine ⟨by rw [hp1, hp2]; simp [hscore], ?_⟩
      intro hinj
      rw [hp1, hp2]
      exact congrArg some (hinj d1 hm1 d2 (hperm.symm.subset hm2) hscore)

/-- C15 as amended, on the candidates a, b and b, a for the key example.com:80. -/
theorem rendezvousPick_perm_witness :
    rendezvousPick "example.com:80" [outA, outB]
      = rendezvousPick "example.com:80" [outB, outA] :=
  (rendezvousPick_perm "example.com:80" [outA, outB] [outB, outA]
    (List.Perm.swap _ _ _)).2 (by decide)

/-! ## Lemmas on Go maps and on the sticky cache -/

theorem GoMap.load_delete_self {α : Type} (m : GoMap α) (key : String) :
    GoMap.load (GoMap.delete m key) key = none := by
  unfold GoMap.load GoMap.delete
  induction m with
  | nil => rfl
  | cons pair rest ih =>
    by_cases h : pair.1 = key
    · have : (pair.1 != key) = false := by simp [h]
      rw [List.filter_cons, this]
      exact ih
    · have h1 : (pair.1 != key) = true := bne_iff_ne.mpr h
      have h2 : (key == pair.1) = false := beq_eq_false_iff_ne.mpr (fun hc => h hc.symm)
      rw [List.filter_cons, h1]
      simp only [if_true]
      cases pair with
      | mk k v =>
        simp only at h2
        rw [List.lookup_cons, h2]
        exact ih

theorem GoMap.load_delete_other {α : Type} (m : GoMap α) (key other : String)
    (hne : other ≠ key) :
    GoMap.load (GoMap.delete m other) key = GoMap.load m key := by
  unfold GoMap.load GoMap.delete
  induction m with
  | nil => rfl
  | cons pair rest ih =>
    cases pair with
    | mk k v =>
      by_cases h : k = other
      · have h1 : ((k, v).1 != other) = false := by simp [h]
        have h2 : (key == k) = false := by
          rw [h]; exact beq_eq_false_iff_ne.mpr (fun hc => hne hc.symm)
        rw [List.filter_cons, h1, List.lookup_cons, h2]
        exact ih
      · have h1 : ((k, v).1 != other) = true := bne_iff_ne.mpr h
        rw [List.filter_cons, h1]
        simp only [if_true, List.lookup_cons]
        cases hk : (key == k)
        · exact ih
        · rfl

theorem GoMap.load_store_self {α : Type} (m : GoMap α) (key : String) (value : α) :
    GoMap.load (GoMap.store m key value) key = some value := by
  unfold GoMap.load GoMap.store
  rw [List.lookup_cons]
  simp

theorem GoMap.load_store_other {α : Type} (m : GoMap α) (key other : String) (value : α)
    (hne : other ≠ key) :
    GoMap.load (GoMap.store m other value) key = GoMap.load m key := by
  have h2 : (key == other) = false := beq_eq_false_iff_ne.mpr (fun hc => hne hc.symm)
  have := GoMap.load_delete_other m key other hne
  unfold GoMap.load GoMap.store at *
  rw [List.lookup_cons, h2]
  exact this

/-! ## Claims on the sticky lookup -/

/-- C20 fails in one case: the cache names a, which is a member of the group but not
in the current candidate set (only b has a history entry); `loadSticky` returns
nil and leaves the entry in the cache. -/
theorem loadSticky_keeps_entry :
    staleSticky.candidates "tcp" = [outB] ∧
    GoMap.load staleSticky.stickyCache
        (stickyKey (envOk 5).effectiveTLDPlusOne (some "10.0.0.1") "tcp" exampleCom)
      = some { tag := "a", expire := 100 } ∧
    staleSticky.outboundMap "a" = some outA ∧
    staleSticky.loadSticky (envOk 5) 5 (some "10.0.0.1") "tcp" exampleCom [outB]
      = (staleSticky, none) ∧
    GoMap.load
        (staleSticky.loadSticky (envOk 5) 5 (some "10.0.0.1") "tcp" exampleCom
          [outB]).1.stickyCache
        (stickyKey (envOk 5).effectiveTLDPlusOne (some "10.0.0.1") "tcp" exampleCom)
      = some { tag := "a", expire := 100 } := by
  decide

/-- C20 as amended: with an entry present for the key, `loadSticky` returns an
outbound exactly when the entry is not expired and the outbound its tag names in
the group is in the current candidate set, and then that outbound, leaving the
cache as it is. An expired entry, and an entry whose tag names no member, is
deleted from the cache; an entry naming a member that is not in the current
candidate set is left in the cache. In each of these cases `loadSticky` returns
nil, and `selectOutbound` then returns `rendezvousPick` over the sticky key and
the candidates. -/
theorem loadSticky_cases (g : LoadBalanceGroup) (env : DialEnv) (pass : Nat)
    (source : Option String) (network : String) (destination : Socksaddr)
    (candidates : List Outbound) (entry : StickyEntry)
    (hentry : GoMap.load g.stickyCache
        (stickyKey env.effectiveTLDPlusOne source network destination) = some entry) :
    (∀ d, (g.loadSticky env (env.loadNow pass) source network destination candidates).2
          = some d ↔
        (env.loadNow pass ≤ entry.expire ∧ g.outboundMap entry.tag = some d ∧
          d ∈ candidates)) ∧
    ((g.loadSticky env (env.loadNow pass) source network destination candidates).2 ≠ none →
      (g.loadSticky env (env.loadNow pass) source network destination candidates).1 = g) ∧
    (entry.expire < env.loadNow pass →
      g.loadSticky env (env.loadNow pass) source network destination candidates
        = (g.deleteSticky env source network destination, none)) ∧
    (env.loadNow pass ≤ entry.expire → g.outboundMap entry.tag = none →
      g.loadSticky env (env.loadNow pass) source network destination candidates
        = (g.deleteSticky env source network destination, none)) ∧
    (∀ d, env.loadNow pass ≤ entry.expire → g.outboundMap entry.tag = some d →
      d ∉ candidates →
      g.loadSticky env (env.loadNow pass) source network destination candidates
        = (g, none)) ∧
    GoMap.load (g.deleteSticky env source network destination).stickyCache
        (stickyKey env.effectiveTLDPlusOne source network destination) = none ∧
    (g.strategy = LoadBalanceStrategyStickySessions →
      (g.loadSticky env (env.loadNow pass) source network destination candidates).2 = none →
      g.selectOutbound env pass source network destination candidates
        = ((g.loadSticky env (env.loadNow pass) source network destination candidates).1,
           rendezvousPick (stickyKey env.effectiveTLDPlusOne source network destination)
             candidates,
           none)) := by
  have hexp : entry.expire < env.loadNow pass →
      g.loadSticky env (env.loadNow pass) source network destination candidates
        = (g.deleteSticky env source network destination, none) := by
    intro h
    unfold LoadBalanceGroup.loadSticky
    simp only [hentry]
    rw [if_pos h]
    rfl
  have hgone : env.loadNow pass ≤ entry.expire → g.outboundMap entry.tag = none →
      g.loadSticky env (env.loadNow pass) source network destination candidates
        = (g.deleteSticky env source network destination, none) := by
    intro h hmap
    unfold LoadBalanceGroup.loadSticky
    simp only [hentry]
    rw [if_neg (Nat.not_lt.mpr h)]
    simp only [hmap]
    rfl
  have hmiss : ∀ d, env.loadNow pass ≤ entry.expire → g.outboundMap entry.tag = some d →
      d ∉ candidates →
      g.loadSticky env (env.loadNow pass) source network destination candidates
        = (g, none) := by
    intro d h hmap hnot
    unfold LoadBalanceGroup.loadSticky
    simp only [hentry]
    rw [if_neg (Nat.not_lt.mpr h)]
    simp only [hmap]
    have : candidates.contains d = false := by
      simpa using hnot
    rw [this]
    rfl
  have hhit : ∀ d, env.loadNow pass ≤ entry.expire → g.outboundMap entry.tag = some d →
      d ∈ candidates →
      g.loadSticky env (env.loadNow pass) source network destination candidates
        = (g, some d) := by
    intro d h hmap hin
    unfold LoadBalanceGroup.loadSticky
    simp only [hentry]
    rw [if_neg (Nat.not_lt.mpr h)]
    simp only [hmap]
    have : candidates.contains d = true := by
      simpa using hin
    rw [this]
    rfl
  have hcases : ∀ d, (g.loadSticky env (env.loadNow pass) source network destination
        candidates).2 = some d →
      env.loadNow pass ≤ entry.expire ∧ g.outboundMap entry.tag = some d ∧
        d ∈ candidates := by
    intro d hd
    by_cases h : entry.expire < env.loadNow pass
    · rw [hexp h] at hd
      simp at hd
    · have hle := Nat.not_lt.mp h
      cases hmap : g.outboundMap entry.tag with
      | none =>
        rw [hgone hle hmap] at hd
        simp at hd
      | some d0 =>
        by_cases hin : d0 ∈ candidates
        · rw [hhit d0 hle hmap hin] at hd
          simp only [Option.some.injEq] at hd
          subst hd
          exact ⟨hle, rfl, hin⟩
        · rw [hmiss d0 hle hmap hin] at hd
          simp at hd
  refine ⟨?_, ?_, hexp, hgone, hmiss, GoMap.load_delete_self _ _, ?_⟩
  · intro d
    constructor
    · exact hcases d
    · rintro ⟨hle, hmap, hin⟩
      rw [hhit d hle hmap hin]
  · intro hne
    cases hres : (g.loadSticky env (env.loadNow pass) source network destination
        candidates).2 with
    | none => exact absurd hres hne
    | some d =>
      obtain ⟨hle, hmap, hin⟩ := hcases d hres
      rw [hhit d hle hmap hin]
  · intro hstrategy hnone
    unfold LoadBalanceGroup.selectOutbound
    have h1 : (g.strategy == LoadBalanceStrategyRoundRobin) = false := by
      rw [hstrategy]; decide
    have h2 : (g.strategy == LoadBalanceStrategyConsistentHashing) = false := by
      rw [hstrategy]; decide
    have h3 : (g.strategy == LoadBalanceStrategyStickySessions) = true := by
      rw [hstrategy]; decide
    simp only [h1, h2, h3, Bool.false_eq_true, if_false, if_true]
    cases hres : g.loadSticky env (env.loadNow pass) source network destination candidates with
    | mk g1 cached =>
      rw [hres] at hnone
      simp only at hnone
      subst hnone
      rfl

/-- C20 as amended, on the stale entry for a: with the whole group as candidates the
entry is served. -/
theorem loadSticky_cases_witness :
    (staleSticky.loadSticky (envOk 5) ((envOk 5).loadNow 0) (some "10.0.0.1") "tcp" exampleCom
        [outA, outB]).2 = some outA :=
  ((loadSticky_cases staleSticky (envOk 5) 0 (some "10.0.0.1") "tcp" exampleCom [outA, outB]
    { tag := "a", expire := 100 } (by decide)).1 outA).mpr
    ⟨by decide, by decide, by decide⟩

/-! ## Lemmas on the dial loop of the load-balance group -/

theorem candidates_congr (g g2 : LoadBalanceGroup) (network : String)
    (houtbounds : g2.outbounds = g.outbounds) (hhistory : g2.history = g.history) :
    g2.candidates network = g.candidates network := by
  unfold LoadBalanceGroup.candidates
  rw [houtbounds, hhistory]

theorem filter_not_excluded_nil (l : List Outbound) :
    l.filter (fun it => !([] : List Outbound).contains it) = l := by
  induction l with
  | nil => rfl
  | cons a l ih => simp

theorem rrIndex (c : Nat) (hc : c < 2 ^ 64) :
    ((c + 1) % 2 ^ 64 + 2 ^ 64 - 1) % 2 ^ 64 = c := by
  norm_num at hc ⊢
  omega

/-- One `DialContext` call on a round-robin group whose dials succeed. -/
theorem DialContext_roundRobin (g : LoadBalanceGroup) (env : DialEnv) (source : Option String)
    (network : String) (destination : Socksaddr)
    (hstrategy : g.strategy = LoadBalanceStrategyRoundRobin)
    (hne : g.candidates network ≠ [])
    (hcounter : g.rrCounter < 2 ^ 64)
    (hdial : ∀ o, env.dial network o = none) :
    ∃ o, (g.candidates network).get? (g.rrCounter % (g.candidates network).length) = some o ∧
      g.DialContext env source network destination
        = .ret { group := { g with rrCounter := (g.rrCounter + 1) % 2 ^ 64,
                                   lastSelected := some o },
                 conn := some o, err := none, dialed := [o], checks := 0 } := by
  have hlen : 0 < (g.candidates network).length := List.length_pos.mpr hne
  have hidx : g.rrCounter % (g.candidates network).length < (g.candidates network).length :=
    Nat.mod_lt _ hlen
  obtain ⟨o, ho⟩ : ∃ o, (g.candidates network).get? (g.rrCounter % (g.candidates network).length)
      = some o := ⟨_, List.get?_eq_get hidx⟩
  refine ⟨o, ho, ?_⟩
  unfold LoadBalanceGroup.DialContext
  rw [LoadBalanceGroup.dialLoop]
  simp only [DialLoop.init, filter_not_excluded_nil]
  have hsel : g.selectOutbound env 0 source network destination (g.candidates network)
      = ({ g with rrCounter := (g.rrCounter + 1) % 2 ^ 64 }, some o, none) := by
    unfold LoadBalanceGroup.selectOutbound
    have h1 : (g.strategy == LoadBalanceStrategyRoundRobin) = true := by
      rw [hstrategy]; decide
    simp only [h1, if_true, LoadBalanceGroup.selectRoundRobin, rrIndex _ hcounter, ho]
  have hlen0 : ((g.candidates network).length == 0) = false := by
    simp only [beq_eq_false_iff_ne, ne_eq]
    omega
  simp only [hlen0, Bool.false_eq_true, if_false, hsel, hdial]
  have h3 : (g.strategy == LoadBalanceStrategyStickySessions) = false := by
    rw [hstrategy]; decide
  simp only [h3, Bool.false_eq_true, if_false, List.nil_append]

/-- The state of a fresh round-robin group before call number `k` of a run in which
every dial succeeds and the candidate list is `cands` at every call. -/
theorem beforeCall_roundRobin (g : LoadBalanceGroup) (calls : Nat → DialCall)
    (network : String) (cands : List Outbound)
    (hstrategy : g.strategy = LoadBalanceStrategyRoundRobin)
    (hfresh : g.rrCounter = 0)
    (hnetwork : ∀ i, (calls i).network = network)
    (hcands : ∀ i, (g.withHistory (calls i).history).candidates network = cands)
    (hne : cands ≠ [])
    (hdial : ∀ i o, (calls i).env.dial network o = none) (k : Nat) :
    ∃ gk, g.beforeCall calls k = .ret gk ∧ gk.outbounds = g.outbounds ∧
      gk.strategy = LoadBalanceStrategyRoundRobin ∧ gk.rrCounter = k % 2 ^ 64 := by
  induction k with
  | zero => exact ⟨g, rfl, rfl, hstrategy, by rw [hfresh]; rfl⟩
  | succ k ih =>
    obtain ⟨gk, hrun, houtbounds, hstrat, hcounter⟩ := ih
    have hc : (gk.withHistory (calls k).history).candidates network = cands := by
      rw [← hcands k]
      exact candidates_congr _ _ network houtbounds rfl
    have hlt : (gk.withHistory (calls k).history).rrCounter < 2 ^ 64 := by
      show gk.rrCounter < 2 ^ 64
      rw [hcounter]
      exact Nat.mod_lt _ (by norm_num)
    obtain ⟨o, _, hcall⟩ := DialContext_roundRobin (gk.withHistory (calls k).history)
      (calls k).env (calls k).source network (calls k).destination hstrat
      (by rw [hc]; exact hne) hlt (hdial k)
    rw [LoadBalanceGroup.beforeCall, hrun]
    simp only [LoadBalanceGroup.dialCall, hnetwork k, hcall]
    refine ⟨_, rfl, houtbounds, hstrat, ?_⟩
    show (gk.rrCounter + 1) % 2 ^ 64 = (k + 1) % 2 ^ 64
    rw [hcounter]
    exact Nat.mod_add_mod k (2 ^ 64) 1 ▸ rfl

/-- Call number `k` of such a run dials the candidate at `(k mod 2^64) mod n` and no
other outbound. -/
theorem kthCall_roundRobin (g : LoadBalanceGroup) (calls : Nat → DialCall)
    (network : String) (cands : List Outbound)
    (hstrategy : g.strategy = LoadBalanceStrategyRoundRobin)
    (hfresh : g.rrCounter = 0)
    (hnetwork : ∀ i, (calls i).network = network)
    (hcands : ∀ i, (g.withHistory (calls i).history).candidates network = cands)
    (hne : cands ≠ [])
    (hdial : ∀ i o, (calls i).env.dial network o = none) (k : Nat) :
    ∃ o out, cands.get? (k % 2 ^ 64 % cands.length) = some o ∧
      g.kthCall calls k = .ret out ∧ out.conn = some o ∧ out.err = none ∧
      out.dialed = [o] := by
  obtain ⟨gk, hrun, houtbounds, hstrat, hcounter⟩ :=
    beforeCall_roundRobin g calls network cands hstrategy hfresh hnetwork hcands hne hdial k
  have hc : (gk.withHistory (calls k).history).candidates network = cands := by
    rw [← hcands k]
    exact candidates_congr _ _ network houtbounds rfl
  have hlt : (gk.withHistory (calls k).history).rrCounter < 2 ^ 64 := by
    show gk.rrCounter < 2 ^ 64
    rw [hcounter]
    exact Nat.mod_lt _ (by norm_num)
  obtain ⟨o, ho, hcall⟩ := DialContext_roundRobin (gk.withHistory (calls k).history)
    (calls k).env (calls k).source network (calls k).destination hstrat
    (by rw [hc]; exact hne) hlt (hdial k)
  rw [hc] at ho
  have ho2 : cands.get? (k % 2 ^ 64 % cands.length) = some o := by
    rw [← hcounter]
    exact ho
  have hk : g.kthCall calls k
      = .ret { group := { gk.withHistory (calls k).history with
                            rrCounter := ((gk.withHistory (calls k).history).rrCounter + 1)
                              % 2 ^ 64,
                            lastSelected := some o },
               conn := some o, err := none, dialed := [o], checks := 0 } := by
    unfold LoadBalanceGroup.kthCall
    rw [hrun]
    simp only [LoadBalanceGroup.dialCall, hnetwork k, hcall]
  exact ⟨o, _, ho2, hk, rfl, rfl, rfl⟩

/-! ## Claims on round-robin -/

/-- C18 fails once the counter has wrapped: `rrCounter` is a uint64, so on the fresh
round-robin group of a, b and c, whose dials all succeed, call number 2^64 dials
a, the candidate at index 0, while the candidate at index 2^64 mod 3 = 1 is b. -/
theorem roundRobin_wraps :
    (∀ i, (threeRoundRobin.withHistory (plainCalls i).history).candidates "tcp"
        = [outA, outB, outC]) ∧
    (∀ i o, (plainCalls i).env.dial "tcp" o = none) ∧
    [outA, outB, outC].get? (2 ^ 64 % [outA, outB, outC].length) = some outB ∧
    ∃ out, threeRoundRobin.kthCall plainCalls (2 ^ 64) = .ret out ∧ out.conn = some outA ∧
      out.dialed = [outA] := by
  refine ⟨fun _ => rfl, fun _ _ => rfl, by decide, ?_⟩
  obtain ⟨o, out, ho, hcall, hconn, _, hdialed⟩ :=
    kthCall_roundRobin threeRoundRobin plainCalls "tcp" [outA, outB, outC] rfl rfl
      (fun _ => rfl) (fun _ => rfl) (by decide) (fun _ _ => rfl) (2 ^ 64)
  have hA : o = outA := by
    have h0 : [outA, outB, outC].get? (2 ^ 64 % 2 ^ 64 % [outA, outB, outC].length)
        = some outA := by decide
    rw [h0] at ho
    exact (Option.some.inj ho).symm
  subst hA
  exact ⟨out, hcall, hconn, hdialed⟩

/-- C18 as amended: for a round-robin group whose candidate list for the network is
the same list of n >= 1 outbounds at every call and whose dials all succeed, call
number k (k = 0, 1, 2, ... counted on a fresh group) returns the connection of
the candidate at index (k mod 2^64) mod n and dials no other outbound; this is
the candidate at index k mod n for every k below 2^64, and for every k when the
candidates are two, a and b, so that the dial sequence over a, b is a, b, a, b,
... -/
theorem roundRobin_kth_dial (g : LoadBalanceGroup) (calls : Nat → DialCall)
    (network : String) (cands : List Outbound)
    (hstrategy : g.strategy = LoadBalanceStrategyRoundRobin)
    (hfresh : g.rrCounter = 0)
    (hnetwork : ∀ i, (calls i).network = network)
    (hcands : ∀ i, (g.withHistory (calls i).history).candidates network = cands)
    (hne : cands ≠ [])
    (hdial : ∀ i o, (calls i).env.dial network o = none) (k : Nat) :
    (∃ o out, cands.get? (k % 2 ^ 64 % cands.length) = some o ∧
      g.kthCall calls k = .ret out ∧ out.conn = some o ∧ out.err = none ∧
      out.dialed = [o]) ∧
    (k < 2 ^ 64 → k % 2 ^ 64 % cands.length = k % cands.length) ∧
    (∀ a b, cands = [a, b] →
      ∃ out, g.kthCall calls k = .ret out ∧
        out.dialed = [if k % 2 = 0 then a else b]) := by
  have hmain :=
    kthCall_roundRobin g calls network cands hstrategy hfresh hnetwork hcands hne hdial k
  refine ⟨hmain, ?_, ?_⟩
  · intro hk
    rw [Nat.mod_eq_of_lt hk]
  · intro a b hab
    obtain ⟨o, out, ho, hcall, _, _, hdialed⟩ := hmain
    refine ⟨out, hcall, ?_⟩
    rw [hdialed]
    subst hab
    have h2 : k % 2 ^ 64 % 2 = k % 2 := by
      norm_num
    simp only [List.length_cons, List.length_nil, Nat.zero_add, Nat.reduceAdd, h2] at ho
    rcases Nat.mod_two_eq_zero_or_one k with h | h
    · rw [h] at ho
      rw [if_pos h]
      simp only [List.get?_cons_zero, Option.some.injEq] at ho
      rw [ho]
    · rw [h] at ho
      rw [if_neg (by omega)]
      simp only [List.get?_cons_succ, List.get?_cons_zero, Option.some.injEq] at ho
      rw [ho]

/-- C18 as amended, on the fresh round-robin group of a and b: call number 1 dials b
and nothing else. -/
theorem roundRobin_kth_dial_witness :
    ∃ out, twoRoundRobin.kthCall plainCalls 1 = .ret out ∧
      out.dialed = [if 1 % 2 = 0 then outA else outB] :=
  (roundRobin_kth_dial twoRoundRobin plainCalls "tcp" [outA, outB] rfl rfl (fun _ => rfl)
    (fun _ => rfl) (by decide) (fun _ _ => rfl) 1).2.2 outA outB rfl

/-! ## Lemmas on selection and on the dial loop -/

theorem candidates_subset (g : LoadBalanceGroup) (network : String) (d : Outbound)
    (h : d ∈ g.candidates network) : d ∈ g.outbounds := by
  unfold LoadBalanceGroup.candidates at h
  simp only at h
  split at h
  · exact (List.mem_filter.mp (List.mem_filter.mp h).1).1
  · exact (List.mem_filter.mp h).1

theorem filter_excluded_le (l excluded : List Outbound) (d : Outbound) :
    (l.filter (fun it => !(d :: excluded).contains it)).length
      ≤ (l.filter (fun it => !excluded.contains it)).length := by
  induction l with
  | nil => exact Nat.le_refl _
  | cons a l ih =>
    simp only [List.filter_cons]
    by_cases ha : excluded.contains a = true
    · have h2 : (d :: excluded).contains a = true := by
        rw [List.contains_cons, ha, Bool.or_true]
      simp only [ha, h2, Bool.not_true, Bool.false_eq_true, if_false]
      exact ih
    · have ha2 : excluded.contains a = false := by
        simpa using ha
      by_cases h2 : (d :: excluded).contains a = true
      · simp only [ha2, h2, Bool.not_true, Bool.not_false, Bool.false_eq_true, if_false,
          if_true, List.length_cons]
        omega
      · have h3 : (d :: excluded).contains a = false := by
          simpa using h2
        simp only [ha2, h3, Bool.not_false, if_true, List.length_cons]
        omega

theorem filter_excluded_lt (l excluded : List Outbound) (d : Outbound) (hd : d ∈ l)
    (hnot : excluded.contains d = false) :
    (l.filter (fun it => !(d :: excluded).contains it)).length
      < (l.filter (fun it => !excluded.contains it)).length := by
  induction l with
  | nil => cases hd
  | cons a l ih =>
    simp only [List.filter_cons]
    by_cases hda : a = d
    · subst hda
      have h2 : (a :: excluded).contains a = true := by
        rw [List.contains_cons, beq_self_eq_true, Bool.true_or]
      simp only [hnot, h2, Bool.not_true, Bool.not_false, Bool.false_eq_true, if_false,
        if_true, List.length_cons]
      have := filter_excluded_le l excluded a
      omega
    · have hd2 : d ∈ l := by
        rcases List.mem_cons.mp hd with h | h
        · exact absurd h.symm hda
        · exact h
      have hlt := ih hd2
      have hbeq : (a == d) = false := beq_eq_false_iff_ne.mpr hda
      have h2 : (d :: excluded).contains a = excluded.contains a := by
        rw [List.contains_cons, hbeq, Bool.false_or]
      rw [h2]
      by_cases ha : excluded.contains a = true
      · simp only [ha, Bool.not_true, Bool.false_eq_true, if_false]
        exact hlt
      · have ha2 : excluded.contains a = false := by
          simpa using ha
        simp only [ha2, Bool.not_false, if_true, List.length_cons]
        omega

/-- What `loadSticky` leaves as it is, and where its result comes from. -/
theorem loadSticky_frame (g : LoadBalanceGroup) (env : DialEnv) (now : Nat)
    (source : Option String) (network : String) (destination : Socksaddr)
    (candidates : List Outbound) :
    (g.loadSticky env now source network destination candidates).1.outbounds = g.outbounds ∧
    (g.loadSticky env now source network destination candidates).1.strategy = g.strategy ∧
    (g.loadSticky env now source network destination candidates).1.history = g.history ∧
    (∀ other, other ≠ stickyKey env.effectiveTLDPlusOne source network destination →
      GoMap.load (g.loadSticky env now source network destination candidates).1.stickyCache
        other = GoMap.load g.stickyCache other) ∧
    (∀ d, (g.loadSticky env now source network destination candidates).2 = some d →
      d ∈ candidates) := by
  unfold LoadBalanceGroup.loadSticky
  simp only
  split
  · exact ⟨rfl, rfl, rfl, fun _ _ => rfl, fun d h => by cases h⟩
  · split
    · exact ⟨rfl, rfl, rfl, fun other h => GoMap.load_delete_other _ _ _ (Ne.symm h),
        fun d h => by cases h⟩
    · split
      · exact ⟨rfl, rfl, rfl, fun other h => GoMap.load_delete_other _ _ _ (Ne.symm h),
          fun d h => by cases h⟩
      · split
        · rename_i hin
          refine ⟨rfl, rfl, rfl, fun _ _ => rfl, fun d h => ?_⟩
          simp only [Option.some.injEq] at h
          subst h
          simpa using hin
        · exact ⟨rfl, rfl, rfl, fun _ _ => rfl, fun d h => by cases h⟩

/-- A fresh entry naming a candidate is served. -/
theorem loadSticky_hit (g : LoadBalanceGroup) (env : DialEnv) (now : Nat)
    (source : Option String) (network : String) (destination : Socksaddr)
    (candidates : List Outbound) (o : Outbound) (deadline : Nat)
    (hfresh : StickyFresh g (stickyKey env.effectiveTLDPlusOne source network destination) o
      deadline)
    (hnow : now ≤ deadline) (hmap : g.outboundMap o.tag = some o) (hin : o ∈ candidates) :
    g.loadSticky env now source network destination candidates = (g, some o) := by
  obtain ⟨entry, hentry, htag, hexpire⟩ := hfresh
  unfold LoadBalanceGroup.loadSticky
  simp only [hentry]
  rw [if_neg (by omega)]
  rw [htag]
  simp only [hmap]
  have : candidates.contains o = true := by
    simpa using hin
  rw [this]
  rfl

/-- What `selectOutbound` leaves as it is, and where its result comes from. -/
theorem selectOutbound_frame (g : LoadBalanceGroup) (env : DialEnv) (pass : Nat)
    (source : Option String) (network : String) (destination : Socksaddr)
    (candidates : List Outbound) :
    (g.selectOutbound env pass source network destination candidates).1.outbounds
      = g.outbounds ∧
    (g.selectOutbound env pass source network destination candidates).1.strategy
      = g.strategy ∧
    (g.selectOutbound env pass source network destination candidates).1.history
      = g.history ∧
    (∀ other, other ≠ stickyKey env.effectiveTLDPlusOne source network destination →
      GoMap.load
        (g.selectOutbound env pass source network destination candidates).1.stickyCache other
        = GoMap.load g.stickyCache other) ∧
    (∀ d, (g.selectOutbound env pass source network destination candidates).2.1 = some d →
      d ∈ candidates) ∧
    (candidates ≠ [] →
      (g.selectOutbound env pass source network destination candidates).2.2 = none →
      (g.selectOutbound env pass source network destination candidates).2.1 ≠ none) := by
  unfold LoadBalanceGroup.selectOutbound
  split
  · refine ⟨rfl, rfl, rfl, fun _ _ => rfl, fun d h => ?_, fun hne _ => ?_⟩
    · exact List.get?_mem h
    · have hlen : 0 < candidates.length := List.length_pos.mpr hne
      show candidates.get? _ ≠ none
      rw [List.get?_eq_get (Nat.mod_lt _ hlen)]
      exact Option.some_ne_none _
  · split
    · refine ⟨rfl, rfl, rfl, fun _ _ => rfl, fun d h => ?_, fun hne _ => ?_⟩
      · cases candidates with
        | nil => cases h
        | cons c l =>
          obtain ⟨d2, hpick, hbest⟩ := rendezvousPick_cons
            (destinationKey env.effectiveTLDPlusOne destination) c l
          have h2 : rendezvousPick (destinationKey env.effectiveTLDPlusOne destination)
              (c :: l) = some d := h
          rw [hpick] at h2
          cases h2
          exact (IsFirstBest_max _ _ _ hbest).1
      · cases candidates with
        | nil => exact absurd rfl hne
        | cons c l =>
          obtain ⟨d2, hpick, _⟩ := rendezvousPick_cons
            (destinationKey env.effectiveTLDPlusOne destination) c l
          show rendezvousPick (destinationKey env.effectiveTLDPlusOne destination)
              (c :: l) ≠ none
          rw [hpick]
          exact Option.some_ne_none _
    · split
      · have hframe := loadSticky_frame g env (env.loadNow pass) source network destination
          candidates
        generalize g.loadSticky env (env.loadNow pass) source network destination candidates
          = loaded at hframe
        obtain ⟨g1, cached⟩ := loaded
        obtain ⟨h1, h2, h3, h4, h5⟩ := hframe
        cases cached with
        | some cached =>
          exact ⟨h1, h2, h3, h4, fun d h => h5 d h, fun _ _ => Option.some_ne_none _⟩
        | none =>
          refine ⟨h1, h2, h3, h4, fun d h => ?_, fun hne _ => ?_⟩
          · cases candidates with
            | nil => cases h
            | cons c l =>
              obtain ⟨d2, hpick, hbest⟩ := rendezvousPick_cons
                (stickyKey env.effectiveTLDPlusOne source network destination) c l
              have h6 : rendezvousPick
                  (stickyKey env.effectiveTLDPlusOne source network destination)
                  (c :: l) = some d := h
              rw [hpick] at h6
              cases h6
              exact (IsFirstBest_max _ _ _ hbest).1
          · cases candidates with
            | nil => exact absurd rfl hne
            | cons c l =>
              obtain ⟨d2, hpick, _⟩ := rendezvousPick_cons
                (stickyKey env.effectiveTLDPlusOne source network destination) c l
              show rendezvousPick
                  (stickyKey env.effectiveTLDPlusOne source network destination)
                  (c :: l) ≠ none
              rw [hpick]
              exact Option.some_ne_none _
      · exact ⟨rfl, rfl, rfl, fun _ _ => rfl, fun d h => (by cases h),
          fun _ h => (by cases h)⟩

/-- In a sticky-sessions group a fresh entry naming a candidate is selected. -/
theorem selectOutbound_sticky_hit (g : LoadBalanceGroup) (env : DialEnv) (pass : Nat)
    (source : Option String) (network : String) (destination : Socksaddr)
    (candidates : List Outbound) (o : Outbound) (deadline : Nat)
    (hstrategy : g.strategy = LoadBalanceStrategyStickySessions)
    (hfresh : StickyFresh g (stickyKey env.effectiveTLDPlusOne source network destination) o
      deadline)
    (hnow : env.loadNow pass ≤ deadline) (hmap : g.outboundMap o.tag = some o)
    (hin : o ∈ candidates) :
    g.selectOutbound env pass source network destination candidates = (g, some o, none) := by
  unfold LoadBalanceGroup.selectOutbound
  have h1 : (g.strategy == LoadBalanceStrategyRoundRobin) = false := by
    rw [hstrategy]; decide
  have h2 : (g.strategy == LoadBalanceStrategyConsistentHashing) = false := by
    rw [hstrategy]; decide
  have h3 : (g.strategy == LoadBalanceStrategyStickySessions) = true := by
    rw [hstrategy]; decide
  simp only [h1, h2, h3, Bool.false_eq_true, if_false, if_true]
  rw [loadSticky_hit g env (env.loadNow pass) source network destination candidates o deadline
    hfresh hnow hmap hin]

/-- The loop of `DialContext` and `ListenPacket` returns within as many passes as
the group has outbounds not yet excluded, plus one; it keeps the members and the
strategy, extends the record of dials, leaves the sticky entries of other keys
alone, and a connection it returns is that of a member whose dial succeeded, whose
tag a sticky-sessions group has stored under the key for ten minutes. -/
theorem dialLoop_spec (env : DialEnv) (attempt : Outbound → Option String)
    (source : Option String) (network : String) (destination : Socksaddr) :
    ∀ (fuel : Nat) (g : LoadBalanceGroup) (st : DialLoop),
      (g.outbounds.filter (fun it => !st.excluded.contains it)).length < fuel →
      ∃ out, LoadBalanceGroup.dialLoop env attempt source network destination fuel g st
          = .ret out ∧
        out.group.outbounds = g.outbounds ∧ out.group.strategy = g.strategy ∧
        (∃ rest, out.dialed = st.dialed ++ rest) ∧
        (∀ other, other ≠ stickyKey env.effectiveTLDPlusOne source network destination →
          GoMap.load out.group.stickyCache other = GoMap.load g.stickyCache other) ∧
        (∀ o, out.conn = some o →
          o ∈ g.outbounds ∧ attempt o = none ∧ out.err = none ∧
          (g.strategy = LoadBalanceStrategyStickySessions →
            GoMap.load out.group.stickyCache
                (stickyKey env.effectiveTLDPlusOne source network destination)
              = some (StickyEntry.mk o.tag (env.storeNow + tenMinutes)))) := by
  intro fuel
  induction fuel with
  | zero =>
    intro g st h
    exact absurd h (Nat.not_lt_zero _)
  | succ fuel ih =>
    intro g st hmeasure
    rw [LoadBalanceGroup.dialLoop]
    simp only
    by_cases hempty :
        (((g.candidates network).filter (fun it => !st.excluded.contains it)).length == 0)
          = true
    · rw [if_pos hempty]
      exact ⟨_, rfl, rfl, rfl, ⟨[], (List.append_nil _).symm⟩, fun _ _ => rfl,
        fun o h => (by cases h)⟩
    · rw [if_neg hempty]
      have hne : (g.candidates network).filter (fun it => !st.excluded.contains it) ≠ [] := by
        intro h
        rw [h] at hempty
        exact hempty rfl
      have hframe := selectOutbound_frame g env st.pass source network destination
        ((g.candidates network).filter (fun it => !st.excluded.contains it))
      generalize g.selectOutbound env st.pass source network destination
        ((g.candidates network).filter (fun it => !st.excluded.contains it)) = sel at hframe
      obtain ⟨g1, r, e⟩ := sel
      obtain ⟨h1, h2, h3, h4, h5, h6⟩ := hframe
      simp only at h1 h2 h3 h4 h5 h6
      cases e with
      | some err =>
        cases r with
        | none =>
          exact ⟨_, rfl, h1, h2, ⟨[], (List.append_nil _).symm⟩, h4, fun o h => (by cases h)⟩
        | some detour =>
          exact ⟨_, rfl, h1, h2, ⟨[], (List.append_nil _).symm⟩, h4, fun o h => (by cases h)⟩
      | none =>
        cases r with
        | none => exact absurd rfl (h6 hne rfl)
        | some detour =>
          simp only
          have hin := List.mem_filter.mp (h5 detour rfl)
          have hmem : detour ∈ g.outbounds := candidates_subset g network detour hin.1
          cases hattempt : attempt detour with
          | none =>
            simp only
            refine ⟨_, rfl, ?_, ?_, ⟨[detour], rfl⟩, ?_, ?_⟩
            · show (if _ then _ else _ : LoadBalanceGroup).outbounds = g.outbounds
              split
              · exact h1
              · exact h1
            · show (if _ then _ else _ : LoadBalanceGroup).strategy = g.strategy
              split
              · exact h2
              · exact h2
            · intro other hother
              show GoMap.load (if _ then _ else _ : LoadBalanceGroup).stickyCache other = _
              split
              · show GoMap.load (GoMap.store g1.stickyCache _ _) other = _
                rw [GoMap.load_store_other _ _ _ _ (Ne.symm hother)]
                exact h4 other hother
              · exact h4 other hother
            · intro o ho
              simp only [Option.some.injEq] at ho
              subst ho
              refine ⟨hmem, hattempt, rfl, fun hsticky => ?_⟩
              have hs : (g1.strategy == LoadBalanceStrategyStickySessions) = true := by
                rw [h2, hsticky]; decide
              show GoMap.load (if _ then _ else _ : LoadBalanceGroup).stickyCache _ = _
              rw [if_pos hs]
              exact GoMap.load_store_self _ _ _
          | some err =>
            simp only
            have hnot : st.excluded.contains detour = false := by
              have := hin.2
              simpa using this
            have hstep : ∀ (g3 : LoadBalanceGroup) (st3 : DialLoop),
                g3.outbounds = g.outbounds → g3.strategy = g.strategy →
                (∀ other, other ≠ stickyKey env.effectiveTLDPlusOne source network destination →
                  GoMap.load g3.stickyCache other = GoMap.load g.stickyCache other) →
                st3.excluded = detour :: st.excluded → st3.dialed = st.dialed ++ [detour] →
                ∃ out, LoadBalanceGroup.dialLoop env attempt source network destination fuel
                    g3 st3 = .ret out ∧
                  out.group.outbounds = g.outbounds ∧ out.group.strategy = g.strategy ∧
                  (∃ rest, out.dialed = st.dialed ++ rest) ∧
                  (∀ other,
                    other ≠ stickyKey env.effectiveTLDPlusOne source network destination →
                    GoMap.load out.group.stickyCache other = GoMap.load g.stickyCache other) ∧
                  (∀ o, out.conn = some o →
                    o ∈ g.outbounds ∧ attempt o = none ∧ out.err = none ∧
                    (g.strategy = LoadBalanceStrategyStickySessions →
                      GoMap.load out.group.stickyCache
                          (stickyKey env.effectiveTLDPlusOne source network destination)
                        = some (StickyEntry.mk o.tag (env.storeNow + tenMinutes)))) := by
              intro g3 st3 ho3 hs3 hc3 hex3 hd3
              have hm : (g3.outbounds.filter (fun it => !st3.excluded.contains it)).length
                  < fuel := by
                rw [ho3, hex3]
                have := filter_excluded_lt g.outbounds st.excluded detour hmem hnot
                omega
              obtain ⟨out, hrun, ho, hs, ⟨rest, hrest⟩, hc, hconn⟩ := ih g3 st3 hm
              refine ⟨out, hrun, ho.trans ho3, hs.trans hs3, ⟨detour :: rest, ?_⟩,
                fun other h => (hc other h).trans (hc3 other h), fun o h => ?_⟩
              · rw [hrest, hd3, List.append_assoc]
                rfl
              · obtain ⟨a1, a2, a3, a4⟩ := hconn o h
                exact ⟨ho3 ▸ a1, a2, a3, fun hsticky => a4 (hs3.trans hsticky)⟩
            apply hstep
            · show (if _ then _ else _ : LoadBalanceGroup).outbounds = g.outbounds
              split
              · exact h1
              · exact h1
            · show (if _ then _ else _ : LoadBalanceGroup).strategy = g.strategy
              split
              · exact h2
              · exact h2
            · intro other hother
              show GoMap.load (if _ then _ else _ : LoadBalanceGroup).stickyCache other = _
              split
              · show GoMap.load (GoMap.delete g1.stickyCache _) other = _
                rw [GoMap.load_delete_other _ _ _ (Ne.symm hother)]
                exact h4 other hother
              · exact h4 other hother
            · rfl
            · rfl

/-- The tag map names a member by its tag when no other member has that tag. -/
theorem outboundMap_of_unique (g : LoadBalanceGroup) (o : Outbound) (hmem : o ∈ g.outbounds)
    (hunique : ∀ x ∈ g.outbounds, x.tag = o.tag → x = o) :
    g.outboundMap o.tag = some o := by
  unfold LoadBalanceGroup.outboundMap
  cases hfind : g.outbounds.reverse.find? (fun detour => detour.tag == o.tag) with
  | none =>
    have h := List.find?_eq_none.mp hfind o (List.mem_reverse.mpr hmem)
    simp at h
  | some x =>
    have hx : x ∈ g.outbounds := List.mem_reverse.mp (List.mem_of_find?_eq_some hfind)
    have htag := List.find?_some hfind
    rw [hunique x hx (by simpa using htag)]

/-- Every `DialContext` call returns. -/
theorem DialContext_spec (g : LoadBalanceGroup) (env : DialEnv) (source : Option String)
    (network : String) (destination : Socksaddr) :
    ∃ out, g.DialContext env source network destination = .ret out ∧
      out.group.outbounds = g.outbounds ∧ out.group.strategy = g.strategy ∧
      (∀ other, other ≠ stickyKey env.effectiveTLDPlusOne source network destination →
        GoMap.load out.group.stickyCache other = GoMap.load g.stickyCache other) ∧
      (∀ o, out.conn = some o →
        o ∈ g.outbounds ∧ env.dial network o = none ∧ out.err = none ∧
        (g.strategy = LoadBalanceStrategyStickySessions →
          GoMap.load out.group.stickyCache
              (stickyKey env.effectiveTLDPlusOne source network destination)
            = some (StickyEntry.mk o.tag (env.storeNow + tenMinutes)))) := by
  have hm : (g.outbounds.filter (fun it => !DialLoop.init.excluded.contains it)).length
      < g.outbounds.length + 1 :=
    Nat.lt_succ_of_le (List.length_filter_le _ _)
  obtain ⟨out, hrun, h1, h2, _, h4, h5⟩ :=
    dialLoop_spec env (env.dial network) source network destination _ g DialLoop.init hm
  exact ⟨out, hrun, h1, h2, h4, h5⟩

/-- A sticky-sessions group with a fresh entry for the key that names a candidate
dials that candidate first, and nothing else when its dial succeeds. -/
theorem DialContext_sticky_first (g : LoadBalanceGroup) (env : DialEnv)
    (source : Option String) (network : String) (destination : Socksaddr) (o : Outbound)
    (deadline : Nat)
    (hstrategy : g.strategy = LoadBalanceStrategyStickySessions)
    (hfresh : StickyFresh g (stickyKey env.effectiveTLDPlusOne source network destination) o
      deadline)
    (hnow : env.loadNow 0 ≤ deadline) (hmap : g.outboundMap o.tag = some o)
    (hin : o ∈ g.candidates network) :
    ∃ out, g.DialContext env source network destination = .ret out ∧
      out.group.outbounds = g.outbounds ∧ out.group.strategy = g.strategy ∧
      out.dialed.head? = some o ∧
      (env.dial network o = none →
        out.dialed = [o] ∧ out.conn = some o ∧
        GoMap.load out.group.stickyCache
            (stickyKey env.effectiveTLDPlusOne source network destination)
          = some (StickyEntry.mk o.tag (env.storeNow + tenMinutes))) := by
  have hsel := selectOutbound_sticky_hit g env 0 source network destination
    (g.candidates network) o deadline hstrategy hfresh hnow hmap hin
  have hlen0 : ((g.candidates network).length == 0) = false := by
    have : 0 < (g.candidates network).length := List.length_pos_of_mem hin
    simp only [beq_eq_false_iff_ne, ne_eq]
    omega
  have hs : (g.strategy == LoadBalanceStrategyStickySessions) = true := by
    rw [hstrategy]; decide
  unfold LoadBalanceGroup.DialContext
  rw [LoadBalanceGroup.dialLoop]
  simp only [DialLoop.init, filter_not_excluded_nil, hlen0, Bool.false_eq_true, if_false, hsel]
  cases hdial : env.dial network o with
  | none =>
    simp only [hs, if_true, List.nil_append]
    exact ⟨_, rfl, rfl, rfl, rfl, fun _ => ⟨rfl, rfl, GoMap.load_store_self _ _ _⟩⟩
  | some err =>
    simp only [hs, if_true, List.nil_append]
    have hmem : o ∈ g.outbounds := candidates_subset g network o hin
    have hm : (g.outbounds.filter (fun it => !([o] : List Outbound).contains it)).length
        < g.outbounds.length := by
      have h1 := filter_excluded_lt g.outbounds [] o hmem rfl
      have h2 := List.length_filter_le (fun it => !([] : List Outbound).contains it)
        g.outbounds
      omega
    obtain ⟨out, hrun, h1, h2, ⟨rest, hrest⟩, _, _⟩ :=
      dialLoop_spec env (env.dial network) source network destination g.outbounds.length
        (LoadBalanceGroup.deleteSticky
          { g with history := GoMap.delete g.history o.realTag } env source network
          destination)
        { excluded := [o], lastErr := some err, triggeredCheck := true, dialed := [o],
          checks := 1, pass := 1 } hm
    refine ⟨out, hrun, h1, h2, ?_, fun h => by cases h⟩
    rw [hrest]
    rfl

/-! ## Claims on sticky sessions -/

/-- C19 fails in a group with two members of the same tag: in the sticky-sessions group
of two members tagged "a", call 0 dials the first of them, which stays a
candidate, and stores the tag "a"; the tag map holds the second member under
that tag, so call 1, with the same network, source and destination at the same
time, dials the second member and not the first. -/
theorem sticky_session_duplicate_tag :
    stickyDup.kthCall plainCalls 0
      = .ret { group := { stickyDup with
                 stickyCache := [("tcp|10.0.0.1|example.com:80",
                   { tag := "a", expire := tenMinutes })],
                 lastSelected := some outA },
               conn := some outA, err := none, dialed := [outA], checks := 0 } ∧
    outA ∈ stickyDup.candidates "tcp" ∧
    stickyDup.outboundMap outA.tag = some outA2 ∧
    stickyDup.kthCall plainCalls 1
      = .ret { group := { stickyDup with
                 stickyCache := [("tcp|10.0.0.1|example.com:80",
                   { tag := "a", expire := tenMinutes })],
                 lastSelected := some outA2 },
               conn := some outA2, err := none, dialed := [outA2], checks := 0 } ∧
    outA2 ≠ outA := by
  refine ⟨rfl, by decide, rfl, rfl, by decide⟩

/-- C19 as amended: in a sticky-sessions group, let call 0 of a run of `DialContext`
calls return the connection of the outbound o, stored at time t, and let o be
the member that the tag map of the group holds under the tag of o, as it is when
no other member has the tag of o. Let call m > 0 have the same
network, source and destination, and let every call after call 0 up to call m
that has the same sticky key be made no later than t + 10 minutes and not before
t, with o in its candidate set, and let no dial of such a call before call m
fail. Then call m returns, the first outbound it dials is o, and when the dial of
o succeeds it dials no other outbound and returns the connection of o. -/
theorem sticky_session_repeats (g : LoadBalanceGroup) (calls : Nat → DialCall) (m : Nat)
    (o : Outbound) (first : DialOutcome)
    (hstrategy : g.strategy = LoadBalanceStrategyStickySessions)
    (htag : g.outboundMap o.tag = some o)
    (hfirst : g.kthCall calls 0 = .ret first) (hconn : first.conn = some o)
    (hm : 0 < m)
    (hnetwork : (calls m).network = (calls 0).network)
    (hsource : (calls m).source = (calls 0).source)
    (hdestination : (calls m).destination = (calls 0).destination)
    (hetld : (calls m).env.effectiveTLDPlusOne = (calls 0).env.effectiveTLDPlusOne)
    (hlater : ∀ i, 0 < i → i ≤ m → (calls i).stickyKey = (calls 0).stickyKey →
      (calls i).env.loadNow 0 ≤ (calls 0).env.storeNow + tenMinutes ∧
      (calls 0).env.storeNow ≤ (calls i).env.storeNow ∧
      o ∈ (g.withHistory (calls i).history).candidates (calls i).network)
    (hbetween : ∀ i, 0 < i → i < m → (calls i).stickyKey = (calls 0).stickyKey →
      ∀ out, g.kthCall calls i = .ret out →
        ∀ d ∈ out.dialed, (calls i).env.dial (calls i).network d = none) :
    ∃ out, g.kthCall calls m = .ret out ∧ out.dialed.head? = some o ∧
      ((calls m).env.dial (calls m).network o = none →
        out.dialed = [o] ∧ out.conn = some o ∧ out.err = none) := by
  -- call 0 stores the entry
  obtain ⟨out0, hrun0, ho0, hs0, _, hconn0⟩ :=
    DialContext_spec (g.withHistory (calls 0).history) (calls 0).env (calls 0).source
      (calls 0).network (calls 0).destination
  have hcall0 : g.kthCall calls 0 = .ret out0 := hrun0
  have hout0 : out0 = first := by
    rw [hcall0] at hfirst
    exact Outcome.ret.inj hfirst
  subst hout0
  obtain ⟨hmem, _, _, hstored⟩ := hconn0 o hconn
  have hmem : o ∈ g.outbounds := hmem
  have hmap : ∀ (gi : LoadBalanceGroup) (history : HistoryStorage),
      gi.outbounds = g.outbounds → (gi.withHistory history).outboundMap o.tag = some o := by
    intro gi history hgi
    show gi.outbounds.reverse.find? (fun detour => detour.tag == o.tag) = some o
    rw [hgi]
    exact htag
  -- the entry stays fresh up to call m
  have hinv : ∀ i, 0 < i → i ≤ m →
      ∃ gi, g.beforeCall calls i = .ret gi ∧ gi.outbounds = g.outbounds ∧
        gi.strategy = LoadBalanceStrategyStickySessions ∧
        StickyFresh gi (calls 0).stickyKey o ((calls 0).env.storeNow + tenMinutes) := by
    intro i
    induction i with
    | zero => intro h; exact absurd h (Nat.lt_irrefl 0)
    | succ i ih =>
      intro _ hle
      rcases Nat.eq_zero_or_pos i with hi | hi
      · subst hi
        refine ⟨out0.group, ?_, ho0, hs0.trans hstrategy, ?_⟩
        · show (match g.beforeCall calls 0 with
            | .ret gk =>
              match gk.dialCall (calls 0) with
              | .ret out => Outcome.ret out.group
              | .panic => .panic
              | .outOfFuel => .outOfFuel
            | .panic => .panic
            | .outOfFuel => .outOfFuel) = _
          have hb : g.beforeCall calls 0 = .ret g := rfl
          have hd : g.dialCall (calls 0) = .ret out0 := hrun0
          simp only [hb, hd]
        · exact ⟨_, hstored hstrategy, rfl, Nat.le_refl _⟩
      · obtain ⟨gi, hrun, hgo, hgs, hfresh⟩ := ih hi (by omega)
        have hstep : ∀ out, gi.dialCall (calls i) = .ret out →
            g.beforeCall calls (i + 1) = .ret out.group := by
          intro out hd
          rw [LoadBalanceGroup.beforeCall, hrun]
          simp only [hd]
        have hkth : ∀ out, gi.dialCall (calls i) = .ret out →
            g.kthCall calls i = .ret out := by
          intro out hd
          unfold LoadBalanceGroup.kthCall
          rw [hrun]
          exact hd
        by_cases hkey : (calls i).stickyKey = (calls 0).stickyKey
        · obtain ⟨hnow, hstore, hcand⟩ := hlater i hi (by omega) hkey
          have hcand2 : o ∈ (gi.withHistory (calls i).history).candidates (calls i).network := by
            rw [candidates_congr (g.withHistory (calls i).history)
              (gi.withHistory (calls i).history) (calls i).network hgo rfl]
            exact hcand
          have hfresh2 : StickyFresh (gi.withHistory (calls i).history)
              (stickyKey (calls i).env.effectiveTLDPlusOne (calls i).source (calls i).network
                (calls i).destination) o ((calls 0).env.storeNow + tenMinutes) := by
            have : stickyKey (calls i).env.effectiveTLDPlusOne (calls i).source
                (calls i).network (calls i).destination = (calls 0).stickyKey := hkey
            rw [this]
            exact hfresh
          obtain ⟨out, hd, h1, h2, hhead, hsucc⟩ :=
            DialContext_sticky_first (gi.withHistory (calls i).history) (calls i).env
              (calls i).source (calls i).network (calls i).destination o
              ((calls 0).env.storeNow + tenMinutes) hgs hfresh2 hnow
              (hmap gi (calls i).history hgo) hcand2
          have hdialed : o ∈ out.dialed := by
            cases hl : out.dialed with
            | nil => rw [hl] at hhead; cases hhead
            | cons a rest =>
              rw [hl] at hhead
              simp only [List.head?_cons, Option.some.injEq] at hhead
              rw [hhead]
              exact List.mem_cons_self _ _
          have hok := hbetween i hi (by omega) hkey out (hkth out hd) o hdialed
          obtain ⟨_, _, hentry⟩ := hsucc hok
          refine ⟨out.group, hstep out hd, h1.trans hgo, h2.trans hgs, ?_⟩
          refine ⟨StickyEntry.mk o.tag ((calls i).env.storeNow + tenMinutes), ?_, rfl, ?_⟩
          · have : (calls 0).stickyKey = stickyKey (calls i).env.effectiveTLDPlusOne
                (calls i).source (calls i).network (calls i).destination := hkey.symm
            rw [this]
            exact hentry
          · show (calls 0).env.storeNow + tenMinutes ≤ (calls i).env.storeNow + tenMinutes
            omega
        · obtain ⟨out, hd, h1, h2, hother, _⟩ :=
            DialContext_spec (gi.withHistory (calls i).history) (calls i).env (calls i).source
              (calls i).network (calls i).destination
          refine ⟨out.group, hstep out hd, h1.trans hgo, h2.trans hgs, ?_⟩
          obtain ⟨entry, hentry, htag, hexpire⟩ := hfresh
          refine ⟨entry, ?_, htag, hexpire⟩
          rw [hother (calls 0).stickyKey (fun h => hkey h.symm)]
          exact hentry
  -- call m
  obtain ⟨gm, hrun, hgo, hgs, hfresh⟩ := hinv m hm (Nat.le_refl m)
  have hkey : (calls m).stickyKey = (calls 0).stickyKey := by
    unfold DialCall.stickyKey
    rw [hnetwork, hsource, hdestination, hetld]
  obtain ⟨hnow, _, hcand⟩ := hlater m hm (Nat.le_refl m) hkey
  have hcand2 : o ∈ (gm.withHistory (calls m).history).candidates (calls m).network := by
    rw [candidates_congr (g.withHistory (calls m).history)
      (gm.withHistory (calls m).history) (calls m).network hgo rfl]
    exact hcand
  have hfresh2 : StickyFresh (gm.withHistory (calls m).history)
      (stickyKey (calls m).env.effectiveTLDPlusOne (calls m).source (calls m).network
        (calls m).destination) o ((calls 0).env.storeNow + tenMinutes) := by
    have : stickyKey (calls m).env.effectiveTLDPlusOne (calls m).source
        (calls m).network (calls m).destination = (calls 0).stickyKey := hkey
    rw [this]
    exact hfresh
  obtain ⟨out, hd, _, _, hhead, hsucc⟩ :=
    DialContext_sticky_first (gm.withHistory (calls m).history) (calls m).env
      (calls m).source (calls m).network (calls m).destination o
      ((calls 0).env.storeNow + tenMinutes) hgs hfresh2 hnow
      (hmap gm (calls m).history hgo) hcand2
  have hkth : g.kthCall calls m = .ret out := by
    unfold LoadBalanceGroup.kthCall
    rw [hrun]
    exact hd
  refine ⟨out, hkth, hhead, fun hok => ?_⟩
  obtain ⟨h1, h2, _⟩ := hsucc hok
  obtain ⟨outm, hrunm, _, _, _, hconnm⟩ :=
    DialContext_spec (gm.withHistory (calls m).history) (calls m).env (calls m).source
      (calls m).network (calls m).destination
  have : outm = out := by
    have hd2 : LoadBalanceGroup.DialContext (gm.withHistory (calls m).history) (calls m).env
        (calls m).source (calls m).network (calls m).destination = .ret out := hd
    rw [hrunm] at hd2
    exact Outcome.ret.inj hd2
  subst this
  exact ⟨h1, h2, (hconnm o h2).2.2.1⟩

/-- C19 as amended, on the fresh sticky-sessions group of a and b: call 0 for
example.com:80 from 10.0.0.1 is served by a, and so is call 2. -/
theorem sticky_session_repeats_witness :
    ∃ out, twoSticky.kthCall plainCalls 2 = .ret out ∧ out.dialed.head? = some outA ∧
      ((plainCalls 2).env.dial (plainCalls 2).network outA = none →
        out.dialed = [outA] ∧ out.conn = some outA ∧ out.err = none) :=
  sticky_session_repeats twoSticky plainCalls 2 outA
    { group := { twoSticky with
        stickyCache := [("tcp|10.0.0.1|example.com:80", { tag := "a", expire := tenMinutes })],
        lastSelected := some outA },
      conn := some outA, err := none, dialed := [outA], checks := 0 }
    rfl rfl rfl rfl (by decide) rfl rfl rfl rfl
    (fun _ _ _ _ => ⟨Nat.zero_le _, Nat.le_refl _, List.mem_cons_self outA [outB]⟩)
    (fun _ _ _ _ _ _ _ _ => rfl)

/-! ## Claims on consistent hashing -/

/-- A `DialContext` call dials first the outbound that `selectOutbound` returns for the
candidates of the network, and nothing else when that dial succeeds. -/
theorem DialContext_first (g g1 : LoadBalanceGroup) (env : DialEnv)
    (source : Option String) (network : String) (destination : Socksaddr) (o : Outbound)
    (hsel : g.selectOutbound env 0 source network destination (g.candidates network)
      = (g1, some o, none))
    (hne : g.candidates network ≠ []) :
    ∃ out, g.DialContext env source network destination = .ret out ∧
      out.dialed.head? = some o ∧
      (env.dial network o = none → out.dialed = [o] ∧ out.conn = some o ∧ out.err = none) := by
  have hframe := selectOutbound_frame g env 0 source network destination (g.candidates network)
  rw [hsel] at hframe
  obtain ⟨ho1, _, _, _, hmem1, _⟩ := hframe
  have hin : o ∈ g.candidates network := hmem1 o rfl
  have hlen0 : ((g.candidates network).length == 0) = false := by
    have : 0 < (g.candidates network).length := List.length_pos.mpr hne
    simp only [beq_eq_false_iff_ne, ne_eq]
    omega
  unfold LoadBalanceGroup.DialContext
  rw [LoadBalanceGroup.dialLoop]
  simp only [DialLoop.init, filter_not_excluded_nil, hlen0, Bool.false_eq_true, if_false, hsel]
  cases hdial : env.dial network o with
  | none =>
    simp only [List.nil_append]
    exact ⟨_, rfl, rfl, fun _ => ⟨rfl, rfl, rfl⟩⟩
  | some err =>
    simp only [List.nil_append]
    have hmem : o ∈ g.outbounds := candidates_subset g network o hin
    have hrun : ∀ (g3 : LoadBalanceGroup) (st3 : DialLoop),
        g3.outbounds = g.outbounds → st3.excluded = [o] → st3.dialed = [o] →
        ∃ out, LoadBalanceGroup.dialLoop env (env.dial network) source network destination
            g.outbounds.length g3 st3 = .ret out ∧ out.dialed.head? = some o := by
      intro g3 st3 ho3 hex3 hd3
      have hm : (g3.outbounds.filter (fun it => !st3.excluded.contains it)).length
          < g.outbounds.length := by
        rw [ho3, hex3]
        have h1 := filter_excluded_lt g.outbounds [] o hmem rfl
        have h2 := List.length_filter_le (fun it => !([] : List Outbound).contains it)
          g.outbounds
        omega
      obtain ⟨out, hrun, _, _, ⟨rest, hrest⟩, _, _⟩ :=
        dialLoop_spec env (env.dial network) source network destination g.outbounds.length
          g3 st3 hm
      refine ⟨out, hrun, ?_⟩
      rw [hrest, hd3]
      rfl
    obtain ⟨out, hout, hhead⟩ := hrun
      (if (({ g1 with history := GoMap.delete g1.history o.realTag } : LoadBalanceGroup).strategy
            == LoadBalanceStrategyStickySessions) = true then
          LoadBalanceGroup.deleteSticky
            { g1 with history := GoMap.delete g1.history o.realTag } env source network
            destination
        else { g1 with history := GoMap.delete g1.history o.realTag })
      { excluded := [o], lastErr := some err, triggeredCheck := true, dialed := [o],
        checks := 1, pass := 1 }
      (by
        show (if _ then _ else _ : LoadBalanceGroup).outbounds = g.outbounds
        split
        · exact ho1
        · exact ho1)
      rfl rfl
    exact ⟨out, hout, hhead, fun h => by cases h⟩

/-- In a consistent-hashing group `selectOutbound` is the rendezvous pick over the
destination key. -/
theorem selectOutbound_hashing (g : LoadBalanceGroup) (env : DialEnv) (pass : Nat)
    (source : Option String) (network : String) (destination : Socksaddr)
    (candidates : List Outbound)
    (hstrategy : g.strategy = LoadBalanceStrategyConsistentHashing) :
    g.selectOutbound env pass source network destination candidates
      = (g, rendezvousPick (destinationKey env.effectiveTLDPlusOne destination) candidates,
         none) := by
  unfold LoadBalanceGroup.selectOutbound
  have h1 : (g.strategy == LoadBalanceStrategyRoundRobin) = false := by
    rw [hstrategy]; decide
  have h2 : (g.strategy == LoadBalanceStrategyConsistentHashing) = true := by
    rw [hstrategy]; decide
  simp only [h1, h2, Bool.false_eq_true, if_false, if_true]
  rfl

/-- C21: in a consistent-hashing group the outbound that `selectOutbound` returns is
`rendezvousPick` over `destinationKey(destination)` and the candidate list,
whatever the inbound source, the network, the pass and the state that earlier
calls left in the group, and the group state is not changed by it. Two FQDN
destinations with the same eTLD+1 and the same port have the same destination
key, eTLD+1 ":" port; so two `DialContext` calls for them that find the same
non-empty candidate list dial the same outbound first, and only that outbound
when its dial succeeds. -/
theorem consistentHashing_by_destination_key (g1 g2 : LoadBalanceGroup) (env1 env2 : DialEnv)
    (source1 source2 : Option String) (network1 network2 : String) (d1 d2 : Socksaddr)
    (base : String)
    (hs1 : g1.strategy = LoadBalanceStrategyConsistentHashing)
    (hs2 : g2.strategy = LoadBalanceStrategyConsistentHashing)
    (hf1 : d1.isFqdn = true) (hf2 : d2.isFqdn = true)
    (hb1 : env1.effectiveTLDPlusOne d1.fqdn = some base)
    (hb2 : env2.effectiveTLDPlusOne d2.fqdn = some base)
    (hport : d1.port = d2.port)
    (hcands : g2.candidates network2 = g1.candidates network1)
    (hne : g1.candidates network1 ≠ []) :
    (∀ (g : LoadBalanceGroup) (env : DialEnv) (pass : Nat) (source : Option String)
        (network : String) (destination : Socksaddr) (candidates : List Outbound),
      g.strategy = LoadBalanceStrategyConsistentHashing →
      g.selectOutbound env pass source network destination candidates
        = (g, rendezvousPick (destinationKey env.effectiveTLDPlusOne destination) candidates,
           none)) ∧
    destinationKey env1.effectiveTLDPlusOne d1 = base ++ ":" ++ toString d1.port ∧
    destinationKey env2.effectiveTLDPlusOne d2 = destinationKey env1.effectiveTLDPlusOne d1 ∧
    ∃ o out1 out2,
      rendezvousPick (destinationKey env1.effectiveTLDPlusOne d1) (g1.candidates network1)
        = some o ∧
      g1.DialContext env1 source1 network1 d1 = .ret out1 ∧
      g2.DialContext env2 source2 network2 d2 = .ret out2 ∧
      out1.dialed.head? = some o ∧ out2.dialed.head? = some o ∧
      (env1.dial network1 o = none →
        out1.dialed = [o] ∧ out1.conn = some o ∧ out1.err = none) ∧
      (env2.dial network2 o = none →
        out2.dialed = [o] ∧ out2.conn = some o ∧ out2.err = none) := by
  have hk1 : destinationKey env1.effectiveTLDPlusOne d1 = base ++ ":" ++ toString d1.port := by
    unfold destinationKey
    simp only [hf1, hb1, if_true]
  have hk2 : destinationKey env2.effectiveTLDPlusOne d2 = base ++ ":" ++ toString d1.port := by
    unfold destinationKey
    simp only [hf2, hb2, if_true, hport]
  refine ⟨fun g env pass source network destination candidates h =>
    selectOutbound_hashing g env pass source network destination candidates h,
    hk1, hk2.trans hk1.symm, ?_⟩
  obtain ⟨c, l, hcl⟩ : ∃ c l, g1.candidates network1 = c :: l := by
    cases h : g1.candidates network1 with
    | nil => exact absurd h hne
    | cons c l => exact ⟨c, l, rfl⟩
  obtain ⟨o, hpick, _⟩ := rendezvousPick_cons (destinationKey env1.effectiveTLDPlusOne d1) c l
  rw [← hcl] at hpick
  have hsel1 := selectOutbound_hashing g1 env1 0 source1 network1 d1 (g1.candidates network1) hs1
  rw [hpick] at hsel1
  have hsel2 := selectOutbound_hashing g2 env2 0 source2 network2 d2 (g2.candidates network2) hs2
  rw [hcands, hk2, ← hk1, hpick] at hsel2
  rw [← hcands] at hsel2
  obtain ⟨out1, hrun1, hhead1, hok1⟩ :=
    DialContext_first g1 g1 env1 source1 network1 d1 o hsel1 hne
  obtain ⟨out2, hrun2, hhead2, hok2⟩ :=
    DialContext_first g2 g2 env2 source2 network2 d2 o hsel2 (by rw [hcands]; exact hne)
  exact ⟨o, out1, out2, hpick, hrun1, hrun2, hhead1, hhead2, hok1, hok2⟩

/-- C21 on the consistent-hashing group of a and b: the calls for a.example.co.uk:80,
without inbound source, and for b.example.co.uk:80, from 10.0.0.1, dial the same
outbound. -/
theorem consistentHashing_by_destination_key_witness :
    ∃ o out1 out2,
      rendezvousPick (destinationKey envSuffix.effectiveTLDPlusOne hostA)
        (twoHashing.candidates "tcp") = some o ∧
      twoHashing.DialContext envSuffix none "tcp" hostA = .ret out1 ∧
      twoHashing.DialContext envSuffix (some "10.0.0.1") "tcp" hostB = .ret out2 ∧
      out1.dialed.head? = some o ∧ out2.dialed.head? = some o ∧
      (envSuffix.dial "tcp" o = none →
        out1.dialed = [o] ∧ out1.conn = some o ∧ out1.err = none) ∧
      (envSuffix.dial "tcp" o = none →
        out2.dialed = [o] ∧ out2.conn = some o ∧ out2.err = none) :=
  (consistentHashing_by_destination_key twoHashing twoHashing envSuffix envSuffix none
    (some "10.0.0.1") "tcp" "tcp" hostA hostB "example.co.uk" rfl rfl rfl rfl (by decide)
    (by decide) rfl rfl (by decide)).2.2.2

/-! ## Lemmas on the errors of the group dials -/

/-- With a valid strategy `selectOutbound` returns no error. -/
theorem selectOutbound_valid (g : LoadBalanceGroup) (env : DialEnv) (pass : Nat)
    (source : Option String) (network : String) (destination : Socksaddr)
    (candidates : List Outbound) (hvalid : ValidStrategy g.strategy) :
    (g.selectOutbound env pass source network destination candidates).2.2 = none := by
  unfold LoadBalanceGroup.selectOutbound
  split
  · rfl
  · split
    · rfl
    · split
      · generalize g.loadSticky env (env.loadNow pass) source network destination candidates
          = loaded
        obtain ⟨g1, cached⟩ := loaded
        cases cached <;> rfl
      · rename_i h1 h2 h3
        rcases hvalid with h | h | h
        · exact absurd (by rw [h]; decide) h1
        · exact absurd (by rw [h]; decide) h2
        · exact absurd (by rw [h]; decide) h3

/-- The candidates are the available members, or, when there is none, the members
that support the network. -/
theorem candidates_cases (g : LoadBalanceGroup) (network : String) :
    (∃ a, a ∈ g.candidates network ∧ (GoMap.load g.history a.realTag).isSome = true) ∨
    (∀ m ∈ g.outbounds, m.network.contains network = true → m ∈ g.candidates network) := by
  unfold LoadBalanceGroup.candidates
  simp only
  split
  · rename_i hlen
    left
    cases hl : (g.outbounds.filter (fun detour => detour.network.contains network)).filter
        (fun detour => (GoMap.load g.history detour.realTag).isSome) with
    | nil => rw [hl] at hlen; exact absurd hlen (Nat.lt_irrefl 0)
    | cons a rest =>
      have ha : a ∈ (g.outbounds.filter (fun detour => detour.network.contains network)).filter
          (fun detour => (GoMap.load g.history detour.realTag).isSome) := by
        rw [hl]; exact List.mem_cons_self _ _
      exact ⟨a, List.mem_cons_self _ _, (List.mem_filter.mp ha).2⟩
  · right
    intro m hm hsup
    exact List.mem_filter.mpr ⟨hm, hsup⟩

/-- A candidate supports the network. -/
theorem candidates_supports (g : LoadBalanceGroup) (network : String) (d : Outbound)
    (h : d ∈ g.candidates network) : d.network.contains network = true := by
  unfold LoadBalanceGroup.candidates at h
  simp only at h
  split at h
  · exact (List.mem_filter.mp (List.mem_filter.mp h).1).2
  · exact (List.mem_filter.mp h).2

theorem getLast?_append_singleton (l : List Outbound) (d : Outbound) :
    (l ++ [d]).getLast? = some d := by
  simp

/-- The error contract of the loop of `DialContext` and `ListenPacket`, from any pass
on, for a valid strategy: what the loop returns satisfies the contract, no
outbound is dialled twice, and an error is returned only when every member that
supports the network has been dialled. -/
theorem dialLoop_contract (env : DialEnv) (attempt : Outbound → Option String)
    (source : Option String) (network : String) (destination : Socksaddr) :
    ∀ (fuel : Nat) (g : LoadBalanceGroup) (st : DialLoop) (out : DialOutcome),
      LoadBalanceGroup.dialLoop env attempt source network destination fuel g st = .ret out →
      ValidStrategy g.strategy →
      (∀ d ∈ st.dialed, attempt d ≠ none) →
      (∀ last, st.dialed.getLast? = some last → attempt last = st.lastErr) →
      (st.dialed = [] → st.lastErr = none) →
      (∀ d, d ∈ st.excluded ↔ d ∈ st.dialed) →
      (∀ d ∈ st.excluded, GoMap.load g.history d.realTag = none) →
      st.dialed.Nodup →
      (∀ d ∈ st.dialed, d ∈ g.outbounds ∧ d.network.contains network = true) →
      DialErrorContract attempt (out.group.candidates network) out.conn out.err out.dialed ∧
      (out.err ≠ none →
        ∀ m ∈ g.outbounds, m.network.contains network = true → m ∈ out.dialed) ∧
      out.dialed.Nodup ∧
      (∀ d ∈ out.dialed, d ∈ g.outbounds ∧ d.network.contains network = true) := by
  intro fuel
  induction fuel with
  | zero =>
    intro g st out h
    rw [LoadBalanceGroup.dialLoop] at h
    cases h
  | succ fuel ih =>
    intro g st out hrun hvalid hfail hlast hnil hexcl hhist hnodup hmem
    rw [LoadBalanceGroup.dialLoop] at hrun
    simp only at hrun
    by_cases hempty :
        (((g.candidates network).filter (fun it => !st.excluded.contains it)).length == 0)
          = true
    · rw [if_pos hempty] at hrun
      have hfilter : (g.candidates network).filter (fun it => !st.excluded.contains it) = [] := by
        have : ((g.candidates network).filter (fun it => !st.excluded.contains it)).length = 0 := by
          simpa using hempty
        exact List.length_eq_zero.mp this
      have hall : ∀ c ∈ g.candidates network, c ∈ st.dialed := by
        intro c hc
        have hnot := (List.filter_eq_nil_iff.mp hfilter) c hc
        have : st.excluded.contains c = true := by
          simpa using hnot
        exact (hexcl c).mp (by simpa using this)
      have hsupp : ∀ m ∈ g.outbounds, m.network.contains network = true → m ∈ st.dialed := by
        intro m hm hs
        rcases candidates_cases g network with ⟨a, ha, hsome⟩ | hrest
        · have hex : a ∈ st.excluded := (hexcl a).mpr (hall a ha)
          rw [hhist a hex] at hsome
          cases hsome
        · exact hall m (hrest m hm hs)
      have hout := Outcome.ret.inj hrun
      subst hout
      cases hle : st.lastErr with
      | none =>
        have hd : st.dialed = [] := by
          cases hdl : st.dialed with
          | nil => rfl
          | cons a rest =>
            exfalso
            have hne : st.dialed ≠ [] := by rw [hdl]; exact List.cons_ne_nil _ _
            have hl := hlast (st.dialed.getLast hne) (List.getLast?_eq_getLast _ hne)
            rw [hle] at hl
            exact hfail _ (List.getLast_mem hne) hl
        refine ⟨⟨?_, ?_, ?_, ?_, ?_, ?_⟩, ?_, hnodup, hmem⟩
        · intro _
          exact ⟨rfl, hfail⟩
        · intro _ last hl
          simp only [hd, List.getLast?_nil] at hl
          cases hl
        · intro _ _
          rfl
        · intro _
          exact hall
        · intro d hdm hok
          exact absurd hok (hfail d hdm)
        · intro h
          cases h
        · intro _
          exact hsupp
      | some e =>
        refine ⟨⟨?_, ?_, ?_, ?_, ?_, ?_⟩, ?_, hnodup, hmem⟩
        · intro _
          exact ⟨rfl, hfail⟩
        · intro _ last hl
          have := hlast last hl
          rw [hle] at this
          exact this
        · intro _ hd
          have := hnil hd
          rw [hle] at this
          cases this
        · intro _
          exact hall
        · intro d hdm hok
          exact absurd hok (hfail d hdm)
        · intro h
          cases h
        · intro _
          exact hsupp
    · rw [if_neg hempty] at hrun
      have hne : (g.candidates network).filter (fun it => !st.excluded.contains it) ≠ [] := by
        intro h
        rw [h] at hempty
        exact hempty rfl
      have hframe := selectOutbound_frame g env st.pass source network destination
        ((g.candidates network).filter (fun it => !st.excluded.contains it))
      have hnoerr := selectOutbound_valid g env st.pass source network destination
        ((g.candidates network).filter (fun it => !st.excluded.contains it)) hvalid
      generalize g.selectOutbound env st.pass source network destination
        ((g.candidates network).filter (fun it => !st.excluded.contains it)) = sel
        at hframe hnoerr hrun
      obtain ⟨g1, r, e⟩ := sel
      obtain ⟨h1, h2, h3, _, h5, h6⟩ := hframe
      simp only at h1 h2 h3 h5 h6 hnoerr
      subst hnoerr
      cases r with
      | none => exact absurd rfl (h6 hne rfl)
      | some detour =>
        simp only at hrun
        have hin := List.mem_filter.mp (h5 detour rfl)
        have hdm : detour ∈ g.outbounds := candidates_subset g network detour hin.1
        have hds : detour.network.contains network = true :=
          candidates_supports g network detour hin.1
        have hnot : detour ∉ st.dialed := by
          intro hd
          have hex : detour ∈ st.excluded := (hexcl detour).mpr hd
          have hc : st.excluded.contains detour = true := by simpa using hex
          have := hin.2
          rw [hc] at this
          cases this
        have hnodup2 : (st.dialed ++ [detour]).Nodup := by
          rw [List.nodup_append]
          refine ⟨hnodup, List.nodup_singleton _, ?_⟩
          intro a ha hb
          rw [List.mem_singleton] at hb
          subst hb
          exact hnot ha
        have hmem2 : ∀ d ∈ st.dialed ++ [detour],
            d ∈ g.outbounds ∧ d.network.contains network = true := by
          intro d hd
          rcases List.mem_append.mp hd with h | h
          · exact hmem d h
          · rw [List.mem_singleton] at h
            subst h
            exact ⟨hdm, hds⟩
        cases hattempt : attempt detour with
        | none =>
          rw [hattempt] at hrun
          simp only at hrun
          have hout := Outcome.ret.inj hrun
          subst hout
          refine ⟨⟨?_, ?_, ?_, ?_, ?_, ?_⟩, ?_, hnodup2, hmem2⟩
          · intro h; exact absurd rfl h
          · intro h; exact absurd rfl h
          · intro h; exact absurd rfl h
          · intro h; exact absurd rfl h
          · intro d hd hok
            rcases List.mem_append.mp hd with h | h
            · exact absurd hok (hfail d h)
            · rw [List.mem_singleton] at h
              subst h
              exact ⟨rfl, rfl⟩
          · intro _
            exact ⟨detour, rfl, getLast?_append_singleton _ _, hattempt⟩
          · intro h; exact absurd rfl h
        | some err =>
          rw [hattempt] at hrun
          simp only at hrun
          have hstep : ∀ (g3 : LoadBalanceGroup) (st3 : DialLoop),
              LoadBalanceGroup.dialLoop env attempt source network destination fuel g3 st3
                = .ret out →
              g3.outbounds = g.outbounds → g3.strategy = g.strategy →
              (∀ d, GoMap.load g.history d.realTag = none ∨ d = detour →
                GoMap.load g3.history d.realTag = none) →
              st3.excluded = detour :: st.excluded → st3.dialed = st.dialed ++ [detour] →
              st3.lastErr = some err →
              DialErrorContract attempt (out.group.candidates network) out.conn out.err
                out.dialed ∧
              (out.err ≠ none →
                ∀ m ∈ g.outbounds, m.network.contains network = true → m ∈ out.dialed) ∧
              out.dialed.Nodup ∧
              (∀ d ∈ out.dialed, d ∈ g.outbounds ∧ d.network.contains network = true) := by
            intro g3 st3 hrun3 ho3 hs3 hh3 hex3 hd3 hl3
            have := ih g3 st3 out hrun3 (by rw [hs3]; exact hvalid)
              (by
                intro d hd
                rw [hd3] at hd
                rcases List.mem_append.mp hd with h | h
                · exact hfail d h
                · rw [List.mem_singleton] at h
                  subst h
                  rw [hattempt]
                  exact Option.some_ne_none _)
              (by
                intro last hl
                rw [hd3, getLast?_append_singleton] at hl
                cases hl
                rw [hl3, hattempt])
              (by
                intro h
                rw [hd3] at h
                exact absurd h (by simp))
              (by
                intro d
                rw [hex3, hd3, List.mem_cons, List.mem_append, List.mem_singleton, hexcl d]
                exact Or.comm)
              (by
                intro d hd
                rw [hex3] at hd
                rcases List.mem_cons.mp hd with h | h
                · exact hh3 d (Or.inr h)
                · exact hh3 d (Or.inl (hhist d h)))
              (by rw [hd3]; exact hnodup2)
              (by
                intro d hd
                rw [hd3] at hd
                rw [ho3]
                exact hmem2 d hd)
            rw [ho3] at this
            exact this
          have hdel : ∀ (h0 : HistoryStorage), h0 = g.history →
              ∀ d, GoMap.load g.history d.realTag = none ∨ d = detour →
                GoMap.load (GoMap.delete h0 detour.realTag) d.realTag = none := by
            intro h0 hh0 d hd
            subst hh0
            by_cases htag : d.realTag = detour.realTag
            · rw [htag]
              exact GoMap.load_delete_self _ _
            · rw [GoMap.load_delete_other _ _ _ (Ne.symm htag)]
              rcases hd with h | h
              · exact h
              · exact absurd (by rw [h]) htag
          refine hstep _ _ hrun ?_ ?_ ?_ rfl rfl rfl
          · show (if _ then _ else _ : LoadBalanceGroup).outbounds = g.outbounds
            split
            · exact h1
            · exact h1
          · show (if _ then _ else _ : LoadBalanceGroup).strategy = g.strategy
            split
            · exact h2
            · exact h2
          · intro d hd
            show GoMap.load (if _ then _ else _ : LoadBalanceGroup).history d.realTag = none
            split
            · exact hdel g1.history h3 d hd
            · exact hdel g1.history h3 d hd

/-! ## Lemmas on the loop of the fallback group -/

theorem deleteHistory_nil (g : FallbackGroup) : g.deleteHistory [] = g := rfl

theorem deleteHistory_cons (g : FallbackGroup) (d : Outbound) (l : List Outbound) :
    g.deleteHistory (d :: l)
      = FallbackGroup.deleteHistory { g with history := GoMap.delete g.history d.realTag } l :=
  rfl

theorem deleteHistory_frame (g : FallbackGroup) (l : List Outbound) :
    (g.deleteHistory l).outbounds = g.outbounds ∧
    (g.deleteHistory l).selectedOutboundTCP = g.selectedOutboundTCP ∧
    (g.deleteHistory l).selectedOutboundUDP = g.selectedOutboundUDP ∧
    (g.deleteHistory l).interrupts = g.interrupts :=
  ⟨rfl, rfl, rfl, rfl⟩

/-- The history store after the deletions: the entries of the real tags of the failed
outbounds are gone, every other entry is as before. -/
theorem deleteHistory_load (l : List Outbound) :
    ∀ (g : FallbackGroup) (tag : String),
      GoMap.load (g.deleteHistory l).history tag
        = if (l.any (fun d => d.realTag == tag)) = true then none
          else GoMap.load g.history tag := by
  induction l with
  | nil =>
    intro g tag
    rfl
  | cons d l ih =>
    intro g tag
    rw [deleteHistory_cons, ih]
    by_cases htag : d.realTag = tag
    · have h1 : ((d :: l).any (fun d => d.realTag == tag)) = true := by
        rw [List.any_cons]
        simp [htag]
      rw [if_pos h1]
      split
      · rfl
      · show GoMap.load (GoMap.delete g.history d.realTag) tag = none
        rw [htag]
        exact GoMap.load_delete_self _ _
    · have h1 : ((d :: l).any (fun d => d.realTag == tag))
          = (l.any (fun d => d.realTag == tag)) := by
        rw [List.any_cons]
        have : (d.realTag == tag) = false := beq_eq_false_iff_ne.mpr htag
        rw [this, Bool.false_or]
      rw [h1]
      split
      · rfl
      · show GoMap.load (GoMap.delete g.history d.realTag) tag = GoMap.load g.history tag
        exact GoMap.load_delete_other _ _ _ htag

/-- The loop over a list whose dials all fail. -/
theorem tryLoop_fail (networkName : String → String) (attempt : Outbound → Option String)
    (network : String) (l : List Outbound) :
    ∀ (g : FallbackGroup) (lastErr : Option String) (dialed : List Outbound) (checks : Nat),
      (∀ d ∈ l, attempt d ≠ none) →
      FallbackGroup.tryLoop networkName attempt network l g lastErr dialed checks
        = { group := g.deleteHistory l, conn := none,
            err := (match l.getLast? with
              | some last => attempt last
              | none => lastErr),
            dialed := dialed ++ l, checks := checks + l.length } := by
  induction l with
  | nil =>
    intro g lastErr dialed checks _
    rw [FallbackGroup.tryLoop]
    simp [deleteHistory_nil]
  | cons d l ih =>
    intro g lastErr dialed checks hfail
    rw [FallbackGroup.tryLoop]
    cases hd : attempt d with
    | none => exact absurd hd (hfail d (List.mem_cons_self _ _))
    | some err =>
      simp only
      rw [ih _ _ _ _ (fun x hx => hfail x (List.mem_cons_of_mem _ hx)), deleteHistory_cons]
      have hdialed : dialed ++ [d] ++ l = dialed ++ d :: l := by simp
      have hchecks : checks + 1 + l.length = checks + (d :: l).length := by
        simp only [List.length_cons]; omega
      rw [hdialed, hchecks]
      congr 1
      cases l with
      | nil => simp [hd]
      | cons a rest =>
        rw [List.getLast?_cons_cons, List.getLast?_eq_getLast _ (List.cons_ne_nil a rest)]

/-- The loop over a list with a first dial that succeeds. -/
theorem tryLoop_win (networkName : String → String) (attempt : Outbound → Option String)
    (network : String) (before : List Outbound) (winner : Outbound) (after : List Outbound) :
    ∀ (g : FallbackGroup) (lastErr : Option String) (dialed : List Outbound) (checks : Nat),
      (∀ d ∈ before, attempt d ≠ none) → attempt winner = none →
      FallbackGroup.tryLoop networkName attempt network (before ++ winner :: after) g lastErr
          dialed checks
        = { group := (g.deleteHistory before).storeSelected networkName network winner,
            conn := some winner, err := none, dialed := dialed ++ before ++ [winner],
            checks := checks + before.length } := by
  induction before with
  | nil =>
    intro g lastErr dialed checks _ hwin
    rw [List.nil_append, FallbackGroup.tryLoop]
    simp [hwin, deleteHistory_nil]
  | cons d l ih =>
    intro g lastErr dialed checks hfail hwin
    rw [List.cons_append, FallbackGroup.tryLoop]
    cases hd : attempt d with
    | none => exact absurd hd (hfail d (List.mem_cons_self _ _))
    | some err =>
      simp only
      rw [ih _ _ _ _ (fun x hx => hfail x (List.mem_cons_of_mem _ hx)) hwin, deleteHistory_cons]
      have hdialed : dialed ++ [d] ++ l ++ [winner] = dialed ++ d :: l ++ [winner] := by simp
      have hchecks : checks + 1 + l.length = checks + (d :: l).length := by
        simp only [List.length_cons]; omega
      rw [hdialed, hchecks]

/-- Every list of outbounds has all its dials fail or has a first dial that succeeds. -/
theorem first_success_split (attempt : Outbound → Option String) (l : List Outbound) :
    (∀ d ∈ l, attempt d ≠ none) ∨
    ∃ before winner after, l = before ++ winner :: after ∧
      (∀ d ∈ before, attempt d ≠ none) ∧ attempt winner = none := by
  induction l with
  | nil => left; intro d hd; cases hd
  | cons a l ih =>
    cases ha : attempt a with
    | none => right; exact ⟨[], a, l, rfl, fun d hd => (by cases hd), ha⟩
    | some err =>
      rcases ih with h | ⟨before, winner, after, hsplit, hfail, hwin⟩
      · left
        intro d hd
        rcases List.mem_cons.mp hd with h2 | h2
        · rw [h2, ha]; exact Option.some_ne_none _
        · exact h d h2
      · right
        refine ⟨a :: before, winner, after, by rw [hsplit]; rfl, ?_, hwin⟩
        intro d hd
        rcases List.mem_cons.mp hd with h2 | h2
        · rw [h2, ha]; exact Option.some_ne_none _
        · exact hfail d h2

/-- The try list holds exactly the members that support the network. -/
theorem mem_tryList (g : FallbackGroup) (network : String) (d : Outbound) :
    d ∈ g.tryList network ↔ d ∈ g.outbounds ∧ d.network.contains network = true := by
  unfold FallbackGroup.tryList
  simp only [List.mem_append, List.mem_filter]
  constructor
  · rintro (⟨h, _⟩ | ⟨h, _⟩) <;> exact h
  · intro h
    by_cases hh : (GoMap.load g.history d.realTag).isSome = true
    · exact Or.inl ⟨h, hh⟩
    · exact Or.inr ⟨h, by simpa using hh⟩

/-- The try list is empty exactly when the candidates are. -/
theorem tryList_nil (g : FallbackGroup) (network : String) :
    g.tryList network = [] ↔
      g.outbounds.filter (fun detour => detour.network.contains network) = [] := by
  constructor
  · intro h
    rw [List.filter_eq_nil_iff]
    intro d hd hs
    have : d ∈ g.tryList network := (mem_tryList g network d).mpr ⟨hd, hs⟩
    rw [h] at this
    cases this
  · intro h
    unfold FallbackGroup.tryList
    simp only [h, List.filter_nil, List.append_nil]

/-- The body of the fallback dials, in its three cases: no member supports the
network, every dial fails, or there is a first dial that succeeds. -/
theorem dialWith_cases (g : FallbackGroup) (networkName : String → String)
    (attempt : Outbound → Option String) (network : String) :
    (g.tryList network = [] ∧
      g.dialWith networkName attempt network
        = { group := g, conn := none, err := some "missing supported outbound", dialed := [],
            checks := 0 }) ∨
    (g.tryList network ≠ [] ∧ (∀ d ∈ g.tryList network, attempt d ≠ none) ∧
      ∃ last, (g.tryList network).getLast? = some last ∧
        g.dialWith networkName attempt network
          = { group := g.deleteHistory (g.tryList network), conn := none, err := attempt last,
              dialed := g.tryList network, checks := (g.tryList network).length }) ∨
    (∃ before winner after, g.tryList network = before ++ winner :: after ∧
      (∀ d ∈ before, attempt d ≠ none) ∧ attempt winner = none ∧
      g.dialWith networkName attempt network
        = { group := (g.deleteHistory before).storeSelected networkName network winner,
            conn := some winner, err := none, dialed := before ++ [winner],
            checks := before.length }) := by
  by_cases hnil : g.tryList network = []
  · left
    refine ⟨hnil, ?_⟩
    unfold FallbackGroup.dialWith
    simp only [(tryList_nil g network).mp hnil, List.length_nil, beq_self_eq_true, if_true]
  · right
    have hlen : ((g.outbounds.filter (fun detour => detour.network.contains network)).length
        == 0) = false := by
      have hne : g.outbounds.filter (fun detour => detour.network.contains network) ≠ [] :=
        fun h => hnil ((tryList_nil g network).mpr h)
      have := List.length_pos.mpr hne
      simp only [beq_eq_false_iff_ne, ne_eq]
      omega
    have hbody : g.dialWith networkName attempt network
        = FallbackGroup.tryLoop networkName attempt network (g.tryList network) g none [] 0 := by
      unfold FallbackGroup.dialWith
      simp only [hlen, Bool.false_eq_true, if_false]
    rcases first_success_split attempt (g.tryList network) with hfail |
      ⟨before, winner, after, hsplit, hfail, hwin⟩
    · left
      refine ⟨hnil, hfail, (g.tryList network).getLast hnil,
        List.getLast?_eq_getLast _ hnil, ?_⟩
      rw [hbody, tryLoop_fail networkName attempt network _ g none [] 0 hfail,
        List.getLast?_eq_getLast _ hnil]
      simp
    · right
      refine ⟨before, winner, after, hsplit, hfail, hwin, ?_⟩
      rw [hbody, hsplit, tryLoop_win networkName attempt network before winner after g none [] 0
        hfail hwin]
      simp

/-- The error contract of a load-balance call, `DialContext` or `ListenPacket`: the
call returns, and what it returns satisfies the contract. -/
theorem loadBalance_call_contract (g : LoadBalanceGroup) (env : DialEnv)
    (attempt : Outbound → Option String) (source : Option String) (network : String)
    (destination : Socksaddr) (hvalid : ValidStrategy g.strategy) :
    ∃ out, LoadBalanceGroup.dialLoop env attempt source network destination
        (g.outbounds.length + 1) g DialLoop.init = .ret out ∧
      DialErrorContract attempt (out.group.candidates network) out.conn out.err out.dialed ∧
      MissingContract (supporting g.outbounds network) out.err out.dialed ∧
      (out.err ≠ none → ∀ m ∈ supporting g.outbounds network, m ∈ out.dialed) ∧
      out.dialed.Nodup ∧ (∀ d ∈ out.dialed, d ∈ supporting g.outbounds network) := by
  have hm : (g.outbounds.filter (fun it => !DialLoop.init.excluded.contains it)).length
      < g.outbounds.length + 1 :=
    Nat.lt_succ_of_le (List.length_filter_le _ _)
  obtain ⟨out, hrun, _⟩ :=
    dialLoop_spec env attempt source network destination _ g DialLoop.init hm
  obtain ⟨hcontract, hsupp, hnodup, hmem⟩ :=
    dialLoop_contract env attempt source network destination _ g DialLoop.init out hrun hvalid
      (fun d hd => (by cases hd)) (fun last hl => (by cases hl)) (fun _ => rfl)
      (fun d => Iff.rfl) (fun d hd => (by cases hd)) List.nodup_nil (fun d hd => (by cases hd))
  have hmem2 : ∀ d ∈ out.dialed, d ∈ supporting g.outbounds network := fun d hd =>
    List.mem_filter.mpr (hmem d hd)
  have hsupp2 : out.err ≠ none → ∀ m ∈ supporting g.outbounds network, m ∈ out.dialed :=
    fun herr m hm => hsupp herr m (List.mem_filter.mp hm).1 (List.mem_filter.mp hm).2
  refine ⟨out, hrun, hcontract, ?_, hsupp2, hnodup, hmem2⟩
  obtain ⟨_, _, hmissing, _, _, hok⟩ := hcontract
  constructor
  · intro hnone
    have hd : out.dialed = [] := by
      cases hl : out.dialed with
      | nil => rfl
      | cons a rest =>
        have := hmem2 a (by rw [hl]; exact List.mem_cons_self _ _)
        rw [hnone] at this
        cases this
    have herr : out.err ≠ none := by
      intro h
      obtain ⟨d, _, hlast, _⟩ := hok h
      rw [hd] at hlast
      cases hlast
    exact ⟨hd, hmissing herr hd⟩
  · rintro ⟨hd, herr⟩
    have herr2 : out.err ≠ none := by rw [herr]; exact Option.some_ne_none _
    cases hs : supporting g.outbounds network with
    | nil => rfl
    | cons a rest =>
      have := hsupp2 herr2 a (by rw [hs]; exact List.mem_cons_self _ _)
      rw [hd] at this
      cases this

theorem storeSelected_frame (g : FallbackGroup) (networkName : String → String)
    (network : String) (outbound : Outbound) :
    (g.storeSelected networkName network outbound).history = g.history ∧
    (g.storeSelected networkName network outbound).outbounds = g.outbounds := by
  unfold FallbackGroup.storeSelected
  split
  · simp only
    split <;> exact ⟨rfl, rfl⟩
  · split
    · simp only
      split <;> exact ⟨rfl, rfl⟩
    · exact ⟨rfl, rfl⟩

/-- The error contract of a fallback call, `DialContext` or `ListenPacket`. -/
theorem fallback_call_contract (g : FallbackGroup) (networkName : String → String)
    (attempt : Outbound → Option String) (network : String) :
    DialErrorContract attempt (g.tryList network)
      (g.dialWith networkName attempt network).conn
      (g.dialWith networkName attempt network).err
      (g.dialWith networkName attempt network).dialed ∧
    MissingContract (supporting g.outbounds network)
      (g.dialWith networkName attempt network).err
      (g.dialWith networkName attempt network).dialed := by
  have hsupnil : supporting g.outbounds network = [] ↔ g.tryList network = [] :=
    (tryList_nil g network).symm
  rcases dialWith_cases g networkName attempt network with ⟨hnil, hrun⟩ |
    ⟨hne, hfail, last, hlast, hrun⟩ | ⟨before, winner, after, hsplit, hfail, hwin, hrun⟩
  · rw [hrun]
    refine ⟨⟨fun _ => ⟨rfl, fun d hd => (by cases hd)⟩, fun _ l hl => (by cases hl),
      fun _ _ => rfl, ?_, fun d hd => (by cases hd), fun h => (by cases h)⟩, ?_⟩
    · intro _ c hc
      rw [hnil] at hc
      cases hc
    · exact ⟨fun _ => ⟨rfl, rfl⟩, fun _ => hsupnil.mpr hnil⟩
  · rw [hrun]
    have hmemlast : last ∈ g.tryList network := by
      have h := List.getLast?_eq_getLast _ hne
      rw [hlast] at h
      rw [Option.some.inj h]
      exact List.getLast_mem hne
    have herr : attempt last ≠ none := hfail last hmemlast
    refine ⟨⟨fun _ => ⟨rfl, hfail⟩, ?_, ?_, fun _ c hc => hc,
      fun d hd hok => absurd hok (hfail d hd), fun h => absurd h herr⟩, ?_⟩
    · intro _ l hl
      show attempt l = attempt last
      have : (g.tryList network).getLast? = some l := hl
      rw [hlast] at this
      cases this
      rfl
    · intro _ hd
      exact absurd hd hne
    · constructor
      · intro h
        exact absurd (hsupnil.mp h) hne
      · rintro ⟨hd, _⟩
        exact absurd hd hne
  · rw [hrun]
    refine ⟨⟨fun h => absurd rfl h, fun h => absurd rfl h, fun h => absurd rfl h,
      fun h => absurd rfl h, ?_, ?_⟩, ?_⟩
    · intro d hd hok
      rcases List.mem_append.mp hd with h | h
      · exact absurd hok (hfail d h)
      · rw [List.mem_singleton] at h
        subst h
        exact ⟨rfl, rfl⟩
    · intro _
      exact ⟨winner, rfl, getLast?_append_singleton _ _, hwin⟩
    · constructor
      · intro h
        have := hsupnil.mp h
        rw [hsplit] at this
        exact absurd this (by simp)
      · rintro ⟨hd, _⟩
        exact absurd hd (by simp)

/-! ## Claims on the dials of the groups -/

/-- C22: the calls `DialContext` and `ListenPacket` of a load-balance group with a
valid strategy return, and for them and for the same calls of a fallback group:
an error is returned only when no attempted dial succeeded; it is then the error
of the last attempted dial, or "missing supported outbound", nothing having
been dialled, which happens exactly when no member supports the network; the
error is not returned while a candidate remains that has not been dialled; and
when an attempted dial succeeds the call returns that connection and no error. -/
theorem group_dial_error_contract (lb : LoadBalanceGroup) (fb : FallbackGroup)
    (env : DialEnv) (fenv : FallbackEnv) (source : Option String) (network : String)
    (destination : Socksaddr) (hvalid : ValidStrategy lb.strategy) :
    (∃ out, lb.DialContext env source network destination = .ret out ∧
      DialErrorContract (env.dial network) (out.group.candidates network) out.conn out.err
        out.dialed ∧
      MissingContract (supporting lb.outbounds network) out.err out.dialed ∧
      (out.err ≠ none → ∀ m ∈ supporting lb.outbounds network, m ∈ out.dialed)) ∧
    (∃ out, lb.ListenPacket env source destination = .ret out ∧
      DialErrorContract env.listen (out.group.candidates NetworkUDP) out.conn out.err
        out.dialed ∧
      MissingContract (supporting lb.outbounds NetworkUDP) out.err out.dialed ∧
      (out.err ≠ none → ∀ m ∈ supporting lb.outbounds NetworkUDP, m ∈ out.dialed)) ∧
    (DialErrorContract (fenv.dial network) (fb.tryList network)
        (fb.DialContext fenv network).conn (fb.DialContext fenv network).err
        (fb.DialContext fenv network).dialed ∧
      MissingContract (supporting fb.outbounds network) (fb.DialContext fenv network).err
        (fb.DialContext fenv network).dialed) ∧
    (DialErrorContract fenv.listen (fb.tryList NetworkUDP)
        (fb.ListenPacket fenv).conn (fb.ListenPacket fenv).err (fb.ListenPacket fenv).dialed ∧
      MissingContract (supporting fb.outbounds NetworkUDP) (fb.ListenPacket fenv).err
        (fb.ListenPacket fenv).dialed) := by
  refine ⟨?_, ?_, fallback_call_contract fb fenv.networkName (fenv.dial network) network,
    fallback_call_contract fb fenv.networkName fenv.listen NetworkUDP⟩
  · obtain ⟨out, hrun, h1, h2, h3, _⟩ :=
      loadBalance_call_contract lb env (env.dial network) source network destination hvalid
    exact ⟨out, hrun, h1, h2, h3⟩
  · obtain ⟨out, hrun, h1, h2, h3, _⟩ :=
      loadBalance_call_contract lb env env.listen source NetworkUDP destination hvalid
    exact ⟨out, hrun, h1, h2, h3⟩

/-- C22 on the round-robin group of a and b with every dial failing: the call returns
the error of the last dial after dialling both. -/
theorem group_dial_error_contract_witness :
    ∃ out, twoRoundRobin.DialContext envDown none "tcp" exampleCom = .ret out ∧
      DialErrorContract (envDown.dial "tcp") (out.group.candidates "tcp") out.conn out.err
        out.dialed ∧
      MissingContract (supporting twoRoundRobin.outbounds "tcp") out.err out.dialed ∧
      (out.err ≠ none → ∀ m ∈ supporting twoRoundRobin.outbounds "tcp", m ∈ out.dialed) :=
  (group_dial_error_contract twoRoundRobin testFallback envDown envAllDown none "tcp"
    exampleCom (Or.inl rfl)).1

/-- The try list has no member twice when the group has none twice. -/
theorem tryList_nodup (g : FallbackGroup) (network : String) (h : g.outbounds.Nodup) :
    (g.tryList network).Nodup := by
  unfold FallbackGroup.tryList
  simp only
  rw [List.nodup_append]
  refine ⟨(h.filter _).filter _, (h.filter _).filter _, ?_⟩
  intro a h1 h2
  have p1 := (List.mem_filter.mp h1).2
  have p2 := (List.mem_filter.mp h2).2
  rw [p1] at p2
  cases p2

/-- The try list in terms of the members: those that support the network and have a
history entry, then those that support it and have none. -/
theorem tryList_order (g : FallbackGroup) (network : String) :
    g.tryList network
      = g.outbounds.filter (fun detour =>
          detour.network.contains network && (GoMap.load g.history detour.realTag).isSome)
        ++ g.outbounds.filter (fun detour =>
          detour.network.contains network && !(GoMap.load g.history detour.realTag).isSome) := by
  unfold FallbackGroup.tryList
  simp only [List.filter_filter]
  congr 1
  · congr 1
    funext d
    exact Bool.and_comm _ _
  · congr 1
    funext d
    exact Bool.and_comm _ _

theorem storeSelected_tcp (g : FallbackGroup) (networkName : String → String)
    (network : String) (outbound : Outbound) (h : networkName network = NetworkTCP) :
    (g.storeSelected networkName network outbound).selectedOutboundTCP = some outbound := by
  unfold FallbackGroup.storeSelected
  have : (networkName network == NetworkTCP) = true := by rw [h]; decide
  simp only [this, if_true]
  split <;> rfl

theorem storeSelected_udp (g : FallbackGroup) (networkName : String → String)
    (network : String) (outbound : Outbound) (h : networkName network = NetworkUDP) :
    (g.storeSelected networkName network outbound).selectedOutboundUDP = some outbound := by
  unfold FallbackGroup.storeSelected
  have h1 : (networkName network == NetworkTCP) = false := by rw [h]; decide
  have h2 : (networkName network == NetworkUDP) = true := by rw [h]; decide
  simp only [h1, h2, if_true, Bool.false_eq_true, if_false]
  split <;> rfl

theorem Now_of_tcp (g : FallbackGroup) (o : Outbound) (h : g.selectedOutboundTCP = some o) :
    g.Now = o.tag := by
  unfold FallbackGroup.Now
  rw [h]

/-- C23: the try list of `FallbackGroup.DialContext` is the members that support the
network and have a history entry, in member order, followed by those that
support it and have none, in member order; and when the dials of the outbounds
`before` the outbound `winner` in that list fail and the dial of `winner`
succeeds, the call dials `before` and then `winner`, in this order and nothing
else, returns the connection of `winner` without error, and sets the selected
slot of the network (for tcp, so that `Now()` is the tag of `winner`; for udp
the other slot) to `winner`; in a group without repeated members each of these
outbounds is dialled once and no outbound after `winner` is dialled. -/
theorem fallback_dials_in_order (g : FallbackGroup) (env : FallbackEnv) (network : String)
    (before : List Outbound) (winner : Outbound) (after : List Outbound)
    (hsplit : g.tryList network = before ++ winner :: after)
    (hfail : ∀ d ∈ before, env.dial network d ≠ none)
    (hwin : env.dial network winner = none) :
    g.tryList network
      = g.outbounds.filter (fun detour =>
          detour.network.contains network && (GoMap.load g.history detour.realTag).isSome)
        ++ g.outbounds.filter (fun detour =>
          detour.network.contains network && !(GoMap.load g.history detour.realTag).isSome) ∧
    (g.DialContext env network).dialed = before ++ [winner] ∧
    (g.DialContext env network).conn = some winner ∧
    (g.DialContext env network).err = none ∧
    (env.networkName network = NetworkTCP →
      (g.DialContext env network).group.selectedOutboundTCP = some winner ∧
      (g.DialContext env network).group.Now = winner.tag) ∧
    (env.networkName network = NetworkUDP →
      (g.DialContext env network).group.selectedOutboundUDP = some winner) ∧
    (g.outbounds.Nodup →
      (∀ d ∈ before, (g.DialContext env network).dialed.count d = 1) ∧
      (g.DialContext env network).dialed.count winner = 1 ∧
      (∀ d ∈ after, (g.DialContext env network).dialed.count d = 0)) := by
  have hne : ((g.outbounds.filter (fun detour => detour.network.contains network)).length
      == 0) = false := by
    have hnil : g.tryList network ≠ [] := by rw [hsplit]; simp
    have hne : g.outbounds.filter (fun detour => detour.network.contains network) ≠ [] :=
      fun h => hnil ((tryList_nil g network).mpr h)
    have := List.length_pos.mpr hne
    simp only [beq_eq_false_iff_ne, ne_eq]
    omega
  have hrun : g.DialContext env network
      = { group := (g.deleteHistory before).storeSelected env.networkName network winner,
          conn := some winner, err := none, dialed := before ++ [winner],
          checks := before.length } := by
    unfold FallbackGroup.DialContext FallbackGroup.dialWith
    simp only [hne, Bool.false_eq_true, if_false]
    rw [hsplit, tryLoop_win env.networkName (env.dial network) network before winner after g
      none [] 0 hfail hwin]
    simp
  rw [hrun]
  refine ⟨tryList_order g network, rfl, rfl, rfl, ?_, ?_, ?_⟩
  · intro htcp
    have h := storeSelected_tcp (g.deleteHistory before) env.networkName network winner htcp
    exact ⟨h, Now_of_tcp _ _ h⟩
  · intro hudp
    exact storeSelected_udp (g.deleteHistory before) env.networkName network winner hudp
  · intro hnodup
    have hn := tryList_nodup g network hnodup
    rw [hsplit] at hn
    have hn2 : (before ++ [winner]).Nodup := by
      have : (before ++ winner :: after) = (before ++ [winner]) ++ after := by simp
      rw [this] at hn
      exact (List.nodup_append.mp hn).1
    have hdisj : ∀ d ∈ after, d ∉ before ++ [winner] := by
      intro d hd hmem
      have : (before ++ winner :: after) = (before ++ [winner]) ++ after := by simp
      rw [this] at hn
      exact (List.nodup_append.mp hn).2.2 hmem hd
    refine ⟨?_, ?_, ?_⟩
    · intro d hd
      exact List.count_eq_one_of_mem hn2 (List.mem_append_left _ hd)
    · exact List.count_eq_one_of_mem hn2 (List.mem_append_right _ (List.mem_singleton_self _))
    · intro d hd
      exact List.count_eq_zero_of_not_mem (hdisj d hd)

/-- C23 on the group of the test, primary and backup with primary failing: primary and
then backup are dialled, and `Now()` is the tag of backup. -/
theorem fallback_dials_in_order_witness :
    (testFallback.DialContext envPrimaryDown "tcp").dialed = [outPrimary] ++ [outBackup] ∧
    (testFallback.DialContext envPrimaryDown "tcp").conn = some outBackup ∧
    (testFallback.DialContext envPrimaryDown "tcp").group.Now = outBackup.tag :=
  have h := fallback_dials_in_order testFallback envPrimaryDown "tcp" [outPrimary] outBackup []
    (by decide) (by decide) (by decide)
  ⟨h.2.1, h.2.2.1, (h.2.2.2.2.1 rfl).2⟩

/-- The history store after a fallback call. -/
theorem dialWith_history (g : FallbackGroup) (networkName : String → String)
    (attempt : Outbound → Option String) (network : String) (tag : String) :
    GoMap.load (g.dialWith networkName attempt network).group.history tag
      = if (((g.dialWith networkName attempt network).dialed.filter
            (fun d => (attempt d).isSome)).any (fun d => d.realTag == tag)) = true
        then none else GoMap.load g.history tag := by
  rcases dialWith_cases g networkName attempt network with ⟨_, hrun⟩ |
    ⟨_, hfail, _, _, hrun⟩ | ⟨before, winner, after, _, hfail, hwin, hrun⟩
  · rw [hrun]
    rfl
  · rw [hrun]
    simp only
    have hf : (g.tryList network).filter (fun d => (attempt d).isSome) = g.tryList network := by
      rw [List.filter_eq_self]
      intro d hd
      exact Option.isSome_iff_ne_none.mpr (hfail d hd)
    rw [hf, deleteHistory_load]
  · rw [hrun]
    simp only
    have hf : (before ++ [winner]).filter (fun d => (attempt d).isSome) = before := by
      rw [List.filter_append]
      have h1 : before.filter (fun d => (attempt d).isSome) = before := by
        rw [List.filter_eq_self]
        intro d hd
        exact Option.isSome_iff_ne_none.mpr (hfail d hd)
      have h2 : [winner].filter (fun d => (attempt d).isSome) = [] := by
        simp [hwin]
      rw [h1, h2, List.append_nil]
    rw [hf, (storeSelected_frame _ _ _ _).1, deleteHistory_load]

/-- C24: after `FallbackGroup.DialContext` and after `ListenPacket`, whatever they
return, the history store holds no entry for the real tag of a member whose dial
failed during the call, and the entry of every tag that is not the real tag of
such a member is what it was before the call. -/
theorem fallback_history_after_dial (g : FallbackGroup) (env : FallbackEnv) (network : String) :
    (∀ d, FailedIn (env.dial network) (g.DialContext env network).dialed d →
      GoMap.load (g.DialContext env network).group.history d.realTag = none) ∧
    (∀ tag, (∀ d, FailedIn (env.dial network) (g.DialContext env network).dialed d →
        d.realTag ≠ tag) →
      GoMap.load (g.DialContext env network).group.history tag = GoMap.load g.history tag) ∧
    (∀ d, FailedIn env.listen (g.ListenPacket env).dialed d →
      GoMap.load (g.ListenPacket env).group.history d.realTag = none) ∧
    (∀ tag, (∀ d, FailedIn env.listen (g.ListenPacket env).dialed d → d.realTag ≠ tag) →
      GoMap.load (g.ListenPacket env).group.history tag = GoMap.load g.history tag) := by
  have hgen : ∀ (attempt : Outbound → Option String) (network : String),
      (∀ d, FailedIn attempt (g.dialWith env.networkName attempt network).dialed d →
        GoMap.load (g.dialWith env.networkName attempt network).group.history d.realTag
          = none) ∧
      (∀ tag, (∀ d, FailedIn attempt (g.dialWith env.networkName attempt network).dialed d →
          d.realTag ≠ tag) →
        GoMap.load (g.dialWith env.networkName attempt network).group.history tag
          = GoMap.load g.history tag) := by
    intro attempt network
    constructor
    · rintro d ⟨hd, hf⟩
      rw [dialWith_history]
      have : (((g.dialWith env.networkName attempt network).dialed.filter
          (fun d => (attempt d).isSome)).any (fun x => x.realTag == d.realTag)) = true := by
        rw [List.any_eq_true]
        exact ⟨d, List.mem_filter.mpr ⟨hd, Option.isSome_iff_ne_none.mpr hf⟩,
          beq_self_eq_true _⟩
      rw [if_pos this]
    · intro tag htag
      rw [dialWith_history]
      have : ¬ ((((g.dialWith env.networkName attempt network).dialed.filter
          (fun d => (attempt d).isSome)).any (fun x => x.realTag == tag)) = true) := by
        rw [List.any_eq_true]
        rintro ⟨d, hd, heq⟩
        obtain ⟨hd1, hd2⟩ := List.mem_filter.mp hd
        exact htag d ⟨hd1, Option.isSome_iff_ne_none.mp hd2⟩ (eq_of_beq heq)
      rw [if_neg this]
  exact ⟨(hgen (env.dial network) network).1, (hgen (env.dial network) network).2,
    (hgen env.listen NetworkUDP).1, (hgen env.listen NetworkUDP).2⟩

/-- The number of forced checks of a fallback call is the number of its failed dials. -/
theorem dialWith_checks (g : FallbackGroup) (networkName : String → String)
    (attempt : Outbound → Option String) (network : String) :
    (g.dialWith networkName attempt network).checks
      = ((g.dialWith networkName attempt network).dialed.filter
          (fun d => (attempt d).isSome)).length := by
  rcases dialWith_cases g networkName attempt network with ⟨_, hrun⟩ |
    ⟨_, hfail, _, _, hrun⟩ | ⟨before, winner, after, _, hfail, hwin, hrun⟩
  · rw [hrun]
    rfl
  · rw [hrun]
    simp only
    have hf : (g.tryList network).filter (fun d => (attempt d).isSome) = g.tryList network := by
      rw [List.filter_eq_self]
      intro d hd
      exact Option.isSome_iff_ne_none.mpr (hfail d hd)
    rw [hf]
  · rw [hrun]
    simp only
    have hf : (before ++ [winner]).filter (fun d => (attempt d).isSome) = before := by
      rw [List.filter_append]
      have h1 : before.filter (fun d => (attempt d).isSome) = before := by
        rw [List.filter_eq_self]
        intro d hd
        exact Option.isSome_iff_ne_none.mpr (hfail d hd)
      have h2 : [winner].filter (fun d => (attempt d).isSome) = [] := by
        simp [hwin]
      rw [h1, h2, List.append_nil]
    rw [hf]

/-- C25 fails on the code: `FallbackGroup.DialContext` and `ListenPacket` execute
`go g.checker.CheckOutbounds(true)` once for every dial that fails, so on the
group of primary and backup with both dials failing two forced checks are
started by one call. -/
theorem fallback_check_per_failed_dial :
    (testFallback.DialContext envAllDown "tcp").dialed = [outPrimary, outBackup] ∧
    (testFallback.DialContext envAllDown "tcp").checks = 2 ∧
    (∀ (g : FallbackGroup) (env : FallbackEnv) (network : String),
      (g.DialContext env network).checks
        = ((g.DialContext env network).dialed.filter
            (fun d => (env.dial network d).isSome)).length) ∧
    (∀ (g : FallbackGroup) (env : FallbackEnv),
      (g.ListenPacket env).checks
        = ((g.ListenPacket env).dialed.filter (fun d => (env.listen d).isSome)).length) :=
  ⟨by decide, by decide,
    fun g env network => dialWith_checks g env.networkName (env.dial network) network,
    fun g env => dialWith_checks g env.networkName env.listen NetworkUDP⟩

/-- C24 on the group of the test with primary failing: the entry of primary is gone and
the entry of backup, the winner, is as before. -/
theorem fallback_history_after_dial_witness :
    GoMap.load (testFallback.DialContext envPrimaryDown "tcp").group.history outPrimary.realTag
      = none ∧
    GoMap.load (testFallback.DialContext envPrimaryDown "tcp").group.history "backup"
      = GoMap.load testFallback.history "backup" :=
  ⟨(fallback_history_after_dial testFallback envPrimaryDown "tcp").1 outPrimary
      ⟨by decide, by decide⟩,
    (fallback_history_after_dial testFallback envPrimaryDown "tcp").2.1 "backup"
      (by
        rintro d ⟨hd, hf⟩
        have hd2 : d ∈ [outPrimary, outBackup] := hd
        simp only [List.mem_cons, List.mem_singleton, List.not_mem_nil, or_false] at hd2
        rcases hd2 with rfl | rfl
        · decide
        · exact absurd rfl hf)⟩

/-! ## Claims on `performUpdateCheck` -/

theorem updateSlot_slot (selected : Option Outbound × Bool) (previous : Option Outbound) :
    (FallbackGroup.updateSlot selected previous).1 = slotAfterUpdate selected previous := by
  obtain ⟨sel, found⟩ := selected
  cases sel with
  | none => rfl
  | some outbound =>
    unfold FallbackGroup.updateSlot slotAfterUpdate
    cases previous with
    | none => simp
    | some old =>
      cases found with
      | true =>
        by_cases h : outbound = old
        · subst h
          simp
        · simp [h]
      | false => simp

theorem updateSlot_updated (selected : Option Outbound × Bool) (previous : Option Outbound) :
    (FallbackGroup.updateSlot selected previous).2 = true ↔ slotReplaced selected previous := by
  obtain ⟨sel, found⟩ := selected
  unfold slotReplaced
  cases sel with
  | none =>
    constructor
    · intro h; cases h
    · rintro ⟨_, _, h, _⟩; cases h
  | some outbound =>
    unfold FallbackGroup.updateSlot
    cases previous with
    | none =>
      constructor
      · intro h; simp at h
      · rintro ⟨_, _, _, h, _⟩; cases h
    | some old =>
      cases found with
      | true =>
        by_cases h : outbound = old
        · subst h
          constructor
          · intro h2; simp at h2
          · rintro ⟨o2, old2, h1, h2, h3⟩
            cases h1
            cases h2
            exact absurd rfl h3
        · constructor
          · intro _
            exact ⟨outbound, old, rfl, rfl, fun hc => h hc.symm⟩
          · intro _
            simp [h]
      | false =>
        constructor
        · intro h2; simp at h2
        · rintro ⟨_, _, h1, _⟩; cases h1

/-- The effect of `performUpdateCheck` on the slots and on the interrupt count. -/
theorem performUpdateCheck_effect (g : FallbackGroup) :
    g.performUpdateCheck.selectedOutboundTCP
      = slotAfterUpdate (g.Select NetworkTCP) g.selectedOutboundTCP ∧
    g.performUpdateCheck.selectedOutboundUDP
      = slotAfterUpdate (g.Select NetworkUDP) g.selectedOutboundUDP ∧
    g.performUpdateCheck.outbounds = g.outbounds ∧
    g.performUpdateCheck.history = g.history ∧
    ((slotReplaced (g.Select NetworkTCP) g.selectedOutboundTCP ∨
        slotReplaced (g.Select NetworkUDP) g.selectedOutboundUDP) →
      g.performUpdateCheck.interrupts = g.interrupts + 1) ∧
    (¬ (slotReplaced (g.Select NetworkTCP) g.selectedOutboundTCP ∨
        slotReplaced (g.Select NetworkUDP) g.selectedOutboundUDP) →
      g.performUpdateCheck.interrupts = g.interrupts) := by
  have hsel : ∀ (slot : Option Outbound),
      FallbackGroup.Select { g with selectedOutboundTCP := slot } NetworkUDP
        = g.Select NetworkUDP := fun _ => rfl
  have htcp := updateSlot_updated (g.Select NetworkTCP) g.selectedOutboundTCP
  have hudp := updateSlot_updated (g.Select NetworkUDP) g.selectedOutboundUDP
  unfold FallbackGroup.performUpdateCheck
  simp only [hsel]
  refine ⟨?_, ?_, ?_, ?_, ?_, ?_⟩
  · split <;> exact updateSlot_slot _ _
  · split <;> exact updateSlot_slot _ _
  · split <;> rfl
  · split <;> rfl
  · intro h
    have hb : ((FallbackGroup.updateSlot (g.Select NetworkTCP) g.selectedOutboundTCP).2 ||
        (FallbackGroup.updateSlot (g.Select NetworkUDP) g.selectedOutboundUDP).2) = true := by
      rw [Bool.or_eq_true]
      rcases h with h | h
      · exact Or.inl (htcp.mpr h)
      · exact Or.inr (hudp.mpr h)
    rw [if_pos hb]
  · intro h
    have hb : ¬ (((FallbackGroup.updateSlot (g.Select NetworkTCP) g.selectedOutboundTCP).2 ||
        (FallbackGroup.updateSlot (g.Select NetworkUDP) g.selectedOutboundUDP).2) = true) := by
      rw [Bool.or_eq_true]
      rintro (h2 | h2)
      · exact h (Or.inl (htcp.mp h2))
      · exact h (Or.inr (hudp.mp h2))
    rw [if_neg hb]

/-- C26: in a fallback group whose TCP slot holds a member b other than the first
member p that supports tcp, once the history store holds an entry for the real
tag of p, `performUpdateCheck` sets the TCP slot to p, so that `Now()` is the
tag of p, and it interrupts the interrupt group once. -/
theorem fallback_recovers_primary (g : FallbackGroup) (p b : Outbound)
    (hfirst : g.outbounds.find? (fun detour => detour.network.contains NetworkTCP) = some p)
    (hslot : g.selectedOutboundTCP = some b) (hne : b ≠ p)
    (hhistory : (GoMap.load g.history p.realTag).isSome = true) :
    g.Select NetworkTCP = (some p, true) ∧
    g.performUpdateCheck.selectedOutboundTCP = some p ∧
    g.performUpdateCheck.Now = p.tag ∧
    g.performUpdateCheck.interrupts = g.interrupts + 1 := by
  have hsel : g.Select NetworkTCP = (some p, true) := by
    unfold FallbackGroup.Select
    have hfind : g.outbounds.find? (fun detour =>
        detour.network.contains NetworkTCP && (GoMap.load g.history detour.realTag).isSome)
        = some p := by
      generalize g.outbounds = l at hfirst
      induction l with
      | nil => cases hfirst
      | cons a l ih =>
        rw [List.find?_cons] at hfirst ⊢
        cases ha : a.network.contains NetworkTCP with
        | true =>
          rw [ha] at hfirst
          simp only [Option.some.injEq] at hfirst
          subst hfirst
          simp only [hhistory, Bool.and_self]
        | false =>
          rw [ha] at hfirst
          simp only [Bool.false_and]
          exact ih hfirst
    rw [hfind]
  obtain ⟨htcp, _, _, _, hint, _⟩ := performUpdateCheck_effect g
  have hslot2 : g.performUpdateCheck.selectedOutboundTCP = some p := by
    rw [htcp, hsel, hslot]
    unfold slotAfterUpdate
    simp
  refine ⟨hsel, hslot2, Now_of_tcp _ _ hslot2, ?_⟩
  apply hint
  left
  rw [hsel, hslot]
  exact ⟨p, b, rfl, rfl, hne⟩

/-- C26 on the group of the test after the failover, once the entry of primary is
stored again. -/
theorem fallback_recovers_primary_witness :
    (failedOver.StoreURLTestHistory "primary" someHistory).performUpdateCheck.Now
      = outPrimary.tag ∧
    (failedOver.StoreURLTestHistory "primary" someHistory).performUpdateCheck.interrupts
      = (failedOver.StoreURLTestHistory "primary" someHistory).interrupts + 1 :=
  have h := fallback_recovers_primary (failedOver.StoreURLTestHistory "primary" someHistory)
    outPrimary outBackup (by decide) (by decide) (by decide) (by decide)
  ⟨h.2.2.1, h.2.2.2⟩

/-- C27 fails when no member that supports the network has a history entry and the
slot holds another outbound than the first such member: `performUpdateCheck`
leaves the slot as it is, so the stored selection is not `Select(network)`;
and a slot that was empty is filled without an interrupt. -/
theorem performUpdateCheck_keeps_unknown :
    allUnknown.Select NetworkTCP = (some outPrimary, false) ∧
    allUnknown.selectedOutboundTCP = some outBackup ∧
    allUnknown.performUpdateCheck.selectedOutboundTCP = some outBackup ∧
    allUnknown.performUpdateCheck.selectedOutboundTCP ≠ (allUnknown.Select NetworkTCP).1 ∧
    testFallback.selectedOutboundTCP = none ∧
    testFallback.performUpdateCheck.selectedOutboundTCP = some outPrimary ∧
    testFallback.performUpdateCheck.interrupts = testFallback.interrupts := by
  decide

/-- C27 as amended: after `performUpdateCheck`, for tcp and for udp, when `Select`
returns an outbound the slot holds that outbound if the slot was empty or
`Select` found a member with a history entry, and it holds what it held before
otherwise, as it does when no member supports the network; `Select` returns the
first member that supports the network and has a history entry, else the first
member that supports it, with the flag set exactly when a member that supports
the network has a history entry; and the interrupt group is interrupted, once,
exactly when for tcp or for udp the slot held an outbound and `Select` found
another one with a history entry. -/
theorem performUpdateCheck_slots (g : FallbackGroup) :
    g.performUpdateCheck.selectedOutboundTCP
      = slotAfterUpdate (g.Select NetworkTCP) g.selectedOutboundTCP ∧
    g.performUpdateCheck.selectedOutboundUDP
      = slotAfterUpdate (g.Select NetworkUDP) g.selectedOutboundUDP ∧
    (∀ outbound found, g.Select NetworkTCP = (some outbound, found) →
      (g.selectedOutboundTCP = none ∨ found = true) →
      g.performUpdateCheck.selectedOutboundTCP = some outbound) ∧
    (∀ outbound found, g.Select NetworkUDP = (some outbound, found) →
      (g.selectedOutboundUDP = none ∨ found = true) →
      g.performUpdateCheck.selectedOutboundUDP = some outbound) ∧
    (∀ network, (g.Select network).1
      = (match g.outbounds.find? (fun detour =>
            detour.network.contains network &&
              (GoMap.load g.history detour.realTag).isSome) with
         | some detour => some detour
         | none => g.outbounds.find? (fun detour => detour.network.contains network))) ∧
    (∀ network, (g.Select network).2 = true ↔
      ∃ detour ∈ g.outbounds, detour.network.contains network = true ∧
        (GoMap.load g.history detour.realTag).isSome = true) ∧
    ((slotReplaced (g.Select NetworkTCP) g.selectedOutboundTCP ∨
        slotReplaced (g.Select NetworkUDP) g.selectedOutboundUDP) →
      g.performUpdateCheck.interrupts = g.interrupts + 1) ∧
    (¬ (slotReplaced (g.Select NetworkTCP) g.selectedOutboundTCP ∨
        slotReplaced (g.Select NetworkUDP) g.selectedOutboundUDP) →
      g.performUpdateCheck.interrupts = g.interrupts) := by
  obtain ⟨htcp, hudp, _, _, hint1, hint2⟩ := performUpdateCheck_effect g
  refine ⟨htcp, hudp, ?_, ?_, ?_, ?_, hint1, hint2⟩
  · intro outbound found hsel hcond
    rw [htcp, hsel]
    unfold slotAfterUpdate
    simp only
    rw [if_pos hcond]
  · intro outbound found hsel hcond
    rw [hudp, hsel]
    unfold slotAfterUpdate
    simp only
    rw [if_pos hcond]
  · intro network
    unfold FallbackGroup.Select
    cases g.outbounds.find? (fun detour =>
        detour.network.contains network && (GoMap.load g.history detour.realTag).isSome) with
    | some d => rfl
    | none =>
      simp only
      cases g.outbounds.find? (fun detour => detour.network.contains network) <;> rfl
  · intro network
    unfold FallbackGroup.Select
    cases hfind : g.outbounds.find? (fun detour =>
        detour.network.contains network && (GoMap.load g.history detour.realTag).isSome) with
    | some d =>
      simp only [true_iff]
      have hmem := List.mem_of_find?_eq_some hfind
      have hp := List.find?_some hfind
      simp only [Bool.and_eq_true] at hp
      exact ⟨d, hmem, hp.1, hp.2⟩
    | none =>
      have hnone := List.find?_eq_none.mp hfind
      have hfalse : ¬ ∃ detour ∈ g.outbounds, detour.network.contains network = true ∧
          (GoMap.load g.history detour.realTag).isSome = true := by
        rintro ⟨d, hd, h1, h2⟩
        exact hnone d hd (by simp only [h1, h2, Bool.and_self])
      simp only
      cases g.outbounds.find? (fun detour => detour.network.contains network) with
      | some d => exact ⟨fun h => (by cases h), fun h => absurd h hfalse⟩
      | none => exact ⟨fun h => (by cases h), fun h => absurd h hfalse⟩

/-! ## Claims on the health checker -/

/-- C28: `newHealthChecker` takes as effective interval, idle timeout and timeout the
default (3 minutes, 30 minutes, `C.TCPTimeout`) where the argument is zero and
the argument where it is not; it fails, with the error "interval must be less or
equal than idle_timeout", exactly when the effective interval is greater than
the effective idle timeout; a checker it constructs has the effective values,
with interval at most idle timeout and none of the three zero; and with
all-zero arguments it constructs a checker. -/
theorem newHealthChecker_defaults (tcpTimeout : Int) (outbounds : List Outbound)
    (history : HistoryStorage) (interval idleTimeout timeout : Int)
    (htcp : tcpTimeout ≠ 0) :
    ((∃ e, newHealthChecker tcpTimeout outbounds history interval idleTimeout timeout
        = .error e) ↔
      effectiveDuration interval DefaultURLTestInterval
        > effectiveDuration idleTimeout DefaultURLTestIdleTimeout) ∧
    ((∃ e, newHealthChecker tcpTimeout outbounds history interval idleTimeout timeout
        = .error e) →
      newHealthChecker tcpTimeout outbounds history interval idleTimeout timeout
        = .error "interval must be less or equal than idle_timeout") ∧
    (effectiveDuration interval DefaultURLTestInterval
        ≤ effectiveDuration idleTimeout DefaultURLTestIdleTimeout →
      ∃ h, newHealthChecker tcpTimeout outbounds history interval idleTimeout timeout
        = .ok h) ∧
    (∀ h, newHealthChecker tcpTimeout outbounds history interval idleTimeout timeout = .ok h →
      h.interval = effectiveDuration interval DefaultURLTestInterval ∧
      h.idleTimeout = effectiveDuration idleTimeout DefaultURLTestIdleTimeout ∧
      h.timeout = effectiveDuration timeout tcpTimeout ∧
      h.interval ≤ h.idleTimeout ∧ h.interval ≠ 0 ∧ h.idleTimeout ≠ 0 ∧ h.timeout ≠ 0 ∧
      h.outbounds = outbounds ∧ h.history = history) ∧
    (∃ h, newHealthChecker tcpTimeout outbounds history 0 0 0 = .ok h ∧
      h.interval = 180000000000 ∧ h.idleTimeout = 1800000000000 ∧ h.timeout = tcpTimeout) := by
  have hi : (if (interval == 0) = true then DefaultURLTestInterval else interval)
      = effectiveDuration interval DefaultURLTestInterval := by
    unfold effectiveDuration
    by_cases h : interval = 0 <;> simp [h]
  have hd : (if (idleTimeout == 0) = true then DefaultURLTestIdleTimeout else idleTimeout)
      = effectiveDuration idleTimeout DefaultURLTestIdleTimeout := by
    unfold effectiveDuration
    by_cases h : idleTimeout = 0 <;> simp [h]
  have ht : (if (timeout == 0) = true then tcpTimeout else timeout)
      = effectiveDuration timeout tcpTimeout := by
    unfold effectiveDuration
    by_cases h : timeout = 0 <;> simp [h]
  have hnz : ∀ value default : Int, default ≠ 0 → effectiveDuration value default ≠ 0 := by
    intro value default hdef
    unfold effectiveDuration
    by_cases h : value = 0
    · rw [if_pos h]; exact hdef
    · rw [if_neg h]; exact h
  have hrun : newHealthChecker tcpTimeout outbounds history interval idleTimeout timeout
      = if effectiveDuration interval DefaultURLTestInterval
          > effectiveDuration idleTimeout DefaultURLTestIdleTimeout then
          .error "interval must be less or equal than idle_timeout"
        else
          .ok { outbounds := outbounds,
                interval := effectiveDuration interval DefaultURLTestInterval,
                idleTimeout := effectiveDuration idleTimeout DefaultURLTestIdleTimeout,
                timeout := effectiveDuration timeout tcpTimeout, history := history,
                checking := false } := by
    unfold newHealthChecker
    simp only [hi, hd, ht]
  refine ⟨?_, ?_, ?_, ?_, ?_⟩
  · rw [hrun]
    constructor
    · rintro ⟨e, he⟩
      by_contra hle
      rw [if_neg hle] at he
      cases he
    · intro hgt
      rw [if_pos hgt]
      exact ⟨_, rfl⟩
  · rintro ⟨e, he⟩
    rw [hrun] at he ⊢
    by_cases hgt : effectiveDuration interval DefaultURLTestInterval
        > effectiveDuration idleTimeout DefaultURLTestIdleTimeout
    · rw [if_pos hgt]
    · rw [if_neg hgt] at he
      cases he
  · intro hle
    rw [hrun, if_neg (not_lt.mpr hle)]
    exact ⟨_, rfl⟩
  · intro h hok
    rw [hrun] at hok
    by_cases hgt : effectiveDuration interval DefaultURLTestInterval
        > effectiveDuration idleTimeout DefaultURLTestIdleTimeout
    · rw [if_pos hgt] at hok
      cases hok
    · rw [if_neg hgt] at hok
      cases hok
      exact ⟨rfl, rfl, rfl, not_lt.mp hgt, hnz _ _ (by decide), hnz _ _ (by decide),
        hnz _ _ htcp, rfl, rfl⟩
  · exact ⟨_, rfl, rfl, rfl, rfl⟩

/-- C28 with `C.TCPTimeout` at 15 seconds: an interval of one hour with the default
idle timeout of 30 minutes is refused. -/
theorem newHealthChecker_defaults_witness :
    (∃ e, newHealthChecker 15000000000 [outA] [] 3600000000000 0 0 = .error e) ↔
      effectiveDuration 3600000000000 DefaultURLTestInterval
        > effectiveDuration 0 DefaultURLTestIdleTimeout :=
  (newHealthChecker_defaults 15000000000 [outA] [] 3600000000000 0 0 (by decide)).1

/-- The test of `urlTest` for a recent entry fails exactly when the real tag is due. -/
theorem recent_false_iff (h : HealthChecker) (now : Nat) (tag : String)
    (hlow : -(2 ^ 63) < h.interval) (hhigh : h.interval ≤ 2 ^ 63 - 1) :
    h.recent now tag = false ↔ dueAt h now tag := by
  unfold HealthChecker.recent dueAt
  cases hload : GoMap.load h.history tag with
  | none => simp
  | some entry =>
    simp only [decide_eq_false_iff_not, not_lt, false_or, Option.some.injEq, exists_eq_left',
      reduceCtorEq]
    unfold timeSince
    simp only
    norm_num at hlow hhigh ⊢
    split
    · constructor <;> intro _ <;> omega
    · split
      · constructor <;> intro _ <;> omega
      · constructor <;> intro _ <;> omega

/-- The probes that the scan of `urlTest` starts from any member on. -/
theorem scan_spec (h : HealthChecker) (manager : String → Option Outbound) (now : Nat → Nat)
    (force : Bool) :
    ∀ (rest : List Outbound) (index : Nat) (st : ProbeScan),
      st.probed.Nodup → (∀ t ∈ st.probed, t ∈ st.checked) →
      (h.scan manager now force rest index st).probed.Nodup ∧
      ∀ tag, tag ∈ (h.scan manager now force rest index st).probed ↔
        tag ∈ st.probed ∨
        (tag ∉ st.checked ∧ tag ≠ "" ∧ (manager tag).isSome = true ∧
          ∃ j m, rest.get? j = some m ∧ m.realTag = tag ∧
            (force = true ∨ h.recent (now (index + j)) tag = false)) := by
  intro rest
  induction rest with
  | nil =>
    intro index st hnodup _
    rw [HealthChecker.scan]
    refine ⟨hnodup, fun tag => ⟨fun h => Or.inl h, ?_⟩⟩
    rintro (h | ⟨_, _, _, j, m, hget, _⟩)
    · exact h
    · simp at hget
  | cons detour rest ih =>
    intro index st hnodup hsub
    have hshift : ∀ (tag : String),
        (∃ j m, (detour :: rest).get? j = some m ∧ m.realTag = tag ∧
          (force = true ∨ h.recent (now (index + j)) tag = false)) ↔
        ((detour.realTag = tag ∧ (force = true ∨ h.recent (now index) tag = false)) ∨
          ∃ j m, rest.get? j = some m ∧ m.realTag = tag ∧
            (force = true ∨ h.recent (now (index + 1 + j)) tag = false)) := by
      intro tag
      constructor
      · rintro ⟨j, m, hget, htag, hdue⟩
        cases j with
        | zero =>
          simp only [List.get?_cons_zero, Option.some.injEq] at hget
          subst hget
          exact Or.inl ⟨htag, hdue⟩
        | succ j =>
          simp only [List.get?_cons_succ] at hget
          have : index + (j + 1) = index + 1 + j := by omega
          rw [this] at hdue
          exact Or.inr ⟨j, m, hget, htag, hdue⟩
      · rintro (⟨htag, hdue⟩ | ⟨j, m, hget, htag, hdue⟩)
        · exact ⟨0, detour, rfl, htag, hdue⟩
        · refine ⟨j + 1, m, hget, htag, ?_⟩
          have : index + (j + 1) = index + 1 + j := by omega
          rw [this]
          exact hdue
    rw [HealthChecker.scan]
    simp only
    by_cases hskip : (detour.realTag == "" || st.checked.contains detour.realTag) = true
    · rw [if_pos hskip]
      obtain ⟨hn, hiff⟩ := ih (index + 1) st hnodup hsub
      refine ⟨hn, fun tag => ?_⟩
      rw [hiff tag, hshift tag]
      constructor
      · rintro (h1 | ⟨h1, h2, h3, h4⟩)
        · exact Or.inl h1
        · exact Or.inr ⟨h1, h2, h3, Or.inr h4⟩
      · rintro (h1 | ⟨h1, h2, h3, h4 | h4⟩)
        · exact Or.inl h1
        · exfalso
          obtain ⟨htag, _⟩ := h4
          rw [Bool.or_eq_true] at hskip
          rcases hskip with hs | hs
          · exact h2 (htag ▸ eq_of_beq hs)
          · rw [htag] at hs
            exact h1 (by simpa using hs)
        · exact Or.inr ⟨h1, h2, h3, h4⟩
    · rw [if_neg hskip]
      have hskip2 : detour.realTag ≠ "" ∧ detour.realTag ∉ st.checked := by
        rw [Bool.or_eq_true, not_or] at hskip
        refine ⟨fun hc => hskip.1 (by rw [hc]; rfl), fun hc => hskip.2 (by simpa using hc)⟩
      by_cases hrecent : (!force && h.recent (now index) detour.realTag) = true
      · rw [if_pos hrecent]
        obtain ⟨hn, hiff⟩ := ih (index + 1) st hnodup hsub
        refine ⟨hn, fun tag => ?_⟩
        rw [hiff tag, hshift tag]
        constructor
        · rintro (h1 | ⟨h1, h2, h3, h4⟩)
          · exact Or.inl h1
          · exact Or.inr ⟨h1, h2, h3, Or.inr h4⟩
        · rintro (h1 | ⟨h1, h2, h3, h4 | h4⟩)
          · exact Or.inl h1
          · exfalso
            obtain ⟨htag, hdue⟩ := h4
            rw [Bool.and_eq_true] at hrecent
            obtain ⟨hf, hr⟩ := hrecent
            rw [htag] at hr
            rcases hdue with hd | hd
            · rw [hd] at hf
              cases hf
            · rw [hd] at hr
              cases hr
          · exact Or.inr ⟨h1, h2, h3, h4⟩
      · rw [if_neg hrecent]
        have hdue0 : force = true ∨ h.recent (now index) detour.realTag = false := by
          cases force with
          | true => exact Or.inl rfl
          | false =>
            right
            cases hr : h.recent (now index) detour.realTag with
            | false => rfl
            | true => rw [hr] at hrecent; exact absurd rfl hrecent
        cases hman : manager detour.realTag with
        | none =>
          simp only
          obtain ⟨hn, hiff⟩ := ih (index + 1)
            { checked := detour.realTag :: st.checked, probed := st.probed } hnodup
            (fun t ht => List.mem_cons_of_mem _ (hsub t ht))
          refine ⟨hn, fun tag => ?_⟩
          rw [hiff tag, hshift tag]
          simp only [List.mem_cons, not_or]
          constructor
          · rintro (h1 | ⟨⟨_, h1⟩, h2, h3, h4⟩)
            · exact Or.inl h1
            · exact Or.inr ⟨h1, h2, h3, Or.inr h4⟩
          · rintro (h1 | ⟨h1, h2, h3, h4⟩)
            · exact Or.inl h1
            · have hne : tag ≠ detour.realTag := by
                intro hc
                rw [hc, hman] at h3
                cases h3
              rcases h4 with ⟨htag, _⟩ | h4
              · exact absurd htag.symm hne
              · exact Or.inr ⟨⟨hne, h1⟩, h2, h3, h4⟩
        | some p =>
          simp only
          have hnew : detour.realTag ∉ st.probed := fun hc => hskip2.2 (hsub _ hc)
          obtain ⟨hn, hiff⟩ := ih (index + 1)
            { checked := detour.realTag :: st.checked,
              probed := st.probed ++ [detour.realTag] }
            (by
              rw [List.nodup_append]
              refine ⟨hnodup, List.nodup_singleton _, ?_⟩
              intro a ha hb
              rw [List.mem_singleton] at hb
              subst hb
              exact hnew ha)
            (by
              intro t ht
              rcases List.mem_append.mp ht with h1 | h1
              · exact List.mem_cons_of_mem _ (hsub t h1)
              · rw [List.mem_singleton] at h1
                rw [h1]
                exact List.mem_cons_self _ _)
          refine ⟨hn, fun tag => ?_⟩
          rw [hiff tag, hshift tag]
          simp only [List.mem_cons, not_or, List.mem_append, List.not_mem_nil, or_false]
          constructor
          · rintro ((h1 | h1) | ⟨⟨_, h1⟩, h2, h3, h4⟩)
            · exact Or.inl h1
            · right
              rw [h1]
              refine ⟨hskip2.2, hskip2.1, by rw [hman]; rfl, Or.inl ⟨rfl, hdue0⟩⟩
            · exact Or.inr ⟨h1, h2, h3, Or.inr h4⟩
          · rintro (h1 | ⟨h1, h2, h3, h4⟩)
            · exact Or.inl (Or.inl h1)
            · by_cases hne : tag = detour.realTag
              · exact Or.inl (Or.inr hne)
              · rcases h4 with ⟨htag, _⟩ | h4
                · exact absurd htag.symm hne
                · exact Or.inr ⟨⟨hne, h1⟩, h2, h3, h4⟩

/-- C29: in a probe round that `urlTest` admits (no round is running), no real tag is
probed twice, and a probe is started only for a non-empty real tag of a member
that resolves in the outbound manager. With force every such tag is probed,
once. Without force such a tag is probed, once, exactly when at the examination
of one of the members that have it, it is due: it has no history entry, or its
entry is not more recent than the clock reading minus the interval; with one
clock reading for the whole round, exactly when it is due at that reading. The
interval is an int64 other than the least one. -/
theorem urlTest_probes (h : HealthChecker) (manager : String → Option Outbound)
    (now : Nat → Nat) (force : Bool)
    (hadmitted : h.checking = false)
    (hlow : -(2 ^ 63) < h.interval) (hhigh : h.interval ≤ 2 ^ 63 - 1) :
    (h.urlTest manager now force).Nodup ∧
    (∀ tag, (h.urlTest manager now force).count tag ≤ 1) ∧
    (∀ tag, tag ∈ h.urlTest manager now force →
      tag ≠ "" ∧ (manager tag).isSome = true ∧ ∃ m ∈ h.outbounds, m.realTag = tag) ∧
    (force = true → ∀ tag,
      (h.urlTest manager now force).count tag = 1 ↔
        (tag ≠ "" ∧ (manager tag).isSome = true ∧ ∃ m ∈ h.outbounds, m.realTag = tag)) ∧
    (force = false → ∀ tag,
      (h.urlTest manager now force).count tag = 1 ↔
        (tag ≠ "" ∧ (manager tag).isSome = true ∧
          ∃ i m, h.outbounds.get? i = some m ∧ m.realTag = tag ∧ dueAt h (now i) tag)) ∧
    (force = false → ∀ t, (∀ i, now i = t) → ∀ tag,
      (h.urlTest manager now force).count tag = 1 ↔
        (tag ≠ "" ∧ (manager tag).isSome = true ∧ (∃ m ∈ h.outbounds, m.realTag = tag) ∧
          dueAt h t tag)) := by
  obtain ⟨hnodup, hiff⟩ := scan_spec h manager now force h.outbounds 0
    { checked := [], probed := [] } List.nodup_nil (fun t ht => by cases ht)
  have hrun : h.urlTest manager now force
      = (h.scan manager now force h.outbounds 0 { checked := [], probed := [] }).probed := by
    unfold HealthChecker.urlTest
    rw [hadmitted]
    rfl
  rw [← hrun] at hnodup hiff
  have hmem : ∀ tag, tag ∈ h.urlTest manager now force ↔
      (tag ≠ "" ∧ (manager tag).isSome = true ∧
        ∃ j m, h.outbounds.get? j = some m ∧ m.realTag = tag ∧
          (force = true ∨ h.recent (now j) tag = false)) := by
    intro tag
    rw [hiff tag]
    simp only [List.not_mem_nil, not_false_eq_true, true_and, false_or, Nat.zero_add]
  have hcount : ∀ tag, (h.urlTest manager now force).count tag = 1 ↔
      tag ∈ h.urlTest manager now force := by
    intro tag
    constructor
    · intro hc
      exact List.count_pos_iff.mp (by omega)
    · intro hm
      exact List.count_eq_one_of_mem hnodup hm
  refine ⟨hnodup, fun tag => List.nodup_iff_count_le_one.mp hnodup tag, ?_, ?_, ?_, ?_⟩
  · intro tag htag
    obtain ⟨h1, h2, j, m, hget, hm, _⟩ := (hmem tag).mp htag
    exact ⟨h1, h2, m, List.get?_mem hget, hm⟩
  · intro hforce tag
    rw [hcount, hmem]
    constructor
    · rintro ⟨h1, h2, j, m, hget, hm, _⟩
      exact ⟨h1, h2, m, List.get?_mem hget, hm⟩
    · rintro ⟨h1, h2, m, hin, hm⟩
      obtain ⟨j, hj⟩ := List.get?_of_mem hin
      exact ⟨h1, h2, j, m, hj, hm, Or.inl hforce⟩
  · intro hforce tag
    rw [hcount, hmem]
    constructor
    · rintro ⟨h1, h2, j, m, hget, hm, hdue⟩
      refine ⟨h1, h2, j, m, hget, hm, ?_⟩
      rcases hdue with hd | hd
      · rw [hforce] at hd
        cases hd
      · exact (recent_false_iff h (now j) tag hlow hhigh).mp hd
    · rintro ⟨h1, h2, j, m, hget, hm, hdue⟩
      exact ⟨h1, h2, j, m, hget, hm, Or.inr ((recent_false_iff h (now j) tag hlow hhigh).mpr hdue)⟩
  · intro hforce t hclock tag
    rw [hcount, hmem]
    constructor
    · rintro ⟨h1, h2, j, m, hget, hm, hdue⟩
      refine ⟨h1, h2, ⟨m, List.get?_mem hget, hm⟩, ?_⟩
      rcases hdue with hd | hd
      · rw [hforce] at hd
        cases hd
      · rw [hclock j] at hd
        exact (recent_false_iff h t tag hlow hhigh).mp hd
    · rintro ⟨h1, h2, ⟨m, hin, hm⟩, hdue⟩
      obtain ⟨j, hj⟩ := List.get?_of_mem hin
      refine ⟨h1, h2, j, m, hj, hm, Or.inr ?_⟩
      rw [hclock j]
      exact (recent_false_iff h t tag hlow hhigh).mpr hdue

/-- C29 on the checker of a, a again, b and c at the clock reading 1000 without force:
the entry of a is 50 ns old and that of b 900 ns, the interval being 100 ns, and
c does not resolve; only b is probed. -/
theorem urlTest_probes_witness :
    sampleChecker.urlTest managerAB (fun _ => 1000) false = ["b"] ∧
    (sampleChecker.urlTest managerAB (fun _ => 1000) false).Nodup ∧
    sampleChecker.urlTest managerAB (fun _ => 1000) true = ["a", "b"] :=
  ⟨by decide,
    (urlTest_probes sampleChecker managerAB (fun _ => 1000) false rfl (by decide)
      (by decide)).1,
    by decide⟩

/-! ## Claims on the EDNS0 client subnet -/

/-- The subnet option that `setClientSubnet` writes for a valid prefix is read back by
`ExtractClientSubnet` as the masked prefix. -/
theorem extractSubnet_assign (p : CIDR) (hvalid : p.IsValidSubnet)
    (code family sourceNetmask sourceScope : Nat) (address : List Nat) (rest : List EDNS0) :
    extractSubnet
        (EDNS0.assign p (.subnet code family sourceNetmask sourceScope address) :: rest)
      = (p.Masked, true) := by
  obtain ⟨ip, bitsPlusOne⟩ := p
  rcases hvalid with ⟨bytes, hip, hlen, hlow, hhigh⟩ | ⟨bytes, hip, hlen, hlow, hhigh⟩
  · simp only at hip hlow hhigh
    subst hip
    have hbits : (((bitsPlusOne : Int) - 1) % 256).toNat = bitsPlusOne - 1 := by omega
    have hcopy : copyBytes 4 bytes = bytes := by
      unfold copyBytes
      rw [hlen]
      simp [← hlen]
    have hle : ¬ (((bitsPlusOne - 1 : Nat) : Int) > 32) := by omega
    have hprefix : PrefixFrom (AddrFrom4 bytes) ((bitsPlusOne - 1 : Nat) : Int)
        = { ip := .v4 bytes, bitsPlusOne := bitsPlusOne } := by
      unfold PrefixFrom AddrFrom4
      have h1 : (IPAddr.v4 bytes != IPAddr.zero) = true := by
        rw [bne_iff_ne]
        intro hc
        cases hc
      have h2 : decide ((0 : Int) ≤ ((bitsPlusOne - 1 : Nat) : Int)) = true := by
        simp
      have h3 : decide (((bitsPlusOne - 1 : Nat) : Int) ≤ ((IPAddr.v4 bytes).BitLen : Int))
          = true := by
        simp only [IPAddr.BitLen, decide_eq_true_eq]
        omega
      simp only [h1, h2, h3, Bool.and_self, if_true, IPAddr.withoutZone, Int.toNat_ofNat]
      congr 1
      omega
    simp only [EDNS0.assign, CIDR.Addr, CIDR.Bits, IPAddr.Is4, if_true, IPAddr.AsSlice,
      extractSubnet, hbits, beq_self_eq_true, hcopy, hprefix]
    rw [if_neg hle]
  · simp only at hip hlow hhigh
    subst hip
    have hbits : (((bitsPlusOne : Int) - 1) % 256).toNat = bitsPlusOne - 1 := by omega
    have hcopy : copyBytes 16 bytes = bytes := by
      unfold copyBytes
      rw [hlen]
      simp [← hlen]
    have hle : ¬ (((bitsPlusOne - 1 : Nat) : Int) > 128) := by omega
    have hprefix : PrefixFrom (AddrFrom16 bytes) ((bitsPlusOne - 1 : Nat) : Int)
        = { ip := .v6 bytes "", bitsPlusOne := bitsPlusOne } := by
      unfold PrefixFrom AddrFrom16
      have h1 : (IPAddr.v6 bytes "" != IPAddr.zero) = true := by
        rw [bne_iff_ne]
        intro hc
        cases hc
      have h2 : decide ((0 : Int) ≤ ((bitsPlusOne - 1 : Nat) : Int)) = true := by
        simp
      have h3 : decide (((bitsPlusOne - 1 : Nat) : Int) ≤ ((IPAddr.v6 bytes "").BitLen : Int))
          = true := by
        simp only [IPAddr.BitLen, decide_eq_true_eq]
        omega
      simp only [h1, h2, h3, Bool.and_self, if_true, IPAddr.withoutZone, Int.toNat_ofNat]
      congr 1
      omega
    have h12 : ((2 : Nat) == 1) = false := by decide
    simp only [EDNS0.assign, CIDR.Addr, CIDR.Bits, IPAddr.Is4, Bool.false_eq_true, if_false,
      IPAddr.AsSlice, extractSubnet, hbits, h12, beq_self_eq_true, if_true, hcopy, hprefix]
    rw [if_neg hle]

theorem modifyAt_append {α : Type} (f : α → α) (pre : List α) (x : α) (post : List α) :
    modifyAt f pre.length (pre ++ x :: post) = pre ++ f x :: post := by
  induction pre with
  | nil => rfl
  | cons a pre ih =>
    show a :: modifyAt f pre.length (pre ++ x :: post) = a :: (pre ++ f x :: post)
    rw [ih]

/-- The subnet option found by the loop is the one that `ExtractClientSubnet` reads. -/
theorem extractSubnet_found (p : CIDR) (hvalid : p.IsValidSubnet) :
    ∀ (options : List EDNS0) (position : Nat), firstSubnet options = some position →
      extractSubnet (modifyAt (EDNS0.assign p) position options) = (p.Masked, true) := by
  intro options
  induction options with
  | nil => intro position h; cases h
  | cons option rest ih =>
    intro position h
    rw [firstSubnet] at h
    cases option with
    | subnet code family sourceNetmask sourceScope address =>
      simp only [EDNS0.isSubnet, if_true, Option.some.injEq] at h
      subst h
      exact extractSubnet_assign p hvalid code family sourceNetmask sourceScope address rest
    | other code =>
      simp only [EDNS0.isSubnet, Bool.false_eq_true, if_false] at h
      cases hrest : firstSubnet rest with
      | none => rw [hrest] at h; cases h
      | some inner =>
        rw [hrest] at h
        simp only [Option.some.injEq] at h
        subst h
        simp only [modifyAt, extractSubnet]
        exact ih inner hrest

/-- The subnet option appended to options without one is the one that
`ExtractClientSubnet` reads. -/
theorem extractSubnet_added (p : CIDR) (hvalid : p.IsValidSubnet) :
    ∀ (options : List EDNS0), firstSubnet options = none →
      extractSubnet (modifyAt (EDNS0.assign p) options.length
        (options ++ [EDNS0.subnet EDNS0SUBNET 0 0 0 []])) = (p.Masked, true) := by
  intro options
  induction options with
  | nil =>
    intro _
    exact extractSubnet_assign p hvalid _ _ _ _ _ _
  | cons option rest ih =>
    intro h
    rw [firstSubnet] at h
    cases option with
    | subnet code family sourceNetmask sourceScope address =>
      simp only [EDNS0.isSubnet, if_true] at h
      cases h
    | other code =>
      simp only [EDNS0.isSubnet, Bool.false_eq_true, if_false] at h
      have hrest : firstSubnet rest = none := by
        cases hr : firstSubnet rest with
        | none => rfl
        | some inner => rw [hr] at h; cases h
      simp only [List.length_cons, List.cons_append, modifyAt, extractSubnet]
      exact ih hrest

/-- What `ExtractClientSubnet` reads from the record that `setClientSubnet` wrote. -/
theorem extractSubnet_write (p : CIDR) (hvalid : p.IsValidSubnet) (record : OPT) :
    extractSubnet (record.write (firstSubnet record.option) p).option = (p.Masked, true) ∧
    (record.write (firstSubnet record.option) p).rrtype = record.rrtype := by
  unfold OPT.write
  cases h : firstSubnet record.option with
  | some position => exact ⟨extractSubnet_found p hvalid _ _ h, rfl⟩
  | none => exact ⟨extractSubnet_added p hvalid _ h, rfl⟩

theorem IsEdns0_cons (record : ExtraRR) (rest : List ExtraRR) :
    IsEdns0 (record :: rest)
      = match IsEdns0 rest with
        | some found => some found
        | none =>
          match record with
          | .opt optRecord => if optRecord.rrtype == TypeOPT then some optRecord else none
          | .other _ => none := rfl

theorem IsEdns0_others (l : List ExtraRR) (h : ∀ x ∈ l, x.isOPT = false) : IsEdns0 l = none := by
  induction l with
  | nil => rfl
  | cons a l ih =>
    rw [IsEdns0_cons, ih (fun x hx => h x (List.mem_cons_of_mem _ hx))]
    cases a with
    | opt record =>
      have := h (.opt record) (List.mem_cons_self _ _)
      cases this
    | other name => rfl

/-- The OPT record that `IsEdns0` finds when no OPT record follows it. -/
theorem IsEdns0_found (pre : List ExtraRR) (record : OPT) (post : List ExtraRR)
    (htype : record.rrtype = TypeOPT) (hpost : ∀ x ∈ post, x.isOPT = false) :
    IsEdns0 (pre ++ .opt record :: post) = some record := by
  induction pre with
  | nil =>
    rw [List.nil_append, IsEdns0_cons, IsEdns0_others post hpost]
    simp only [htype, beq_self_eq_true, if_true]
  | cons a pre ih =>
    rw [List.cons_append, IsEdns0_cons, ih]

/-- A list of records with at most one OPT record has none, or splits at it. -/
theorem split_at_OPT (l : List ExtraRR) (h : (l.filter ExtraRR.isOPT).length ≤ 1) :
    (∀ x ∈ l, x.isOPT = false) ∨
    ∃ pre record post, l = pre ++ .opt record :: post ∧ (∀ x ∈ pre, x.isOPT = false) ∧
      (∀ x ∈ post, x.isOPT = false) := by
  induction l with
  | nil => left; intro x hx; cases hx
  | cons a l ih =>
    cases a with
    | other name =>
      have h2 : (l.filter ExtraRR.isOPT).length ≤ 1 := by
        simpa [List.filter_cons, ExtraRR.isOPT] using h
      rcases ih h2 with hall | ⟨pre, record, post, hsplit, hpre, hpost⟩
      · left
        intro x hx
        rcases List.mem_cons.mp hx with hx | hx
        · rw [hx]; rfl
        · exact hall x hx
      · right
        refine ⟨.other name :: pre, record, post, by rw [hsplit]; rfl, ?_, hpost⟩
        intro x hx
        rcases List.mem_cons.mp hx with hx | hx
        · rw [hx]; rfl
        · exact hpre x hx
    | opt record =>
      right
      have h2 : (l.filter ExtraRR.isOPT).length = 0 := by
        have : ((ExtraRR.opt record :: l).filter ExtraRR.isOPT).length
            = (l.filter ExtraRR.isOPT).length + 1 := by
          simp [List.filter_cons, ExtraRR.isOPT]
        omega
      refine ⟨[], record, l, rfl, fun x hx => (by cases hx), ?_⟩
      intro x hx
      cases hopt : x.isOPT with
      | false => rfl
      | true =>
        have : x ∈ l.filter ExtraRR.isOPT := List.mem_filter.mpr ⟨hx, hopt⟩
        rw [List.length_eq_zero.mp h2] at this
        cases this

/-- The loop `findExists` over records none of which is an OPT record. -/
theorem findExists_others (l : List ExtraRR) (h : ∀ x ∈ l, x.isOPT = false) :
    ∀ (index : Nat) (acc : Option Nat),
      findExists l index acc = (if l = [] then acc else none, none) := by
  induction l with
  | nil => intro index acc; rfl
  | cons a l ih =>
    intro index acc
    cases a with
    | opt record =>
      have := h (.opt record) (List.mem_cons_self _ _)
      cases this
    | other name =>
      rw [findExists, ih (fun x hx => h x (List.mem_cons_of_mem _ hx))]
      simp

/-- The loop `findExists` over records before the first OPT record. -/
theorem findExists_skip (pre : List ExtraRR) (h : ∀ x ∈ pre, x.isOPT = false)
    (record : OPT) (post : List ExtraRR) :
    ∀ (index : Nat) (acc : Option Nat),
      findExists (pre ++ .opt record :: post) index acc
        = match firstSubnet record.option with
          | some position => (some (index + pre.length), some position)
          | none => findExists post (index + pre.length + 1) (some (index + pre.length)) := by
  induction pre with
  | nil =>
    intro index acc
    rw [List.nil_append, findExists]
    rfl
  | cons a pre ih =>
    intro index acc
    cases a with
    | opt r =>
      have := h (.opt r) (List.mem_cons_self _ _)
      cases this
    | other name =>
      rw [List.cons_append, findExists, ih (fun x hx => h x (List.mem_cons_of_mem _ hx))]
      have h1 : index + 1 + pre.length = index + (ExtraRR.other name :: pre).length := by
        simp only [List.length_cons]; omega
      rw [h1]

/-- What `ExtractClientSubnet` reads when `setClientSubnet` has appended an OPT
record. -/
theorem extract_appended (p : CIDR) (hvalid : p.IsValidSubnet) (message : ExtraMsg) :
    ExtractClientSubnet
        (ExtraMsg.write
          { message with
            extra := message.extra ++ [.opt { name := ".", rrtype := TypeOPT, option := [] }] }
          message.extra.length none p)
      = (p.Masked, true) := by
  unfold ExtractClientSubnet ExtraMsg.write
  simp only [modifyAt_append]
  rw [IsEdns0_found message.extra _ [] rfl (fun x hx => by cases hx)]
  exact (extractSubnet_write p hvalid { name := ".", rrtype := TypeOPT, option := [] }).1

/-- C30: for every valid IPv4 or IPv6 prefix p and every message m that carries at
most one OPT record, with or without a subnet option in it,
`ExtractClientSubnet(SetClientSubnet(m, p))` is `(p.Masked(), true)`; so it is
for `setClientSubnet` with and without `clone`. -/
theorem clientSubnet_round_trip (message : ExtraMsg) (clientSubnet : CIDR)
    (hvalid : clientSubnet.IsValidSubnet) (hopt : AtMostOneOPT message) :
    ExtractClientSubnet (SetClientSubnet message clientSubnet) = (clientSubnet.Masked, true) ∧
    ∀ clone, ExtractClientSubnet (setClientSubnet message clientSubnet clone)
      = (clientSubnet.Masked, true) := by
  have hall : ∀ clone, ExtractClientSubnet (setClientSubnet message clientSubnet clone)
      = (clientSubnet.Masked, true) := by
    intro clone
    obtain ⟨hcount, htype⟩ := hopt
    unfold setClientSubnet
    rcases split_at_OPT message.extra hcount with hothers |
      ⟨pre, record, post, hsplit, hpre, hpost⟩
    · rw [findExists_others message.extra hothers]
      have : (if message.extra = [] then (none : Option Nat) else none) = none := by
        split <;> rfl
      rw [this]
      exact extract_appended clientSubnet hvalid message
    · have hrecord : record.rrtype = TypeOPT := htype record (by rw [hsplit]; simp)
      have hfound : ∀ subnetOption, subnetOption = firstSubnet record.option →
          ExtractClientSubnet (message.write pre.length subnetOption clientSubnet)
            = (clientSubnet.Masked, true) := by
        intro subnetOption hsub
        subst hsub
        unfold ExtractClientSubnet ExtraMsg.write
        simp only [hsplit, modifyAt_append]
        obtain ⟨hread, hkeep⟩ := extractSubnet_write clientSubnet hvalid record
        rw [IsEdns0_found pre _ post (hkeep.trans hrecord) hpost]
        exact hread
      rw [hsplit, findExists_skip pre hpre record post 0 none, ← hsplit]
      cases hsub : firstSubnet record.option with
      | some position =>
        simp only [Nat.zero_add]
        have := hfound (some position) hsub.symm
        cases clone
        · simpa using this
        · simpa [ExtraMsg.Copy] using this
      | none =>
        simp only [Nat.zero_add]
        rw [findExists_others post hpost]
        by_cases hnil : post = []
        · rw [if_pos hnil]
          have := hfound none hsub.symm
          cases clone
          · simpa using this
          · simpa [ExtraMsg.Copy] using this
        · rw [if_neg hnil]
          exact extract_appended clientSubnet hvalid message
  exact ⟨hall true, hall⟩

/-- C30 on 192.168.1.77/24 and a message with an OPT record that holds a subnet option
for 10.0.0.0/8: the round trip gives 192.168.1.0/24. -/
theorem clientSubnet_round_trip_witness :
    ExtractClientSubnet (SetClientSubnet sampleExtraMsg sampleSubnet)
      = (sampleSubnet.Masked, true) :=
  (clientSubnet_round_trip sampleExtraMsg sampleSubnet
    (Or.inl ⟨[192, 168, 1, 77], rfl, rfl, by decide, by decide⟩)
    ⟨by decide,
      fun record h => by
        have h2 : ExtraRR.opt record ∈ [ExtraRR.other "tsig",
            ExtraRR.opt { name := ".", rrtype := 41,
                          option := [.other 10, .subnet 8 1 8 0 [10, 0, 0, 0]] }] := h
        simp only [List.mem_cons, List.mem_singleton, List.not_mem_nil, or_false,
          ExtraRR.opt.injEq, reduceCtorEq, false_or] at h2
        rw [h2]
        rfl⟩).1

/-! ## Claims on the progress of the rule loops -/

theorem matchCalls_append (xs ys : List Effect) :
    matchCalls (xs ++ ys) = matchCalls xs + matchCalls ys := by
  induction xs with
  | nil => simp [matchCalls]
  | cons x xs ih =>
    cases x <;> simp [matchCalls, ih]
    omega

theorem matchCalls_dispatch (r : Router) (m : MatchResult) :
    matchCalls [dispatchEffect r m] = 0 := by
  unfold dispatchEffect
  split <;> rfl

/-- The calls of one pass of the rule loop of `Exchange`: one `matchDNS` call with the
caller's options, and at most one racer call after it. -/
theorem exchangeIteration_effects (r : Router) (Errors : List DNSError → Option DNSError)
    (race : Int → List (Event QueryResult)) (message : Msg) (options : DNSQueryOptions)
    (ruleIndex : Int) :
    ∀ effects,
      ((∃ next c, r.exchangeIteration Errors race message options ruleIndex
          = .again next c effects) ∨
        (∃ out, r.exchangeIteration Errors race message options ruleIndex
          = .stop out effects)) →
      effects = [Effect.matchDNS true ruleIndex (isAddressQuery message) options] ∨
      effects = [Effect.matchDNS true ruleIndex (isAddressQuery message) options,
        dispatchEffect r (r.matchDNS true ruleIndex (isAddressQuery message) options)] := by
  intro effects h
  unfold Router.exchangeIteration at h
  simp only [] at h
  split at h
  · rcases h with ⟨_, _, h⟩ | ⟨_, h⟩
    · simp at h
    · simp only [Iteration.stop.injEq] at h
      exact Or.inl h.2.symm
  · split at h
    · rcases h with ⟨_, _, h⟩ | ⟨_, h⟩ <;> simp at h
    · split at h
      · rcases h with ⟨_, _, h⟩ | ⟨_, h⟩
        · simp only [Iteration.again.injEq] at h
          exact Or.inr h.2.2.symm
        · simp at h
      · rcases h with ⟨_, _, h⟩ | ⟨_, h⟩
        · simp at h
        · simp only [Iteration.stop.injEq] at h
          exact Or.inr h.2.symm

/-- The calls of one pass of the rule loop of `Lookup`. -/
theorem lookupIteration_effects (r : Router) (Errors : List DNSError → Option DNSError)
    (race : Int → List (Event LookupResult)) (domain : String) (options : DNSQueryOptions)
    (ruleIndex : Int) (carry : List Addr × Option DNSError) :
    ∀ effects,
      ((∃ next c, r.lookupIteration Errors race domain options ruleIndex carry
          = .again next c effects) ∨
        (∃ out, r.lookupIteration Errors race domain options ruleIndex carry
          = .stop out effects)) →
      effects = [Effect.matchDNS false ruleIndex true options] ∨
      effects = [Effect.matchDNS false ruleIndex true options,
        dispatchEffect r (r.matchDNS false ruleIndex true options)] := by
  intro effects h
  unfold Router.lookupIteration at h
  simp only [] at h
  split at h
  · rcases h with ⟨_, _, h⟩ | ⟨_, h⟩
    · simp at h
    · simp only [Iteration.stop.injEq] at h
      exact Or.inl h.2.symm
  · split at h
    · rcases h with ⟨_, _, h⟩ | ⟨_, h⟩ <;> simp at h
    · split at h
      · rcases h with ⟨_, _, h⟩ | ⟨_, h⟩
        · simp at h
        · simp only [Iteration.stop.injEq] at h
          exact Or.inr h.2.symm
      · rcases h with ⟨_, _, h⟩ | ⟨_, h⟩
        · simp only [Iteration.again.injEq] at h
          exact Or.inr h.2.2.symm
        · simp at h

theorem matchCalls_effects (r : Router) (m : MatchResult) (a : Bool) (j : Int) (q : Bool)
    (options : DNSQueryOptions) (effects : List Effect)
    (h : effects = [Effect.matchDNS a j q options] ∨
      effects = [Effect.matchDNS a j q options, dispatchEffect r m]) :
    matchCalls effects = 1 := by
  rcases h with h | h
  · rw [h]; rfl
  · rw [h]
    show matchCalls [dispatchEffect r m] + 1 = 1
    rw [matchCalls_dispatch]

theorem firstRuleIndex_of_nat (k : Nat) : firstRuleIndex (k : Int) = k + 1 := by
  unfold firstRuleIndex
  have : ((k : Int) != -1) = true := by
    simp only [bne_iff_ne, ne_eq]
    omega
  rw [if_pos this]
  omega

/-- The rule loop of `Exchange` returns when its races return, after at most one
`matchDNS` call per rule not yet passed, plus one. -/
theorem exchangeLoop_returns (r : Router) (Errors : List DNSError → Option DNSError)
    (race : Int → List (Event QueryResult)) (message : Msg) (options : DNSQueryOptions)
    (hrace : ∀ k : Int, -1 ≤ k → k < r.rules.length →
      exchangeDispatch Errors race (r.matchDNS true k (isAddressQuery message) options)
        ≠ none) :
    ∀ (fuel : Nat) (ruleIndex : Int) (trace : List Effect),
      -1 ≤ ruleIndex → ruleIndex < r.rules.length →
      r.rules.length + 1 ≤ fuel + firstRuleIndex ruleIndex →
      ∃ out, r.exchangeLoop Errors race message options fuel ruleIndex trace = .ret out ∧
        matchCalls out.trace + firstRuleIndex ruleIndex
          ≤ matchCalls trace + r.rules.length + 1 := by
  intro fuel
  induction fuel with
  | zero =>
    intro ruleIndex trace h1 h2 h3
    exfalso
    unfold firstRuleIndex at h3
    split at h3 <;> omega
  | succ fuel ih =>
    intro ruleIndex trace h1 h2 hbound
    have hfirst : firstRuleIndex ruleIndex ≤ r.rules.length := by
      unfold firstRuleIndex
      split <;> omega
    unfold Router.exchangeLoop
    split
    · rename_i next c effects hit
      obtain ⟨hnext, _, hlimit, _⟩ :=
        exchangeIteration_again r Errors race message options ruleIndex next c effects hit
      have heff := matchCalls_effects r _ _ _ _ _ effects
        (exchangeIteration_effects r Errors race message options ruleIndex effects
          (Or.inl ⟨next, c, hit⟩))
      rcases matchDNS_index r true (isAddressQuery message) ruleIndex options
        with ⟨hnone, _⟩ | ⟨k, hk, hle, hlt, _, _⟩
      · exact absurd hnone (withAddressLimitOf_rule _ hlimit)
      · have hnk : next = (k : Int) := by rw [hnext, hk]
        have hfk : firstRuleIndex next = k + 1 := by rw [hnk]; exact firstRuleIndex_of_nat k
        obtain ⟨out, hout, hcount⟩ := ih next (trace ++ effects) (by omega) (by omega)
          (by rw [hfk]; omega)
        refine ⟨out, hout, ?_⟩
        rw [matchCalls_append, heff, hfk] at hcount
        omega
    · rename_i res effects hit
      have heff := matchCalls_effects r _ _ _ _ _ effects
        (exchangeIteration_effects r Errors race message options ruleIndex effects
          (Or.inr ⟨res, hit⟩))
      refine ⟨_, rfl, ?_⟩
      show matchCalls (trace ++ effects) + firstRuleIndex ruleIndex ≤ _
      rw [matchCalls_append, heff]
      omega
    · rename_i hit
      exfalso
      unfold Router.exchangeIteration at hit
      simp only [] at hit
      split at hit
      · simp at hit
      · split at hit
        · rename_i hnone
          exact hrace ruleIndex h1 h2 hnone
        · split at hit <;> simp at hit

/-- The rule loop of `Lookup` returns when its races return, after at most one
`matchDNS` call per rule not yet passed, plus one. -/
theorem lookupLoop_returns (r : Router) (Errors : List DNSError → Option DNSError)
    (race : Int → List (Event LookupResult)) (domain : String) (options : DNSQueryOptions)
    (hrace : ∀ k : Int, -1 ≤ k → k < r.rules.length →
      lookupDispatch Errors race (r.matchDNS false k true options) ≠ none) :
    ∀ (fuel : Nat) (ruleIndex : Int) (carry : List Addr × Option DNSError)
      (trace : List Effect),
      -1 ≤ ruleIndex → ruleIndex < r.rules.length →
      r.rules.length + 1 ≤ fuel + firstRuleIndex ruleIndex →
      ∃ out, r.lookupLoop Errors race domain options fuel ruleIndex carry trace = .ret out ∧
        matchCalls out.trace + firstRuleIndex ruleIndex
          ≤ matchCalls trace + r.rules.length + 1 := by
  intro fuel
  induction fuel with
  | zero =>
    intro ruleIndex carry trace h1 h2 h3
    exfalso
    unfold firstRuleIndex at h3
    split at h3 <;> omega
  | succ fuel ih =>
    intro ruleIndex carry trace h1 h2 hbound
    have hfirst : firstRuleIndex ruleIndex ≤ r.rules.length := by
      unfold firstRuleIndex
      split <;> omega
    unfold Router.lookupLoop
    split
    · rename_i next carry1 effects hit
      obtain ⟨hnext, _, hlimit, _⟩ :=
        lookupIteration_again r Errors race domain options ruleIndex next carry carry1
          effects hit
      have heff := matchCalls_effects r _ _ _ _ _ effects
        (lookupIteration_effects r Errors race domain options ruleIndex carry effects
          (Or.inl ⟨next, carry1, hit⟩))
      rcases matchDNS_index r false true ruleIndex options
        with ⟨hnone, _⟩ | ⟨k, hk, hle, hlt, _, _⟩
      · exact absurd hnone (withAddressLimitOf_rule _ hlimit)
      · have hnk : next = (k : Int) := by rw [hnext, hk]
        have hfk : firstRuleIndex next = k + 1 := by rw [hnk]; exact firstRuleIndex_of_nat k
        obtain ⟨out, hout, hcount⟩ := ih next carry1 (trace ++ effects) (by omega) (by omega)
          (by rw [hfk]; omega)
        refine ⟨out, hout, ?_⟩
        rw [matchCalls_append, heff, hfk] at hcount
        omega
    · rename_i res effects hit
      have heff := matchCalls_effects r _ _ _ _ _ effects
        (lookupIteration_effects r Errors race domain options ruleIndex carry effects
          (Or.inr ⟨res, hit⟩))
      refine ⟨_, rfl, ?_⟩
      show matchCalls (trace ++ effects) + firstRuleIndex ruleIndex ≤ _
      rw [matchCalls_append, heff]
      omega
    · rename_i hit
      exfalso
      unfold Router.lookupIteration at hit
      simp only [] at hit
      split at hit
      · simp at hit
      · split at hit
        · rename_i hnone
          exact hrace ruleIndex h1 h2 hnone
        · split at hit <;> simp at hit

/-- C36: rule retry moves forward and terminates. For `matchDNS` called with
`afterIndex = j`, where -1 <= j < len(rules): a returned rule comes with an index
i such that j < i < len(rules) and the rule is `rules[i]`, and no rule comes with
the index -1. When every racer call returns, the rule loops of `Exchange` and of
`Lookup` return, under any bound of at least len(rules) + 1 passes, after at most
len(rules) + 1 calls of `matchDNS`, and so do `Exchange` and `Lookup`. -/
theorem rule_retry_terminates (r : Router) (Errors : List DNSError → Option DNSError)
    (direct : DNSTransport → DNSQueryOptions → Option Msg × Option DNSError)
    (directLookup : DNSTransport → DNSQueryOptions → LookupResult)
    (race : Int → List (Event QueryResult)) (raceLookup : Int → List (Event LookupResult))
    (message : Msg) (domain : String) (options : DNSQueryOptions)
    (allowFakeIP isAddress : Bool) (j : Int) (hlow : -1 ≤ j) (hhigh : j < r.rules.length)
    (hrace : ∀ k : Int, -1 ≤ k → k < r.rules.length →
      exchangeDispatch Errors race (r.matchDNS true k (isAddressQuery message) options)
        ≠ none)
    (hraceLookup : ∀ k : Int, -1 ≤ k → k < r.rules.length →
      lookupDispatch Errors raceLookup (r.matchDNS false k true options) ≠ none) :
    (∀ rule, (r.matchDNS allowFakeIP j isAddress options).rule = some rule →
      ∃ i : Nat, (r.matchDNS allowFakeIP j isAddress options).ruleIndex = (i : Int) ∧
        j < (i : Int) ∧ i < r.rules.length ∧ r.rules.get? i = some rule) ∧
    ((r.matchDNS allowFakeIP j isAddress options).rule = none →
      (r.matchDNS allowFakeIP j isAddress options).ruleIndex = -1) ∧
    (∀ fuel, r.rules.length + 1 ≤ fuel →
      ∃ out, r.exchangeLoop Errors race message options fuel (-1) [] = .ret out ∧
        matchCalls out.trace ≤ r.rules.length + 1) ∧
    (∀ fuel, r.rules.length + 1 ≤ fuel →
      ∃ out, r.lookupLoop Errors raceLookup domain options fuel (-1) ([], none) []
          = .ret out ∧
        matchCalls out.trace ≤ r.rules.length + 1) ∧
    (∃ out, r.Exchange Errors direct race message options = .ret out ∧
      matchCalls out.trace ≤ r.rules.length + 1) ∧
    (∃ out, r.Lookup Errors directLookup raceLookup domain options = .ret out ∧
      matchCalls out.trace ≤ r.rules.length + 1) := by
  have hlen : (-1 : Int) < r.rules.length := lt_of_le_of_lt hlow hhigh
  have hX : ∀ fuel, r.rules.length + 1 ≤ fuel →
      ∃ out, r.exchangeLoop Errors race message options fuel (-1) [] = .ret out ∧
        matchCalls out.trace ≤ r.rules.length + 1 := by
    intro fuel hfuel
    obtain ⟨out, hout, hcount⟩ := exchangeLoop_returns r Errors race message options hrace
      fuel (-1) [] (le_refl _) hlen (by simp [firstRuleIndex]; omega)
    refine ⟨out, hout, ?_⟩
    simp only [firstRuleIndex, matchCalls] at hcount
    simpa using hcount
  have hL : ∀ fuel, r.rules.length + 1 ≤ fuel →
      ∃ out, r.lookupLoop Errors raceLookup domain options fuel (-1) ([], none) []
          = .ret out ∧
        matchCalls out.trace ≤ r.rules.length + 1 := by
    intro fuel hfuel
    obtain ⟨out, hout, hcount⟩ := lookupLoop_returns r Errors raceLookup domain options
      hraceLookup fuel (-1) ([], none) [] (le_refl _) hlen (by simp [firstRuleIndex]; omega)
    refine ⟨out, hout, ?_⟩
    simp only [firstRuleIndex, matchCalls] at hcount
    simpa using hcount
  refine ⟨?_, ?_, hX, hL, ?_, ?_⟩
  · intro rule hrule
    rcases matchDNS_index r allowFakeIP isAddress j options
      with ⟨hnone, _⟩ | ⟨k, hk, hle, hlt, hget, _⟩
    · rw [hnone] at hrule
      cases hrule
    · refine ⟨k, hk, ?_, hlt, ?_⟩
      · by_cases hj : j = -1
        · omega
        · have hb : (j != -1) = true := by simpa using hj
          unfold firstRuleIndex at hle
          rw [if_pos hb] at hle
          omega
      · rw [← hget, hrule]
  · intro hnone
    rcases matchDNS_index r allowFakeIP isAddress j options
      with ⟨_, hidx⟩ | ⟨k, _, _, _, _, hne⟩
    · exact hidx
    · exact absurd hnone hne
  · unfold Router.Exchange
    split
    · exact ⟨_, rfl, Nat.zero_le _⟩
    · split
      · exact ⟨_, rfl, Nat.zero_le _⟩
      · exact hX _ (le_refl _)
  · unfold Router.Lookup
    split
    · exact ⟨_, rfl, Nat.zero_le _⟩
    · exact hL _ (le_refl _)

/-- C36 on the sample router, whose address-limit rule is rejected once: `Exchange`
returns after two calls of `matchDNS`, as many as the bound for one rule. -/
theorem rule_retry_terminates_witness :
    ∃ out, sampleRouter.Exchange sampleErrors directAnswer rejectThenAnswerMsg sampleQuery
        plainOptions = .ret out ∧
      matchCalls out.trace ≤ sampleRouter.rules.length + 1 :=
  (rule_retry_terminates sampleRouter sampleErrors directAnswer directAddrs
    rejectThenAnswerMsg timeoutThenAnswer sampleQuery "example.org" plainOptions true true
    (-1) (le_refl _) (by decide)
    (fun k h1 h2 => by
      have hk : k = -1 ∨ k = 0 := by
        have : (sampleRouter.rules.length : Int) = 1 := rfl
        omega
      rcases hk with rfl | rfl
      · intro h; cases h
      · intro h; cases h)
    (fun k h1 h2 => by
      have hk : k = -1 ∨ k = 0 := by
        have : (sampleRouter.rules.length : Int) = 1 := rfl
        omega
      rcases hk with rfl | rfl
      · intro h; cases h
      · intro h; cases h)).2.2.2.2.1

/-! ## Claims on the race without transports -/

/-- When the rule loop of `matchDNS` returns no rule, it returns the default transport,
if there is one, no fallback transport, and the timeouts of the router. -/
theorem matchRules_no_rule (r : Router) (allowFakeIP isAddressQuery : Bool)
    (rules : List DNSRule) :
    ∀ (i : Nat) (options : DNSQueryOptions) (displayed : List Int),
      (matchRules r allowFakeIP isAddressQuery rules i options displayed).rule = none →
      (matchRules r allowFakeIP isAddressQuery rules i options displayed).transports
        = r.defaultTransport.toList ∧
      (matchRules r allowFakeIP isAddressQuery rules i options displayed).fallbackTransports
        = [] := by
  induction rules with
  | nil =>
    intro i options displayed _
    unfold matchRules
    cases r.defaultTransport <;> exact ⟨rfl, rfl⟩
  | cons rule rest ih =>
    intro i options displayed
    unfold matchRules
    split
    · exact ih _ _ _
    · split
      · simp only []
        split
        · split
          · exact ih _ _ _
          · split
            · exact ih _ _ _
            · intro h; simp at h
        · exact ih _ _ _
        · intro h; simp at h
        · intro h; simp at h
      · exact ih _ _ _

/-- C39: a race without transports. `exchangeRacer` with an empty transport list
returns `ErrResponseRejectedCached` whatever the schedule, so without the result of
any query, and `lookupRacer` with an empty list returns no address and the
error `E.Errors()` of no errors, which is nil. So when `matchDNS` returns no rule
and the router has no default transport, `Exchange` of a one-question message
returns `ErrResponseRejectedCached` and `Lookup` returns the error "empty
result" under the cause "lookup <domain>", each after one `matchDNS` call and one
racer call with an empty list. -/
theorem zero_transport_race (r : Router) (Errors : List DNSError → Option DNSError)
    (direct : DNSTransport → DNSQueryOptions → Option Msg × Option DNSError)
    (directLookup : DNSTransport → DNSQueryOptions → LookupResult)
    (race : Int → List (Event QueryResult)) (raceLookup : Int → List (Event LookupResult))
    (events : List (Event QueryResult)) (eventsLookup : List (Event LookupResult))
    (message : Msg) (domain : String) (options : DNSQueryOptions)
    (hErrors : Errors [] = none) (hdefault : r.defaultTransport = none)
    (hquestion : message.question.length = 1) (hpinned : options.transport = none)
    (hrule : (r.matchDNS true (-1) (isAddressQuery message) options).rule = none)
    (hruleLookup : (r.matchDNS false (-1) true options).rule = none) :
    exchangeRacer Errors [] events
      = some { response := none, transport := none,
               err := some (.sentinel .ErrResponseRejectedCached) } ∧
    lookupRacer Errors [] eventsLookup = some ([], none) ∧
    r.Exchange Errors direct race message options
      = .ret { response := none, err := some (.sentinel .ErrResponseRejectedCached),
               trace := [Effect.matchDNS true (-1) (isAddressQuery message) options,
                 Effect.racer []
                   (primaryOptionsOf r
                     (r.matchDNS true (-1) (isAddressQuery message) options))] } ∧
    r.Lookup Errors directLookup raceLookup domain options
      = .ret { addrs := [],
               err := some (.cause (.new "empty result") ("lookup " ++ domain)),
               trace := [Effect.matchDNS false (-1) true options,
                 Effect.racer []
                   (primaryOptionsOf r (r.matchDNS false (-1) true options))] } := by
  have hracer : ∀ ev, exchangeRacer Errors [] ev
      = some { response := none, transport := none,
               err := some (.sentinel .ErrResponseRejectedCached) } := fun _ => rfl
  have hlookup : ∀ ev, lookupRacer Errors [] ev = some ([], none) := by
    intro ev
    unfold lookupRacer
    simp [lookupCollect, LookupRaceState.init, hErrors]
  refine ⟨hracer _, hlookup _, ?_, ?_⟩
  · have ht : (r.matchDNS true (-1) (isAddressQuery message) options).transports = [] := by
      have h := (matchRules_no_rule r true (isAddressQuery message) _ _ _ _ hrule).1
      rw [hdefault] at h
      exact h
    have hf : (r.matchDNS true (-1) (isAddressQuery message) options).fallbackTransports
        = [] :=
      (matchRules_no_rule r true (isAddressQuery message) _ _ _ _ hrule).2
    have he : exchangeEarlyReturn (r.matchDNS true (-1) (isAddressQuery message) options)
        message = none := by
      unfold exchangeEarlyReturn; rw [hrule]
    have hh : isHedged (r.matchDNS true (-1) (isAddressQuery message) options) = false := by
      unfold isHedged; rw [hf]; simp
    have hd : exchangeDispatch Errors race
        (r.matchDNS true (-1) (isAddressQuery message) options)
        = some { response := none, transport := none,
                 err := some (.sentinel .ErrResponseRejectedCached) } := by
      unfold exchangeDispatch
      rw [hh, ht]
      exact hracer _
    have hw : withAddressLimitOf (r.matchDNS true (-1) (isAddressQuery message) options)
        = false := by
      unfold withAddressLimitOf; rw [hrule]
    have hde : dispatchEffect r (r.matchDNS true (-1) (isAddressQuery message) options)
        = Effect.racer []
            (primaryOptionsOf r (r.matchDNS true (-1) (isAddressQuery message) options)) := by
      unfold dispatchEffect
      rw [hh, ht]
      rfl
    have hit : r.exchangeIteration Errors race message options (-1)
        = .stop (none, some (.sentinel .ErrResponseRejectedCached))
            [Effect.matchDNS true (-1) (isAddressQuery message) options,
             Effect.racer []
              (primaryOptionsOf r (r.matchDNS true (-1) (isAddressQuery message) options))] := by
      unfold Router.exchangeIteration
      simp only []
      rw [he]
      simp only []
      rw [hd]
      simp only []
      rw [hw, hde]
      rfl
    unfold Router.Exchange
    have hq : (message.question.length != 1) = false := by rw [hquestion]; rfl
    rw [hq, hpinned]
    simp only [Bool.false_eq_true, if_false]
    unfold Router.exchangeLoop
    rw [hit]
    rfl
  · have ht : (r.matchDNS false (-1) true options).transports = [] := by
      have h := (matchRules_no_rule r false true _ _ _ _ hruleLookup).1
      rw [hdefault] at h
      exact h
    have hf : (r.matchDNS false (-1) true options).fallbackTransports = [] :=
      (matchRules_no_rule r false true _ _ _ _ hruleLookup).2
    have he : lookupEarlyReturn (r.matchDNS false (-1) true options) domain ([], none)
        = none := by
      unfold lookupEarlyReturn; rw [hruleLookup]
    have hh : isHedged (r.matchDNS false (-1) true options) = false := by
      unfold isHedged; rw [hf]; simp
    have hd : lookupDispatch Errors raceLookup (r.matchDNS false (-1) true options)
        = some ([], none) := by
      unfold lookupDispatch
      rw [hh, ht]
      exact hlookup _
    have hw : withAddressLimitOf (r.matchDNS false (-1) true options) = false := by
      unfold withAddressLimitOf; rw [hruleLookup]
    have hde : dispatchEffect r (r.matchDNS false (-1) true options)
        = Effect.racer [] (primaryOptionsOf r (r.matchDNS false (-1) true options)) := by
      unfold dispatchEffect
      rw [hh, ht]
      rfl
    have hit : r.lookupIteration Errors raceLookup domain options (-1) ([], none)
        = .stop ([], some (.cause (.new "empty result") ("lookup " ++ domain)))
            [Effect.matchDNS false (-1) true options,
             Effect.racer [] (primaryOptionsOf r (r.matchDNS false (-1) true options))] := by
      unfold Router.lookupIteration
      simp only []
      rw [he]
      simp only []
      rw [hd]
      simp only []
      rw [hw, hde]
      rfl
    unfold Router.Lookup
    rw [hpinned]
    simp only []
    unfold Router.lookupLoop
    rw [hit]
    rfl

/-- C39 on a router without default transport whose only rule does not match:
`Exchange` fails with `ErrResponseRejectedCached` and `Lookup` with "empty
result", whatever the schedules hold. -/
theorem zero_transport_race_witness :
    ((routerNoDefault [unmatchedRule]).Exchange sampleErrors directAnswer noResults
        sampleQuery plainOptions
      = .ret { response := none, err := some (.sentinel .ErrResponseRejectedCached),
               trace := [Effect.matchDNS true (-1) true plainOptions,
                 Effect.racer [] plainOptions] }) ∧
    ((routerNoDefault [unmatchedRule]).Lookup sampleErrors directAddrs noResults
        "example.org" plainOptions
      = .ret { addrs := [],
               err := some (.cause (.new "empty result") "lookup example.org"),
               trace := [Effect.matchDNS false (-1) true plainOptions,
                 Effect.racer [] plainOptions] }) :=
  (zero_transport_race (routerNoDefault [unmatchedRule]) sampleErrors directAnswer
    directAddrs noResults noResults [] [] sampleQuery "example.org" plainOptions rfl rfl rfl
    rfl rfl rfl).2.2

/-! ## Claims on the options of the rule loops -/

theorem resolveServers_withRules (r : Router) (rules : List DNSRule) (allowFakeIP : Bool)
    (servers : List String) :
    ∀ st, resolveServers (r.withRules rules) allowFakeIP servers st
      = resolveServers r allowFakeIP servers st := by
  induction servers with
  | nil => intro st; rfl
  | cons tag rest ih =>
    intro st
    unfold resolveServers
    simp only [ih]
    rfl

/-- The rule loop of `matchDNS` reads the rules it is given, not those of the router. -/
theorem matchRules_withRules (r : Router) (rules : List DNSRule)
    (allowFakeIP isAddressQuery : Bool) (remaining : List DNSRule) :
    ∀ (i : Nat) (options : DNSQueryOptions) (displayed : List Int),
      matchRules (r.withRules rules) allowFakeIP isAddressQuery remaining i options displayed
        = matchRules r allowFakeIP isAddressQuery remaining i options displayed := by
  induction remaining with
  | nil => intro i options displayed; rfl
  | cons rule rest ih =>
    intro i options displayed
    unfold matchRules
    simp only [ih, resolveServers_withRules]
    rfl

/-- The call `matchDNS` after rule `i` does not depend on the rules up to `i`. -/
theorem matchDNS_withRules (r : Router) (rules : List DNSRule)
    (allowFakeIP isAddressQuery : Bool) (i : Nat) (options : DNSQueryOptions)
    (h : rules.drop (i + 1) = r.rules.drop (i + 1)) :
    (r.withRules rules).matchDNS allowFakeIP (i : Int) isAddressQuery options
      = r.matchDNS allowFakeIP (i : Int) isAddressQuery options := by
  unfold Router.matchDNS
  rw [matchRules_withRules, firstRuleIndex_of_nat]
  show matchRules r allowFakeIP isAddressQuery (rules.drop (i + 1)) (i + 1) options [] = _
  rw [h]

theorem effects_options (r : Router) (m : MatchResult) (a : Bool) (j : Int) (q : Bool)
    (options : DNSQueryOptions) (effects : List Effect)
    (h : effects = [Effect.matchDNS a j q options] ∨
      effects = [Effect.matchDNS a j q options, dispatchEffect r m]) :
    ∀ a1 j1 q1 o1, Effect.matchDNS a1 j1 q1 o1 ∈ effects → o1 = options := by
  intro a1 j1 q1 o1 hmem
  have hd : Effect.matchDNS a1 j1 q1 o1 ≠ dispatchEffect r m := by
    unfold dispatchEffect
    split <;> intro hc <;> cases hc
  rcases h with h | h
  · rw [h] at hmem
    simp only [List.mem_singleton, Effect.matchDNS.injEq] at hmem
    exact hmem.2.2.2
  · rw [h] at hmem
    simp only [List.mem_cons, List.mem_singleton, List.not_mem_nil, or_false] at hmem
    rcases hmem with hmem | hmem
    · simp only [Effect.matchDNS.injEq] at hmem
      exact hmem.2.2.2
    · exact absurd hmem hd

/-- Every `matchDNS` call of the rule loop of `Exchange` gets the caller's options. -/
theorem exchangeLoop_options (r : Router) (Errors : List DNSError → Option DNSError)
    (race : Int → List (Event QueryResult)) (message : Msg) (options : DNSQueryOptions) :
    ∀ (fuel : Nat) (ruleIndex : Int) (trace : List Effect) (out : ExchangeOutcome),
      r.exchangeLoop Errors race message options fuel ruleIndex trace = .ret out →
      (∀ a j q o, Effect.matchDNS a j q o ∈ trace → o = options) →
      ∀ a j q o, Effect.matchDNS a j q o ∈ out.trace → o = options := by
  intro fuel
  induction fuel with
  | zero => intro _ _ _ h; simp [Router.exchangeLoop] at h
  | succ fuel ih =>
    intro ruleIndex trace out h htrace
    unfold Router.exchangeLoop at h
    split at h
    · rename_i next c effects hit
      refine ih _ _ _ h ?_
      intro a j q o hmem
      rcases List.mem_append.mp hmem with hm | hm
      · exact htrace a j q o hm
      · exact effects_options r _ _ _ _ _ effects
          (exchangeIteration_effects r Errors race message options ruleIndex effects
            (Or.inl ⟨next, c, hit⟩)) a j q o hm
    · rename_i res effects hit
      simp only [Run.ret.injEq] at h
      subst h
      intro a j q o hmem
      rcases List.mem_append.mp hmem with hm | hm
      · exact htrace a j q o hm
      · exact effects_options r _ _ _ _ _ effects
          (exchangeIteration_effects r Errors race message options ruleIndex effects
            (Or.inr ⟨res, hit⟩)) a j q o hm
    · simp at h

/-- Every `matchDNS` call of the rule loop of `Lookup` gets the caller's options. -/
theorem lookupLoop_options (r : Router) (Errors : List DNSError → Option DNSError)
    (race : Int → List (Event LookupResult)) (domain : String) (options : DNSQueryOptions) :
    ∀ (fuel : Nat) (ruleIndex : Int) (carry : List Addr × Option DNSError)
      (trace : List Effect) (out : LookupOutcome),
      r.lookupLoop Errors race domain options fuel ruleIndex carry trace = .ret out →
      (∀ a j q o, Effect.matchDNS a j q o ∈ trace → o = options) →
      ∀ a j q o, Effect.matchDNS a j q o ∈ out.trace → o = options := by
  intro fuel
  induction fuel with
  | zero => intro _ _ _ _ h; simp [Router.lookupLoop] at h
  | succ fuel ih =>
    intro ruleIndex carry trace out h htrace
    unfold Router.lookupLoop at h
    split at h
    · rename_i next carry1 effects hit
      refine ih _ _ _ _ h ?_
      intro a j q o hmem
      rcases List.mem_append.mp hmem with hm | hm
      · exact htrace a j q o hm
      · exact effects_options r _ _ _ _ _ effects
          (lookupIteration_effects r Errors race domain options ruleIndex carry effects
            (Or.inl ⟨next, carry1, hit⟩)) a j q o hm
    · rename_i res effects hit
      simp only [Run.ret.injEq] at h
      subst h
      intro a j q o hmem
      rcases List.mem_append.mp hmem with hm | hm
      · exact htrace a j q o hm
      · exact effects_options r _ _ _ _ _ effects
          (lookupIteration_effects r Errors race domain options ruleIndex carry effects
            (Or.inr ⟨res, hit⟩)) a j q o hm
    · simp at h

/-- C40: the options of the rule loops. Every `matchDNS` call that `Exchange` and
`Lookup` make gets the caller's options as they were passed in, in every pass; the
options of the primary tasks are computed from the options `matchDNS` left and the
primary transports alone, those of the fallback tasks from the same options, the
fallback transports and the upstream timeout alone; and the pass that retries
after rule i is the same, in its `matchDNS` result, its effective options and its
outcome, for any other rules at the positions up to i, so that no rule at a
position <= i contributes to it. -/
theorem rule_loop_options_frame (r : Router) (Errors : List DNSError → Option DNSError)
    (direct : DNSTransport → DNSQueryOptions → Option Msg × Option DNSError)
    (directLookup : DNSTransport → DNSQueryOptions → LookupResult)
    (race : Int → List (Event QueryResult)) (raceLookup : Int → List (Event LookupResult))
    (message : Msg) (domain : String) (options : DNSQueryOptions) :
    (∀ out, r.Exchange Errors direct race message options = .ret out →
      ∀ a j q o, Effect.matchDNS a j q o ∈ out.trace → o = options) ∧
    (∀ out, r.Lookup Errors directLookup raceLookup domain options = .ret out →
      ∀ a j q o, Effect.matchDNS a j q o ∈ out.trace → o = options) ∧
    (∀ m other : MatchResult, m.options = other.options → m.transports = other.transports →
      primaryOptionsOf r m = primaryOptionsOf r other) ∧
    (∀ m other : MatchResult, m.options = other.options →
      m.fallbackTransports = other.fallbackTransports →
      m.upstreamTimeout = other.upstreamTimeout →
      fallbackOptionsOf r m = fallbackOptionsOf r other) ∧
    (∀ (i : Nat) (rules : List DNSRule), rules.drop (i + 1) = r.rules.drop (i + 1) →
      (∀ allowFakeIP isAddress,
        (r.withRules rules).matchDNS allowFakeIP (i : Int) isAddress options
          = r.matchDNS allowFakeIP (i : Int) isAddress options) ∧
      (r.withRules rules).exchangeIteration Errors race message options (i : Int)
        = r.exchangeIteration Errors race message options (i : Int) ∧
      (∀ carry, (r.withRules rules).lookupIteration Errors raceLookup domain options (i : Int)
          carry
        = r.lookupIteration Errors raceLookup domain options (i : Int) carry)) := by
  refine ⟨?_, ?_, ?_, ?_, ?_⟩
  · intro out h
    unfold Router.Exchange at h
    split at h
    · simp only [Run.ret.injEq] at h
      subst h
      intro a j q o hmem
      cases hmem
    · split at h
      · simp only [Run.ret.injEq] at h
        subst h
        intro a j q o hmem
        simp at hmem
      · exact exchangeLoop_options r Errors race message options _ _ _ out h
          (fun a j q o hmem => by cases hmem)
  · intro out h
    unfold Router.Lookup at h
    split at h
    · simp only [Run.ret.injEq] at h
      subst h
      intro a j q o hmem
      simp at hmem
    · exact lookupLoop_options r Errors raceLookup domain options _ _ _ _ out h
        (fun a j q o hmem => by cases hmem)
  · intro m other h1 h2
    unfold primaryOptionsOf
    rw [h1, h2]
  · intro m other h1 h2 h3
    unfold fallbackOptionsOf
    rw [h1, h2, h3]
  · intro i rules hdrop
    have hm : ∀ allowFakeIP isAddress,
        (r.withRules rules).matchDNS allowFakeIP (i : Int) isAddress options
          = r.matchDNS allowFakeIP (i : Int) isAddress options :=
      fun a q => matchDNS_withRules r rules a q i options hdrop
    refine ⟨hm, ?_, ?_⟩
    · unfold Router.exchangeIteration
      simp only [hm]
      rfl
    · intro carry
      unfold Router.lookupIteration
      simp only [hm]
      rfl

/-- The retry of C40 on a router whose rules are a route-options rule and then the
address-limit route: the first pass queries with the options of both rules, the
second pass, after the rejection at rule 1, hands `matchDNS` the caller's options
again and queries the default transport with them. -/
theorem rule_loop_options_retry :
    (routerOf [strictOptions, limitedRoute]).Exchange sampleErrors directAnswer rejectAtOne
        sampleQuery plainOptions
      = .ret { response := some answerOK, err := none,
               trace := [Effect.matchDNS true (-1) true plainOptions,
                 Effect.racer [transportA]
                   { transport := none, strategy := DomainStrategy.ipv4Only,
                     disableCache := true, rewriteTTL := some 60,
                     clientSubnet := some "10.0.0.0/8" },
                 Effect.matchDNS true 1 true plainOptions,
                 Effect.racer [transportB] plainOptions] } := by
  rfl

/-! ## Claims on the retry and on the selection of the load-balance group -/

/-- C37: `DialContext` and `ListenPacket` of a load-balance group with a valid
strategy, the history store being changed by the call alone, return; within the
call no outbound is dialled twice; only members that support the network are
dialled, so there are at most as many dials as such members; and when the call
returns an error, every member that supports the network, with or without a
history entry, has been dialled exactly once and its dial has failed. -/
theorem loadBalance_retry_exhaustive (g : LoadBalanceGroup) (env : DialEnv)
    (source : Option String) (network : String) (destination : Socksaddr)
    (hvalid : ValidStrategy g.strategy) :
    (∃ out, g.DialContext env source network destination = .ret out ∧
      out.dialed.Nodup ∧
      (∀ d ∈ out.dialed, d ∈ supporting g.outbounds network) ∧
      out.dialed.length ≤ (supporting g.outbounds network).length ∧
      (out.err ≠ none → ∀ m ∈ supporting g.outbounds network,
        out.dialed.count m = 1 ∧ env.dial network m ≠ none)) ∧
    (∃ out, g.ListenPacket env source destination = .ret out ∧
      out.dialed.Nodup ∧
      (∀ d ∈ out.dialed, d ∈ supporting g.outbounds NetworkUDP) ∧
      out.dialed.length ≤ (supporting g.outbounds NetworkUDP).length ∧
      (out.err ≠ none → ∀ m ∈ supporting g.outbounds NetworkUDP,
        out.dialed.count m = 1 ∧ env.listen m ≠ none)) := by
  have hcall : ∀ (attempt : Outbound → Option String) (net : String),
      ∃ out, LoadBalanceGroup.dialLoop env attempt source net destination
          (g.outbounds.length + 1) g DialLoop.init = .ret out ∧
        out.dialed.Nodup ∧
        (∀ d ∈ out.dialed, d ∈ supporting g.outbounds net) ∧
        out.dialed.length ≤ (supporting g.outbounds net).length ∧
        (out.err ≠ none → ∀ m ∈ supporting g.outbounds net,
          out.dialed.count m = 1 ∧ attempt m ≠ none) := by
    intro attempt net
    obtain ⟨out, hrun, hcontract, _, hall, hnodup, hmem⟩ :=
      loadBalance_call_contract g env attempt source net destination hvalid
    refine ⟨out, hrun, hnodup, hmem, ?_, ?_⟩
    · exact (List.subperm_of_subset hnodup (fun d hd => hmem d hd)).length_le
    · intro herr m hm
      exact ⟨List.count_eq_one_of_mem hnodup (hall herr m hm),
        (hcontract.1 herr).2 m (hall herr m hm)⟩
  exact ⟨hcall (env.dial network) network, hcall env.listen NetworkUDP⟩

/-- C37 on the round-robin group of a and b with every dial failing: the call returns
after dialling a and b once each. -/
theorem loadBalance_retry_exhaustive_witness :
    ∃ out, twoRoundRobin.DialContext envDown none "tcp" exampleCom = .ret out ∧
      out.dialed.Nodup ∧
      (∀ d ∈ out.dialed, d ∈ supporting twoRoundRobin.outbounds "tcp") ∧
      out.dialed.length ≤ (supporting twoRoundRobin.outbounds "tcp").length ∧
      (out.err ≠ none → ∀ m ∈ supporting twoRoundRobin.outbounds "tcp",
        out.dialed.count m = 1 ∧ envDown.dial "tcp" m ≠ none) :=
  (loadBalance_retry_exhaustive twoRoundRobin envDown none "tcp" exampleCom (Or.inl rfl)).1

/-- C38: selection is sound and safe. For each of the three strategies and every
non-empty candidate list, `selectOutbound` returns no error and an outbound of
that list, whatever the sticky cache holds; on a non-empty list the round-robin
index is below the length of the list and `selectRoundRobin` returns a member of
it; and `DialContext` and `ListenPacket` return without dialling a nil outbound,
every outbound they dial being a member that supports the network and that has
not been dialled before in the call. -/
theorem selection_sound (g : LoadBalanceGroup) (env : DialEnv) (pass : Nat)
    (source : Option String) (network : String) (destination : Socksaddr)
    (candidates : List Outbound) (hvalid : ValidStrategy g.strategy)
    (hne : candidates ≠ []) :
    ((g.selectOutbound env pass source network destination candidates).2.2 = none ∧
      ∃ d, (g.selectOutbound env pass source network destination candidates).2.1 = some d ∧
        d ∈ candidates) ∧
    (((g.rrCounter + 1) % 2 ^ 64 + 2 ^ 64 - 1) % 2 ^ 64 % candidates.length
        < candidates.length ∧
      ∃ d, (g.selectRoundRobin candidates).2 = some d ∧ d ∈ candidates) ∧
    (∃ out, g.DialContext env source network destination = .ret out ∧
      out.dialed.Nodup ∧
      ∀ d ∈ out.dialed, d ∈ g.outbounds ∧ d.network.contains network = true) ∧
    (∃ out, g.ListenPacket env source destination = .ret out ∧
      out.dialed.Nodup ∧
      ∀ d ∈ out.dialed, d ∈ g.outbounds ∧ d.network.contains NetworkUDP = true) := by
  have hlen : 0 < candidates.length := List.length_pos.mpr hne
  have hcall : ∀ (attempt : Outbound → Option String) (net : String),
      ∃ out, LoadBalanceGroup.dialLoop env attempt source net destination
          (g.outbounds.length + 1) g DialLoop.init = .ret out ∧
        out.dialed.Nodup ∧
        ∀ d ∈ out.dialed, d ∈ g.outbounds ∧ d.network.contains net = true := by
    intro attempt net
    obtain ⟨out, hrun, _, _, _, hnodup, hmem⟩ :=
      loadBalance_call_contract g env attempt source net destination hvalid
    exact ⟨out, hrun, hnodup, fun d hd => List.mem_filter.mp (hmem d hd)⟩
  refine ⟨?_, ?_, hcall (env.dial network) network, hcall env.listen NetworkUDP⟩
  · have hframe := selectOutbound_frame g env pass source network destination candidates
    have hnone := selectOutbound_valid g env pass source network destination candidates hvalid
    refine ⟨hnone, ?_⟩
    have hsome := hframe.2.2.2.2.2 hne hnone
    cases hsel : (g.selectOutbound env pass source network destination candidates).2.1 with
    | none => exact absurd hsel hsome
    | some d => exact ⟨d, rfl, hframe.2.2.2.2.1 d hsel⟩
  · have hidx : ((g.rrCounter + 1) % 2 ^ 64 + 2 ^ 64 - 1) % 2 ^ 64 % candidates.length
        < candidates.length := Nat.mod_lt _ hlen
    refine ⟨hidx, ?_⟩
    unfold LoadBalanceGroup.selectRoundRobin
    simp only
    rw [List.get?_eq_get hidx]
    exact ⟨_, rfl, List.get_mem _ _ _⟩

/-- C38 on the sticky-sessions group of a and b with a's candidate list: the selection
is a member of the list. -/
theorem selection_sound_witness :
    (twoSticky.selectOutbound (envOk 0) 0 none "tcp" exampleCom [outA, outB]).2.2 = none ∧
      ∃ d, (twoSticky.selectOutbound (envOk 0) 0 none "tcp" exampleCom [outA, outB]).2.1
          = some d ∧ d ∈ [outA, outB] :=
  (selection_sound twoSticky (envOk 0) 0 none "tcp" exampleCom [outA, outB]
    (Or.inr (Or.inr rfl)) (by decide)).1

/-! ## Claims on what `setClientSubnet` writes -/

/-- C31 fails on a message whose OPT record, holding no subnet option, is followed by
another record: the loop `findExists` drops the OPT record it has seen when it
reaches the next record, so `setClientSubnet` appends a second OPT record, with
and without `clone`; the message it returns carries two OPT records, the first
with no subnet option and the new one with one. -/
theorem setClientSubnet_second_OPT :
    (optThenOther.extra.filter ExtraRR.isOPT).length = 1 ∧
    subnetCounts optThenOther.extra = [0] ∧
    findExists optThenOther.extra 0 none = (none, none) ∧
    (setClientSubnet optThenOther sampleSubnet false).extra
      = [.opt { name := ".", rrtype := 41, option := [] }, .other "tsig",
         .opt { name := ".", rrtype := 41,
                option := [.subnet 8 1 24 0 [192, 168, 1, 77]] }] ∧
    setClientSubnet optThenOther sampleSubnet true
      = setClientSubnet optThenOther sampleSubnet false ∧
    ((setClientSubnet optThenOther sampleSubnet false).extra.filter ExtraRR.isOPT).length = 2 ∧
    subnetCounts (setClientSubnet optThenOther sampleSubnet false).extra = [0, 1] := by
  decide

theorem firstSubnet_spec (options : List EDNS0) :
    ∀ position, firstSubnet options = some position →
      ∃ option, options.get? position = some option ∧ option.isSubnet = true := by
  induction options with
  | nil => intro position h; cases h
  | cons a rest ih =>
    intro position h
    unfold firstSubnet at h
    split at h
    · rename_i ha
      simp only [Option.some.injEq] at h
      subst h
      exact ⟨a, rfl, ha⟩
    · split at h
      · rename_i p hp
        simp only [Option.some.injEq] at h
        subst h
        obtain ⟨o, ho, hs⟩ := ih p hp
        exact ⟨o, by simpa using ho, hs⟩
      · cases h

theorem modifyAt_get {α : Type} (f : α → α) (l : List α) :
    ∀ position x, l.get? position = some x →
      (modifyAt f position l).get? position = some (f x) := by
  induction l with
  | nil => intro position x h; cases h
  | cons a rest ih =>
    intro position x h
    cases position with
    | zero =>
      simp only [List.get?_cons_zero, Option.some.injEq] at h
      subst h
      rfl
    | succ n =>
      simp only [List.get?_cons_succ] at h
      show (a :: modifyAt f n rest).get? (n + 1) = some (f x)
      simp only [List.get?_cons_succ]
      exact ih n x h

/-- Where the results of the loop `findExists` point: to an OPT record of the message,
and to the first subnet option of that record, if it has one. -/
theorem findExists_sound (full : List ExtraRR) :
    ∀ (l pre : List ExtraRR) (optRecord : Option Nat), full = pre ++ l →
      (∀ j, optRecord = some j → ∃ record, full.get? j = some (.opt record)) →
      ∀ index subnetOption, findExists l pre.length optRecord = (some index, subnetOption) →
        ∃ record, full.get? index = some (.opt record) ∧
          ∀ position, subnetOption = some position →
            ∃ option, record.option.get? position = some option ∧
              option.isSubnet = true := by
  intro l
  induction l with
  | nil =>
    intro pre optRecord _ hopt index subnetOption h
    simp only [findExists, Prod.mk.injEq] at h
    obtain ⟨h1, h2⟩ := h
    obtain ⟨record, hrecord⟩ := hopt index h1
    exact ⟨record, hrecord, fun position hp => by rw [← h2] at hp; cases hp⟩
  | cons a rest ih =>
    intro pre optRecord hfull hopt index subnetOption h
    have hhere : full.get? pre.length = some a := by
      rw [hfull, List.get?_eq_getElem?, List.getElem?_append_right (le_refl _)]
      simp
    have hfull2 : full = (pre ++ [a]) ++ rest := by
      rw [hfull]; simp
    have hlen : (pre ++ [a]).length = pre.length + 1 := by simp
    cases a with
    | opt record =>
      simp only [findExists] at h
      split at h
      · rename_i position hposition
        simp only [Prod.mk.injEq, Option.some.injEq] at h
        obtain ⟨h1, h2⟩ := h
        subst h1
        refine ⟨record, hhere, fun p hp => ?_⟩
        rw [← h2] at hp
        simp only [Option.some.injEq] at hp
        subst hp
        exact firstSubnet_spec record.option position hposition
      · rw [← hlen] at h
        exact ih (pre ++ [.opt record]) (some pre.length) hfull2
          (fun j hj => by
            simp only [Option.some.injEq] at hj
            subst hj
            exact ⟨record, hhere⟩)
          index subnetOption h
    | other name =>
      simp only [findExists] at h
      rw [← hlen] at h
      exact ih (pre ++ [.other name]) none hfull2 (fun j hj => by cases hj) index
        subnetOption h

theorem findExists_none_second (l : List ExtraRR) :
    ∀ (index : Nat) (optRecord : Option Nat) (subnetOption : Option Nat),
      findExists l index optRecord = (none, subnetOption) → subnetOption = none := by
  induction l with
  | nil =>
    intro index optRecord subnetOption h
    simp only [findExists, Prod.mk.injEq] at h
    exact h.2.symm
  | cons a rest ih =>
    intro index optRecord subnetOption h
    cases a with
    | opt record =>
      simp only [findExists] at h
      split at h
      · simp at h
      · exact ih _ _ _ h
    | other name =>
      simp only [findExists] at h
      exact ih _ _ _ h

theorem assign_subnet (clientSubnet : CIDR) (option : EDNS0) (h : option.isSubnet = true) :
    ∃ code sourceScope, EDNS0.assign clientSubnet option
      = .subnet code (if clientSubnet.Addr.Is4 then 1 else 2) (clientSubnet.Bits % 256).toNat
          sourceScope clientSubnet.Addr.AsSlice := by
  cases option with
  | subnet code family sourceNetmask sourceScope address => exact ⟨code, sourceScope, rfl⟩
  | other code => cases h

/-- The option that `setClientSubnet` writes, for any message and any prefix. -/
theorem writtenSubnetOption_eq (message : ExtraMsg) (clientSubnet : CIDR) (clone : Bool) :
    ∃ code sourceScope, writtenSubnetOption message clientSubnet clone
      = some (.subnet code (if clientSubnet.Addr.Is4 then 1 else 2)
          (clientSubnet.Bits % 256).toNat sourceScope clientSubnet.Addr.AsSlice) := by
  have hwrite : ∀ (m : ExtraMsg) (index : Nat) (subnetOption : Option Nat) (record : OPT),
      m.extra.get? index = some (.opt record) →
      (m.write index subnetOption clientSubnet).extra.get? index
        = some (.opt (record.write subnetOption clientSubnet)) := by
    intro m index subnetOption record h
    unfold ExtraMsg.write
    simp only []
    rw [modifyAt_get _ _ _ _ h]
  have hadded : ∀ record : OPT,
      (record.write none clientSubnet).option.get? record.option.length
        = some (.subnet EDNS0SUBNET (if clientSubnet.Addr.Is4 then 1 else 2)
            (clientSubnet.Bits % 256).toNat 0 clientSubnet.Addr.AsSlice) := by
    intro record
    unfold OPT.write
    simp only []
    rw [modifyAt_get (EDNS0.assign clientSubnet) _ record.option.length
      (EDNS0.subnet EDNS0SUBNET 0 0 0 []) (by simp)]
    rfl
  unfold writtenSubnetOption
  simp only []
  have hsound : ∀ index subnetOption,
      findExists message.extra 0 none = (some index, subnetOption) →
      ∃ record, message.extra.get? index = some (.opt record) ∧
        ∀ position, subnetOption = some position →
          ∃ option, record.option.get? position = some option ∧ option.isSubnet = true :=
    findExists_sound message.extra message.extra [] none rfl (fun j hj => by cases hj)
  have hnone := findExists_none_second message.extra 0 none
  unfold setClientSubnet
  generalize findExists message.extra 0 none = found at hsound hnone
  obtain ⟨optRecord, subnetOption⟩ := found
  cases optRecord with
  | none =>
    simp only []
    have hget : ({ message with extra := message.extra ++
        [ExtraRR.opt { name := ".", rrtype := TypeOPT, option := [] }] } : ExtraMsg).extra.get?
          message.extra.length
        = some (.opt { name := ".", rrtype := TypeOPT, option := [] }) := by
      simp
    have h1 := hwrite _ message.extra.length none _ hget
    unfold optionAt
    rw [h1]
    exact ⟨_, _, hadded { name := ".", rrtype := TypeOPT, option := [] }⟩
  | some index =>
    obtain ⟨record, hrecord, hoption⟩ := hsound index subnetOption rfl
    have hres : (if clone then message.Copy.write index subnetOption clientSubnet
        else message.write index subnetOption clientSubnet)
        = message.write index subnetOption clientSubnet := by
      cases clone <;> rfl
    cases subnetOption with
    | some position =>
      simp only []
      rw [hres]
      obtain ⟨option, hget, hsub⟩ := hoption position rfl
      unfold optionAt
      rw [hwrite message index (some position) record hrecord]
      simp only []
      obtain ⟨code, sourceScope, hassign⟩ := assign_subnet clientSubnet option hsub
      refine ⟨code, sourceScope, ?_⟩
      unfold OPT.write
      simp only []
      rw [modifyAt_get _ _ _ _ hget, hassign]
    | none =>
      simp only []
      rw [hres, hrecord]
      simp only []
      unfold optionAt
      rw [hwrite message index none record hrecord]
      exact ⟨_, _, hadded record⟩

/-- C32 fails on the address: for 192.168.1.77/24 `setClientSubnet` writes the address
192.168.1.77, not the masked address 192.168.1.0. -/
theorem setClientSubnet_address_unmasked :
    writtenSubnetOption { base := emptyMsg, extra := [] } sampleSubnet false
      = some (.subnet 8 1 24 0 [192, 168, 1, 77]) ∧
    sampleSubnet.Masked.Addr.AsSlice = [192, 168, 1, 0] ∧
    writtenSubnetOption sampleExtraMsg sampleSubnet true
      = some (.subnet 8 1 24 0 [192, 168, 1, 77]) := by
  decide

/-- C32 as amended: for every valid prefix p, every message and either value of
`clone`, the EDNS0_SUBNET option written by `setClientSubnet` has Family 1 when the
address of p is IPv4 and 2 when it is IPv6, SourceNetmask equal to `p.Bits()`, and
Address equal to `p.Addr().AsSlice()`, the address of p as it was passed in; that
is the masked address of p only when p is masked already. -/
theorem setClientSubnet_option_fields (message : ExtraMsg) (clientSubnet : CIDR)
    (clone : Bool) (hvalid : clientSubnet.IsValidSubnet) :
    ∃ code family sourceNetmask sourceScope address,
      writtenSubnetOption message clientSubnet clone
        = some (.subnet code family sourceNetmask sourceScope address) ∧
      (clientSubnet.Addr.Is4 = true → family = 1) ∧
      (clientSubnet.Addr.Is4 = false → family = 2) ∧
      (sourceNetmask : Int) = clientSubnet.Bits ∧
      address = clientSubnet.Addr.AsSlice ∧
      (clientSubnet.Masked = clientSubnet → address = clientSubnet.Masked.Addr.AsSlice) := by
  obtain ⟨code, sourceScope, h⟩ := writtenSubnetOption_eq message clientSubnet clone
  refine ⟨code, _, _, sourceScope, _, h, ?_, ?_, ?_, rfl, ?_⟩
  · intro h4; rw [h4]; rfl
  · intro h4; rw [h4]; rfl
  · have hbits : 0 ≤ clientSubnet.Bits ∧ clientSubnet.Bits < 256 := by
      unfold CIDR.Bits
      rcases hvalid with ⟨_, _, _, h1, h2⟩ | ⟨_, _, _, h1, h2⟩ <;> omega
    rw [Int.emod_eq_of_lt hbits.1 hbits.2]
    exact Int.toNat_of_nonneg hbits.1
  · intro hm
    rw [hm]

/-- C32 as amended, on 192.168.1.77/24 and a message with a subnet option for
10.0.0.0/8: the option is overwritten with family 1, netmask 24 and the address
192.168.1.77. -/
theorem setClientSubnet_option_fields_witness :
    ∃ code family sourceNetmask sourceScope address,
      writtenSubnetOption sampleExtraMsg sampleSubnet true
        = some (.subnet code family sourceNetmask sourceScope address) ∧
      (sampleSubnet.Addr.Is4 = true → family = 1) ∧
      (sampleSubnet.Addr.Is4 = false → family = 2) ∧
      (sourceNetmask : Int) = sampleSubnet.Bits ∧
      address = sampleSubnet.Addr.AsSlice ∧
      (sampleSubnet.Masked = sampleSubnet → address = sampleSubnet.Masked.Addr.AsSlice) :=
  setClientSubnet_option_fields sampleExtraMsg sampleSubnet true
    (Or.inl ⟨[192, 168, 1, 77], rfl, rfl, by decide, by decide⟩)

/-! ## Claims on `ExtractClientSubnet` -/

theorem maskBytes_idem (bytes : List Nat) :
    ∀ bits, maskBytes bits (maskBytes bits bytes) = maskBytes bits bytes := by
  induction bytes with
  | nil => intro bits; rfl
  | cons b rest ih =>
    intro bits
    show (if bits ≥ 8 then (if bits ≥ 8 then b else b / 2 ^ (8 - bits) * 2 ^ (8 - bits))
        else (if bits ≥ 8 then b else b / 2 ^ (8 - bits) * 2 ^ (8 - bits)) / 2 ^ (8 - bits)
          * 2 ^ (8 - bits)) :: maskBytes (bits - 8) (maskBytes (bits - 8) rest)
      = (if bits ≥ 8 then b else b / 2 ^ (8 - bits) * 2 ^ (8 - bits))
          :: maskBytes (bits - 8) rest
    rw [ih]
    by_cases h : bits ≥ 8
    · simp only [h, if_true]
    · simp only [h, if_false]
      rw [Nat.mul_div_cancel _ (Nat.two_pow_pos _)]

/-- Masking a prefix twice is masking it once. -/
theorem Masked_idem (p : CIDR) : p.Masked.Masked = p.Masked := by
  have hzero : CIDR.zeroValue.Masked = CIDR.zeroValue := by decide
  obtain ⟨ip, bitsPlusOne⟩ := p
  unfold CIDR.Masked
  simp only [CIDR.Bits]
  by_cases hneg : ((bitsPlusOne : Int) - 1 < 0)
  · rw [if_pos hneg]
    exact hzero
  · rw [if_neg hneg]
    have hpos : 1 ≤ bitsPlusOne := by omega
    have htoNat : ((bitsPlusOne : Int) - 1).toNat + 1 = bitsPlusOne := by omega
    cases ip with
    | zero => exact hzero
    | v4 bytes =>
      simp only []
      by_cases hlong : ((bitsPlusOne : Int) - 1 > 32)
      · rw [if_pos hlong]
        exact hzero
      · rw [if_neg hlong]
        have hfrom : ∀ l, PrefixFrom (.v4 l) ((bitsPlusOne : Int) - 1)
            = { ip := .v4 l, bitsPlusOne := bitsPlusOne } := by
          intro l
          unfold PrefixFrom
          have hc : ((IPAddr.v4 l != IPAddr.zero) && decide (0 ≤ (bitsPlusOne : Int) - 1)
              && decide ((bitsPlusOne : Int) - 1 ≤ ((IPAddr.v4 l).BitLen : Int))) = true := by
            simp only [Bool.and_eq_true, decide_eq_true_eq, bne_iff_ne, ne_eq]
            refine ⟨⟨(by intro hc; cases hc), (by omega)⟩, ?_⟩
            show (bitsPlusOne : Int) - 1 ≤ ((32 : Nat) : Int)
            omega
          rw [if_pos hc, htoNat]
          rfl
        rw [hfrom]
        simp only []
        rw [if_neg hneg, if_neg hlong, hfrom, maskBytes_idem]
    | v6 bytes zone =>
      simp only []
      by_cases hlong : ((bitsPlusOne : Int) - 1 > 128)
      · rw [if_pos hlong]
        exact hzero
      · rw [if_neg hlong]
        have hfrom : ∀ l z, PrefixFrom (.v6 l z) ((bitsPlusOne : Int) - 1)
            = { ip := .v6 l "", bitsPlusOne := bitsPlusOne } := by
          intro l z
          unfold PrefixFrom
          have hc : ((IPAddr.v6 l z != IPAddr.zero) && decide (0 ≤ (bitsPlusOne : Int) - 1)
              && decide ((bitsPlusOne : Int) - 1 ≤ ((IPAddr.v6 l z).BitLen : Int))) = true := by
            simp only [Bool.and_eq_true, decide_eq_true_eq, bne_iff_ne, ne_eq]
            refine ⟨⟨(by intro hc; cases hc), (by omega)⟩, ?_⟩
            show (bitsPlusOne : Int) - 1 ≤ ((128 : Nat) : Int)
            omega
          rw [if_pos hc, htoNat]
          rfl
        rw [hfrom]
        simp only []
        rw [if_neg hneg, if_neg hlong, hfrom, maskBytes_idem]

/-- The loop of `ExtractClientSubnet` decides on the first subnet option alone. -/
theorem extractSubnet_first (options : List EDNS0) :
    (options.find? EDNS0.isSubnet = none ∧ extractSubnet options = (CIDR.zeroValue, false)) ∨
    (∃ code family sourceNetmask sourceScope address,
      options.find? EDNS0.isSubnet
        = some (.subnet code family sourceNetmask sourceScope address) ∧
      extractSubnet options
        = extractSubnet [.subnet code family sourceNetmask sourceScope address]) := by
  induction options with
  | nil => left; exact ⟨rfl, rfl⟩
  | cons a rest ih =>
    cases a with
    | other code =>
      have hfind : (EDNS0.other code :: rest).find? EDNS0.isSubnet
          = rest.find? EDNS0.isSubnet := by
        simp [List.find?_cons, EDNS0.isSubnet]
      have hex : extractSubnet (EDNS0.other code :: rest) = extractSubnet rest := rfl
      rw [hfind, hex]
      exact ih
    | subnet code family sourceNetmask sourceScope address =>
      right
      exact ⟨code, family, sourceNetmask, sourceScope, address,
        by simp [List.find?_cons, EDNS0.isSubnet], rfl⟩

/-- What the loop of `ExtractClientSubnet` returns on a subnet option. -/
theorem extractSubnet_one (code family sourceNetmask sourceScope : Nat) (address : List Nat) :
    ((extractSubnet [.subnet code family sourceNetmask sourceScope address]).2 = true ↔
      ((family = 1 ∧ sourceNetmask ≤ 32) ∨ (family = 2 ∧ sourceNetmask ≤ 128))) ∧
    ((extractSubnet [.subnet code family sourceNetmask sourceScope address]).2 = false →
      (extractSubnet [.subnet code family sourceNetmask sourceScope address]).1
        = CIDR.zeroValue) ∧
    (extractSubnet [.subnet code family sourceNetmask sourceScope address]).1.Masked
      = (extractSubnet [.subnet code family sourceNetmask sourceScope address]).1 := by
  have hzero : CIDR.zeroValue.Masked = CIDR.zeroValue := by decide
  unfold extractSubnet
  simp only []
  by_cases h1 : family = 1
  · have hf1 : (family == 1) = true := by simpa using h1
    rw [if_pos hf1]
    by_cases hb : ((sourceNetmask : Int) > 32)
    · rw [if_pos hb]
      refine ⟨⟨fun h => (by cases h), fun h => ?_⟩, fun _ => rfl, hzero⟩
      rcases h with ⟨_, h⟩ | ⟨h, _⟩
      · omega
      · omega
    · rw [if_neg hb]
      exact ⟨⟨fun _ => Or.inl ⟨h1, (by omega)⟩, fun _ => rfl⟩, fun h => (by cases h),
        Masked_idem _⟩
  · have hf1 : (family == 1) = false := by simpa using h1
    rw [if_neg (by rw [hf1]; exact Bool.false_ne_true)]
    by_cases h2 : family = 2
    · have hf2 : (family == 2) = true := by simpa using h2
      rw [if_pos hf2]
      by_cases hb : ((sourceNetmask : Int) > 128)
      · rw [if_pos hb]
        refine ⟨⟨fun h => (by cases h), fun h => ?_⟩, fun _ => rfl, hzero⟩
        rcases h with ⟨h, _⟩ | ⟨_, h⟩
        · omega
        · omega
      · rw [if_neg hb]
        exact ⟨⟨fun _ => Or.inr ⟨h2, (by omega)⟩, fun _ => rfl⟩, fun h => (by cases h),
          Masked_idem _⟩
    · have hf2 : (family == 2) = false := by simpa using h2
      rw [if_neg (by rw [hf2]; exact Bool.false_ne_true)]
      refine ⟨⟨fun h => (by cases h), fun h => ?_⟩, fun _ => rfl, hzero⟩
      rcases h with ⟨h, _⟩ | ⟨h, _⟩
      · exact absurd h h1
      · exact absurd h h2

theorem IsEdns0_mem (l : List ExtraRR) :
    ∀ record, IsEdns0 l = some record → ExtraRR.opt record ∈ l ∧ record.rrtype = TypeOPT := by
  induction l with
  | nil => intro record h; cases h
  | cons a rest ih =>
    intro record h
    rw [IsEdns0_cons] at h
    cases hrest : IsEdns0 rest with
    | some found =>
      rw [hrest] at h
      simp only [Option.some.injEq] at h
      subst h
      exact ⟨List.mem_cons_of_mem _ (ih found hrest).1, (ih found hrest).2⟩
    | none =>
      rw [hrest] at h
      cases a with
      | opt optRecord =>
        simp only [] at h
        split at h
        · rename_i htype
          simp only [Option.some.injEq] at h
          subst h
          exact ⟨List.mem_cons_self _ _, by simpa using htype⟩
        · cases h
      | other name => cases h

/-- C33 fails on a message with two OPT records: the first holds a subnet option of
family 1 with netmask 24, the second holds none; `ExtractClientSubnet` reads the
record that `IsEdns0` returns, the second one, and returns the zero prefix and
false. -/
theorem ExtractClientSubnet_reads_last_OPT :
    ExtraRR.opt { name := ".", rrtype := 41, option := [.subnet 8 1 24 0 [192, 168, 1, 0]] }
      ∈ twoOptMsg.extra ∧
    ([EDNS0.subnet 8 1 24 0 [192, 168, 1, 0]].find? EDNS0.isSubnet
      = some (.subnet 8 1 24 0 [192, 168, 1, 0])) ∧
    IsEdns0 twoOptMsg.extra = some { name := ".", rrtype := 41, option := [] } ∧
    ExtractClientSubnet twoOptMsg = (CIDR.zeroValue, false) := by
  decide

/-- C33 as amended: `ExtractClientSubnet` returns true exactly when the OPT record that
`IsEdns0` returns for the message has as its first EDNS0_SUBNET option one of
family 1 with a source netmask of at most 32 or of family 2 with a source
netmask of at most 128; whenever it returns false the prefix is the zero prefix;
and every prefix it returns is equal to its own `Masked()`. The record that
`IsEdns0` returns is an OPT record of the message: the OPT record of a message
that carries no more than one, and in general an OPT record of header type
`TypeOPT` that no OPT record follows. -/
theorem ExtractClientSubnet_cases (message : ExtraMsg) :
    ((ExtractClientSubnet message).2 = true ↔
      ∃ record code family sourceNetmask sourceScope address,
        IsEdns0 message.extra = some record ∧
        record.option.find? EDNS0.isSubnet
          = some (.subnet code family sourceNetmask sourceScope address) ∧
        ((family = 1 ∧ sourceNetmask ≤ 32) ∨ (family = 2 ∧ sourceNetmask ≤ 128))) ∧
    ((ExtractClientSubnet message).2 = false →
      (ExtractClientSubnet message).1 = CIDR.zeroValue) ∧
    (ExtractClientSubnet message).1.Masked = (ExtractClientSubnet message).1 ∧
    (∀ record, IsEdns0 message.extra = some record → ExtraRR.opt record ∈ message.extra) ∧
    (AtMostOneOPT message → ∀ record, ExtraRR.opt record ∈ message.extra →
      IsEdns0 message.extra = some record) ∧
    (∀ pre record post, message.extra = pre ++ .opt record :: post →
      record.rrtype = TypeOPT → (∀ x ∈ post, x.isOPT = false) →
      IsEdns0 message.extra = some record) := by
  have hzero : CIDR.zeroValue.Masked = CIDR.zeroValue := by decide
  refine ⟨?_, ?_, ?_, fun record h => (IsEdns0_mem _ record h).1, ?_,
    fun pre record post hsplit htype hpost => (by
      rw [hsplit]
      exact IsEdns0_found pre record post htype hpost)⟩
  · unfold ExtractClientSubnet
    cases hopt : IsEdns0 message.extra with
    | none =>
      simp only []
      constructor
      · intro h; cases h
      · rintro ⟨record, _, _, _, _, _, h, _⟩
        cases h
    | some record =>
      simp only []
      rcases extractSubnet_first record.option with ⟨hfind, hex⟩ | ⟨c, f, n, s, a, hfind, hex⟩
      · rw [hex]
        constructor
        · intro h; cases h
        · rintro ⟨record2, _, _, _, _, _, h, hfind2, _⟩
          simp only [Option.some.injEq] at h
          subst h
          rw [hfind] at hfind2
          cases hfind2
      · rw [hex]
        constructor
        · intro h
          exact ⟨record, c, f, n, s, a, rfl, hfind, (extractSubnet_one c f n s a).1.mp h⟩
        · rintro ⟨record2, c2, f2, n2, s2, a2, h, hfind2, hcase⟩
          simp only [Option.some.injEq] at h
          subst h
          rw [hfind] at hfind2
          simp only [Option.some.injEq, EDNS0.subnet.injEq] at hfind2
          obtain ⟨_, hf, hn, _, _⟩ := hfind2
          subst hf
          subst hn
          exact (extractSubnet_one c f n s a).1.mpr hcase
  · unfold ExtractClientSubnet
    cases hopt : IsEdns0 message.extra with
    | none => intro _; rfl
    | some record =>
      simp only []
      rcases extractSubnet_first record.option with ⟨_, hex⟩ | ⟨c, f, n, s, a, _, hex⟩
      · rw [hex]; intro _; rfl
      · rw [hex]; exact (extractSubnet_one c f n s a).2.1
  · unfold ExtractClientSubnet
    cases hopt : IsEdns0 message.extra with
    | none => exact hzero
    | some record =>
      simp only []
      rcases extractSubnet_first record.option with ⟨_, hex⟩ | ⟨c, f, n, s, a, _, hex⟩
      · rw [hex]; exact hzero
      · rw [hex]; exact (extractSubnet_one c f n s a).2.2
  · intro hone record hmem
    rcases split_at_OPT message.extra hone.1 with hall | ⟨pre, found, post, hsplit, hpre, hpost⟩
    · have := hall _ hmem
      cases this
    · have hrecord : record = found := by
        rw [hsplit] at hmem
        rcases List.mem_append.mp hmem with h | h
        · have := hpre _ h
          cases this
        · rcases List.mem_cons.mp h with h | h
          · simp only [ExtraRR.opt.injEq] at h
            exact h
          · have := hpost _ h
            cases this
      subst hrecord
      rw [hsplit]
      exact IsEdns0_found pre record post (hone.2 record hmem) hpost

/-! ## Claims on the JSONC wrappers -/

/-- C34: `jsonc.UnmarshalExtended` and `jsonc.UnmarshalExtendedContext` on input b.
When the direct parse of b succeeds, its value is returned with a nil error and
the parse is the only library call made, so `hujson.Standardize` is not applied
and the result is that of `json.UnmarshalExtended`. When it fails and
standardizing b fails too, the zero value and the error of the direct parse, not
that of the standardization, are returned. When it fails and standardizing
succeeds, the value and the error of parsing the standardized bytes are
returned. -/
theorem jsonc_unmarshal_cases {κ α ε : Type} (unmarshal : List Nat → α × Option ε)
    (unmarshalContext : κ → List Nat → α × Option ε)
    (standardize : List Nat → List Nat × Option ε) (zero : α) (ctx : κ) (b : List Nat) :
    ((unmarshal b).2 = none →
      (UnmarshalExtended unmarshal standardize zero b).value = (unmarshal b).1 ∧
      (UnmarshalExtended unmarshal standardize zero b).err = none ∧
      (UnmarshalExtended unmarshal standardize zero b).calls = [.unmarshal b]) ∧
    (∀ err, (unmarshal b).2 = some err → (standardize b).2 ≠ none →
      (UnmarshalExtended unmarshal standardize zero b).value = zero ∧
      (UnmarshalExtended unmarshal standardize zero b).err = some err ∧
      (UnmarshalExtended unmarshal standardize zero b).calls
        = [.unmarshal b, .standardize b]) ∧
    ((unmarshal b).2 ≠ none → (standardize b).2 = none →
      (UnmarshalExtended unmarshal standardize zero b).value
        = (unmarshal (standardize b).1).1 ∧
      (UnmarshalExtended unmarshal standardize zero b).err
        = (unmarshal (standardize b).1).2 ∧
      (UnmarshalExtended unmarshal standardize zero b).calls
        = [.unmarshal b, .standardize b, .unmarshal (standardize b).1]) ∧
    ((unmarshalContext ctx b).2 = none →
      (UnmarshalExtendedContext unmarshalContext standardize zero ctx b).value
        = (unmarshalContext ctx b).1 ∧
      (UnmarshalExtendedContext unmarshalContext standardize zero ctx b).err = none ∧
      (UnmarshalExtendedContext unmarshalContext standardize zero ctx b).calls
        = [.unmarshal b]) ∧
    (∀ err, (unmarshalContext ctx b).2 = some err → (standardize b).2 ≠ none →
      (UnmarshalExtendedContext unmarshalContext standardize zero ctx b).value = zero ∧
      (UnmarshalExtendedContext unmarshalContext standardize zero ctx b).err = some err ∧
      (UnmarshalExtendedContext unmarshalContext standardize zero ctx b).calls
        = [.unmarshal b, .standardize b]) ∧
    ((unmarshalContext ctx b).2 ≠ none → (standardize b).2 = none →
      (UnmarshalExtendedContext unmarshalContext standardize zero ctx b).value
        = (unmarshalContext ctx (standardize b).1).1 ∧
      (UnmarshalExtendedContext unmarshalContext standardize zero ctx b).err
        = (unmarshalContext ctx (standardize b).1).2 ∧
      (UnmarshalExtendedContext unmarshalContext standardize zero ctx b).calls
        = [.unmarshal b, .standardize b, .unmarshal (standardize b).1]) := by
  unfold UnmarshalExtended UnmarshalExtendedContext
  generalize unmarshal b = direct
  generalize unmarshalContext ctx b = directContext
  generalize standardize b = standard
  obtain ⟨v, e⟩ := direct
  obtain ⟨vc, ec⟩ := directContext
  obtain ⟨b2, e2⟩ := standard
  refine ⟨?_, ?_, ?_, ?_, ?_, ?_⟩
  · intro h
    simp only [] at h
    subst h
    exact ⟨rfl, rfl, rfl⟩
  · intro err h h2
    simp only [] at h h2
    subst h
    cases e2 with
    | none => exact absurd rfl h2
    | some _ => exact ⟨rfl, rfl, rfl⟩
  · intro h h2
    simp only [] at h h2
    subst h2
    cases e with
    | none => exact absurd rfl h
    | some _ => exact ⟨rfl, rfl, rfl⟩
  · intro h
    simp only [] at h
    subst h
    exact ⟨rfl, rfl, rfl⟩
  · intro err h h2
    simp only [] at h h2
    subst h
    cases e2 with
    | none => exact absurd rfl h2
    | some _ => exact ⟨rfl, rfl, rfl⟩
  · intro h h2
    simp only [] at h h2
    subst h2
    cases ec with
    | none => exact absurd rfl h
    | some _ => exact ⟨rfl, rfl, rfl⟩

/-- C34 on a toy parser and standardizer: the input `7,` fails to parse, is
standardized to `7`, and the value 7 of the second parse is returned. -/
theorem jsonc_unmarshal_cases_witness :
    (UnmarshalExtended toyUnmarshal toyStandardize 0 [55, 44]).value = 7 ∧
    (UnmarshalExtended toyUnmarshal toyStandardize 0 [55, 44]).err = none ∧
    (UnmarshalExtended toyUnmarshal toyStandardize 0 [55, 44]).calls
      = [.unmarshal [55, 44], .standardize [55, 44], .unmarshal [55]] :=
  (jsonc_unmarshal_cases toyUnmarshal (fun (_ : Unit) => toyUnmarshal) toyStandardize 0 ()
    [55, 44]).2.2.1 (by decide) (by decide)

/-- C33 as amended, on a message whose OPT record holds a cookie option and then a
subnet option of family 1 with netmask 8: `ExtractClientSubnet` returns true. -/
theorem ExtractClientSubnet_cases_witness :
    (ExtractClientSubnet sampleExtraMsg).2 = true :=
  (ExtractClientSubnet_cases sampleExtraMsg).1.mpr
    ⟨{ name := ".", rrtype := 41, option := [.other 10, .subnet 8 1 8 0 [10, 0, 0, 0]] },
      8, 1, 8, 0, [10, 0, 0, 0], rfl, rfl, Or.inl ⟨rfl, by decide⟩⟩

/-- C40 on a router whose rules are a route-options rule and then the address-limit
route: the `matchDNS` call that retries after rule 1 returns the same with another
route-options rule at position 0. -/
theorem rule_loop_options_frame_witness :
    ((routerOf [strictOptions, limitedRoute]).withRules [keepCacheOptions, limitedRoute]).matchDNS
        true 1 true plainOptions
      = (routerOf [strictOptions, limitedRoute]).matchDNS true 1 true plainOptions :=
  ((rule_loop_options_frame (routerOf [strictOptions, limitedRoute]) sampleErrors directAnswer
    directAddrs rejectAtOne timeoutThenAnswer sampleQuery "example.org" plainOptions).2.2.2.2
    1 [keepCacheOptions, limitedRoute] rfl).1 true true

/-! ## Where `setClientSubnet` keeps a single OPT record -/

theorem assign_isSubnet (clientSubnet : CIDR) (option : EDNS0) :
    (EDNS0.assign clientSubnet option).isSubnet = option.isSubnet := by
  cases option <;> rfl

theorem modifyAt_assign_count (clientSubnet : CIDR) (options : List EDNS0) :
    ∀ position,
      ((modifyAt (EDNS0.assign clientSubnet) position options).filter EDNS0.isSubnet).length
        = (options.filter EDNS0.isSubnet).length := by
  induction options with
  | nil => intro position; cases position <;> rfl
  | cons a rest ih =>
    intro position
    cases position with
    | zero =>
      show ((EDNS0.assign clientSubnet a :: rest).filter EDNS0.isSubnet).length = _
      simp only [List.filter_cons, assign_isSubnet]
      split <;> rfl
    | succ n =>
      show ((a :: modifyAt (EDNS0.assign clientSubnet) n rest).filter EDNS0.isSubnet).length = _
      simp only [List.filter_cons]
      split <;> simp [ih n]

theorem firstSubnet_none (options : List EDNS0) (h : firstSubnet options = none) :
    options.filter EDNS0.isSubnet = [] := by
  induction options with
  | nil => rfl
  | cons a rest ih =>
    unfold firstSubnet at h
    split at h
    · cases h
    · rename_i ha
      split at h
      · cases h
      · rename_i hrest
        simp only [List.filter_cons, ha, Bool.false_eq_true, if_false]
        exact ih hrest

theorem firstSubnet_some (options : List EDNS0) (position : Nat)
    (h : firstSubnet options = some position) :
    1 ≤ (options.filter EDNS0.isSubnet).length := by
  obtain ⟨option, hget, hsub⟩ := firstSubnet_spec options position h
  have hmem : option ∈ options.filter EDNS0.isSubnet :=
    List.mem_filter.mpr ⟨List.get?_mem hget, hsub⟩
  exact List.length_pos_of_mem hmem

theorem subnetCounts_append (xs ys : List ExtraRR) :
    subnetCounts (xs ++ ys) = subnetCounts xs ++ subnetCounts ys := by
  induction xs with
  | nil => rfl
  | cons a rest ih =>
    cases a with
    | opt record =>
      show _ :: subnetCounts (rest ++ ys) = _ :: (subnetCounts rest ++ subnetCounts ys)
      rw [ih]
    | other name => exact ih

theorem subnetCounts_others (l : List ExtraRR) (h : ∀ x ∈ l, x.isOPT = false) :
    subnetCounts l = [] ∧ l.filter ExtraRR.isOPT = [] := by
  induction l with
  | nil => exact ⟨rfl, rfl⟩
  | cons a rest ih =>
    cases a with
    | opt record =>
      have := h (.opt record) (List.mem_cons_self _ _)
      cases this
    | other name =>
      have hrest := ih (fun x hx => h x (List.mem_cons_of_mem _ hx))
      refine ⟨hrest.1, ?_⟩
      simp only [List.filter_cons, ExtraRR.isOPT, Bool.false_eq_true, if_false]
      exact hrest.2

/-- The subnet options of the record that `setClientSubnet` has written to: as many as
before where the loop found one, one more where it found none. -/
theorem write_count (record : OPT) (subnetOption : Option Nat) (clientSubnet : CIDR) :
    ((record.write subnetOption clientSubnet).option.filter EDNS0.isSubnet).length
      = (record.option.filter EDNS0.isSubnet).length
        + (if subnetOption.isSome then 0 else 1) := by
  unfold OPT.write
  cases subnetOption with
  | some position =>
    simp only []
    rw [modifyAt_assign_count]
    rfl
  | none =>
    simp only []
    rw [modifyAt_assign_count, List.filter_append, List.length_append]
    rfl

/-- Where `setClientSubnet` keeps a single OPT record: on a message with at most one
OPT record, which holds at most one subnet option and either holds one or is the
last record of the Extra section, and on a message without OPT record, the
message returned carries exactly one OPT record, with exactly one subnet option. -/
theorem setClientSubnet_single_OPT (message : ExtraMsg) (clientSubnet : CIDR) (clone : Bool)
    (hone : (message.extra.filter ExtraRR.isOPT).length ≤ 1)
    (hsub : ∀ record, ExtraRR.opt record ∈ message.extra →
      (record.option.filter EDNS0.isSubnet).length ≤ 1)
    (hkept : ∀ pre record post, message.extra = pre ++ .opt record :: post →
      post = [] ∨ firstSubnet record.option ≠ none) :
    ((setClientSubnet message clientSubnet clone).extra.filter ExtraRR.isOPT).length = 1 ∧
    subnetCounts (setClientSubnet message clientSubnet clone).extra = [1] := by
  have hwritten : ∀ (pre : List ExtraRR) (record : OPT) (post : List ExtraRR)
      (subnetOption : Option Nat),
      (∀ x ∈ pre, x.isOPT = false) → (∀ x ∈ post, x.isOPT = false) →
      (({ message with extra := pre ++ .opt record :: post } : ExtraMsg).write pre.length
          subnetOption clientSubnet).extra
        = pre ++ .opt (record.write subnetOption clientSubnet) :: post := by
    intro pre record post subnetOption _ _
    unfold ExtraMsg.write
    simp only []
    rw [modifyAt_append]
  have hcount : ∀ (pre : List ExtraRR) (record : OPT) (post : List ExtraRR),
      (∀ x ∈ pre, x.isOPT = false) → (∀ x ∈ post, x.isOPT = false) →
      ((pre ++ ExtraRR.opt record :: post).filter ExtraRR.isOPT).length = 1 ∧
      subnetCounts (pre ++ ExtraRR.opt record :: post)
        = [(record.option.filter EDNS0.isSubnet).length] := by
    intro pre record post hpre hpost
    constructor
    · rw [List.filter_append, (subnetCounts_others pre hpre).2, List.filter_cons]
      simp only [ExtraRR.isOPT, if_true, List.nil_append, List.length_cons]
      rw [(subnetCounts_others post hpost).2]
      rfl
    · rw [subnetCounts_append, (subnetCounts_others pre hpre).1]
      show _ :: subnetCounts post = _
      rw [(subnetCounts_others post hpost).1]
  have hclone : ∀ index subnetOption,
      (if clone then message.Copy.write index subnetOption clientSubnet
        else message.write index subnetOption clientSubnet)
        = message.write index subnetOption clientSubnet := by
    intro index subnetOption
    cases clone <;> rfl
  unfold setClientSubnet
  rcases split_at_OPT message.extra hone with hall | ⟨pre, record, post, hsplit, hpre, hpost⟩
  · rw [findExists_others message.extra hall 0 none]
    have hnone : (if message.extra = [] then (none : Option Nat) else none) = none := by
      split <;> rfl
    rw [hnone]
    simp only []
    have h := hwritten message.extra { name := ".", rrtype := TypeOPT, option := [] } [] none
      hall (fun x hx => by cases hx)
    rw [h]
    have hc := hcount message.extra
      (OPT.write { name := ".", rrtype := TypeOPT, option := [] } none clientSubnet) [] hall
      (fun x hx => by cases hx)
    rw [write_count] at hc
    exact hc
  · have hmsg : message = { message with extra := pre ++ .opt record :: post } := by
      cases message
      simp only [ExtraMsg.mk.injEq, true_and]
      exact hsplit
    have hfind := findExists_skip pre hpre record post 0 none
    rw [← hsplit] at hfind
    simp only [Nat.zero_add] at hfind
    have hrec : (record.option.filter EDNS0.isSubnet).length ≤ 1 :=
      hsub record (by rw [hsplit]; simp)
    cases hfirst : firstSubnet record.option with
    | some position =>
      rw [hfirst] at hfind
      simp only [] at hfind
      rw [hfind]
      simp only []
      rw [hclone, hmsg, hwritten pre record post (some position) hpre hpost]
      have hc := hcount pre (record.write (some position) clientSubnet) post hpre hpost
      rw [write_count] at hc
      have hge := firstSubnet_some record.option position hfirst
      have : (record.option.filter EDNS0.isSubnet).length = 1 := by omega
      rw [this] at hc
      exact hc
    | none =>
      rcases hkept pre record post hsplit with hpostnil | hsome
      · subst hpostnil
        rw [hfirst] at hfind
        simp only [] at hfind
        rw [hfind]
        have hlast : findExists [] (pre.length + 1) (some pre.length)
            = (some pre.length, none) := rfl
        rw [hlast]
        simp only []
        rw [hclone, hmsg, hwritten pre record [] none hpre hpost]
        have hc := hcount pre (record.write none clientSubnet) [] hpre hpost
        rw [write_count, firstSubnet_none record.option hfirst] at hc
        exact hc
      · exact absurd hfirst hsome

end RadioBox
